import Mathlib

/-!
Verification development for the light-client core.

Shallow embedding of

* `src/bvm/Shaders/Eth.h`       : the RLP encoder (`Rlp::Node::Write`) and decoder (`Rlp::Decode`);
* `src/core/fly_client.cpp`     : the request dispatcher of `FlyClient::NetworkStd`.

Machine integers are natural numbers with an explicit reduction at every place where the
C++ type truncates (`uint8_t` : `% 256`, `uint32_t` : `% 2 ^ 32`, `uint64_t` : `% 2 ^ 64`).
A pointer into a byte buffer is the list of the bytes from that address onwards.
-/

namespace Eth
namespace Rlp

/-! ## Data model of `Rlp::Node` -/

/-- A byte buffer; a byte is a natural number below 256. -/
abbrev Bytes := List Nat

/-- The enumeration `Rlp::Node::Type`. -/
inductive NodeType where
  | List
  | String
  | Integer
  deriving DecidableEq, Repr

/-- The logically constant part of `Rlp::Node` (what a `const Node&` may not change): the
type together with the union member in use, `m_pC` (with `m_nLen` children) for a list,
`m_pBuf` (with `m_nLen` bytes) for a string, `m_Integer` for an integer. -/
inductive Node where
  | List (m_pC : List Node)
  | String (m_pBuf : List Nat)
  | Integer (m_Integer : Nat)
  deriving Repr

/-- The `mutable` part of a node and of the nodes below it: the cached `m_SizeBrutto`
(0 means: not computed yet) and the caches of the children, in order.  A child without an
entry has the cache of a newly constructed node. -/
inductive Cache where
  | mk (m_SizeBrutto : Nat) (children : List Cache)
  deriving Repr

/-- The caches of a newly constructed node: `m_SizeBrutto = 0` everywhere. -/
def Cache.fresh : Cache := .mk 0 []

/-- Field `m_SizeBrutto`. -/
def Cache.m_SizeBrutto : Cache → Nat
  | .mk c _ => c

/-- The caches of the children. -/
def Cache.children : Cache → List Cache
  | .mk _ cs => cs

/-- Assignment `m_SizeBrutto = v`. -/
def Cache.setSizeBrutto (v : Nat) : Cache → Cache
  | .mk _ cs => .mk v cs

/-- The template parameter `TStream` of `Write`: a state with the two overloads
`Write(uint8_t)` and `Write(const void*, uint32_t)`. -/
structure Stream (τ : Type) where
  /-- The overload `Write(uint8_t)`. -/
  WriteByte : τ → Nat → τ
  /-- The overload `Write(const void*, uint32_t)`; the buffer is given by its bytes. -/
  WriteBuf : τ → List Nat → τ

/-- The local struct `SizeCounter` of `EnsureSizeBrutto`; the state is `m_Val : uint64_t`. -/
def SizeCounter : Stream Nat where
  WriteByte := fun m_Val _ => (m_Val + 1) % 2 ^ 64
  WriteBuf := fun m_Val p => (m_Val + p.length) % 2 ^ 64

/-- The stream that stores every byte it is given, in order. -/
def ByteStream : Stream (List Nat) where
  WriteByte := fun out x => out ++ [x]
  WriteBuf := fun out p => out ++ p

/-! ## Encoder -/

/-- The loop of `get_BytesFor`, bounded by a counter that is at least the number of
iterations. -/
def get_BytesForLoop : Nat → Nat → Nat
  | 0, _ => 0
  | fuel + 1, n => if n = 0 then 0 else get_BytesForLoop fuel (n >>> 8) + 1

/-- `Rlp::Node::get_BytesFor`: shift right by 8 until zero, counting.  The loop runs at most
`n` times, so the counter `n` never runs out. -/
def get_BytesFor (n : Nat) : Nat :=
  get_BytesForLoop n n

/-- The loop of `WriteVarLen` with `k` bytes still to write: the next byte is
`n >> 8 * (k - 1)`, truncated to `uint8_t`. -/
def WriteVarLenLoop {τ : Type} (S : Stream τ) (n : Nat) : Nat → τ → τ
  | 0, s => s
  | k + 1, s => WriteVarLenLoop S n k (S.WriteByte s ((n >>> (8 * k)) % 256))

/-- `Rlp::Node::WriteVarLen`: `nLen <<= 3` in `uint8_t`, then one byte for every 8 bits. -/
def WriteVarLen {τ : Type} (S : Stream τ) (s : τ) (n nLen : Nat) : τ :=
  WriteVarLenLoop S n ((nLen * 8 % 256) / 8) s

/-- `Rlp::Node::WriteSize`. -/
def WriteSize {τ : Type} (S : Stream τ) (s : τ) (nBase n : Nat) : τ :=
  if n < 56 then
    S.WriteByte s ((nBase + n % 256) % 256)
  else
    let nLen := get_BytesFor n
    WriteVarLen S (S.WriteByte s ((nBase + 55 + nLen) % 256)) n nLen

mutual
/-- `Rlp::Node::Write`, a `const` method: the node is unchanged, the caches below it may be
filled.  Returns the caches and the stream. -/
def Node.Write : Node → Cache → {τ : Type} → Stream τ → τ → Cache × τ
  | .List m_pC, k, _, S, s =>
    let r := Write.sizeLoop m_pC k.children 0
    let s := WriteSize S s 0xc0 r.2
    let w := Write.childLoop m_pC r.1 S s
    (.mk k.m_SizeBrutto w.1, w.2)
  | .String m_pBuf, k, _, S, s =>
    let s :=
      if m_pBuf.length ≠ 1 ∨ m_pBuf.headD 0 ≥ 0x80 then WriteSize S s 0x80 m_pBuf.length
      else s
    (k, S.WriteBuf s m_pBuf)
  | .Integer m_Integer, k, _, S, s =>
    let nLen := get_BytesFor m_Integer
    let s := WriteSize S s 0x80 nLen
    (k, WriteVarLen S s m_Integer nLen)
/-- The first loop of the `List` case: `EnsureSizeBrutto` on every child (the size is computed
with a `SizeCounter` when the cache is 0) and `nChildren += m_SizeBrutto` in `uint64_t`. -/
def Write.sizeLoop : List Node → List Cache → Nat → List Cache × Nat
  | [], _, nChildren => ([], nChildren)
  | n :: rest, ks, nChildren =>
    let k := ks.headD Cache.fresh
    let k1 :=
      if k.m_SizeBrutto = 0 then
        let r := Node.Write n k SizeCounter 0
        r.1.setSizeBrutto r.2
      else k
    let r := Write.sizeLoop rest ks.tail ((nChildren + k1.m_SizeBrutto) % 2 ^ 64)
    (k1 :: r.1, r.2)
/-- The second loop of the `List` case: `m_pC[i].Write(s)` for every child in order. -/
def Write.childLoop : List Node → List Cache → {τ : Type} → Stream τ → τ → List Cache × τ
  | [], _, _, _, s => ([], s)
  | n :: rest, ks, _, S, s =>
    let r := Node.Write n (ks.headD Cache.fresh) S s
    let r2 := Write.childLoop rest ks.tail S r.2
    (r.1 :: r2.1, r2.2)
end

/-- `Rlp::Node::EnsureSizeBrutto`: fill the cache when it is 0. -/
def Node.EnsureSizeBrutto (n : Node) (k : Cache) : Cache :=
  if k.m_SizeBrutto = 0 then
    let r := n.Write k SizeCounter 0
    r.1.setSizeBrutto r.2
  else k

/-- `Rlp::Node::Set(uint64_t)`: the node becomes an integer node with the value `n`.  The
method writes `m_Type` and `m_Integer` only; the cache `m_SizeBrutto` keeps its value, so the
node is written with the caches it had before. -/
def Node.Set (_ : Node) (n : Nat) : Node := .Integer n

/-- The bytes that `Write` hands to an empty stream, for a newly constructed node. -/
def Node.emit (n : Node) : Bytes :=
  (n.Write Cache.fresh ByteStream []).2

/-! ## Description of the emitted bytes -/

/-- The number of bytes of `n`: the least `k` with `n < 256 ^ k` (0 for `n = 0`). -/
def len_bytes (n : Nat) : Nat :=
  @Nat.find (fun k => n < 256 ^ k) (fun _ => inferInstance) ⟨n, Nat.lt_pow_self (by decide) n⟩

/-- The `k` low bytes of `n`, most significant first. -/
def bigEndian (k n : Nat) : Bytes :=
  (List.range k).reverse.map (fun i => n / 256 ^ i % 256)

/-- The header of a payload of `n` bytes in canonical RLP, for the base `0x80` (string) or
`0xc0` (list): one byte `base + n` below 56, else `base + 55 + len_bytes n` and `n`
big-endian. -/
def canonicalHeader (base n : Nat) : Bytes :=
  if n < 56 then [base + n] else (base + 55 + len_bytes n) :: bigEndian (len_bytes n) n

/-- The canonical RLP encoding of a byte string. -/
def canonicalString (p : Bytes) : Bytes :=
  if p.length = 1 ∧ p.headD 0 < 0x80 then p else canonicalHeader 0x80 p.length ++ p

mutual
/-- The bytes of a node, computed without any cache: the header that `WriteSize` writes for
the true length of the concatenated children, then the children. -/
def Node.enc : Node → Bytes
  | .List m_pC => WriteSize ByteStream [] 0xc0 (encList m_pC).length ++ encList m_pC
  | .String m_pBuf => (Node.Write (.String m_pBuf) Cache.fresh ByteStream []).2
  | .Integer m_Integer => (Node.Write (.Integer m_Integer) Cache.fresh ByteStream []).2
/-- The bytes of a sequence of nodes, one after the other. -/
def encList : List Node → Bytes
  | [] => []
  | n :: rest => n.enc ++ encList rest
end

mutual
/-- The caches below a node hold no stale value: every `m_SizeBrutto` is 0 (not computed)
or the length of the bytes of its node.  This is the state that the constructors and
`Write` leave; `Set` on a node whose size was computed does not reset the cache. -/
def Coherent : Node → Cache → Bool
  | .List m_pC, k =>
    (k.m_SizeBrutto == 0 || k.m_SizeBrutto == (Node.enc (.List m_pC)).length)
      && CoherentList m_pC k.children
  | .String m_pBuf, k =>
    k.m_SizeBrutto == 0 || k.m_SizeBrutto == (Node.enc (.String m_pBuf)).length
  | .Integer m_Integer, k =>
    k.m_SizeBrutto == 0 || k.m_SizeBrutto == (Node.enc (.Integer m_Integer)).length
/-- `Coherent` for the children of a list, in order. -/
def CoherentList : List Node → List Cache → Bool
  | [], _ => true
  | n :: rest, ks => Coherent n (ks.headD Cache.fresh) && CoherentList rest ks.tail
end

/-- A description of a stream by the bytes written to it: `abs` maps the state to what is
known of it, and a write acts on that through the bytes alone. -/
structure StreamModel {τ : Type} (S : Stream τ) (α : Type) where
  abs : τ → α
  act : α → Bytes → α
  act_append : ∀ a p q, act a (p ++ q) = act (act a p) q
  writeByte : ∀ s x, abs (S.WriteByte s x) = act (abs s) [x]
  writeBuf : ∀ s p, abs (S.WriteBuf s p) = act (abs s) p

/-- `ByteStream` holds exactly the bytes written. -/
def ByteStream.model : StreamModel ByteStream Bytes where
  abs := fun s => s
  act := fun a p => a ++ p
  act_append := fun a p q => (List.append_assoc a p q).symm
  writeByte := fun _ _ => rfl
  writeBuf := fun _ _ => rfl

/-- `SizeCounter` holds the number of bytes written, in `uint64_t`. -/
def SizeCounter.model : StreamModel SizeCounter Nat where
  abs := fun s => s
  act := fun a p => (a + p.length) % 2 ^ 64
  act_append := fun a p q => by
    simp only [List.length_append]
    rw [Nat.mod_add_mod, Nat.add_assoc]
  writeByte := fun _ _ => rfl
  writeBuf := fun _ _ => rfl

/-! ## Decoder -/

/-- A node as the decoder hands it to the visitor: `m_Type`, `m_nLen` and `m_pBuf` are the
fields that `Decode`, `DecodeString` and `DecodeList` initialise (for a list too it is `m_pBuf`
and the length in bytes).  The pointer `m_pBuf` is the memory from that address onwards. -/
structure DecodedNode where
  m_Type : NodeType
  m_nLen : Nat
  m_pBuf : Bytes
  deriving DecidableEq, Repr

/-- The template parameter `Visitor`: a state and the method `OnNode`; the result of `OnNode`
is used for lists only (recurse or not). -/
structure Visitor (σ : Type) where
  OnNode : σ → DecodedNode → σ × Bool

/-- The loop `while (nBytes--) length = input[position++] + length * 256` of the lambda
`decodeInteger`, with `length : uint32_t`.  `none` is a read outside the memory. -/
def decodeIntegerLoop (input : Bytes) : Nat → Nat → Nat → Option (Nat × Nat)
  | 0, length, position => some (length, position)
  | nBytes + 1, length, position =>
    match input[position]? with
    | none => none
    | some x => decodeIntegerLoop input nBytes ((x + length * 256) % 2 ^ 32) (position + 1)

/-- The lambda `decodeInteger` of `Decode`: its result, and `length` and `position` (captured
by reference) after the call; the caller has initialised `length` to 0. -/
def decodeInteger (input : Bytes) (size position nBytes : Nat) : Option (Bool × Nat × Nat) :=
  if nBytes > size - position then some (false, 0, position)
  else
    match decodeIntegerLoop input nBytes 0 position with
    | none => none
    | some r => some (true, r.1, r.2)

/-- `Rlp::DecodeString`. -/
def DecodeString {σ : Type} (visitor : Visitor σ) (input : Bytes) (size : Nat) (st : σ) : σ :=
  (visitor.OnNode st ⟨NodeType.String, size, input⟩).1

/-- `Rlp::DecodeList`; the parameter `Decode` is the function it calls when the visitor asks
to recurse. -/
def DecodeList {σ : Type} (Decode : Bytes → Nat → σ → Option (Bool × σ)) (visitor : Visitor σ)
    (input : Bytes) (size : Nat) (st : σ) : Option (Bool × σ) :=
  let r := visitor.OnNode st ⟨NodeType.List, size, input⟩
  if r.2 then Decode input size r.1 else some (true, r.1)

/-- The loop `while (position < size)` of `Rlp::Decode`, started at `position`, together with
the nested calls of `Decode` through `DecodeList`.  The first argument bounds the number of
elements visited on any path; `none` is a read outside the memory given (or an exhausted
bound), otherwise the result is the returned `bool` and the visitor. -/
def DecodeLoop {σ : Type} (visitor : Visitor σ) :
    Nat → Bytes → Nat → Nat → σ → Option (Bool × σ)
  | 0, _, _, _, _ => none
  | fuel + 1, input, size, position, st =>
    if position < size then
      match input[position]? with
      | none => none
      | some b =>
        let position := position + 1
        if b ≤ 0x7f then
          DecodeLoop visitor fuel input size position
            (visitor.OnNode st ⟨NodeType.String, 1, [b]⟩).1
        else if b ≤ 0xb7 then
          let length := b - 0x80
          if length > size - position then some (false, st)
          else
            DecodeLoop visitor fuel input size (position + length)
              (DecodeString visitor (input.drop position) length st)
        else if b ≤ 0xbf then
          match decodeInteger input size position (b - 0xb7) with
          | none => none
          | some (ok, length, position) =>
            if !ok || length > size - position then some (false, st)
            else
              DecodeLoop visitor fuel input size (position + length)
                (DecodeString visitor (input.drop position) length st)
        else if b ≤ 0xf7 then
          let length := b - 0xc0
          if length > size - position then some (false, st)
          else
            match DecodeList (fun i n t => DecodeLoop visitor fuel i n 0 t) visitor
                (input.drop position) length st with
            | none => none
            | some (false, st) => some (false, st)
            | some (true, st) => DecodeLoop visitor fuel input size (position + length) st
        else if b ≤ 0xff then
          match decodeInteger input size position (b - 0xf7) with
          | none => none
          | some (ok, length, position) =>
            if !ok || length > size - position then some (false, st)
            else
              match DecodeList (fun i n t => DecodeLoop visitor fuel i n 0 t) visitor
                  (input.drop position) length st with
              | none => none
              | some (false, st) => some (false, st)
              | some (true, st) => DecodeLoop visitor fuel input size (position + length) st
        else some (false, st)
    else some (true, st)

/-- `Rlp::Decode(input, size, visitor)`.  Every element takes at least one byte, so `size + 1`
bounds the number of elements on any path. -/
def Decode {σ : Type} (visitor : Visitor σ) (input : Bytes) (size : Nat) (st : σ) :
    Option (Bool × σ) :=
  DecodeLoop visitor (size + 1) input size 0 st

/-- A visitor that recurses into every list and keeps, in order, every node it is given:
its type, its length and the `m_nLen` bytes at `m_pBuf`. -/
def Recorder : Visitor (List DecodedNode) where
  OnNode := fun st n => (st ++ [⟨n.m_Type, n.m_nLen, n.m_pBuf.take n.m_nLen⟩], true)

/-- A visitor that keeps nothing and never recurses into a list. -/
def Skipper : Visitor Unit where
  OnNode := fun st _ => (st, false)

/-- A visitor that reads of a node only what the node describes: the `m_nLen` bytes at
`m_pBuf`. -/
def Visitor.clip {σ : Type} (v : Visitor σ) : Visitor σ where
  OnNode := fun st n => v.OnNode st ⟨n.m_Type, n.m_nLen, n.m_pBuf.take n.m_nLen⟩

/-- The `m_nLen` bytes that a node describes are bytes of the first `size` bytes of
`input`, at some position `p`. -/
def DecodedNode.inside (input : Bytes) (size : Nat) (n : DecodedNode) : Prop :=
  ∃ p, p + n.m_nLen ≤ size ∧ n.m_pBuf.take n.m_nLen = (input.drop p).take n.m_nLen

/-! ## What the decoder reports for the bytes of a node -/

mutual
/-- The nodes handed to a visitor that recurses into every list, for the bytes of a node, in
pre-order: a list is reported as a `List` node over its payload (length in bytes) followed by
the reports of its children; a string as a `String` node over its bytes; an integer as a
`String` node over its big-endian bytes (the decoder constructs no `Integer` node). -/
def Node.report : Node → List DecodedNode
  | .List m_pC => ⟨NodeType.List, (encList m_pC).length, encList m_pC⟩ :: reportList m_pC
  | .String m_pBuf => [⟨NodeType.String, m_pBuf.length, m_pBuf⟩]
  | .Integer m_Integer =>
    [⟨NodeType.String, len_bytes m_Integer, bigEndian (len_bytes m_Integer) m_Integer⟩]
/-- The reports of a sequence of nodes, one after the other. -/
def reportList : List Node → List DecodedNode
  | [] => []
  | n :: rest => n.report ++ reportList rest
end

mutual
/-- The kinds of the nodes of a tree, in pre-order. -/
def Node.kinds : Node → List NodeType
  | .List m_pC => NodeType.List :: kindsList m_pC
  | .String _ => [NodeType.String]
  | .Integer _ => [NodeType.Integer]
/-- The kinds of the nodes of a sequence of trees, in pre-order. -/
def kindsList : List Node → List NodeType
  | [] => []
  | n :: rest => n.kinds ++ kindsList rest
end

/-- The kind under which the decoder reports a node of the given kind: it has no `Integer`. -/
def reportedKind : NodeType → NodeType
  | .List => .List
  | .String => .String
  | .Integer => .String

mutual
/-- Every `m_Integer` below the node is a `uint64_t`. -/
def Node.integersFit : Node → Bool
  | .List m_pC => integersFitList m_pC
  | .String _ => true
  | .Integer m_Integer => decide (m_Integer < 2 ^ 64)
/-- `integersFit` for every node of a sequence. -/
def integersFitList : List Node → Bool
  | [] => true
  | n :: rest => n.integersFit && integersFitList rest
end

/-- A node tree that `Decode` can be run on after `Write`: its integers are `uint64_t` and its
bytes fit a buffer whose size is a `uint32_t`. -/
def Node.WellFormed (n : Node) : Prop :=
  n.integersFit = true ∧ n.enc.length < 2 ^ 32

/-! ## Streaming hash -/

/-- The stream `S` with every buffer longer than `bound` written one byte at a time through
`Write(uint8_t)`. -/
def Stream.bytewiseAbove {τ : Type} (S : Stream τ) (bound : Nat) : Stream τ where
  WriteByte := S.WriteByte
  WriteBuf := fun s p => if p.length ≤ bound then S.WriteBuf s p else p.foldl S.WriteByte s

/-- The struct `Rlp::HashStream`.  `m_hp` is the Keccak processor, kept as the list of the
blocks handed to it by `m_hp.Write`, in order; `m_pBuf` holds the bytes of the buffer that
are in use, so that `m_nBuf` is its length; the buffer has `_countof(m_pBuf) = 128` bytes. -/
structure HashStream where
  m_hp : List Bytes
  m_pBuf : Bytes
  m_nBuf_le : m_pBuf.length ≤ 128

/-- The member `m_nBuf`: the number of bytes of the buffer in use. -/
def HashStream.m_nBuf (s : HashStream) : Nat := s.m_pBuf.length

/-- A newly constructed `HashStream`: a new processor, `m_nBuf = 0`. -/
def HashStream.fresh : HashStream := ⟨[], [], by decide⟩

/-- `HashStream::FlushStrict`. -/
def HashStream.FlushStrict (s : HashStream) : HashStream :=
  ⟨s.m_hp ++ [s.m_pBuf], [], by decide⟩

/-- `HashStream::Flush`. -/
def HashStream.Flush (s : HashStream) : HashStream :=
  if s.m_nBuf ≠ 0 then s.FlushStrict else s

/-- The `memcpy` of `Append`, with the bytes at `p`, when they fit the buffer. -/
def HashStream.copy (s : HashStream) (p : Bytes) (h : s.m_nBuf + p.length ≤ 128) :
    HashStream :=
  ⟨s.m_hp, s.m_pBuf ++ p, by rw [List.length_append]; exact h⟩

/-- `HashStream::Append(p, n)` with the `n` bytes at `p`: the sum `m_nBuf + n` is computed in
`uint32_t`.  The result is `none` when the `memcpy` writes past the end of `m_pBuf`. -/
def HashStream.Append (s : HashStream) (p : Bytes) : Option (Bool × HashStream) :=
  if (s.m_nBuf + p.length) % 2 ^ 32 > 128 then some (false, s)
  else if h : s.m_nBuf + p.length ≤ 128 then some (true, s.copy p h)
  else none

/-- `HashStream::Write(uint8_t)`. -/
def HashStream.WriteByte (s : HashStream) (x : Nat) : HashStream :=
  if h : s.m_nBuf = 128 then s.FlushStrict.copy [x] (Nat.le_of_ble_eq_true rfl)
  else s.copy [x] (by
    have := s.m_nBuf_le
    simp only [HashStream.m_nBuf, List.length_singleton] at h ⊢
    omega)

/-- `HashStream::Write(const uint8_t*, uint32_t)` with the `n` bytes at `p`; `none` when
`Append` wrote past the end of `m_pBuf`. -/
def HashStream.WriteBuf (s : HashStream) (p : Bytes) : Option HashStream :=
  match s.Append p with
  | none => none
  | some (true, s) => some s
  | some (false, s) =>
    let s := s.Flush
    match s.Append p with
    | none => none
    | some (true, s) => some s
    | some (false, s) => some ⟨s.m_hp ++ [p], s.m_pBuf, s.m_nBuf_le⟩

/-- `HashStream::operator >>`: the buffer is flushed and the processor is read.  The
processor is declared outside the sources given and is taken as the parameter `Keccak`: the
digest of the bytes it was handed, block after block.  Returns the stream and `res`. -/
def HashStream.shr (Keccak : Bytes → Bytes) (s : HashStream) : HashStream × Bytes :=
  let s := if s.m_nBuf ≠ 0 then s.FlushStrict else s
  (s, Keccak s.m_hp.flatten)

/-- `HashStream` as the template parameter `TStream` of `Node::Write`; a stream that wrote
outside its buffer is `none` and stays so. -/
def HashStream.stream : Stream (Option HashStream) where
  WriteByte := fun s x => s.map (fun t => t.WriteByte x)
  WriteBuf := fun s p => s.bind (fun t => t.WriteBuf p)

/-- A call of one of the two overloads of `HashStream::Write`. -/
inductive HashStream.Call where
  | byte (x : Nat)
  | buffer (p : Bytes)
  deriving DecidableEq, Repr

/-- The bytes that a call writes. -/
def HashStream.Call.bytes : HashStream.Call → Bytes
  | .byte x => [x]
  | .buffer p => p

/-- A sequence of calls of `Write` on a stream, in order. -/
def HashStream.run (s : Option HashStream) : List HashStream.Call → Option HashStream
  | [] => s
  | .byte x :: rest => HashStream.run (HashStream.stream.WriteByte s x) rest
  | .buffer p :: rest => HashStream.run (HashStream.stream.WriteBuf s p) rest

/-- All the bytes written by a sequence of calls, in call order. -/
def HashStream.written (calls : List HashStream.Call) : Bytes :=
  (calls.map HashStream.Call.bytes).flatten

/-- What is known of a `HashStream` by the bytes written to it: the blocks handed to the
processor followed by the bytes still in the buffer. -/
def HashStream.pending (s : HashStream) : Bytes :=
  s.m_hp.flatten ++ s.m_pBuf

/-- The bytes written to a stream that did not write outside its buffer. -/
def HashStream.seen (s : Option HashStream) : Option Bytes :=
  s.map HashStream.pending

end Rlp

/-! ## Header of the external chain -/

/-- The struct `Eth::Header`.  The `Opaque<n>` members are given by their bytes, the
`uint32_t` and `uint64_t` members by their value. -/
structure Header where
  m_ParentHash : Rlp.Bytes
  m_UncleHash : Rlp.Bytes
  m_Coinbase : Rlp.Bytes
  m_Root : Rlp.Bytes
  m_TxHash : Rlp.Bytes
  m_ReceiptHash : Rlp.Bytes
  m_Bloom : Rlp.Bytes
  m_Extra : Rlp.Bytes
  m_nExtra : Nat
  m_Difficulty : Nat
  m_Number : Nat
  m_GasLimit : Nat
  m_GasUsed : Nat
  m_Time : Nat
  m_Nonce : Nat
  deriving DecidableEq, Repr

/-- The members of a header have the sizes of their types: `Opaque<32>`, `Opaque<20>`,
`Opaque<256>`, `uint32_t`, `uint64_t`. -/
def Header.WellTyped (h : Header) : Prop :=
  h.m_ParentHash.length = 32 ∧ h.m_UncleHash.length = 32 ∧ h.m_Coinbase.length = 20 ∧
  h.m_Root.length = 32 ∧ h.m_TxHash.length = 32 ∧ h.m_ReceiptHash.length = 32 ∧
  h.m_Bloom.length = 256 ∧ h.m_Extra.length = 32 ∧ h.m_nExtra < 2 ^ 32 ∧
  h.m_Difficulty < 2 ^ 64 ∧ h.m_Number < 2 ^ 64 ∧ h.m_GasLimit < 2 ^ 64 ∧
  h.m_GasUsed < 2 ^ 64 ∧ h.m_Time < 2 ^ 64 ∧ h.m_Nonce < 2 ^ 64

/-- The nodes `pN[0..12]` that `get_HashInternal` sets; `pN[12]` is the string at `m_Extra`
with `m_nLen = m_nExtra`. -/
def Header.pN (h : Header) : List Rlp.Node :=
  [.String h.m_ParentHash, .String h.m_UncleHash, .String h.m_Coinbase, .String h.m_Root,
   .String h.m_TxHash, .String h.m_ReceiptHash, .String h.m_Bloom, .Integer h.m_Difficulty,
   .Integer h.m_Number, .Integer h.m_GasLimit, .Integer h.m_GasUsed, .Integer h.m_Time,
   .String (h.m_Extra.take h.m_nExtra)]

/-- `Header::get_HashInternal(hv, phvMix)`, returning `hv`; `none` when `m_nExtra` exceeds
the size of `m_Extra` (the string `pN[12]` is then read past the end of the member) or the
stream wrote outside its buffer. -/
def Header.get_HashInternal (Keccak : Rlp.Bytes → Rlp.Bytes) (h : Header)
    (phvMix : Option Rlp.Bytes) : Option Rlp.Bytes :=
  if h.m_nExtra > 32 then none
  else
    let nRoot : Rlp.Node :=
      match phvMix with
      | some hvMix => .List (h.pN ++ [.String hvMix, .Integer h.m_Nonce])
      | none => .List h.pN
    let hs := (nRoot.Write Rlp.Cache.fresh Rlp.HashStream.stream (some Rlp.HashStream.fresh)).2
    hs.map (fun t => (t.shr Keccak).2)

/-- `Header::get_HashForPow`. -/
def Header.get_HashForPow (Keccak : Rlp.Bytes → Rlp.Bytes) (h : Header) : Option Rlp.Bytes :=
  h.get_HashInternal Keccak none

/-- `Header::get_HashFinal`. -/
def Header.get_HashFinal (Keccak : Rlp.Bytes → Rlp.Bytes) (h : Header)
    (hvMixHash : Rlp.Bytes) : Option Rlp.Bytes :=
  h.get_HashInternal Keccak (some hvMixHash)

/-- `Header::get_Epoch`: the quotient is converted to `uint32_t`. -/
def Header.get_Epoch (h : Header) : Nat :=
  (h.m_Number / 30000) % 2 ^ 32

namespace Example

/-- A header of the external chain with 5 bytes of extra data. -/
def header : Header :=
  { m_ParentHash := List.replicate 32 1, m_UncleHash := List.replicate 32 2,
    m_Coinbase := List.replicate 20 3, m_Root := List.replicate 32 4,
    m_TxHash := List.replicate 32 5, m_ReceiptHash := List.replicate 32 6,
    m_Bloom := List.replicate 256 0, m_Extra := List.replicate 32 7, m_nExtra := 5,
    m_Difficulty := 1024, m_Number := 90000, m_GasLimit := 8000000, m_GasUsed := 21000,
    m_Time := 1600000000, m_Nonce := 66 }

/-- The header with the block number `30000 * 2 ^ 32`. -/
def lateHeader : Header := { header with m_Number := 128849018880000 }

end Example

end Eth

namespace FlyClient

/-! ## Data model of `FlyClient::NetworkStd` -/

/-- The enumeration `Request::Type`: the request kinds of the list `REQUEST_TYPES_All`, one
for every overload of `IsSupported` / `OnRequestData` in `fly_client.cpp`.  The `default`
branch of `AssignRequest` is taken for no value of the enumeration. -/
inductive RequestType where
  | Utxo | Kernel | Kernel2 | Asset | Events | Transaction | ShieldedList
  | ProofShieldedInp | ProofShieldedOutp | StateSummary | EnumHdrs | ContractVars
  | ContractLogs | ContractVar | ContractLogProof | ShieldedOutputsAt | BodyPack | Body
  | BbsMsg
  deriving DecidableEq, Repr

/-- The fields of a `Request` object that the dispatcher reads: its type tag and the handler
pointer `m_pTrg` (`none` is the null pointer: never posted, or cancelled). -/
structure Request where
  get_Type : RequestType
  m_pTrg : Option Nat
  deriving DecidableEq, Repr

/-- A pointer to a `Request` object.  A `RequestNode` holds nothing but `m_pRequest`, so a
queue of nodes is a list of such pointers. -/
abbrev RequestPtr := Nat

/-- Modelled from the spec: `Block::SystemState::Full` is declared outside the sources
given; a header has a height, the hash of its predecessor, a chainwork, and the remaining
fields (Merkle roots, timestamp, proof of work). -/
structure Full where
  m_Height : Nat
  m_Prev : Nat
  m_ChainWork : Nat
  m_Element : Nat
  deriving DecidableEq, Repr

/-- The struct `SyncCtx`, with the fields that `fly_client.cpp` uses. -/
structure SyncCtx where
  m_LowHeight : Nat
  m_Confirmed : Full
  m_TipBeforeGap : Full
  m_vConfirming : List Full
  deriving DecidableEq, Repr

/-- The bits of `Connection::m_Flags` that `fly_client.cpp` tests. -/
structure Flags where
  Node : Bool
  Owned : Bool
  ReportedConnected : Bool
  deriving DecidableEq, Repr

/-- The bits of `m_LoginFlags` that `fly_client.cpp` tests. -/
structure LoginFlags where
  SpreadingTransactions : Bool
  Bbs : Bool
  deriving DecidableEq, Repr

/-- The state of one `FlyClient::NetworkStd::Connection`.  `id` stands for the address of the
object; `IsLive` and `IsSecureOut` are the state of the transport (`NodeConnection`);
`m_pTimer` is the timeout the timer is armed with, if it is armed; `m_lst` is the queue of the
requests in flight. -/
structure Connection where
  id : Nat
  IsLive : Bool
  IsSecureOut : Bool
  m_Flags : Flags
  m_LoginFlags : LoginFlags
  m_NodeID : Nat
  m_Tip : Full
  m_pSync : Option SyncCtx
  m_pTimer : Option Nat
  m_lst : List RequestPtr
  deriving DecidableEq, Repr

/-- The options of `NetworkStd::m_Cfg` that the dispatcher reads. -/
structure Cfg where
  m_PollPeriod_ms : Nat
  m_CloseConnectionDelay_ms : Nat
  m_ReconnectTimeout_ms : Nat
  deriving DecidableEq, Repr

/-- What the dispatcher does to the outside, in order. -/
inductive Event where
  /-- `SendRequest(req)` on a connection. -/
  | SendRequest (conn : Nat) (r : RequestPtr)
  /-- `m_pTrg->OnComplete(r)`, the completion callback. -/
  | OnComplete (r : RequestPtr)
  /-- `RequestList::Delete(n)`: the node of `r` is unlinked and freed. -/
  | Delete (r : RequestPtr)
  /-- `OnRequestData(req)` returned: the typed reply for `r` passed validation. -/
  | OnRequestData (conn : Nat) (r : RequestPtr)
  /-- `OnMsg(DataMissing)` took the branch that closes the first request `r`. -/
  | DataMissing (conn : Nat) (r : RequestPtr)
  /-- `ResetInternal()` ran on a connection. -/
  | ResetInternal (conn : Nat)
  /-- `m_Client.OnOwnedNode(id, b)`. -/
  | OnOwnedNode (nodeID : Nat) (connected : Bool)
  /-- `m_This.OnNodeConnected(b)`. -/
  | OnNodeConnected (connected : Bool)
  /-- `get_History().AddStates(p, n)` with the `n` headers at `p`. -/
  | AddStates (states : List Full)
  /-- `get_History().DeleteFrom(h)`. -/
  | DeleteFrom (h : Nat)
  /-- `m_Client.OnNewTip()`. -/
  | OnNewTip
  /-- `m_Client.OnRolledBack()`. -/
  | OnRolledBack
  /-- `m_Client.OnTipUnchanged()`. -/
  | OnTipUnchanged
  /-- `Send(msg)` of a `GetCommonState` with the given `m_IDs` (height and hash). -/
  | GetCommonState (conn : Nat) (m_IDs : List (Nat × Nat))
  /-- `Send(msg)` of a `GetProofChainWork` with the given `m_LowerBound`. -/
  | GetProofChainWork (conn : Nat) (m_LowerBound : Nat)
  /-- `Send(msgOut)` of a `BbsSubscribe`. -/
  | BbsSubscribe (conn : Nat) (m_Channel m_TimeFrom : Nat) (m_On : Bool)
  /-- An `assert(cond)` at the entry of a function of the sync state machine was evaluated
  on a connection, with the given value of `cond`. -/
  | Assert (conn : Nat) (cond : Bool)
  deriving DecidableEq, Repr

/-- The state of `FlyClient::NetworkStd` with what it refers to: the configuration, the list
of connections in list order, the global queue `m_lst`, the headers of the client's history
(lowest first; `get_Tip` is the last), the `Request` objects by address, the trace of
events so far, and the map `m_BbsSubscriptions` as the list of its entries in key order, each
a channel with its receiver and its timestamp. -/
@[ext]
structure NetworkStd where
  m_Cfg : Cfg
  m_Connections : List Connection
  m_lst : List RequestPtr
  m_History : List Full
  heap : RequestPtr → Request
  trace : List Event
  m_BbsSubscriptions : List (Nat × Nat × Nat) := []

/-- The connection object with the given address, if it is in `m_Connections`. -/
def NetworkStd.conn (s : NetworkStd) (c : Nat) : Option Connection :=
  s.m_Connections.find? (fun x => x.id == c)

/-- Update of the connection object with the given address. -/
def NetworkStd.modifyConn (s : NetworkStd) (c : Nat) (f : Connection → Connection) :
    NetworkStd :=
  { s with m_Connections := s.m_Connections.map (fun x => if x.id = c then f x else x) }

/-- A line of the trace. -/
def NetworkStd.emit (s : NetworkStd) (e : Event) : NetworkStd :=
  { s with trace := s.trace ++ [e] }

/-- Modelled from the spec: `IHistory::get_Tip` is declared outside the sources given; it
yields the tip of the stored headers, or nothing when the history is empty. -/
def NetworkStd.get_Tip (s : NetworkStd) : Option Full :=
  s.m_History.getLast?

/-! ## Capability predicates -/

/-- `Connection::IsAtTip`. -/
def IsAtTip (s : NetworkStd) (x : Connection) : Bool :=
  match s.get_Tip with
  | none => false
  | some sTip => sTip == x.m_Tip

/-- The overloads of `Connection::IsSupported`, by request type. -/
def IsSupported (s : NetworkStd) (x : Connection) : RequestType → Bool
  | .Utxo => IsAtTip s x
  | .Kernel => x.m_Flags.Node && IsAtTip s x
  | .Kernel2 => x.m_Flags.Node && IsAtTip s x
  | .Asset => x.m_Flags.Node && IsAtTip s x
  | .Events => x.m_Flags.Owned && IsAtTip s x
  | .Transaction => x.m_LoginFlags.SpreadingTransactions && IsAtTip s x
  | .ShieldedList => x.m_Flags.Node && IsAtTip s x
  | .ProofShieldedInp => x.m_Flags.Node && IsAtTip s x
  | .ProofShieldedOutp => x.m_Flags.Node && IsAtTip s x
  | .StateSummary => x.m_Flags.Node && IsAtTip s x
  | .EnumHdrs => x.m_Flags.Node && IsAtTip s x
  | .ContractVars => x.m_Flags.Node && IsAtTip s x
  | .ContractLogs => x.m_Flags.Node && IsAtTip s x
  | .ContractVar => x.m_Flags.Node && IsAtTip s x
  | .ContractLogProof => x.m_Flags.Node && IsAtTip s x
  | .ShieldedOutputsAt => x.m_Flags.Node && IsAtTip s x
  | .BodyPack => x.m_Flags.Node && IsAtTip s x
  | .Body => x.m_Flags.Node && IsAtTip s x
  | .BbsMsg => x.m_LoginFlags.Bbs && IsAtTip s x

/-- The request that an event sends on connection `c`, if it is such an event. -/
def Event.sentOn (c : Nat) : Event → Option RequestPtr
  | .SendRequest c1 r => if c1 = c then some r else none
  | _ => none

/-- The request whose reply an event accepts on connection `c`: a typed reply that passed
validation, or a `DataMissing` that closes the request. -/
def Event.answeredOn (c : Nat) : Event → Option RequestPtr
  | .OnRequestData c1 r => if c1 = c then some r else none
  | .DataMissing c1 r => if c1 = c then some r else none
  | _ => none

/-- The request whose typed reply an event validates on connection `c`. -/
def Event.validatedOn (c : Nat) : Event → Option RequestPtr
  | .OnRequestData c1 r => if c1 = c then some r else none
  | _ => none

/-- Events that are neither a send, nor an accepted reply, nor a reset. -/
def Event.neutral : Event → Bool
  | .OnComplete _ => true
  | .Delete _ => true
  | .OnOwnedNode _ _ => true
  | .OnNodeConnected _ => true
  | _ => false

/-- An event that accepts the reply for the request `n` on connection `c`. -/
def Event.answers (c : Nat) (n : RequestPtr) (e : Event) : Prop :=
  e = Event.OnRequestData c n ∨ e = Event.DataMissing c n

/-! ## Timers -/

/-- `Connection::SetTimer`. -/
def SetTimer (s : NetworkStd) (c : Nat) (timeout_ms : Nat) : NetworkStd :=
  s.modifyConn c (fun x => { x with m_pTimer := some timeout_ms })

/-- `Connection::KillTimer`. -/
def KillTimer (s : NetworkStd) (c : Nat) : NetworkStd :=
  s.modifyConn c (fun x => { x with m_pTimer := none })

/-! ## Assignment -/

/-- `RequestList::Finish` for a node that was taken out of its list: the callback when the
handler is attached, then `Delete(n)` (declared outside the sources given: the node is
unlinked and freed). -/
def Finish (s : NetworkStd) (n : RequestPtr) : NetworkStd :=
  let s := if (s.heap n).m_pTrg.isSome then s.emit (.OnComplete n) else s
  s.emit (.Delete n)

/-- `Connection::AssignRequest(n)` for the node `n` at position `i` of the global queue.
The result says whether the node is still in the global queue. -/
def AssignRequest (s : NetworkStd) (c : Nat) (i : Nat) : NetworkStd × Bool :=
  match s.m_lst[i]?, s.conn c with
  | some n, some x =>
    if (s.heap n).m_pTrg.isNone then
      ({ s with m_lst := s.m_lst.eraseIdx i }.emit (.Delete n), false)
    else if !IsSupported s x (s.heap n).get_Type then
      (s, true)
    else
      let s := s.emit (.SendRequest c n)
      let s := { s with m_lst := s.m_lst.eraseIdx i }
      (s.modifyConn c (fun x => { x with m_lst := x.m_lst ++ [n] }), false)
  | _, _ => (s, true)

/-- The loop of `Connection::AssignRequests`: `AssignRequest(*it++)` until the end of the
global queue, with `k` nodes left and the iterator at position `i`. -/
def AssignRequestsLoop (c : Nat) : Nat → Nat → NetworkStd → NetworkStd
  | 0, _, s => s
  | k + 1, i, s =>
    let r := AssignRequest s c i
    AssignRequestsLoop c k (if r.2 then i + 1 else i) r.1

/-- `Connection::AssignRequests`. -/
def AssignRequests (s : NetworkStd) (c : Nat) : NetworkStd :=
  let s := AssignRequestsLoop c s.m_lst.length 0 s
  match s.conn c with
  | some x =>
    if x.m_lst.isEmpty && s.m_Cfg.m_PollPeriod_ms != 0 then
      SetTimer s c s.m_Cfg.m_CloseConnectionDelay_ms
    else KillTimer s c
  | none => s

/-- The loop of `NetworkStd::OnNewRequests` over the connections still to look at. -/
def OnNewRequestsLoop (s : NetworkStd) : List Connection → NetworkStd
  | [] => s
  | x :: rest =>
    if x.IsLive && x.IsSecureOut then AssignRequests s x.id
    else OnNewRequestsLoop s rest

/-- `NetworkStd::OnNewRequests`. -/
def OnNewRequests (s : NetworkStd) : NetworkStd :=
  OnNewRequestsLoop s s.m_Connections

/-- `NetworkStd::PostRequestInternal`. -/
def PostRequestInternal (s : NetworkStd) (r : RequestPtr) : NetworkStd :=
  OnNewRequests { s with m_lst := s.m_lst ++ [r] }

/-- `INetwork::PostRequest(r, h)`; the caller guarantees `!r.m_pTrg`. -/
def PostRequest (s : NetworkStd) (r : RequestPtr) (h : Nat) : NetworkStd :=
  let s := { s with heap := fun p => if p = r then { s.heap r with m_pTrg := some h } else s.heap p }
  PostRequestInternal s r

/-! ## Replies -/

/-- `Connection::OnFirstRequestDone(bStillSupported)`; the queue in flight is not empty. -/
def OnFirstRequestDone (s : NetworkStd) (c : Nat) (bStillSupported : Bool) : NetworkStd :=
  match s.conn c with
  | some x =>
    match x.m_lst with
    | n :: rest =>
      let s1 := s.modifyConn c (fun x => { x with m_lst := rest })
      let done (s2 : NetworkStd) : NetworkStd :=
        if rest.isEmpty && s2.m_Cfg.m_PollPeriod_ms != 0 then SetTimer s2 c 0 else s2
      if (s.heap n).m_pTrg.isSome then
        if !bStillSupported then
          OnNewRequests { s1 with m_lst := s1.m_lst ++ [n] }
        else done (Finish s1 n)
      else done (s1.emit (.Delete n))
    | [] => s
  | none => s

/-- `Connection::get_FirstRequest`: the first request in flight; `none` is `ThrowUnexpected`. -/
def get_FirstRequest (s : NetworkStd) (c : Nat) : Option RequestPtr :=
  match s.conn c with
  | some x => x.m_lst.head?
  | none => none

/-- `Connection::get_FirstRequestStrict`. -/
def get_FirstRequestStrict (s : NetworkStd) (c : Nat) (ty : RequestType) : Option RequestPtr :=
  match get_FirstRequest s c with
  | some r => if (s.heap r).get_Type ≠ ty then none else some r
  | none => none

/-- The overloads `Connection::OnMsg(msgIn&&)` generated for every request type `ty`.
`valid` says whether `OnRequestData` accepts the content of the reply.  An error is
`ThrowUnexpected`, with the state at the throw. -/
def OnMsg (s : NetworkStd) (c : Nat) (ty : RequestType) (valid : Bool) :
    Except NetworkStd NetworkStd :=
  match get_FirstRequestStrict s c ty, s.conn c with
  | some r, some x =>
    if !valid then .error s
    else
      let s := s.emit (.OnRequestData c r)
      .ok (OnFirstRequestDone s c (IsSupported s x ty))
  | _, _ => .error s

/-- `Connection::OnMsg(DataMissing&&)`. -/
def OnMsgDataMissing (s : NetworkStd) (c : Nat) : Except NetworkStd NetworkStd :=
  match get_FirstRequest s c, s.conn c with
  | some r, some x =>
    let type := (s.heap r).get_Type
    if type = .EnumHdrs then
      .ok (OnFirstRequestDone (s.emit (.DataMissing c r)) c (IsSupported s x .EnumHdrs))
    else if type = .BodyPack then
      .ok (OnFirstRequestDone (s.emit (.DataMissing c r)) c (IsSupported s x .BodyPack))
    else .error s
  | _, _ => .error s

/-! ## Teardown -/

/-- `Connection::ResetInternal`. -/
def ResetInternal (s : NetworkStd) (c : Nat) : NetworkStd :=
  match s.conn c with
  | some x =>
    let s := s.emit (.ResetInternal c)
    let s := s.modifyConn c (fun x => { x with m_pSync := none })
    let s := KillTimer s c
    let s := if x.m_Flags.Owned then s.emit (.OnOwnedNode x.m_NodeID false) else s
    let s := if x.m_Flags.ReportedConnected then s.emit (.OnNodeConnected false) else s
    let s := { s with m_lst := s.m_lst ++ x.m_lst }
    s.modifyConn c (fun x => { x with m_lst := [] })
  | none => s

/-- `Connection::ResetVars`. -/
def ResetVars (s : NetworkStd) (c : Nat) : NetworkStd :=
  s.modifyConn c (fun x =>
    { x with m_Tip := ⟨0, 0, 0, 0⟩, m_LoginFlags := ⟨false, false⟩,
             m_Flags := ⟨false, false, false⟩, m_NodeID := 0 })

/-- `Connection::ResetAll`.  Modelled from the spec: `NodeConnection::Reset` is outside the
sources given; it takes the transport down, so the connection is neither live nor secure
afterwards. -/
def ResetAll (s : NetworkStd) (c : Nat) : NetworkStd :=
  let s := s.modifyConn c (fun x => { x with IsLive := false, IsSecureOut := false })
  ResetVars (ResetInternal s c) c

/-- The destructor `Connection::~Connection`. -/
def Connection.destroy (s : NetworkStd) (c : Nat) : NetworkStd :=
  let s := ResetInternal s c
  { s with m_Connections := s.m_Connections.filter (fun x => x.id != c) }

/-- `Connection::PrioritizeSelf`: unlink the connection and put it at the front. -/
def PrioritizeSelf (s : NetworkStd) (c : Nat) : NetworkStd :=
  match s.conn c with
  | some x => { s with m_Connections := x :: s.m_Connections.filter (fun y => y.id != c) }
  | none => s

/-- `Connection::OnTimer`.  `Target_s` is `Rules::get().DA.Target_s` and `Connect` the method
`NodeConnection::Connect`, both declared outside the sources given; the product
`Target_s * 1000` is computed in `uint32_t`. -/
def OnTimer (Target_s : Nat) (Connect : NetworkStd → Nat → NetworkStd) (s : NetworkStd)
    (c : Nat) : NetworkStd :=
  match s.conn c with
  | some x =>
    if x.IsLive then
      if s.m_Cfg.m_PollPeriod_ms != 0 then
        let s := ResetAll s c
        let timeout_ms := max ((Target_s * 1000) % 2 ^ 32) s.m_Cfg.m_PollPeriod_ms
        SetTimer s c timeout_ms
      else s
    else Connect (ResetAll s c) c
  | none => s

/-! ## Description of `AssignRequests` -/

/-- A node that `AssignRequest` leaves in the global queue: the handler is attached and the
connection does not support the request (`sup` is `IsSupported` of the connection). -/
def assignKeep (hp : RequestPtr → Request) (sup : RequestType → Bool) (n : RequestPtr) : Bool :=
  (hp n).m_pTrg.isSome && !sup (hp n).get_Type

/-- A node that `AssignRequest` sends and moves to the queue in flight: the handler is
attached and the connection supports the request. -/
def assignMove (hp : RequestPtr → Request) (sup : RequestType → Bool) (n : RequestPtr) : Bool :=
  (hp n).m_pTrg.isSome && sup (hp n).get_Type

/-- What `AssignRequest` on connection `c` does to the outside for a node: it deletes a node
whose handler is detached, sends a supported one, and nothing else. -/
def assignEvent (c : Nat) (hp : RequestPtr → Request) (sup : RequestType → Bool)
    (n : RequestPtr) : Option Event :=
  if (hp n).m_pTrg.isNone then some (.Delete n)
  else if sup (hp n).get_Type then some (.SendRequest c n) else none

/-- The timer that `AssignRequests` leaves on a connection whose queue in flight is `q`:
armed with the close delay when the queue is empty and polling is configured, else killed. -/
def assignTimer (cfg : Cfg) (q : List RequestPtr) : Option Nat :=
  if q.isEmpty && cfg.m_PollPeriod_ms != 0 then some cfg.m_CloseConnectionDelay_ms else none

/-- The end of `OnFirstRequestDone`: `SetTimer(0)` when the queue in flight (now `rest`) is
empty and polling is configured. -/
def doneTimer (c : Nat) (rest : List RequestPtr) (s2 : NetworkStd) : NetworkStd :=
  if rest.isEmpty && s2.m_Cfg.m_PollPeriod_ms != 0 then SetTimer s2 c 0 else s2

/-- The events of `ResetInternal` on the connection `x` at address `c`. -/
def resetEvents (c : Nat) (x : Connection) : List Event :=
  [Event.ResetInternal c] ++ (if x.m_Flags.Owned then [Event.OnOwnedNode x.m_NodeID false] else [])
    ++ (if x.m_Flags.ReportedConnected then [Event.OnNodeConnected false] else [])

/-! ## Queues and traces -/

/-- The nodes of all the queues: the global queue, then the queue in flight of every
connection in list order. -/
def NetworkStd.allQueued (s : NetworkStd) : List RequestPtr :=
  s.m_lst ++ (s.m_Connections.map (fun x => x.m_lst)).flatten


/-- The queue in flight of the connection at address `c` (empty when there is none). -/
def NetworkStd.inflight (s : NetworkStd) (c : Nat) : List RequestPtr :=
  match s.conn c with
  | some x => x.m_lst
  | none => []

/-- How many nodes of the queues in flight of the given connections hold the request `r`. -/
def inflightCount (l : List Connection) (r : RequestPtr) : Nat :=
  (l.map (fun x => x.m_lst.count r)).sum

/-- How many nodes, in the global queue and in all the queues in flight, hold the
request `r`. -/
def NetworkStd.occurrences (s : NetworkStd) (r : RequestPtr) : Nat :=
  s.m_lst.count r + inflightCount s.m_Connections r

/-- The events since the last `ResetInternal` of connection `c`. -/
def session (c : Nat) (trace : List Event) : List Event :=
  trace.foldl (fun acc e => if e = Event.ResetInternal c then [] else acc ++ [e]) []

/-- The requests sent on connection `c` since its last reset, in order. -/
def sent (c : Nat) (trace : List Event) : List RequestPtr :=
  (session c trace).filterMap (Event.sentOn c)

/-- The requests whose reply was accepted on connection `c` since its last reset (a typed
reply that passed validation, or `DataMissing`), in order. -/
def answered (c : Nat) (trace : List Event) : List RequestPtr :=
  (session c trace).filterMap (Event.answeredOn c)

/-- The requests whose typed reply was validated on connection `c` since its last reset. -/
def validated (c : Nat) (trace : List Event) : List RequestPtr :=
  (session c trace).filterMap (Event.validatedOn c)

/-- The state of `PostRequest(r, h)` just before `OnNewRequests()`: the handler is attached
and a node for `r` is at the back of the global queue. -/
def parked (s : NetworkStd) (r : RequestPtr) (h : Nat) : NetworkStd :=
  { s with heap := fun p => if p = r then { s.heap r with m_pTrg := some h } else s.heap p,
           m_lst := s.m_lst ++ [r] }

/-- The connection objects have distinct addresses. -/
def IdsNodup (s : NetworkStd) : Prop :=
  (s.m_Connections.map (fun y => y.id)).Nodup

/-- The second state does not hold more nodes for any request than the first, refers to the
same request objects, and keeps the addresses of the connections distinct. -/
def Shrinks (s t : NetworkStd) : Prop :=
  (IdsNodup s → IdsNodup t) ∧ t.heap = s.heap ∧
    (IdsNodup s → ∀ r, t.occurrences r ≤ s.occurrences r)

/-- Request uniqueness: every request is held by at most one node of all the queues, and a
request that is held has its handler attached. -/
def Unique (s : NetworkStd) : Prop :=
  IdsNodup s ∧ (∀ r, s.occurrences r ≤ 1) ∧
    (∀ r, 0 < s.occurrences r → (s.heap r).m_pTrg.isSome = true)

/-- Reply order: on every connection, the requests sent since its last reset are the
requests whose reply was accepted since then, followed by the queue in flight. -/
def InOrder (s : NetworkStd) : Prop :=
  ∀ c, sent c s.trace = answered c s.trace ++ s.inflight c

/-! ## The dispatcher as a transition system -/

/-- The types of the requests of a list, by the request objects of a state. -/
def NetworkStd.types (s : NetworkStd) (l : List RequestPtr) : List RequestType :=
  l.map (fun r => (s.heap r).get_Type)


/-- The state in which a message handler leaves the dispatcher, whether it returned or
raised `ThrowUnexpected`. -/
def outcome : Except NetworkStd NetworkStd → NetworkStd
  | .ok s => s
  | .error s => s

/-- The request object at `r` gets its handler pointer nulled by the application. -/
def cancelRequest (s : NetworkStd) (r : RequestPtr) : NetworkStd :=
  { s with heap := fun p => if p = r then { s.heap r with m_pTrg := none } else s.heap p }

/-- One step of the dispatcher: the operations of `fly_client.cpp` on the queues, and what
the rest of the program may do around them (a new connection object with an empty queue, any
change of the fields of the connections other than their address and queue, any change of
the history, the reset of the handler pointer of a request that no queue holds); with
`cancel = true` also the cancellation of a queued request by the application. -/
inductive Step (cancel : Bool) : NetworkStd → NetworkStd → Prop where
  | PostRequest (s : NetworkStd) (r : RequestPtr) (h : Nat) :
      (s.heap r).m_pTrg = none → Step cancel s (PostRequest s r h)
  | AssignRequests (s : NetworkStd) (c : Nat) : Step cancel s (AssignRequests s c)
  | OnMsg (s : NetworkStd) (c : Nat) (ty : RequestType) (valid : Bool) :
      Step cancel s (outcome (OnMsg s c ty valid))
  | OnMsgDataMissing (s : NetworkStd) (c : Nat) :
      Step cancel s (outcome (OnMsgDataMissing s c))
  | ResetInternal (s : NetworkStd) (c : Nat) : Step cancel s (ResetInternal s c)
  | ResetAll (s : NetworkStd) (c : Nat) : Step cancel s (ResetAll s c)
  | destroy (s : NetworkStd) (c : Nat) : Step cancel s (Connection.destroy s c)
  | PrioritizeSelf (s : NetworkStd) (c : Nat) : Step cancel s (PrioritizeSelf s c)
  | connect (s : NetworkStd) (x : Connection) :
      x.m_lst = [] → x.id ∉ s.m_Connections.map (fun y => y.id) →
      Step cancel s { s with m_Connections := s.m_Connections ++ [x] }
  | environment (s : NetworkStd) (conns : List Connection) (history : List Full) :
      conns.map (fun y => (y.id, y.m_lst)) = s.m_Connections.map (fun y => (y.id, y.m_lst)) →
      Step cancel s { s with m_Connections := conns, m_History := history }
  | release (s : NetworkStd) (r : RequestPtr) :
      s.occurrences r = 0 → Step cancel s (cancelRequest s r)
  | cancel (s : NetworkStd) (r : RequestPtr) :
      cancel = true → Step cancel s (cancelRequest s r)

/-- The states the dispatcher reaches from a state with no connection, empty queues and an
empty trace. -/
inductive Reachable (cancel : Bool) : NetworkStd → Prop where
  | init (s : NetworkStd) :
      s.m_Connections = [] → s.m_lst = [] → s.trace = [] → Reachable cancel s
  | step (s t : NetworkStd) : Reachable cancel s → Step cancel s t → Reachable cancel t

/-! ## The sync state machine -/

/-- What the sync state machine uses from outside the sources given, taken as parameters. -/
structure Externals where
  /-- The constant `Rules::HeightGenesis`. -/
  HeightGenesis : Nat
  /-- The constant `MaxHeight`. -/
  MaxHeight : Nat
  /-- `Block::SystemState::Full::IsValid()`. -/
  IsValid : Full → Bool
  /-- `s.IsNext(sNext)` of `Block::SystemState::Full`. -/
  IsNext : Full → Full → Bool
  /-- `Block::SystemState::Full::get_Hash`. -/
  get_Hash : Full → Nat
  /-- `tip.IsValidProofState(id, proof)`, for an `id` given by height and hash. -/
  IsValidProofState : Full → Nat × Nat → Nat → Bool
  /-- `operator +` of a chainwork and the difficulty of a `Sequence::Element`. -/
  AddDifficulty : Nat → Nat → Nat
  /-- The content of a `Full` that was passed to `get_Tip` when `get_Tip` returned false. -/
  NoTip : Full
  /-- The content of `m_Confirmed` in a `SyncCtx` made by `new SyncCtx`. -/
  NewConfirmed : Full
  /-- The content of `m_TipBeforeGap` in a `SyncCtx` made by `new SyncCtx`. -/
  NewTipBeforeGap : Full

/-- The message `ProofCommonState`: `m_ID` by height and hash, and the proof. -/
structure ProofCommonState where
  m_ID : Nat × Nat
  m_Proof : Nat
  deriving DecidableEq, Repr

/-- The member `m_Proof` of the message `ProofChainWork` (a `Block::ChainWorkProof`), by what
`fly_client.cpp` reads of it: `m_LowerBound`, the result of `IsValid(&sTip)` (the tip when it
returns true, `none` when it returns false) and the array that `UnpackStates` fills. -/
structure ChainWorkProof where
  m_LowerBound : Nat
  IsValid : Option Full
  UnpackStates : List Full
  deriving DecidableEq, Repr

/-- Modelled from the spec: `Block::SystemState::Full::get_ID` is declared outside the
sources given; a `StateID` is the height and the hash of the header. -/
def get_ID (E : Externals) (s : Full) : Nat × Nat :=
  (s.m_Height, E.get_Hash s)

/-- Modelled from the spec: `IHistory::Enum(w, pBelow)` is declared outside the sources
given; it presents the stored headers in descending order, from the height `*pBelow` down
when `pBelow` is given, from the tip otherwise.  This is the list of the headers presented
when the walker never stops. -/
def NetworkStd.Enum (s : NetworkStd) (pBelow : Option Nat) : List Full :=
  match pBelow with
  | none => s.m_History.reverse
  | some h => (s.m_History.filter (fun f => f.m_Height ≤ h)).reverse

/-- The calls of `IWalker::OnState` on the headers presented, until it returns false; `σ` is
the state of the walker. -/
def walk {σ : Type} (OnState : σ → Full → σ × Bool) : List Full → σ → σ
  | [], w => w
  | f :: rest, w =>
    let r := OnState w f
    if r.2 then walk OnState rest r.1 else r.1

/-- Modelled from the spec: `IHistory::AddStates` is declared outside the sources given; it
appends the headers to the history. -/
def AddStates (s : NetworkStd) (states : List Full) : NetworkStd :=
  { s with m_History := s.m_History ++ states }.emit (.AddStates states)

/-- Modelled from the spec: `IHistory::DeleteFrom(h)` is declared outside the sources given;
it truncates the history from the height `h` upward, inclusive. -/
def DeleteFrom (s : NetworkStd) (h : Nat) : NetworkStd :=
  { s with m_History := s.m_History.filter (fun f => f.m_Height < h) }.emit (.DeleteFrom h)

/-- `Connection::ShouldSync`. -/
def ShouldSync (s : NetworkStd) (x : Connection) : Bool :=
  match s.get_Tip with
  | none => true
  | some sTip => sTip.m_ChainWork < x.m_Tip.m_ChainWork

/-- The loop of `std::lower_bound` with the comparison `Cmp` of `StateArray::Find`: the
range starts at `first` and holds `count` elements. -/
def lower_boundLoop (m_vec : List Full) (h : Nat) : Nat → Nat → Nat → Nat
  | 0, first, _ => first
  | fuel + 1, first, count =>
    if count = 0 then first
    else
      let step := count / 2
      let it := first + step
      match m_vec[it]? with
      | some f =>
        if f.m_Height < h then lower_boundLoop m_vec h fuel (it + 1) (count - (step + 1))
        else lower_boundLoop m_vec h fuel first step
      | none => first

/-- `std::lower_bound(m_vec.begin(), m_vec.end(), h, Cmp())`, as the position found. -/
def lower_bound (m_vec : List Full) (h : Nat) : Nat :=
  lower_boundLoop m_vec h m_vec.length 0 m_vec.length

/-- `Connection::StateArray::Find`. -/
def Find (m_vec : List Full) (s : Full) : Bool :=
  match m_vec[lower_bound m_vec s.m_Height]? with
  | some f => f == s
  | none => false

/-- `Walker::OnState` of `PostChainworkProof`; the state of the walker is `m_LowErase`. -/
def PostChainworkProof.OnState (arr : List Full) (m_LowHeight : Nat) (m_LowErase : Nat)
    (s : Full) : Nat × Bool :=
  if s.m_Height ≤ m_LowHeight then (m_LowErase, false)
  else if Find arr s then (m_LowErase, false)
  else (s.m_Height, true)

/-- `Connection::PostChainworkProof(arr, hLowHeight)`. -/
def PostChainworkProof (E : Externals) (s : NetworkStd) (c : Nat) (arr : List Full)
    (hLowHeight : Nat) : NetworkStd :=
  match s.conn c with
  | none => s
  | some x =>
    let m_LowErase := walk (PostChainworkProof.OnState arr hLowHeight) (s.Enum none) E.MaxHeight
    let s :=
      if m_LowErase ≠ E.MaxHeight then
        let s := DeleteFrom s m_LowErase
        let s := { s with m_Connections := s.m_Connections.map (fun (y : Connection) =>
          { y with m_pSync := y.m_pSync.map (fun (p : SyncCtx) =>
            { p with m_LowHeight := min p.m_LowHeight ((m_LowErase + 2 ^ 64 - 1) % 2 ^ 64) }) }) }
        s.emit .OnRolledBack
      else s
    let s := if arr.isEmpty then AddStates s [x.m_Tip] else AddStates s arr
    let s := PrioritizeSelf s c
    let s := s.emit .OnNewTip
    AssignRequests s c

/-- The condition of the `assert` at the entry of `SearchBelow` and of
`RequestChainworkProof`: `ShouldSync() && m_pSync && m_pSync->m_vConfirming.empty()`. -/
def syncReady (s : NetworkStd) (x : Connection) : Bool :=
  ShouldSync s x && (match x.m_pSync with
    | some p => p.m_vConfirming.isEmpty
    | none => false)

/-- `Connection::RequestChainworkProof`. -/
def RequestChainworkProof (E : Externals) (s : NetworkStd) (c : Nat) : NetworkStd :=
  match s.conn c with
  | none => s
  | some x =>
    let s := s.emit (.Assert c (syncReady s x))
    match x.m_pSync with
    | none => s
    | some p =>
      if x.m_Flags.Owned then
        let s := s.modifyConn c (fun y => { y with m_pSync := none })
        PostChainworkProof E s c [] p.m_Confirmed.m_Height
      else
        let s := s.emit (.GetProofChainWork c p.m_Confirmed.m_ChainWork)
        s.modifyConn c (fun y => { y with m_pSync := y.m_pSync.map (fun q =>
          { q with m_TipBeforeGap := { q.m_TipBeforeGap with m_Height := 0 },
                   m_LowHeight := q.m_Confirmed.m_Height }) })

/-- `Walker::OnState` of `SearchBelow`; the state of the walker is `m_vStates`. -/
def SearchBelow.OnState (m_Count : Nat) (m_vStates : List Full) (s : Full) :
    List Full × Bool :=
  (m_vStates ++ [s], decide ((m_vStates ++ [s]).length < m_Count))

/-- `Connection::SearchBelow(h, nCount)`. -/
def SearchBelow (E : Externals) (s : NetworkStd) (c : Nat) (h : Nat) (nCount : Nat) :
    NetworkStd :=
  match s.conn c with
  | none => s
  | some x =>
    let s := s.emit (.Assert c (syncReady s x))
    let s := s.emit (.Assert c (nCount != 0))
    let m_vStates := walk (SearchBelow.OnState nCount) (s.Enum (some h)) []
    if m_vStates.isEmpty then
      let s := s.modifyConn c (fun y => { y with m_pSync := y.m_pSync.map (fun p =>
        { p with m_Confirmed := ⟨0, 0, 0, 0⟩ }) })
      RequestChainworkProof E s c
    else
      let s := s.emit (.GetCommonState c (m_vStates.map (get_ID E)))
      s.modifyConn c (fun y => { y with m_pSync := y.m_pSync.map (fun p =>
        { p with m_vConfirming := m_vStates }) })

/-- The content of the local `sTip` after the call `get_Tip(sTip)`. -/
def NetworkStd.sTip (E : Externals) (s : NetworkStd) : Full :=
  match s.get_Tip with
  | some t => t
  | none => E.NoTip

/-- `Connection::StartSync`. -/
def StartSync (E : Externals) (s : NetworkStd) (c : Nat) : NetworkStd :=
  match s.conn c with
  | none => s
  | some x =>
    let s := s.emit (.Assert c (ShouldSync s x))
    let s := KillTimer s c
    let sTip := s.sTip E
    if E.IsNext sTip x.m_Tip then
      let s := AddStates s [x.m_Tip]
      let s := PrioritizeSelf s c
      let s := AssignRequests s c
      s.emit .OnNewTip
    else
      let ctx : SyncCtx := ⟨x.m_Tip.m_Height, E.NewConfirmed, E.NewTipBeforeGap, []⟩
      let s := s.modifyConn c (fun y => { y with m_pSync := some ctx })
      SearchBelow E s c x.m_Tip.m_Height 1

/-- The two writes of `OnMsg(NewTip&&)` to the connection once the message is accepted: the
tip so far goes to `m_pSync->m_TipBeforeGap` when a sync is in progress with nothing to
confirm, no tip before a gap is recorded and the new tip is not the next of the tip so far;
then `m_Tip = msg.m_Description`. -/
def storeTip (E : Externals) (s : NetworkStd) (c : Nat) (m_Description : Full) : NetworkStd :=
  let s := s.modifyConn c (fun y => { y with m_pSync := y.m_pSync.map (fun p =>
    if p.m_vConfirming.isEmpty && p.m_TipBeforeGap.m_Height == 0
        && !E.IsNext y.m_Tip m_Description then
      { p with m_TipBeforeGap := y.m_Tip }
    else p) })
  s.modifyConn c (fun y => { y with m_Tip := m_Description })

/-- `Connection::OnMsg(NewTip&&)` with `msg.m_Description`.  An error is `ThrowUnexpected`,
with the state at the throw. -/
def OnMsgNewTip (E : Externals) (s : NetworkStd) (c : Nat) (m_Description : Full) :
    Except NetworkStd NetworkStd :=
  match s.conn c with
  | none => .ok s
  | some x =>
    if m_Description.m_Height < E.HeightGenesis then .ok s
    else if x.m_Tip = m_Description then .ok s
    else if m_Description.m_ChainWork ≤ x.m_Tip.m_ChainWork then .error s
    else if !E.IsValid m_Description then .error s
    else
      let shouldReassignRequests := !E.IsValid x.m_Tip
      let s := storeTip E s c m_Description
      match x.m_pSync with
      | some _ => .ok s
      | none =>
        if ShouldSync s { x with m_Tip := m_Description } then .ok (StartSync E s c)
        else
          let s := s.emit .OnTipUnchanged
          if shouldReassignRequests then .ok (AssignRequests s c) else .ok s

/-- The loop `for (iState = 0; ; iState++)` of `OnMsg(ProofCommonState&&)`: the first
position of `vStates`, from `iState` on, whose height is `h`; `none` when the end is
reached. -/
def findState (h : Nat) : List Full → Nat → Option Nat
  | [], _ => none
  | f :: rest, iState => if f.m_Height = h then some iState else findState h rest (iState + 1)

/-- `Connection::OnMsg(ProofCommonState&&)`. -/
def OnMsgProofCommonState (E : Externals) (s : NetworkStd) (c : Nat) (msg : ProofCommonState) :
    Except NetworkStd NetworkStd :=
  match s.conn c with
  | none => .ok s
  | some x =>
    match x.m_pSync with
    | none => .error s
    | some p =>
      let vStates := p.m_vConfirming
      let s := s.modifyConn c (fun y => { y with m_pSync := y.m_pSync.map (fun q =>
        { q with m_vConfirming := [] }) })
      if vStates.isEmpty then .error s
      else if !ShouldSync s x then .ok (s.modifyConn c (fun y => { y with m_pSync := none }))
      else
        match findState msg.m_ID.1 vStates 0 with
        | none =>
          if x.m_Tip.m_Height > (vStates.getLastD ⟨0, 0, 0, 0⟩).m_Height then .error s
          else .ok (SearchBelow E s c x.m_Tip.m_Height 1)
        | some iState =>
          if !E.IsValidProofState x.m_Tip msg.m_ID msg.m_Proof then .error s
          else if p.m_LowHeight < (vStates.headD ⟨0, 0, 0, 0⟩).m_Height && iState != 0 then
            .ok (SearchBelow E s c ((p.m_LowHeight + 1) % 2 ^ 64) 1)
          else
            let st := vStates.getD iState ⟨0, 0, 0, 0⟩
            if E.get_Hash st ≠ msg.m_ID.2 then
              if iState ≠ vStates.length - 1 then .error s
              else
                .ok (SearchBelow E s c (vStates.getLastD ⟨0, 0, 0, 0⟩).m_Height
                  ((vStates.length * 2) % 2 ^ 32))
            else
              let s := s.modifyConn c (fun y => { y with m_pSync := y.m_pSync.map (fun q =>
                { q with m_Confirmed := st }) })
              .ok (RequestChainworkProof E s c)

/-- `Connection::OnMsg(ProofChainWork&&)` with `msg.m_Proof`. -/
def OnMsgProofChainWork (E : Externals) (s : NetworkStd) (c : Nat) (m_Proof : ChainWorkProof) :
    Except NetworkStd NetworkStd :=
  match s.conn c with
  | none => .ok s
  | some x =>
    match x.m_pSync with
    | none => .error s
    | some pSync =>
      if !pSync.m_vConfirming.isEmpty then .error s
      else if m_Proof.m_LowerBound ≠ pSync.m_Confirmed.m_ChainWork then .error s
      else
        match m_Proof.IsValid with
        | none => .error s
        | some sTip =>
          if sTip ≠ x.m_Tip then .error s
          else
            let s := s.modifyConn c (fun y => { y with m_pSync := none })
            if !ShouldSync s x then .ok s
            else
              let arr := m_Proof.UnpackStates
              if pSync.m_TipBeforeGap.m_Height != 0 && pSync.m_Confirmed.m_Height != 0
                  && !Find arr pSync.m_TipBeforeGap && !Find arr pSync.m_Confirmed then
                .ok (StartSync E s c)
              else .ok (PostChainworkProof E s c arr pSync.m_LowHeight)

/-- `Connection::OnLogin(Login&&)` with `msg.m_Flags`. -/
def OnLogin (s : NetworkStd) (c : Nat) (m_Flags : LoginFlags) : NetworkStd :=
  let s := s.modifyConn c (fun y => { y with m_LoginFlags := m_Flags })
  let s := AssignRequests s c
  match s.conn c with
  | none => s
  | some x =>
    if x.m_LoginFlags.Bbs then
      s.m_BbsSubscriptions.foldl (fun t it => t.emit (.BbsSubscribe c it.1 it.2.2 true)) s
    else s

/-! ## Header packs -/

/-- The struct `Block::SystemState::Sequence::Prefix`, the base of `Full` with the height,
the hash of the predecessor and the chainwork. -/
structure Prefix where
  m_Height : Nat
  m_Prev : Nat
  m_ChainWork : Nat
  deriving DecidableEq, Repr

/-- The message `HdrPack`: a prefix and the elements (`Sequence::Element`, the base of `Full`
with the remaining fields). -/
structure HdrPack where
  m_Prefix : Prefix
  m_vElements : List Nat
  deriving DecidableEq, Repr

/-- The loop `for (size_t i = 1; i < msg.m_vElements.size(); i++)` of `DecodeAndCheck`, with
the vector `v`; the height is a `uint64_t`. -/
def DecodeAndCheck.build (E : Externals) (msg : HdrPack) : Nat → Nat → List Full → List Full
  | 0, _, v => v
  | fuel + 1, i, v =>
    if i < msg.m_vElements.length then
      let s0 := v.getD (i - 1) ⟨0, 0, 0, 0⟩
      let m_Element := msg.m_vElements.getD (msg.m_vElements.length - i - 1) 0
      let s1 : Full :=
        ⟨(s0.m_Height + 1) % 2 ^ 64, E.get_Hash s0, E.AddDifficulty s0.m_ChainWork m_Element,
          m_Element⟩
      DecodeAndCheck.build E msg fuel (i + 1) (v.set i s1)
    else v

/-- The loop of `MyTask::TestRange` with `n` headers still to test, from position `i0`. -/
def TestRange.loop (E : Externals) (m_pV : List Full) : Nat → Nat → Bool → Bool
  | 0, _, m_Valid => m_Valid
  | n + 1, i0, m_Valid =>
    TestRange.loop E m_pV n (i0 + 1)
      (if !E.IsValid (m_pV.getD i0 ⟨0, 0, 0, 0⟩) then false else m_Valid)

/-- `MyTask::TestRange(i0, nCount)`: `nCount += i0` in `uint32_t`, then the loop up to
`nCount`.  Returns `m_Valid`. -/
def TestRange (E : Externals) (m_pV : List Full) (i0 nCount : Nat) (m_Valid : Bool) : Bool :=
  TestRange.loop E m_pV ((nCount + i0) % 2 ^ 32 - i0) i0 m_Valid

/-- `details::ExtraData<proto::HdrPack>::DecodeAndCheck(msg)` on an object whose member
`m_vStates` is given; returns the result and `m_vStates` afterwards.  `s_pInstance` is
`Executor::s_pInstance`: when it is set, `ExecAll(t)` (declared outside the sources given) is
the parameter that gives `t.m_Valid` after the call, for the vector and `m_Count`. -/
def DecodeAndCheck (E : Externals) (s_pInstance : Option (List Full → Nat → Bool))
    (m_vStates : List Full) (msg : HdrPack) : Bool × List Full :=
  if msg.m_vElements.isEmpty then (true, m_vStates)
  else
    let v : List Full := List.replicate msg.m_vElements.length ⟨0, 0, 0, 0⟩
    let v := v.set 0 ⟨msg.m_Prefix.m_Height, msg.m_Prefix.m_Prev, msg.m_Prefix.m_ChainWork,
      msg.m_vElements.getLastD 0⟩
    let v := DecodeAndCheck.build E msg msg.m_vElements.length 1 v
    let m_Count := v.length % 2 ^ 32
    let m_Valid :=
      match s_pInstance with
      | some ExecAll => ExecAll v m_Count
      | none => TestRange E v 0 m_Count true
    (m_Valid, if m_Valid then v else m_vStates)

/-- The header sequence of a pack as the spec describes it: the first header is the shared
prefix with the last element; every further header has the hash of the one before as `prev`,
its height plus one, the element at index `k - 1 - i`, and its chainwork plus the difficulty
of that element. -/
def reconstructed (E : Externals) (msg : HdrPack) : Nat → Full
  | 0 => ⟨msg.m_Prefix.m_Height, msg.m_Prefix.m_Prev, msg.m_Prefix.m_ChainWork,
      msg.m_vElements.getLastD 0⟩
  | i + 1 =>
    let prev := reconstructed E msg i
    let m_Element := msg.m_vElements.getD (msg.m_vElements.length - 1 - (i + 1)) 0
    ⟨prev.m_Height + 1, E.get_Hash prev, E.AddDifficulty prev.m_ChainWork m_Element, m_Element⟩

/-- The events of a trace that are operations on the history or callbacks and messages of
the sync state machine. -/
def Event.isSync : Event → Bool
  | .AddStates _ => true
  | .DeleteFrom _ => true
  | .OnNewTip => true
  | .OnRolledBack => true
  | .OnTipUnchanged => true
  | .GetCommonState _ _ => true
  | .GetProofChainWork _ _ => true
  | _ => false

/-- The operations on the history and the callbacks and messages of the sync state machine
that a state has seen, in order. -/
def NetworkStd.syncEvents (s : NetworkStd) : List Event :=
  s.trace.filter Event.isSync

/-- The events of a trace that are operations on the history. -/
def Event.isHistoryOp : Event → Bool
  | .AddStates _ => true
  | .DeleteFrom _ => true
  | _ => false

/-- The operations on the history that a state has seen, in order. -/
def NetworkStd.historyOps (s : NetworkStd) : List Event :=
  s.trace.filter Event.isHistoryOp

/-- The tip and the flags of the connection at address `c`, if there is one. -/
def NetworkStd.peer (s : NetworkStd) (c : Nat) : Option (Full × Flags) :=
  (s.conn c).map (fun y => (y.m_Tip, y.m_Flags))

/-- The connection at address `c` did not prove to be owned (`Flags::Owned` is not set). -/
def NotOwned (s : NetworkStd) (c : Nat) : Prop :=
  ∀ x, s.conn c = some x → x.m_Flags.Owned = false

/-- The `BbsSubscribe` messages that a state has sent, in order. -/
def NetworkStd.subscribes (s : NetworkStd) : List Event :=
  s.trace.filter (fun e => match e with
    | .BbsSubscribe _ _ _ _ => true
    | _ => false)

/-- The headers that the walker of `PostChainworkProof` passes: from the tip downwards,
those above `m_LowHeight` that `arr` does not hold, up to the first header that is at or
below `m_LowHeight` or that `arr` holds. -/
def PostChainworkProof.passed (m_History arr : List Full) (m_LowHeight : Nat) : List Full :=
  m_History.reverse.takeWhile (fun f => decide (m_LowHeight < f.m_Height) && !Find arr f)

/-- The rollback floor of the specification: the lowest height of a header of the history
above `low_height` that does not appear in the proof array `A`. -/
def lowestMissing (m_History A : List Full) (low_height : Nat) : Option Nat :=
  ((m_History.filter (fun f => decide (low_height < f.m_Height) && !A.contains f)).map
    (fun f => f.m_Height)).min?

/-- An `assert` of the sync state machine that was evaluated with a false condition. -/
def Event.isFailedAssert : Event → Bool
  | .Assert _ false => true
  | _ => false

/-- The asserts that failed so far, in order. -/
def NetworkStd.failedAsserts (s : NetworkStd) : List Event :=
  s.trace.filter Event.isFailedAssert

/-- Whether the connection at address `d` holds a `SyncCtx`, and its tip, if there is such a
connection. -/
def NetworkStd.holder (s : NetworkStd) (d : Nat) : Option (Bool × Full) :=
  (s.conn d).map (fun y => (y.m_pSync.isSome, y.m_Tip))

/-- The connection at address `c`, if it holds a `SyncCtx`, satisfies `ShouldSync()`. -/
def SyncOK (s : NetworkStd) (c : Nat) : Prop :=
  ∀ y, s.conn c = some y → y.m_pSync.isSome = true → ShouldSync s y = true

/-- Every connection that holds a `SyncCtx` satisfies `ShouldSync()`. -/
def SyncInv (s : NetworkStd) : Prop :=
  ∀ c, SyncOK s c

/-- A step of the sync state machine of the connection at address `c`: one of its handlers
`OnMsg(NewTip)`, `OnMsg(ProofCommonState)`, `OnMsg(ProofChainWork)` ran (to its end or to a
fault), or the connection was reset. -/
inductive SoloStep (E : Externals) (c : Nat) : NetworkStd → NetworkStd → Prop where
  | newTip (s : NetworkStd) (h : Full) : SoloStep E c s (outcome (OnMsgNewTip E s c h))
  | proofCommonState (s : NetworkStd) (msg : ProofCommonState) :
    SoloStep E c s (outcome (OnMsgProofCommonState E s c msg))
  | proofChainWork (s : NetworkStd) (m_Proof : ChainWorkProof) :
    SoloStep E c s (outcome (OnMsgProofChainWork E s c m_Proof))
  | reset (s : NetworkStd) : SoloStep E c s (ResetAll s c)

/-- The states reached from a state in which no connection holds a `SyncCtx` when the
connection at address `c` alone runs the sync state machine. -/
inductive SoloReachable (E : Externals) (c : Nat) : NetworkStd → Prop where
  | init (s : NetworkStd) (h : ∀ x ∈ s.m_Connections, x.m_pSync = none) : SoloReachable E c s
  | step (s t : NetworkStd) (hs : SoloReachable E c s) (ht : SoloStep E c s t) :
    SoloReachable E c t

/-! ## Example states -/

namespace Example

/-- The header at the tip of the example history. -/
def tip : Full := ⟨5, 0, 50, 0⟩

/-- A live, secure connection to a node, at the tip of the history. -/
def atTip : Connection :=
  { id := 7, IsLive := true, IsSecureOut := true, m_Flags := ⟨true, false, false⟩,
    m_LoginFlags := ⟨false, false⟩, m_NodeID := 0, m_Tip := tip, m_pSync := none,
    m_pTimer := none, m_lst := [] }

/-- A live, secure connection to a node whose tip is behind the history. -/
def behind : Connection :=
  { atTip with id := 8, m_Tip := ⟨4, 0, 40, 0⟩ }

/-- Request objects: 1 is an `EnumHdrs` request, 2 a `Utxo` request, the others `Kernel`
requests; 3 has a handler. -/
def requests : RequestPtr → Request := fun p =>
  if p = 1 then ⟨.EnumHdrs, none⟩ else if p = 2 then ⟨.Utxo, none⟩
  else if p = 3 then ⟨.Kernel, some 100⟩ else ⟨.Kernel, none⟩

/-- The dispatcher at its start: no connection, empty queues. -/
def start : NetworkStd :=
  { m_Cfg := ⟨0, 0, 0⟩, m_Connections := [], m_lst := [], m_History := [tip],
    heap := requests, trace := [] }

/-- One connection, at the tip. -/
def one : NetworkStd := { start with m_Connections := start.m_Connections ++ [atTip] }

/-- Two connections: the first behind, the second at the tip. -/
def two : NetworkStd := { start with m_Connections := [behind, atTip] }

/-- The requests 1 and 2 were posted (and sent on connection 7), `DataMissing` arrived, then
the reply for the `Utxo` request. -/
def afterReplies : NetworkStd :=
  outcome (OnMsg (outcome (OnMsgDataMissing (PostRequest (PostRequest one 1 100) 2 100) 7)) 7
    .Utxo true)

/-- A global queue with a cancelled `Kernel` request (4), an attached one (3) and, in
flight on connection 7, a cancelled one (5). -/
def withCancelled : NetworkStd :=
  { start with m_Connections := [{ atTip with m_lst := [5] }], m_lst := [4, 3] }

/-- The functions and constants taken from outside the sources, for the examples: genesis
is at height 1, a header is valid unless its element is 13, the hash of a header is
`1000 * height + element`, a header follows another when its height is one more and its
`m_Prev` is the hash of the other, every proof of a common state is accepted, and the
difficulty of an element is the element. -/
def externals : Externals :=
  { HeightGenesis := 1, MaxHeight := 2 ^ 64 - 1, IsValid := fun f => f.m_Element != 13,
    IsNext := fun s sNext =>
      s.m_Height + 1 == sNext.m_Height && sNext.m_Prev == 1000 * s.m_Height + s.m_Element,
    get_Hash := fun f => 1000 * f.m_Height + f.m_Element,
    IsValidProofState := fun _ _ _ => true, AddDifficulty := fun cw e => cw + e,
    NoTip := ⟨0, 0, 0, 0⟩, NewConfirmed := ⟨0, 0, 0, 0⟩, NewTipBeforeGap := ⟨0, 0, 0, 0⟩ }

/-- One connection that is syncing: the tip of the peer is at height 9, the header `tip` is
confirmed and no batch is waiting for a proof. -/
def syncing : NetworkStd :=
  { start with m_Connections := [{ atTip with m_Tip := ⟨9, 8000, 90, 0⟩,
                                              m_pSync := some ⟨5, tip, ⟨0, 0, 0, 0⟩, []⟩ }] }

/-- The state `one` with two entries in the BBS subscription table. -/
def subscribed : NetworkStd := { one with m_BbsSubscriptions := [(3, 100, 17), (9, 101, 40)] }

/-- One connection that waits for the proof of a batch of two headers, 7 and 6, after the
history was cut back to height 6 and the floor of the search lowered to 6. -/
def stale : NetworkStd :=
  { start with
    m_History := [tip, ⟨6, 5000, 60, 0⟩],
    m_Connections := [{ atTip with m_Tip := ⟨9, 8000, 90, 0⟩,
                                   m_pSync := some ⟨6, ⟨0, 0, 0, 0⟩, ⟨0, 0, 0, 0⟩,
                                     [⟨7, 6000, 70, 0⟩, ⟨6, 5000, 60, 0⟩]⟩ }] }

/-- The history holds the headers 5 to 8, the one at height 8 from a branch that the peer
does not have; connection 7 finished its search and connection 8 is still searching. -/
def forked : NetworkStd :=
  { start with
    m_History := [tip, ⟨6, 5000, 60, 0⟩, ⟨7, 6000, 70, 0⟩, ⟨8, 7000, 80, 1⟩],
    m_Connections := [{ atTip with m_Tip := ⟨9, 8002, 90, 0⟩ },
                      { atTip with id := 8, m_Tip := ⟨9, 8002, 90, 0⟩,
                                   m_pSync := some ⟨9, ⟨0, 0, 0, 0⟩, ⟨0, 0, 0, 0⟩, []⟩ }] }

/-- The headers of a chainwork proof of the peer: 7, 8 and 9, but not 6. -/
def proof : List Full := [⟨7, 6000, 70, 0⟩, ⟨8, 7000, 81, 2⟩, ⟨9, 8002, 90, 0⟩]

/-- Polling is configured: the poll period is 30000 ms and the close delay 5000 ms; the one
connection, at the tip, has the request 3 in flight. -/
def polling : NetworkStd :=
  { one with m_Cfg := ⟨30000, 5000, 1000⟩, m_Connections := [{ atTip with m_lst := [3] }] }

/-- One connection that proved to be owned and waits for the proof of a batch that holds the
tip of the history; the tip of the peer is at height 9. -/
def trusted : NetworkStd :=
  { start with
    m_Connections := [{ atTip with m_Flags := ⟨true, true, false⟩, m_Tip := ⟨9, 8000, 90, 0⟩,
                                   m_pSync := some ⟨9, ⟨0, 0, 0, 0⟩, ⟨0, 0, 0, 0⟩, [tip]⟩ }] }

end Example

end FlyClient

/-! # Theorems -/

namespace Eth
namespace Rlp

theorem len_bytes_lt (n : Nat) : n < 256 ^ len_bytes n :=
  @Nat.find_spec (fun k => n < 256 ^ k) (fun _ => inferInstance) ⟨n, Nat.lt_pow_self (by decide) n⟩

theorem len_bytes_le {n k : Nat} (h : n < 256 ^ k) : len_bytes n ≤ k :=
  @Nat.find_min' (fun k => n < 256 ^ k) (fun _ => inferInstance) ⟨n, Nat.lt_pow_self (by decide) n⟩ k h

theorem len_bytes_unique {n k : Nat} (h : n < 256 ^ k) (hmin : ∀ j, n < 256 ^ j → k ≤ j) :
    len_bytes n = k :=
  Nat.le_antisymm (len_bytes_le h) (hmin _ (len_bytes_lt n))

theorem get_BytesForLoop_spec : ∀ (fuel n : Nat), n ≤ fuel →
    n < 256 ^ get_BytesForLoop fuel n ∧ ∀ j, n < 256 ^ j → get_BytesForLoop fuel n ≤ j
  | 0, n, h => by
    have : n = 0 := by omega
    subst this
    simp [get_BytesForLoop]
  | fuel + 1, n, h => by
    unfold get_BytesForLoop
    by_cases hn : n = 0
    · subst hn; simp
    · rw [if_neg hn]
      have hdiv : n >>> 8 = n / 256 := by
        rw [Nat.shiftRight_eq_div_pow]
      have hle : n / 256 ≤ fuel := by
        have : n / 256 < n := Nat.div_lt_self (Nat.pos_of_ne_zero hn) (by decide)
        omega
      rw [hdiv]
      obtain ⟨h1, h2⟩ := get_BytesForLoop_spec fuel (n / 256) hle
      constructor
      · rw [pow_succ]
        exact (Nat.div_lt_iff_lt_mul (by decide)).mp h1
      · intro j hj
        cases j with
        | zero => simp at hj; omega
        | succ j =>
          have : n / 256 < 256 ^ j := by
            rw [pow_succ] at hj
            exact (Nat.div_lt_iff_lt_mul (by decide)).mpr hj
          have := h2 j this
          omega

theorem get_BytesFor_eq (n : Nat) : get_BytesFor n = len_bytes n := by
  obtain ⟨h1, h2⟩ := get_BytesForLoop_spec n n (Nat.le_refl n)
  exact (len_bytes_unique h1 h2).symm

theorem len_bytes_le_of_lt {n k : Nat} (h : n < 256 ^ k) : get_BytesFor n ≤ k := by
  rw [get_BytesFor_eq]; exact len_bytes_le h

theorem bigEndian_succ (k n : Nat) :
    bigEndian (k + 1) n = (n / 256 ^ k % 256) :: bigEndian k n := by
  simp [bigEndian, List.range_succ]

theorem bigEndian_length (k n : Nat) : (bigEndian k n).length = k := by
  simp [bigEndian]

theorem WriteVarLenLoop_model {τ α : Type} {S : Stream τ} (M : StreamModel S α) (n : Nat) :
    ∀ (k : Nat) (s : τ) (a : α) (pfx : Bytes), M.abs s = M.act a pfx →
      M.abs (WriteVarLenLoop S n k s) = M.act a (pfx ++ bigEndian k n)
  | 0, s, a, pfx, h => by simpa [WriteVarLenLoop, bigEndian] using h
  | k + 1, s, a, pfx, h => by
    unfold WriteVarLenLoop
    have hb : n >>> (8 * k) = n / 256 ^ k := by
      rw [Nat.shiftRight_eq_div_pow, pow_mul]; norm_num
    have h1 : M.abs (S.WriteByte s ((n >>> (8 * k)) % 256)) =
        M.act a (pfx ++ [n / 256 ^ k % 256]) := by
      rw [M.writeByte, h, ← M.act_append, hb]
    have := WriteVarLenLoop_model M n k _ a _ h1
    rw [this, bigEndian_succ]
    simp


theorem WriteVarLen_model {τ α : Type} {S : Stream τ} (M : StreamModel S α) (n nLen : Nat)
    (s : τ) (a : α) (pfx : Bytes) (h : M.abs s = M.act a pfx) :
    M.abs (WriteVarLen S s n nLen) = M.act a (pfx ++ WriteVarLen ByteStream [] n nLen) := by
  unfold WriteVarLen
  rw [WriteVarLenLoop_model M n _ s a pfx h]
  have := WriteVarLenLoop_model ByteStream.model n (nLen * 8 % 256 / 8) [] [] [] rfl
  simp only [ByteStream.model, List.nil_append] at this
  rw [this]

theorem WriteSize_model {τ α : Type} {S : Stream τ} (M : StreamModel S α) (nBase n : Nat)
    (s : τ) (a : α) (pfx : Bytes) (h : M.abs s = M.act a pfx) :
    M.abs (WriteSize S s nBase n) = M.act a (pfx ++ WriteSize ByteStream [] nBase n) := by
  unfold WriteSize
  by_cases hn : n < 56
  · simp only [if_pos hn]
    rw [M.writeByte, h, ← M.act_append]
    rfl
  · simp only [if_neg hn]
    have h1 : M.abs (S.WriteByte s ((nBase + 55 + get_BytesFor n) % 256)) =
        M.act a (pfx ++ [(nBase + 55 + get_BytesFor n) % 256]) := by
      rw [M.writeByte, h, ← M.act_append]
    rw [WriteVarLen_model M n _ _ a _ h1]
    have := WriteVarLen_model ByteStream.model n (get_BytesFor n)
      (ByteStream.WriteByte [] ((nBase + 55 + get_BytesFor n) % 256)) []
      [(nBase + 55 + get_BytesFor n) % 256] rfl
    simp only [ByteStream.model, List.nil_append] at this
    rw [this]
    simp

theorem Coherent_size {n : Node} {k : Cache} (h : Coherent n k = true) :
    k.m_SizeBrutto = 0 ∨ k.m_SizeBrutto = n.enc.length := by
  cases n <;> simp [Coherent] at h <;> tauto

theorem Coherent_setSizeBrutto {n : Node} {k : Cache} (h : Coherent n k = true) :
    Coherent n (k.setSizeBrutto n.enc.length) = true := by
  cases k with
  | mk c cs =>
    cases n <;> simp [Coherent, Cache.setSizeBrutto, Cache.m_SizeBrutto, Cache.children] at h ⊢
    exact h.2

mutual
theorem Coherent_fresh : ∀ n : Node, Coherent n Cache.fresh = true
  | .List ch => by
    have := CoherentList_nil ch
    simp [Coherent, Cache.fresh, Cache.m_SizeBrutto, Cache.children, this]
  | .String p => by simp [Coherent, Cache.fresh, Cache.m_SizeBrutto]
  | .Integer n => by simp [Coherent, Cache.fresh, Cache.m_SizeBrutto]
theorem CoherentList_nil : ∀ ns : List Node, CoherentList ns [] = true
  | [] => by simp [CoherentList]
  | n :: rest => by
    have h1 := Coherent_fresh n
    have h2 := CoherentList_nil rest
    simp [CoherentList, h1, h2]
end

mutual
theorem Write_model : ∀ (n : Node) (k : Cache) {τ α : Type} (S : Stream τ) (M : StreamModel S α)
    (s : τ) (a : α) (pfx : Bytes), Coherent n k = true → n.enc.length < 2 ^ 64 →
    M.abs s = M.act a pfx →
    M.abs (n.Write k S s).2 = M.act a (pfx ++ n.enc) ∧ Coherent n (n.Write k S s).1 = true
      ∧ (n.Write k S s).1.m_SizeBrutto = k.m_SizeBrutto
  | .List ch, k, _, _, S, M, s, a, pfx, hc, hb, hs => by
    have hcl : CoherentList ch k.children = true := by
      simp [Coherent] at hc; exact hc.2
    have hlen : (Node.enc (.List ch)).length =
        (WriteSize ByteStream [] 0xc0 (encList ch).length).length + (encList ch).length := by
      simp [Node.enc]
    have hb2 : (encList ch).length < 2 ^ 64 := by omega
    obtain ⟨z1, z2⟩ := sizeLoop_model ch k.children 0 hcl (by omega)
    have w1 := WriteSize_model M 0xc0 (encList ch).length s a pfx hs
    obtain ⟨c1, c2⟩ := childLoop_model ch (Write.sizeLoop ch k.children 0).1 S M _ a _ z2 hb2 w1
    simp only [Node.Write, z1, Nat.zero_add]
    refine ⟨?_, ?_, ?_⟩
    · rw [c1]; simp [Node.enc]
    · have hc0 := Coherent_size hc
      simp only [Coherent, Bool.and_eq_true, Bool.or_eq_true, beq_iff_eq]
      exact ⟨hc0, c2⟩
    · rfl
  | .String p, k, _, _, S, M, s, a, pfx, hc, hb, hs => by
    simp only [Node.Write]
    refine ⟨?_, hc, trivial⟩
    by_cases h : p.length ≠ 1 ∨ p.headD 0 ≥ 0x80
    · simp only [if_pos h, Node.enc, Node.Write]
      rw [M.writeBuf, WriteSize_model M _ _ s a pfx hs, ← M.act_append]
      simp [ByteStream]
    · simp only [if_neg h, Node.enc, Node.Write]
      rw [M.writeBuf, hs, ← M.act_append]
      simp [ByteStream]
  | .Integer n, k, _, _, S, M, s, a, pfx, hc, hb, hs => by
    simp only [Node.Write]
    refine ⟨?_, hc, trivial⟩
    have h1 := WriteSize_model M 0x80 (get_BytesFor n) s a pfx hs
    rw [WriteVarLen_model M n _ _ a _ h1]
    simp only [Node.enc, Node.Write]
    have := WriteVarLen_model ByteStream.model n (get_BytesFor n)
      (WriteSize ByteStream [] 0x80 (get_BytesFor n)) []
      (WriteSize ByteStream [] 0x80 (get_BytesFor n)) rfl
    simp only [ByteStream.model, List.nil_append] at this
    rw [this, List.append_assoc]
theorem sizeLoop_model : ∀ (ns : List Node) (ks : List Cache) (acc : Nat),
    CoherentList ns ks = true → acc + (encList ns).length < 2 ^ 64 →
    (Write.sizeLoop ns ks acc).2 = acc + (encList ns).length
      ∧ CoherentList ns (Write.sizeLoop ns ks acc).1 = true
  | [], ks, acc, _, _ => by simp [Write.sizeLoop, encList, CoherentList]
  | n :: rest, ks, acc, hc, hb => by
    simp only [CoherentList, Bool.and_eq_true] at hc
    obtain ⟨hc1, hc2⟩ := hc
    have hlen : (encList (n :: rest)).length = n.enc.length + (encList rest).length := by
      simp [encList]
    have hbn : n.enc.length < 2 ^ 64 := by omega
    -- the cache of the child after `EnsureSizeBrutto`
    have key : ∀ k1 : Cache,
        k1 = (if (ks.headD Cache.fresh).m_SizeBrutto = 0 then
            ((Node.Write n (ks.headD Cache.fresh) SizeCounter 0).1.setSizeBrutto
              (Node.Write n (ks.headD Cache.fresh) SizeCounter 0).2)
          else ks.headD Cache.fresh) →
        k1.m_SizeBrutto = n.enc.length ∧ Coherent n k1 = true := by
      intro k1 hk1
      by_cases h0 : (ks.headD Cache.fresh).m_SizeBrutto = 0
      · rw [if_pos h0] at hk1
        obtain ⟨w1, w2, _⟩ := Write_model n (ks.headD Cache.fresh) SizeCounter SizeCounter.model
          0 0 [] hc1 hbn rfl
        have w1' : (Node.Write n (ks.headD Cache.fresh) SizeCounter 0).2 = n.enc.length := by
          simp only [SizeCounter.model, List.nil_append, Nat.zero_add] at w1
          rw [w1]; exact Nat.mod_eq_of_lt hbn
        rw [w1'] at hk1
        subst hk1
        refine ⟨?_, Coherent_setSizeBrutto w2⟩
        generalize (Node.Write n (ks.headD Cache.fresh) SizeCounter 0).1 = c
        cases c; rfl
      · rw [if_neg h0] at hk1
        subst hk1
        exact ⟨(Coherent_size hc1).resolve_left h0, hc1⟩
    obtain ⟨k1s, k1c⟩ := key _ rfl
    simp only [Write.sizeLoop]
    rw [k1s]
    have hmod : (acc + n.enc.length) % 2 ^ 64 = acc + n.enc.length :=
      Nat.mod_eq_of_lt (by omega)
    rw [hmod]
    obtain ⟨r1, r2⟩ := sizeLoop_model rest ks.tail (acc + n.enc.length) hc2 (by omega)
    refine ⟨by rw [r1, hlen]; omega, ?_⟩
    simp only [CoherentList, List.headD_cons, List.tail_cons, Bool.and_eq_true]
    exact ⟨k1c, r2⟩
theorem childLoop_model : ∀ (ns : List Node) (ks : List Cache) {τ α : Type} (S : Stream τ)
    (M : StreamModel S α) (s : τ) (a : α) (pfx : Bytes),
    CoherentList ns ks = true → (encList ns).length < 2 ^ 64 → M.abs s = M.act a pfx →
    M.abs (Write.childLoop ns ks S s).2 = M.act a (pfx ++ encList ns)
      ∧ CoherentList ns (Write.childLoop ns ks S s).1 = true
  | [], ks, _, _, S, M, s, a, pfx, _, _, hs => by
    simpa [Write.childLoop, encList, CoherentList] using hs
  | n :: rest, ks, _, _, S, M, s, a, pfx, hc, hb, hs => by
    simp only [CoherentList, Bool.and_eq_true] at hc
    obtain ⟨hc1, hc2⟩ := hc
    have hlen : (encList (n :: rest)).length = n.enc.length + (encList rest).length := by
      simp [encList]
    obtain ⟨w1, w2, _⟩ := Write_model n (ks.headD Cache.fresh) S M s a pfx hc1 (by omega) hs
    obtain ⟨r1, r2⟩ := childLoop_model rest ks.tail S M _ a _ hc2 (by omega) w1
    simp only [Write.childLoop]
    refine ⟨by rw [r1]; simp [encList], ?_⟩
    simp only [CoherentList, List.headD_cons, List.tail_cons, Bool.and_eq_true]
    exact ⟨w2, r2⟩
end


theorem WriteVarLen_ByteStream (out : Bytes) (n nLen : Nat) (h : nLen < 32) :
    WriteVarLen ByteStream out n nLen = out ++ bigEndian nLen n := by
  unfold WriteVarLen
  have h1 : nLen * 8 % 256 / 8 = nLen := by omega
  rw [h1]
  have := WriteVarLenLoop_model ByteStream.model n nLen out out [] (by simp [ByteStream.model])
  simpa [ByteStream.model] using this

theorem get_BytesFor_le_8 {n : Nat} (h : n < 2 ^ 64) : get_BytesFor n ≤ 8 :=
  len_bytes_le_of_lt (by norm_num; omega)

theorem WriteSize_ByteStream (out : Bytes) (nBase n : Nat) (hB : nBase ≤ 0xc0) (h : n < 2 ^ 64) :
    WriteSize ByteStream out nBase n = out ++ canonicalHeader nBase n := by
  unfold WriteSize canonicalHeader
  by_cases hn : n < 56
  · simp only [if_pos hn]
    have : (nBase + n % 256) % 256 = nBase + n := by omega
    rw [this]; rfl
  · simp only [if_neg hn]
    have h8 := get_BytesFor_le_8 h
    rw [WriteVarLen_ByteStream _ _ _ (by omega)]
    have : (nBase + 55 + get_BytesFor n) % 256 = nBase + 55 + get_BytesFor n := by omega
    rw [this, get_BytesFor_eq]
    simp [ByteStream]

theorem Write_ByteStream (n : Node) (k : Cache) (out : Bytes) (hc : Coherent n k = true)
    (hb : n.enc.length < 2 ^ 64) : (n.Write k ByteStream out).2 = out ++ n.enc := by
  have := (Write_model n k ByteStream ByteStream.model out out [] hc hb
    (by simp [ByteStream.model])).1
  simpa [ByteStream.model] using this

theorem emit_eq_enc (n : Node) (hb : n.enc.length < 2 ^ 64) : n.emit = n.enc := by
  have := Write_ByteStream n Cache.fresh [] (Coherent_fresh n) hb
  simpa [Node.emit] using this

theorem enc_le_encList {c : Node} : ∀ {ch : List Node}, c ∈ ch → c.enc.length ≤ (encList ch).length
  | [], h => by simp at h
  | d :: rest, h => by
    simp only [encList, List.length_append]
    rcases List.mem_cons.mp h with h | h
    · subst h; omega
    · have := enc_le_encList h; omega

theorem encList_eq_emit : ∀ (ch : List Node), (encList ch).length < 2 ^ 64 →
    encList ch = (ch.map Node.emit).flatten
  | [], _ => by simp [encList]
  | c :: rest, h => by
    simp only [encList, List.length_append] at h
    simp only [encList, List.map_cons, List.flatten_cons]
    rw [emit_eq_enc c (by omega), encList_eq_emit rest (by omega)]

theorem String_Write (p : Bytes) (k : Cache) (out : Bytes) (hL : p.length < 2 ^ 32) :
    ((Node.String p).Write k ByteStream out).2 = out ++ canonicalString p := by
  simp only [Node.Write, canonicalString]
  by_cases h : p.length = 1 ∧ p.headD 0 < 0x80
  · have h' : ¬ (p.length ≠ 1 ∨ p.headD 0 ≥ 0x80) := by omega
    rw [if_neg h', if_pos h]; rfl
  · have h' : (p.length ≠ 1 ∨ p.headD 0 ≥ 0x80) := by omega
    rw [if_pos h', if_neg h, WriteSize_ByteStream _ _ _ (by decide) (by omega)]
    simp [ByteStream]

theorem getElem?_mid (pre : Bytes) (x : Nat) (tail : Bytes) :
    (pre ++ x :: tail)[pre.length]? = some x := by
  rw [List.getElem?_append_right (Nat.le_refl _)]
  simp

theorem decodeIntegerLoop_bigEndian (L : Nat) : ∀ (k acc : Nat) (pre tail : Bytes),
    acc * 256 ^ k + L % 256 ^ k < 2 ^ 32 →
    decodeIntegerLoop (pre ++ bigEndian k L ++ tail) k acc pre.length =
      some (acc * 256 ^ k + L % 256 ^ k, pre.length + k)
  | 0, acc, pre, tail, _ => by simp [decodeIntegerLoop, Nat.mod_one]
  | k + 1, acc, pre, tail, h => by
    have hsplit : L % 256 ^ (k + 1) = L % 256 ^ k + 256 ^ k * (L / 256 ^ k % 256) :=
      Nat.mod_pow_succ
    have hpos : 0 < 256 ^ k := Nat.pow_pos (by decide)
    have hacc : (L / 256 ^ k % 256 + acc * 256) * 256 ^ k + L % 256 ^ k =
        acc * 256 ^ (k + 1) + L % 256 ^ (k + 1) := by
      rw [hsplit, pow_succ]; ring
    have hlt : L / 256 ^ k % 256 + acc * 256 < 2 ^ 32 := by
      have h1 : (L / 256 ^ k % 256 + acc * 256) * 1 ≤ (L / 256 ^ k % 256 + acc * 256) * 256 ^ k :=
        Nat.mul_le_mul_left _ hpos
      omega
    rw [bigEndian_succ]
    unfold decodeIntegerLoop
    have hget : (pre ++ (L / 256 ^ k % 256) :: bigEndian k L ++ tail)[pre.length]? =
        some (L / 256 ^ k % 256) := by
      rw [List.append_assoc, List.cons_append]; exact getElem?_mid _ _ _
    rw [hget]
    simp only []
    rw [Nat.mod_eq_of_lt hlt]
    have ih := decodeIntegerLoop_bigEndian L k (L / 256 ^ k % 256 + acc * 256)
      (pre ++ [L / 256 ^ k % 256]) tail (by omega)
    simp only [List.length_append, List.length_singleton, List.append_assoc,
      List.singleton_append] at ih
    simp only [List.append_assoc, List.cons_append] at ih ⊢
    rw [ih, hacc]
    congr 2
    omega

theorem decodeInteger_bigEndian (L k size : Nat) (pre tail : Bytes)
    (hk : k ≤ size - pre.length) (hL : L < 256 ^ k) (h32 : L < 2 ^ 32) :
    decodeInteger (pre ++ bigEndian k L ++ tail) size pre.length k =
      some (true, L, pre.length + k) := by
  unfold decodeInteger
  rw [if_neg (by omega)]
  rw [decodeIntegerLoop_bigEndian L k 0 pre tail (by rw [Nat.mod_eq_of_lt hL]; omega)]
  simp [Nat.mod_eq_of_lt hL]


theorem len_bytes_pos {n : Nat} (h : 0 < n) : 0 < len_bytes n := by
  have := len_bytes_lt n
  rcases Nat.eq_zero_or_pos (len_bytes n) with h0 | h0
  · rw [h0] at this; simp at this; omega
  · exact h0

theorem drop_mid (pre a tail : Bytes) (n : Nat) (h : n = pre.length + a.length) :
    (pre ++ a ++ tail).drop n = tail := by
  subst h
  rw [← List.length_append]
  exact List.drop_left _ _

theorem DecodeLoop_succ {σ : Type} (visitor : Visitor σ) (fuel : Nat) (input : Bytes)
    (size position : Nat) (st : σ) :
    DecodeLoop visitor (fuel + 1) input size position st =
    if position < size then
      match input[position]? with
      | none => none
      | some b =>
        if b ≤ 0x7f then
          DecodeLoop visitor fuel input size (position + 1)
            (visitor.OnNode st ⟨NodeType.String, 1, [b]⟩).1
        else if b ≤ 0xb7 then
          if b - 0x80 > size - (position + 1) then some (false, st)
          else
            DecodeLoop visitor fuel input size (position + 1 + (b - 0x80))
              (DecodeString visitor (input.drop (position + 1)) (b - 0x80) st)
        else if b ≤ 0xbf then
          match decodeInteger input size (position + 1) (b - 0xb7) with
          | none => none
          | some (ok, length, position) =>
            if !ok || length > size - position then some (false, st)
            else
              DecodeLoop visitor fuel input size (position + length)
                (DecodeString visitor (input.drop position) length st)
        else if b ≤ 0xf7 then
          if b - 0xc0 > size - (position + 1) then some (false, st)
          else
            match DecodeList (fun i n t => DecodeLoop visitor fuel i n 0 t) visitor
                (input.drop (position + 1)) (b - 0xc0) st with
            | none => none
            | some (false, st) => some (false, st)
            | some (true, st) =>
              DecodeLoop visitor fuel input size (position + 1 + (b - 0xc0)) st
        else if b ≤ 0xff then
          match decodeInteger input size (position + 1) (b - 0xf7) with
          | none => none
          | some (ok, length, position) =>
            if !ok || length > size - position then some (false, st)
            else
              match DecodeList (fun i n t => DecodeLoop visitor fuel i n 0 t) visitor
                  (input.drop position) length st with
              | none => none
              | some (false, st) => some (false, st)
              | some (true, st) => DecodeLoop visitor fuel input size (position + length) st
        else some (false, st)
    else some (true, st) := by
  set_option maxRecDepth 100000 in
  rfl

theorem DecodeLoop_string_step {σ : Type} (v : Visitor σ) (pre p rest : Bytes) (size f : Nat)
    (st : σ) (hL : p.length < 2 ^ 32)
    (hfit : pre.length + (canonicalHeader 0x80 p.length).length + p.length ≤ size) :
    DecodeLoop v (f + 1) (pre ++ canonicalHeader 0x80 p.length ++ p ++ rest) size pre.length st =
      DecodeLoop v f (pre ++ canonicalHeader 0x80 p.length ++ p ++ rest) size
        (pre.length + (canonicalHeader 0x80 p.length).length + p.length)
        (DecodeString v (p ++ rest) p.length st) := by
  by_cases h56 : p.length < 56
  · have hh : canonicalHeader 0x80 p.length = [0x80 + p.length] := by
      simp [canonicalHeader, h56]
    rw [hh] at hfit ⊢
    simp only [List.length_singleton] at hfit ⊢
    have hget : (pre ++ [0x80 + p.length] ++ p ++ rest)[pre.length]? = some (0x80 + p.length) := by
      simp only [List.append_assoc, List.singleton_append]; exact getElem?_mid _ _ _
    have hdrop : (pre ++ [0x80 + p.length] ++ p ++ rest).drop (pre.length + 1) = p ++ rest := by
      rw [List.append_assoc]; exact drop_mid _ _ _ _ (by simp)
    rw [DecodeLoop_succ]
    rw [if_pos (by omega), hget]
    simp only []
    rw [if_neg (by omega), if_pos (by omega), if_neg (by omega), hdrop]
    have : 0x80 + p.length - 0x80 = p.length := by omega
    rw [this]
  · have hlen := len_bytes_lt p.length
    have hle4 : len_bytes p.length ≤ 4 := len_bytes_le (by norm_num; omega)
    have hpos : 0 < len_bytes p.length := len_bytes_pos (by omega)
    have hh : canonicalHeader 0x80 p.length =
        (0xb7 + len_bytes p.length) :: bigEndian (len_bytes p.length) p.length := by
      simp [canonicalHeader, h56]
    rw [hh] at hfit ⊢
    simp only [List.length_cons, bigEndian_length] at hfit ⊢
    have hget : (pre ++ (0xb7 + len_bytes p.length) :: bigEndian (len_bytes p.length) p.length
        ++ p ++ rest)[pre.length]? = some (0xb7 + len_bytes p.length) := by
      simp only [List.append_assoc, List.cons_append]; exact getElem?_mid _ _ _
    have hdec : decodeInteger (pre ++ (0xb7 + len_bytes p.length) ::
        bigEndian (len_bytes p.length) p.length ++ p ++ rest) size (pre.length + 1)
        (len_bytes p.length) = some (true, p.length, pre.length + 1 + len_bytes p.length) := by
      have := decodeInteger_bigEndian p.length (len_bytes p.length) size
        (pre ++ [0xb7 + len_bytes p.length]) (p ++ rest)
        (by simp only [List.length_append, List.length_singleton]; omega) hlen hL
      simpa only [List.length_append, List.length_singleton, List.append_assoc,
        List.singleton_append, List.cons_append] using this
    have hdrop : (pre ++ (0xb7 + len_bytes p.length) :: bigEndian (len_bytes p.length) p.length
        ++ p ++ rest).drop (pre.length + 1 + len_bytes p.length) = p ++ rest := by
      rw [List.append_assoc]
      exact drop_mid _ _ _ _ (by simp [bigEndian_length]; omega)
    rw [DecodeLoop_succ]
    rw [if_pos (by omega), hget]
    simp only []
    rw [if_neg (by omega), if_neg (by omega), if_pos (by omega)]
    have : 0xb7 + len_bytes p.length - 0xb7 = len_bytes p.length := by omega
    rw [this, hdec]
    simp only []
    have hc : (!true || decide (p.length > size - (pre.length + 1 + len_bytes p.length))) = false := by
      simp; omega
    rw [hc, hdrop, if_neg Bool.false_ne_true]
    have hp : pre.length + 1 + len_bytes p.length + p.length =
        pre.length + (len_bytes p.length + 1) + p.length := by omega
    rw [hp]


theorem DecodeLoop_list_step {σ : Type} (v : Visitor σ) (pre p rest : Bytes) (size f : Nat)
    (st : σ) (hL : p.length < 2 ^ 32)
    (hfit : pre.length + (canonicalHeader 0xc0 p.length).length + p.length ≤ size) :
    DecodeLoop v (f + 1) (pre ++ canonicalHeader 0xc0 p.length ++ p ++ rest) size pre.length st =
      match DecodeList (fun i n t => DecodeLoop v f i n 0 t) v (p ++ rest) p.length st with
      | none => none
      | some (false, st) => some (false, st)
      | some (true, st) =>
        DecodeLoop v f (pre ++ canonicalHeader 0xc0 p.length ++ p ++ rest) size
          (pre.length + (canonicalHeader 0xc0 p.length).length + p.length) st := by
  by_cases h56 : p.length < 56
  · have hh : canonicalHeader 0xc0 p.length = [0xc0 + p.length] := by
      simp [canonicalHeader, h56]
    rw [hh] at hfit ⊢
    simp only [List.length_singleton] at hfit ⊢
    have hget : (pre ++ [0xc0 + p.length] ++ p ++ rest)[pre.length]? = some (0xc0 + p.length) := by
      simp only [List.append_assoc, List.singleton_append]; exact getElem?_mid _ _ _
    have hdrop : (pre ++ [0xc0 + p.length] ++ p ++ rest).drop (pre.length + 1) = p ++ rest := by
      rw [List.append_assoc]; exact drop_mid _ _ _ _ (by simp)
    rw [DecodeLoop_succ]
    rw [if_pos (by omega), hget]
    simp only []
    rw [if_neg (by omega), if_neg (by omega), if_neg (by omega), if_pos (by omega),
      if_neg (by omega), hdrop]
    have : 0xc0 + p.length - 0xc0 = p.length := by omega
    rw [this]
  · have hlen := len_bytes_lt p.length
    have hle4 : len_bytes p.length ≤ 4 := len_bytes_le (by norm_num; omega)
    have hpos : 0 < len_bytes p.length := len_bytes_pos (by omega)
    have hh : canonicalHeader 0xc0 p.length =
        (0xf7 + len_bytes p.length) :: bigEndian (len_bytes p.length) p.length := by
      simp [canonicalHeader, h56]
    rw [hh] at hfit ⊢
    simp only [List.length_cons, bigEndian_length] at hfit ⊢
    have hget : (pre ++ (0xf7 + len_bytes p.length) :: bigEndian (len_bytes p.length) p.length
        ++ p ++ rest)[pre.length]? = some (0xf7 + len_bytes p.length) := by
      simp only [List.append_assoc, List.cons_append]; exact getElem?_mid _ _ _
    have hdec : decodeInteger (pre ++ (0xf7 + len_bytes p.length) ::
        bigEndian (len_bytes p.length) p.length ++ p ++ rest) size (pre.length + 1)
        (len_bytes p.length) = some (true, p.length, pre.length + 1 + len_bytes p.length) := by
      have := decodeInteger_bigEndian p.length (len_bytes p.length) size
        (pre ++ [0xf7 + len_bytes p.length]) (p ++ rest)
        (by simp only [List.length_append, List.length_singleton]; omega) hlen hL
      simpa only [List.length_append, List.length_singleton, List.append_assoc,
        List.singleton_append, List.cons_append] using this
    have hdrop : (pre ++ (0xf7 + len_bytes p.length) :: bigEndian (len_bytes p.length) p.length
        ++ p ++ rest).drop (pre.length + 1 + len_bytes p.length) = p ++ rest := by
      rw [List.append_assoc]
      exact drop_mid _ _ _ _ (by simp [bigEndian_length]; omega)
    rw [DecodeLoop_succ]
    rw [if_pos (by omega), hget]
    simp only []
    rw [if_neg (by omega), if_neg (by omega), if_neg (by omega), if_neg (by omega),
      if_pos (by omega)]
    have : 0xf7 + len_bytes p.length - 0xf7 = len_bytes p.length := by omega
    rw [this, hdec]
    simp only []
    have hc : (!true || decide (p.length > size - (pre.length + 1 + len_bytes p.length))) = false := by
      simp; omega
    rw [hc, hdrop, if_neg Bool.false_ne_true]
    have hp : pre.length + 1 + len_bytes p.length + p.length =
        pre.length + (len_bytes p.length + 1) + p.length := by omega
    rw [hp]

theorem DecodeLoop_byte_step {σ : Type} (v : Visitor σ) (pre rest : Bytes) (b size f : Nat)
    (st : σ) (hb : b ≤ 0x7f) (hfit : pre.length + 1 ≤ size) :
    DecodeLoop v (f + 1) (pre ++ [b] ++ rest) size pre.length st =
      DecodeLoop v f (pre ++ [b] ++ rest) size (pre.length + 1)
        (v.OnNode st ⟨NodeType.String, 1, [b]⟩).1 := by
  have hget : (pre ++ [b] ++ rest)[pre.length]? = some b := by
    simp only [List.append_assoc, List.singleton_append]; exact getElem?_mid _ _ _
  rw [DecodeLoop_succ, if_pos (by omega), hget]
  simp only []
  rw [if_pos hb]

theorem DecodeLoop_end {σ : Type} (v : Visitor σ) (input : Bytes) (size f : Nat) (st : σ) :
    DecodeLoop v (f + 1) input size size st = some (true, st) := by
  rw [DecodeLoop_succ, if_neg (Nat.lt_irrefl _)]


theorem enc_String (p : Bytes) (h : p.length < 2 ^ 32) :
    (Node.String p).enc = canonicalString p := by
  have := String_Write p Cache.fresh [] h
  simpa [Node.enc] using this

theorem enc_Integer (n : Nat) (h : n < 2 ^ 64) :
    (Node.Integer n).enc = canonicalHeader 0x80 (len_bytes n) ++ bigEndian (len_bytes n) n := by
  have h8 := get_BytesFor_le_8 h
  simp only [Node.enc, Node.Write]
  rw [WriteVarLen_ByteStream _ _ _ (by omega), WriteSize_ByteStream _ _ _ (by decide) (by omega),
    get_BytesFor_eq]
  simp

theorem enc_List (ch : List Node) (h : (encList ch).length < 2 ^ 64) :
    (Node.List ch).enc = canonicalHeader 0xc0 (encList ch).length ++ encList ch := by
  simp only [Node.enc]
  rw [WriteSize_ByteStream _ _ _ (by decide) h]
  simp

theorem canonicalHeader_length_pos (base n : Nat) : 0 < (canonicalHeader base n).length := by
  unfold canonicalHeader
  split <;> simp

theorem Recorder_DecodeString (p rest : Bytes) (st : List DecodedNode) :
    DecodeString Recorder (p ++ rest) p.length st = st ++ [⟨NodeType.String, p.length, p⟩] := by
  simp [DecodeString, Recorder]

theorem enc_length_pos (n : Node) (hi : n.integersFit = true) (h32 : n.enc.length < 2 ^ 32) :
    0 < n.enc.length := by
  cases n with
  | List ch =>
    have hS : (encList ch).length < 2 ^ 32 := by
      simp only [Node.enc, List.length_append] at h32; omega
    rw [enc_List ch (by omega), List.length_append]
    have := canonicalHeader_length_pos 0xc0 (encList ch).length
    omega
  | String p =>
    have hp : p.length < 2 ^ 32 := by
      simp only [Node.enc, Node.Write, ByteStream, List.length_append] at h32; omega
    rw [enc_String p hp]
    unfold canonicalString
    split
    · omega
    · rw [List.length_append]
      have := canonicalHeader_length_pos 0x80 p.length
      omega
  | Integer m =>
    have hn : m < 2 ^ 64 := by simpa [Node.integersFit] using hi
    rw [enc_Integer m hn, List.length_append]
    have := canonicalHeader_length_pos 0x80 (len_bytes m)
    omega

mutual
theorem roundtrip_node : ∀ (n : Node) (pre rest : Bytes) (size f : Nat) (st : List DecodedNode),
    n.integersFit = true → n.enc.length < 2 ^ 32 → pre.length + n.enc.length ≤ size →
    n.enc.length ≤ f →
    DecodeLoop Recorder (f + 1) (pre ++ n.enc ++ rest) size pre.length st =
      DecodeLoop Recorder f (pre ++ n.enc ++ rest) size (pre.length + n.enc.length)
        (st ++ n.report)
  | .List ch, pre, rest, size, f, st, hi, h32, hfit, hf => by
    have hS : (encList ch).length < 2 ^ 32 := by
      simp only [Node.enc, List.length_append] at h32; omega
    have he := enc_List ch (by omega)
    rw [he] at h32 hfit hf ⊢
    simp only [List.length_append] at h32 hfit hf ⊢
    have hpos := canonicalHeader_length_pos 0xc0 (encList ch).length
    have hi' : integersFitList ch = true := by simpa [Node.integersFit] using hi
    have nested := roundtrip_list ch [] rest f
      (st ++ [⟨NodeType.List, (encList ch).length, encList ch⟩]) hi' hS (by omega)
    simp only [List.nil_append, List.length_nil, Nat.zero_add] at nested
    have step := DecodeLoop_list_step Recorder pre (encList ch) rest size f st hS (by omega)
    simp only [← List.append_assoc] at step ⊢
    rw [step]
    have hD : DecodeList (fun i n t => DecodeLoop Recorder f i n 0 t) Recorder
        (encList ch ++ rest) (encList ch).length st =
        some (true, st ++ [⟨NodeType.List, (encList ch).length, encList ch⟩] ++ reportList ch) := by
      simp only [DecodeList, Recorder, if_true]
      simpa [Recorder] using nested
    rw [hD]
    simp only [Node.report, List.append_assoc, List.singleton_append, Nat.add_assoc]
  | .String p, pre, rest, size, f, st, _, h32, hfit, hf => by
    have hp : p.length < 2 ^ 32 := by
      simp only [Node.enc, Node.Write, ByteStream, List.length_append] at h32; omega
    have he := enc_String p hp
    rw [he] at h32 hfit hf ⊢
    unfold canonicalString at h32 hfit hf ⊢
    by_cases h1 : p.length = 1 ∧ p.headD 0 < 0x80
    · rw [if_pos h1] at h32 hfit hf ⊢
      match p, h1 with
      | [x], h1 =>
        have hx : x ≤ 0x7f := by simp at h1; omega
        rw [DecodeLoop_byte_step Recorder pre rest x size f st hx (by simpa using hfit)]
        simp [Recorder, Node.report]
    · rw [if_neg h1] at h32 hfit hf ⊢
      simp only [List.length_append] at h32 hfit hf ⊢
      have step := DecodeLoop_string_step Recorder pre p rest size f st hp (by omega)
      simp only [← List.append_assoc] at step ⊢
      rw [step, Recorder_DecodeString]
      simp only [Node.report, Nat.add_assoc]
  | .Integer n, pre, rest, size, f, st, hi, h32, hfit, hf => by
    have hn : n < 2 ^ 64 := by simpa [Node.integersFit] using hi
    have he := enc_Integer n hn
    rw [he] at h32 hfit hf ⊢
    simp only [List.length_append, bigEndian_length] at h32 hfit hf ⊢
    have hlen := bigEndian_length (len_bytes n) n
    have step := DecodeLoop_string_step Recorder pre (bigEndian (len_bytes n) n) rest size f st
      (by rw [hlen]; omega) (by rw [hlen]; omega)
    rw [hlen] at step
    simp only [← List.append_assoc] at step ⊢
    rw [step]
    have hr := Recorder_DecodeString (bigEndian (len_bytes n) n) rest st
    rw [hlen] at hr
    rw [hr]
    simp only [Node.report, Nat.add_assoc]
theorem roundtrip_list : ∀ (ns : List Node) (pre rest : Bytes) (f : Nat) (st : List DecodedNode),
    integersFitList ns = true → (encList ns).length < 2 ^ 32 → (encList ns).length + 1 ≤ f →
    DecodeLoop Recorder f (pre ++ encList ns ++ rest) (pre.length + (encList ns).length)
      pre.length st = some (true, st ++ reportList ns)
  | [], pre, rest, f, st, _, _, hf => by
    obtain ⟨g, rfl⟩ : ∃ g, f = g + 1 := ⟨f - 1, by omega⟩
    simp only [encList, List.length_nil, Nat.add_zero, reportList, List.append_nil]
    exact DecodeLoop_end _ _ _ _ _
  | n :: more, pre, rest, f, st, hi, h32, hf => by
    obtain ⟨g, rfl⟩ : ∃ g, f = g + 1 := ⟨f - 1, by omega⟩
    simp only [integersFitList, Bool.and_eq_true] at hi
    simp only [encList, List.length_append] at h32 hf ⊢
    have h1 := roundtrip_node n pre (encList more ++ rest) (pre.length + (n.enc.length +
      (encList more).length)) g st hi.1 (by omega) (by omega) (by omega)
    have h2 := roundtrip_list more (pre ++ n.enc) rest g (st ++ n.report) hi.2 (by omega)
      (by
        have : 0 < n.enc.length := enc_length_pos n hi.1 (by omega)
        omega)
    simp only [List.length_append, List.append_assoc, Nat.add_assoc] at h1 h2 ⊢
    rw [h1, h2]
    simp [reportList]
end


mutual
theorem report_kinds : ∀ n : Node, n.report.map DecodedNode.m_Type = n.kinds.map reportedKind
  | .List ch => by
    simp only [Node.report, Node.kinds, List.map_cons, reportedKind]
    rw [reportList_kinds ch]
  | .String _ => rfl
  | .Integer _ => rfl
theorem reportList_kinds : ∀ ns : List Node,
    (reportList ns).map DecodedNode.m_Type = (kindsList ns).map reportedKind
  | [] => rfl
  | n :: rest => by
    simp only [reportList, kindsList, List.map_append]
    rw [report_kinds n, reportList_kinds rest]
end

/-! ## The claims on the RLP codec -/

/-- C1, as stated, fails: the bytes written for the integer node `0x0400` decode (with result
`true`) to one node of kind `String`, not to a node of the same kind `Integer`. -/
theorem C1_integer_reported_as_string :
    (Node.Integer 0x0400).emit = [0x82, 0x04, 0x00] ∧
    Decode Recorder [0x82, 0x04, 0x00] 3 [] = some (true, [⟨NodeType.String, 2, [0x04, 0x00]⟩]) ∧
    ([⟨NodeType.String, 2, [0x04, 0x00]⟩] : List DecodedNode).map DecodedNode.m_Type ≠
      (Node.Integer 0x0400).kinds := by
  decide

/-- C1, amended: for every well-formed node tree `T` (integers are `uint64_t`, the bytes fit
a `uint32_t` size) whose caches hold no stale size, `Decode` with a visitor that recurses into
every list, run on the bytes that `Write` produced, returns `true` and reports exactly
`T.report`: in pre-order, every list as a `List` node over its payload followed by the reports
of its children, every string as a `String` node over its bytes, and every integer as a
`String` node over its minimal big-endian bytes; so the kinds reported are those of `T` with
`Integer` replaced by `String`. -/
theorem C1_roundtrip (T : Node) (k : Cache) (hk : Coherent T k = true) (hT : T.WellFormed) :
    Decode Recorder (T.Write k ByteStream []).2 (T.Write k ByteStream []).2.length [] =
      some (true, T.report) ∧
    T.report.map DecodedNode.m_Type = T.kinds.map reportedKind := by
  refine ⟨?_, report_kinds T⟩
  obtain ⟨hi, h32⟩ := hT
  rw [Write_ByteStream T k [] hk (by omega)]
  simp only [List.nil_append]
  have h := roundtrip_list [T] [] [] (T.enc.length + 1) [] (by simp [integersFitList, hi])
    (by simpa [encList] using h32) (by simp [encList])
  simpa [encList, reportList, Decode] using h

/-- C1, amended, at the tree `[ "dog", 0x0400 ]`. -/
theorem C1_roundtrip_witness :
    Coherent (Node.List [.String [0x64, 0x6f, 0x67], .Integer 0x0400]) Cache.fresh = true ∧
    (Node.List [.String [0x64, 0x6f, 0x67], .Integer 0x0400]).WellFormed ∧
    Decode Recorder
      ((Node.List [.String [0x64, 0x6f, 0x67], .Integer 0x0400]).Write Cache.fresh ByteStream []).2
      ((Node.List [.String [0x64, 0x6f, 0x67], .Integer 0x0400]).Write Cache.fresh
        ByteStream []).2.length [] =
      some (true, (Node.List [.String [0x64, 0x6f, 0x67], .Integer 0x0400]).report) :=
  ⟨by decide, ⟨by decide, by decide⟩,
    (C1_roundtrip (Node.List [.String [0x64, 0x6f, 0x67], .Integer 0x0400]) Cache.fresh
      (by decide) ⟨by decide, by decide⟩).1⟩

/-- C2: for every `String` node with payload `p` of length `L < 2 ^ 32` (and any state of its
cache), `Write` emits exactly: the byte `p[0]` when `L = 1` and `p[0] < 0x80`; otherwise,
when `L < 56`, the byte `0x80 + L` followed by `p`; otherwise the byte `0xb7 + len_bytes L`,
then `L` big-endian in `len_bytes L` bytes, then `p`. -/
theorem C2_string_encoding (p : Bytes) (k : Cache) (out : Bytes) (hL : p.length < 2 ^ 32) :
    ((Node.String p).Write k ByteStream out).2 = out ++
      (if p.length = 1 ∧ p.headD 0 < 0x80 then [p.headD 0]
       else if p.length < 56 then (0x80 + p.length) :: p
       else (0xb7 + len_bytes p.length) :: (bigEndian (len_bytes p.length) p.length ++ p)) := by
  rw [String_Write p k out hL]
  unfold canonicalString canonicalHeader
  by_cases h : p.length = 1 ∧ p.headD 0 < 0x80
  · rw [if_pos h, if_pos h]
    match p, h with
    | [x], _ => rfl
  · rw [if_neg h, if_neg h]
    by_cases h2 : p.length < 56
    · simp [h2]
    · simp [h2]

/-- C2 at the strings `{0x7f}` and `{}`: the bytes are `7f` and `80`. -/
theorem C2_string_encoding_witness :
    [0x7f].length < 2 ^ 32 ∧
    ((Node.String [0x7f]).Write Cache.fresh ByteStream []).2 = [0x7f] ∧
    ((Node.String []).Write Cache.fresh ByteStream []).2 = [0x80] :=
  ⟨by decide,
    (C2_string_encoding [0x7f] Cache.fresh [] (by decide)).trans (by decide),
    (C2_string_encoding [] Cache.fresh [] (by decide)).trans (by decide)⟩

/-- The list encoding for caches that hold no stale size: for every `List` node whose
children hold no stale cached size and whose children's encodings concatenate to
`S < 2 ^ 64` bytes, `Write` emits the byte `0xc0 + S` when `S < 56`,
otherwise the byte `0xf7 + len_bytes S` followed by `S` big-endian in `len_bytes S` bytes, and
then the children's encodings (what `Write` emits for each child) concatenated in order; `S`
is the length of that concatenation. -/
theorem List_Write_coherent (m_pC : List Node) (k : Cache) (out : Bytes)
    (hc : CoherentList m_pC k.children = true) (hS : (encList m_pC).length < 2 ^ 64) :
    encList m_pC = (m_pC.map Node.emit).flatten ∧
    ((Node.List m_pC).Write k ByteStream out).2 =
      out ++ (if (m_pC.map Node.emit).flatten.length < 56
          then [0xc0 + (m_pC.map Node.emit).flatten.length]
          else (0xf7 + len_bytes (m_pC.map Node.emit).flatten.length) ::
            bigEndian (len_bytes (m_pC.map Node.emit).flatten.length)
              (m_pC.map Node.emit).flatten.length)
        ++ (m_pC.map Node.emit).flatten := by
  have he := encList_eq_emit m_pC hS
  refine ⟨he, ?_⟩
  rw [← he]
  obtain ⟨z1, z2⟩ := sizeLoop_model m_pC k.children 0 hc (by omega)
  have w1 : ByteStream.model.abs (WriteSize ByteStream out 0xc0 (encList m_pC).length) =
      ByteStream.model.act out (canonicalHeader 0xc0 (encList m_pC).length) := by
    rw [WriteSize_ByteStream _ _ _ (by decide) hS]; rfl
  obtain ⟨c1, _⟩ := childLoop_model m_pC (Write.sizeLoop m_pC k.children 0).1 ByteStream
    ByteStream.model _ out _ z2 hS w1
  simp only [Node.Write, z1, Nat.zero_add]
  simp only [ByteStream.model] at c1
  rw [c1]
  simp [canonicalHeader]

/-- The list encoding at the list `[ "dog" ]` and at the empty list, both newly constructed:
the bytes are `c4 83 64 6f 67` and `c0`. -/
theorem List_Write_coherent_examples :
    CoherentList [Node.String [0x64, 0x6f, 0x67]] Cache.fresh.children = true ∧
    (encList [Node.String [0x64, 0x6f, 0x67]]).length < 2 ^ 64 ∧
    ((Node.List [.String [0x64, 0x6f, 0x67]]).Write Cache.fresh ByteStream []).2 =
      [0xc4, 0x83, 0x64, 0x6f, 0x67] ∧
    ((Node.List []).Write Cache.fresh ByteStream []).2 = [0xc0] :=
  ⟨by decide, by decide,
    (List_Write_coherent [.String [0x64, 0x6f, 0x67]] Cache.fresh [] (by decide) (by decide)).2.trans
      (by decide),
    (List_Write_coherent [] Cache.fresh [] (by decide) (by decide)).2.trans (by decide)⟩

/-- C3 (canonical list encoding) fails on the code after `Set`: the list `[ 0x80 ]` is
written (`c2 81 80`), which caches the size 2 in its child; then the child is set to the
integer `0x0400`, whose encoding `82 04 00` has 3 bytes, and the list is written again.  The
header is `c2`, from the cached size, and is followed by 3 bytes; a newly constructed list
with that child gives `c3 82 04 00`. -/
theorem C3_header_size_stale_after_Set :
    ((Node.List [.Integer 0x80]).Write Cache.fresh ByteStream []).2 = [0xc2, 0x81, 0x80] ∧
    ((Node.List [(Node.Integer 0x80).Set 0x0400]).Write
      ((Node.List [.Integer 0x80]).Write Cache.fresh ByteStream []).1 ByteStream []).2 =
        [0xc2, 0x82, 0x04, 0x00] ∧
    ((Node.Integer 0x80).Set 0x0400).emit = [0x82, 0x04, 0x00] ∧
    ((Node.List [(Node.Integer 0x80).Set 0x0400]).Write Cache.fresh ByteStream []).2 =
      [0xc3, 0x82, 0x04, 0x00] := by
  decide

/-- C4 fails on the code: for the integer 5 `Write` emits `81 05`, while for the `String`
node holding its minimal big-endian bytes `{05}` it emits the single byte `05`; the integer
`0x0400` of the claim does give `82 04 00` on both paths. -/
theorem C4_small_integer_not_canonical :
    bigEndian (get_BytesFor 5) 5 = [0x05] ∧
    (Node.Integer 5).emit = [0x81, 0x05] ∧
    (Node.String (bigEndian (get_BytesFor 5) 5)).emit = [0x05] ∧
    (Node.Integer 0x0400).emit = [0x82, 0x04, 0x00] ∧
    (Node.String (bigEndian (get_BytesFor 0x0400) 0x0400)).emit = [0x82, 0x04, 0x00] := by
  decide

/-- C5 fails on the code: in the 9-byte buffer `bf 00 00 00 01 00 00 00 00` the length field
announces `2 ^ 32` payload bytes with none remaining, yet `Decode` returns `true` (it reports
an empty string): the length is accumulated in a `uint32_t` and wraps to 0. -/
theorem C5_wrapped_length_accepted :
    [0xbf] ++ bigEndian 8 (2 ^ 32) = [0xbf, 0, 0, 0, 1, 0, 0, 0, 0] ∧
    Decode Recorder [0xbf, 0, 0, 0, 1, 0, 0, 0, 0] 9 [] =
      some (true, [⟨NodeType.String, 0, []⟩]) := by
  decide

/-! ## The streaming hash -/

theorem WriteVarLenLoop_bytewise {τ : Type} (S : Stream τ) (bound n : Nat) :
    ∀ (k : Nat) (s : τ), WriteVarLenLoop (S.bytewiseAbove bound) n k s = WriteVarLenLoop S n k s
  | 0, s => rfl
  | k + 1, s => by
    unfold WriteVarLenLoop
    exact WriteVarLenLoop_bytewise S bound n k _

theorem WriteSize_bytewise {τ : Type} (S : Stream τ) (bound : Nat) (s : τ) (nBase n : Nat) :
    WriteSize (S.bytewiseAbove bound) s nBase n = WriteSize S s nBase n := by
  unfold WriteSize WriteVarLen
  split
  · rfl
  · exact WriteVarLenLoop_bytewise S bound n _ _

theorem String_enc_length (p : Bytes) : p.length ≤ (Node.enc (.String p)).length := by
  simp only [Node.enc, Node.Write, ByteStream, List.length_append]
  omega

theorem List_enc_length (ch : List Node) : (encList ch).length ≤ (Node.enc (.List ch)).length := by
  simp only [Node.enc, List.length_append]
  omega

mutual
theorem Write_bytewise : ∀ (n : Node) (k : Cache) {τ : Type} (S : Stream τ) (bound : Nat) (s : τ),
    n.enc.length ≤ bound → n.Write k (S.bytewiseAbove bound) s = n.Write k S s
  | .List ch, k, _, S, bound, s, h => by
    have hl := List_enc_length ch
    simp only [Node.Write, WriteSize_bytewise]
    rw [childLoop_bytewise ch _ S bound _ (by omega)]
  | .String p, k, _, S, bound, s, h => by
    have hl := String_enc_length p
    have hp : p.length ≤ bound := by omega
    simp only [Node.Write, WriteSize_bytewise]
    simp only [Stream.bytewiseAbove, if_pos hp]
  | .Integer n, k, _, S, bound, s, h => by
    simp only [Node.Write, WriteSize_bytewise, WriteVarLen, WriteVarLenLoop_bytewise]
theorem childLoop_bytewise : ∀ (ns : List Node) (ks : List Cache) {τ : Type} (S : Stream τ)
    (bound : Nat) (s : τ), (encList ns).length ≤ bound →
    Write.childLoop ns ks (S.bytewiseAbove bound) s = Write.childLoop ns ks S s
  | [], ks, _, S, bound, s, _ => rfl
  | n :: rest, ks, _, S, bound, s, h => by
    simp only [encList, List.length_append] at h
    simp only [Write.childLoop]
    rw [Write_bytewise n _ S bound s (by omega), childLoop_bytewise rest _ S bound _ (by omega)]
end

theorem foldl_WriteByte_model {τ α : Type} (S : Stream τ) (abs : τ → α) (act : α → Bytes → α)
    (act_append : ∀ a p q, act a (p ++ q) = act (act a p) q)
    (writeByte : ∀ s x, abs (S.WriteByte s x) = act (abs s) [x]) :
    ∀ (p : Bytes) (s : τ) (a : α) (q : Bytes), abs s = act a q →
      abs (p.foldl S.WriteByte s) = act a (q ++ p)
  | [], s, a, q, h => by simpa using h
  | x :: p, s, a, q, h => by
    rw [List.foldl_cons, foldl_WriteByte_model S abs act act_append writeByte p _ a (q ++ [x])]
    · simp
    · rw [writeByte, h, ← act_append]

/-- `Write_model` for a stream whose description holds for the buffers of at most `bound`
bytes only. -/
theorem Write_within {τ α : Type} (S : Stream τ) (bound : Nat) (abs : τ → α)
    (act : α → Bytes → α) (act_append : ∀ a p q, act a (p ++ q) = act (act a p) q)
    (writeByte : ∀ s x, abs (S.WriteByte s x) = act (abs s) [x])
    (writeBuf : ∀ s p, p.length ≤ bound → abs (S.WriteBuf s p) = act (abs s) p)
    (n : Node) (k : Cache) (s : τ) (a : α) (pfx : Bytes) (hc : Coherent n k = true)
    (hfit : n.enc.length ≤ bound) (hb : n.enc.length < 2 ^ 64) (hs : abs s = act a pfx) :
    abs (n.Write k S s).2 = act a (pfx ++ n.enc) := by
  have hbuf : ∀ s p, abs ((S.bytewiseAbove bound).WriteBuf s p) = act (abs s) p := by
    intro s p
    by_cases hp : p.length ≤ bound
    · simp only [Stream.bytewiseAbove, if_pos hp]
      exact writeBuf s p hp
    · simp only [Stream.bytewiseAbove, if_neg hp]
      cases p with
      | nil => simp at hp
      | cons x p =>
        rw [List.foldl_cons]
        have := foldl_WriteByte_model S abs act act_append writeByte p (S.WriteByte s x)
          (abs s) [x] (writeByte s x)
        simpa using this
  have := (Write_model n k (S.bytewiseAbove bound)
    { abs := abs, act := act, act_append := act_append, writeByte := writeByte,
      writeBuf := hbuf } s a pfx hc hb hs).1
  rw [Write_bytewise n k S bound s hfit] at this
  exact this

theorem HashStream.pending_copy (s : HashStream) (p : Bytes) (h : s.m_nBuf + p.length ≤ 128) :
    (s.copy p h).pending = s.pending ++ p := by
  simp [HashStream.copy, HashStream.pending]

theorem HashStream.pending_FlushStrict (s : HashStream) : s.FlushStrict.pending = s.pending := by
  simp [HashStream.FlushStrict, HashStream.pending]

theorem HashStream.pending_Flush (s : HashStream) : s.Flush.pending = s.pending := by
  unfold HashStream.Flush
  split
  · exact HashStream.pending_FlushStrict s
  · rfl

theorem HashStream.m_nBuf_Flush (s : HashStream) : s.Flush.m_nBuf = 0 := by
  unfold HashStream.Flush
  split
  · rfl
  · rename_i h
    simpa using h

theorem HashStream.pending_WriteByte (s : HashStream) (x : Nat) :
    (s.WriteByte x).pending = s.pending ++ [x] := by
  unfold HashStream.WriteByte
  split
  · rw [HashStream.pending_copy, HashStream.pending_FlushStrict]
  · rw [HashStream.pending_copy]

/-- A buffer that `Append` can take without the sum `m_nBuf + n` wrapping. -/
theorem HashStream.Append_of_lt (s : HashStream) (p : Bytes) (hp : p.length + 128 < 2 ^ 32) :
    s.Append p =
      if h : s.m_nBuf + p.length ≤ 128 then some (true, s.copy p h) else some (false, s) := by
  have hle := s.m_nBuf_le
  have hm : (s.m_nBuf + p.length) % 2 ^ 32 = s.m_nBuf + p.length := by
    apply Nat.mod_eq_of_lt
    unfold HashStream.m_nBuf
    omega
  unfold HashStream.Append
  rw [hm]
  by_cases h : s.m_nBuf + p.length ≤ 128
  · rw [if_neg (by omega), dif_pos h, dif_pos h]
  · rw [if_pos (by omega), dif_neg h]

theorem HashStream.WriteBuf_of_lt (s : HashStream) (p : Bytes) (hp : p.length + 128 < 2 ^ 32) :
    ∃ t, s.WriteBuf p = some t ∧ t.pending = s.pending ++ p := by
  unfold HashStream.WriteBuf
  rw [HashStream.Append_of_lt s p hp]
  by_cases h : s.m_nBuf + p.length ≤ 128
  · rw [dif_pos h]
    exact ⟨_, rfl, HashStream.pending_copy s p h⟩
  · rw [dif_neg h]
    simp only
    rw [HashStream.Append_of_lt _ p hp]
    by_cases h2 : s.Flush.m_nBuf + p.length ≤ 128
    · rw [dif_pos h2]
      refine ⟨_, rfl, ?_⟩
      rw [HashStream.pending_copy, HashStream.pending_Flush]
    · rw [dif_neg h2]
      refine ⟨_, rfl, ?_⟩
      have h0 := HashStream.m_nBuf_Flush s
      have hb : s.Flush.m_pBuf = [] := by
        unfold HashStream.m_nBuf at h0
        exact List.length_eq_zero.mp h0
      have := HashStream.pending_Flush s
      unfold HashStream.pending at this ⊢
      rw [hb, List.append_nil] at this
      simp [hb, this]

theorem HashStream.seen_WriteByte (o : Option HashStream) (x : Nat) :
    HashStream.seen (HashStream.stream.WriteByte o x) = (HashStream.seen o).map (· ++ [x]) := by
  cases o with
  | none => rfl
  | some s => simp [HashStream.seen, HashStream.stream, HashStream.pending_WriteByte]

theorem HashStream.seen_WriteBuf (o : Option HashStream) (p : Bytes)
    (hp : p.length + 128 < 2 ^ 32) :
    HashStream.seen (HashStream.stream.WriteBuf o p) = (HashStream.seen o).map (· ++ p) := by
  cases o with
  | none => rfl
  | some s =>
    obtain ⟨t, h1, h2⟩ := HashStream.WriteBuf_of_lt s p hp
    simp [HashStream.seen, HashStream.stream, h1, h2]

/-- The digest that `operator >>` reads is the digest of the bytes written. -/
theorem HashStream.shr_pending (Keccak : Bytes → Bytes) (s : HashStream) :
    (s.shr Keccak).1.m_hp.flatten = s.pending ∧ (s.shr Keccak).1.m_pBuf = [] ∧
      (s.shr Keccak).2 = Keccak s.pending := by
  unfold HashStream.shr
  by_cases h : s.m_nBuf ≠ 0
  · simp only [if_pos h]
    have : s.FlushStrict.m_hp.flatten = s.pending := by
      simp [HashStream.FlushStrict, HashStream.pending]
    exact ⟨this, rfl, by rw [this]⟩
  · simp only [if_neg h]
    have hb : s.m_pBuf = [] := by
      unfold HashStream.m_nBuf at h
      exact List.length_eq_zero.mp (by omega)
    have : s.m_hp.flatten = s.pending := by simp [HashStream.pending, hb]
    exact ⟨this, hb, by rw [this]⟩

/-- Transparency of the streaming hash for writes that do not wrap the sum `m_nBuf + n`. -/
theorem HashStream.run_seen : ∀ (calls : List HashStream.Call) (o : Option HashStream),
    (∀ p, HashStream.Call.buffer p ∈ calls → p.length + 128 < 2 ^ 32) →
    HashStream.seen (HashStream.run o calls) =
      (HashStream.seen o).map (· ++ HashStream.written calls)
  | [], o, _ => by simp [HashStream.run, HashStream.written]
  | .byte x :: rest, o, h => by
    rw [HashStream.run, HashStream.run_seen rest _ (fun p hp => h p (List.mem_cons_of_mem _ hp)),
      HashStream.seen_WriteByte]
    cases HashStream.seen o <;> simp [HashStream.written, HashStream.Call.bytes]
  | .buffer q :: rest, o, h => by
    rw [HashStream.run, HashStream.run_seen rest _ (fun p hp => h p (List.mem_cons_of_mem _ hp)),
      HashStream.seen_WriteBuf _ _ (h q (List.mem_cons_self _ _))]
    cases HashStream.seen o <;> simp [HashStream.written, HashStream.Call.bytes]

theorem HashStream.WriteBuf_wrap (s : HashStream) (p : Bytes)
    (h1 : (s.m_nBuf + p.length) % 2 ^ 32 ≤ 128) (h2 : 128 < s.m_nBuf + p.length) :
    s.WriteBuf p = none := by
  unfold HashStream.WriteBuf HashStream.Append
  rw [if_neg (by omega), dif_neg (by omega)]

/-- Writing a node to a new `HashStream` and reading the digest gives the digest of the
bytes that `Write` emits. -/
theorem HashStream.Write_digest (Keccak : Bytes → Bytes) (n : Node)
    (hfit : n.enc.length + 128 < 2 ^ 32) :
    (n.Write Cache.fresh HashStream.stream (some HashStream.fresh)).2.map
      (fun t => (t.shr Keccak).2) = some (Keccak n.emit) := by
  have h := Write_within HashStream.stream (2 ^ 32 - 129) HashStream.seen
    (fun a p => a.map (· ++ p))
    (by intro a p q; cases a <;> simp)
    HashStream.seen_WriteByte
    (fun s p hp => HashStream.seen_WriteBuf s p (by omega))
    n Cache.fresh (some HashStream.fresh) (some []) [] (Coherent_fresh n) (by omega) (by omega)
    rfl
  rw [emit_eq_enc n (by omega)]
  cases hw : (n.Write Cache.fresh HashStream.stream (some HashStream.fresh)).2 with
  | none => rw [hw] at h; simp [HashStream.seen] at h
  | some t =>
    rw [hw] at h
    simp only [HashStream.seen, Option.map_some', List.nil_append, Option.some.injEq] at h
    simp only [Option.map_some', Option.some.injEq]
    rw [(HashStream.shr_pending Keccak t).2.2, h]

theorem canonicalHeader_length_le (base n : Nat) (h : n < 2 ^ 64) :
    (canonicalHeader base n).length ≤ 9 := by
  unfold canonicalHeader
  split
  · simp
  · have : len_bytes n ≤ 8 := len_bytes_le (by norm_num; omega)
    simp only [List.length_cons, bigEndian_length]
    omega

theorem enc_String_length_le (p : Bytes) (h : p.length < 2 ^ 32) :
    (Node.enc (.String p)).length ≤ p.length + 9 := by
  rw [enc_String p h]
  unfold canonicalString
  split
  · omega
  · have := canonicalHeader_length_le 0x80 p.length (by omega)
    rw [List.length_append]; omega

theorem enc_Integer_length_le (n : Nat) (h : n < 2 ^ 64) :
    (Node.enc (.Integer n)).length ≤ 9 := by
  rw [enc_Integer n h]
  have h8 : len_bytes n ≤ 8 := len_bytes_le (by norm_num; omega)
  have : (canonicalHeader 0x80 (len_bytes n)).length = 1 := by
    unfold canonicalHeader
    rw [if_pos (by omega)]; rfl
  rw [List.length_append, this, bigEndian_length]
  omega

/-- A write that fits the buffer is buffered. -/
theorem HashStream.WriteBuf_fits (s : HashStream) (p : Bytes) (h : s.m_nBuf + p.length ≤ 128) :
    s.WriteBuf p = some (s.copy p h) := by
  unfold HashStream.WriteBuf
  rw [HashStream.Append_of_lt s p (by omega), dif_pos h]

/-- A write that does not fit the bytes in use, and is no longer than the buffer, flushes
the buffer and is buffered. -/
theorem HashStream.WriteBuf_flush (s : HashStream) (p : Bytes)
    (h1 : 128 < s.m_nBuf + p.length) (h2 : p.length ≤ 128) :
    s.WriteBuf p = some ⟨s.m_hp ++ [s.m_pBuf], p, h2⟩ := by
  have hne : s.m_nBuf ≠ 0 := by omega
  have hf : s.Flush = s.FlushStrict := by
    unfold HashStream.Flush; rw [if_pos hne]
  unfold HashStream.WriteBuf
  rw [HashStream.Append_of_lt s p (by omega), dif_neg (by omega)]
  simp only
  rw [hf, HashStream.Append_of_lt _ p (by omega),
    dif_pos (show s.FlushStrict.m_nBuf + p.length ≤ 128 by
      show 0 + p.length ≤ 128
      omega)]
  rfl

/-- A write longer than the buffer flushes the buffer and goes to the processor. -/
theorem HashStream.WriteBuf_direct (s : HashStream) (p : Bytes)
    (h1 : 128 < p.length) (h2 : p.length + 128 < 2 ^ 32) :
    s.WriteBuf p = some ⟨s.Flush.m_hp ++ [p], s.Flush.m_pBuf, s.Flush.m_nBuf_le⟩ ∧
      s.Flush.m_pBuf = [] := by
  have h0 := HashStream.m_nBuf_Flush s
  constructor
  · unfold HashStream.WriteBuf
    rw [HashStream.Append_of_lt s p h2, dif_neg (by omega)]
    simp only
    rw [HashStream.Append_of_lt _ p h2, dif_neg (by omega)]
  · unfold HashStream.m_nBuf at h0
    exact List.length_eq_zero.mp h0

/-! ## The claim on the streaming hash -/

/-- C16 (streaming hash transparency) fails on the code for a write whose length wraps the
sum `m_nBuf + n` of `Append`: after `Write(uint8_t)`, the call `Write(p, 0xFFFFFFFF)` passes
the test of `Append` (the sum is 0 in `uint32_t`) and the `memcpy` writes past the end of the
128-byte buffer. -/
theorem C16_Append_wraps :
    ((HashStream.fresh.WriteByte 0).WriteBuf (List.replicate (2 ^ 32 - 1) 0)) = none ∧
    (List.replicate (2 ^ 32 - 1) 0).length = 2 ^ 32 - 1 := by
  have h1 : (HashStream.fresh.WriteByte 0).m_nBuf = 1 := rfl
  have h2 : (List.replicate (2 ^ 32 - 1) 0).length = 2 ^ 32 - 1 := List.length_replicate _ _
  refine ⟨HashStream.WriteBuf_wrap _ _ ?_ ?_, h2⟩
  · rw [h1, h2]; decide
  · rw [h1, h2]; decide

/-- The loop of `decodeInteger` reads the `nBytes` bytes from `position` on, and nothing
else. -/
theorem decodeIntegerLoop_safe (input : Bytes) : ∀ (nBytes length position : Nat),
    position + nBytes ≤ input.length →
    ∃ r, decodeIntegerLoop input nBytes length position = some (r, position + nBytes)
  | 0, length, position, _ => ⟨length, rfl⟩
  | nBytes + 1, length, position, h => by
    unfold decodeIntegerLoop
    rw [List.getElem?_eq_getElem (by omega)]
    obtain ⟨r, hr⟩ := decodeIntegerLoop_safe input nBytes
      ((input[position] + length * 256) % 2 ^ 32) (position + 1) (by omega)
    refine ⟨r, ?_⟩
    simp only
    rw [hr]
    congr 2
    omega

theorem decodeIntegerLoop_local (input : Bytes) (size : Nat) :
    ∀ (nBytes length position : Nat), position + nBytes ≤ size →
      decodeIntegerLoop (input.take size) nBytes length position =
        decodeIntegerLoop input nBytes length position
  | 0, _, _, _ => rfl
  | nBytes + 1, length, position, h => by
    unfold decodeIntegerLoop
    rw [List.getElem?_take_of_lt (by omega)]
    cases input[position]? with
    | none => rfl
    | some x => exact decodeIntegerLoop_local input size nBytes _ (position + 1) (by omega)

/-- The lambda `decodeInteger` reads inside the buffer, and leaves the position inside. -/
theorem decodeInteger_safe (input : Bytes) (size position nBytes : Nat)
    (hp : position ≤ size) (hs : size ≤ input.length) :
    ∃ ok length position2, decodeInteger input size position nBytes =
        some (ok, length, position2) ∧ position2 ≤ size ∧ position ≤ position2 := by
  unfold decodeInteger
  by_cases h : nBytes > size - position
  · rw [if_pos h]
    exact ⟨false, 0, position, rfl, hp, Nat.le_refl _⟩
  · rw [if_neg h]
    obtain ⟨r, hr⟩ := decodeIntegerLoop_safe input nBytes 0 position (by omega)
    rw [hr]
    exact ⟨true, r, position + nBytes, rfl, by omega, by omega⟩

theorem decodeInteger_local (input : Bytes) (size position nBytes : Nat) :
    decodeInteger (input.take size) size position nBytes =
      decodeInteger input size position nBytes := by
  unfold decodeInteger
  by_cases h : nBytes > size - position
  · rw [if_pos h, if_pos h]
  · rw [if_neg h, if_neg h]
    by_cases hp : position ≤ size
    · rw [decodeIntegerLoop_local input size nBytes 0 position (by omega)]
    · have hn : nBytes = 0 := by omega
      subst hn
      rfl

theorem inside_drop {input : Bytes} {size q length : Nat} {n : DecodedNode}
    (hq : q + length ≤ size) (h : n.inside (input.drop q) length) : n.inside input size := by
  obtain ⟨p, hp, he⟩ := h
  refine ⟨q + p, by omega, ?_⟩
  rw [he, List.drop_drop]

theorem take_one_drop (input : Bytes) (position : Nat) (h : position < input.length) :
    [input[position]].take 1 = (input.drop position).take 1 := by
  rw [List.drop_eq_getElem_cons h]
  rfl

/-- The loop of `Decode` ends, reads inside the buffer, and hands to the visitor only nodes
inside the buffer: whatever holds of the visitor at the start and is kept by `OnNode` on
such nodes, holds at the end. -/
theorem DecodeLoop_safe {σ : Type} (v : Visitor σ) (I : σ → Prop) :
    ∀ (fuel : Nat) (input : Bytes) (size position : Nat) (st : σ),
      position ≤ size → size ≤ input.length → size - position < fuel →
      (∀ st n, DecodedNode.inside input size n → I st → I (v.OnNode st n).1) → I st →
      ∃ ok st2, DecodeLoop v fuel input size position st = some (ok, st2) ∧ I st2
  | 0, _, _, _, _, _, _, hf, _, _ => absurd hf (Nat.not_lt_zero _)
  | fuel + 1, input, size, position, st, hp, hs, hf, hI, hst => by
    rw [DecodeLoop_succ]
    by_cases hlt : position < size
    · rw [if_pos hlt, List.getElem?_eq_getElem (by omega)]
      simp only
      have hnext : ∀ (position2 : Nat) (st2 : σ), position < position2 → position2 ≤ size →
          I st2 → ∃ ok st3, DecodeLoop v fuel input size position2 st2 = some (ok, st3) ∧ I st3 :=
        fun position2 st2 h1 h2 h3 =>
          DecodeLoop_safe v I fuel input size position2 st2 h2 hs (by omega) hI h3
      have hstring : ∀ (q length : Nat), q + length ≤ size →
          I (DecodeString v (input.drop q) length st) := by
        intro q length hq
        exact hI st _ ⟨q, hq, rfl⟩ hst
      have hlist : ∀ (q length : Nat), position < q → q + length ≤ size →
          (∀ st2, I st2 →
            ∃ ok st3, DecodeLoop v fuel input size (q + length) st2 = some (ok, st3) ∧ I st3) →
          ∃ ok st3, (match DecodeList (fun i n t => DecodeLoop v fuel i n 0 t) v
              (input.drop q) length st with
            | none => none
            | some (false, st) => some (false, st)
            | some (true, st) => DecodeLoop v fuel input size (q + length) st) =
              some (ok, st3) ∧ I st3 := by
        intro q length hq1 hq hcont
        have hr : I (v.OnNode st ⟨NodeType.List, length, input.drop q⟩).1 :=
          hI st _ ⟨q, hq, rfl⟩ hst
        unfold DecodeList
        simp only
        by_cases hrec : (v.OnNode st ⟨NodeType.List, length, input.drop q⟩).2 = true
        · rw [if_pos hrec]
          obtain ⟨ok, st3, he, h3⟩ := DecodeLoop_safe v I fuel (input.drop q) length 0
            (v.OnNode st ⟨NodeType.List, length, input.drop q⟩).1 (Nat.zero_le _)
            (by rw [List.length_drop]; omega) (by omega)
            (fun st2 n hn h2 => hI st2 n (inside_drop hq hn) h2) hr
          rw [he]
          cases ok with
          | false => exact ⟨false, st3, rfl, h3⟩
          | true => exact hcont st3 h3
        · rw [if_neg hrec]
          exact hcont _ hr
      by_cases h1 : input[position] ≤ 0x7f
      · rw [if_pos h1]
        refine hnext _ _ (by omega) (by omega) ?_
        exact hI st _ ⟨position, by simpa using hlt, take_one_drop input position (by omega)⟩ hst
      rw [if_neg h1]
      by_cases h2 : input[position] ≤ 0xb7
      · rw [if_pos h2]
        by_cases hl : input[position] - 0x80 > size - (position + 1)
        · rw [if_pos hl]
          exact ⟨false, st, rfl, hst⟩
        · rw [if_neg hl]
          exact hnext _ _ (by omega) (by omega) (hstring _ _ (by omega))
      rw [if_neg h2]
      by_cases h3 : input[position] ≤ 0xbf
      · rw [if_pos h3]
        obtain ⟨ok, length, position2, he, hp2, hmono⟩ :=
          decodeInteger_safe input size (position + 1) (input[position] - 0xb7) (by omega) hs
        rw [he]
        simp only
        by_cases hl : (!ok || decide (length > size - position2)) = true
        · rw [if_pos hl]
          exact ⟨false, st, rfl, hst⟩
        · rw [if_neg hl]
          simp only [Bool.or_eq_true, Bool.not_eq_true', decide_eq_true_eq, not_or] at hl
          exact hnext _ _ (by omega) (by omega) (hstring _ _ (by omega))
      rw [if_neg h3]
      by_cases h4 : input[position] ≤ 0xf7
      · rw [if_pos h4]
        by_cases hl : input[position] - 0xc0 > size - (position + 1)
        · rw [if_pos hl]
          exact ⟨false, st, rfl, hst⟩
        · rw [if_neg hl]
          exact hlist _ _ (by omega) (by omega)
            (fun st2 h2 => hnext _ st2 (by omega) (by omega) h2)
      rw [if_neg h4]
      by_cases h5 : input[position] ≤ 0xff
      · rw [if_pos h5]
        obtain ⟨ok, length, position2, he, hp2, hmono⟩ :=
          decodeInteger_safe input size (position + 1) (input[position] - 0xf7) (by omega) hs
        rw [he]
        simp only
        by_cases hl : (!ok || decide (length > size - position2)) = true
        · rw [if_pos hl]
          exact ⟨false, st, rfl, hst⟩
        · rw [if_neg hl]
          simp only [Bool.or_eq_true, Bool.not_eq_true', decide_eq_true_eq, not_or] at hl
          exact hlist _ _ (by omega) (by omega)
            (fun st2 h2 => hnext _ st2 (by omega) (by omega) h2)
      · rw [if_neg h5]
        exact ⟨false, st, rfl, hst⟩
    · rw [if_neg hlt]
      exact ⟨true, st, rfl, hst⟩

theorem take_drop_take (input : Bytes) (size q length : Nat) (h : q + length ≤ size) :
    ((input.take size).drop q).take length = (input.drop q).take length := by
  rw [List.drop_take, List.take_take, Nat.min_eq_left (by omega)]

/-- For a visitor that reads of a node only what the node describes, the loop of `Decode`
depends on the first `size` bytes of the memory at `input` only. -/
theorem DecodeLoop_local {σ : Type} (v : Visitor σ) :
    ∀ (fuel : Nat) (input : Bytes) (size position : Nat) (st : σ),
      position ≤ size → size ≤ input.length →
      DecodeLoop v.clip fuel (input.take size) size position st =
        DecodeLoop v.clip fuel input size position st
  | 0, _, _, _, _, _, _ => rfl
  | fuel + 1, input, size, position, st, hp, hs => by
    rw [DecodeLoop_succ, DecodeLoop_succ]
    by_cases hlt : position < size
    · rw [if_pos hlt, if_pos hlt, List.getElem?_take_of_lt hlt,
        List.getElem?_eq_getElem (by omega)]
      simp only
      have hnext : ∀ (position2 : Nat) (st2 : σ), position2 ≤ size →
          DecodeLoop v.clip fuel (input.take size) size position2 st2 =
            DecodeLoop v.clip fuel input size position2 st2 :=
        fun position2 st2 h2 => DecodeLoop_local v fuel input size position2 st2 h2 hs
      have hstring : ∀ (q length : Nat), q + length ≤ size →
          DecodeString v.clip ((input.take size).drop q) length st =
            DecodeString v.clip (input.drop q) length st := by
        intro q length hq
        unfold DecodeString Visitor.clip
        simp only
        rw [take_drop_take input size q length hq]
      have hlist : ∀ (q length : Nat), q + length ≤ size →
          DecodeList (fun i n t => DecodeLoop v.clip fuel i n 0 t) v.clip
              ((input.take size).drop q) length st =
            DecodeList (fun i n t => DecodeLoop v.clip fuel i n 0 t) v.clip
              (input.drop q) length st := by
        intro q length hq
        have hnode : v.clip.OnNode st ⟨NodeType.List, length, (input.take size).drop q⟩ =
            v.clip.OnNode st ⟨NodeType.List, length, input.drop q⟩ := by
          unfold Visitor.clip
          simp only
          rw [take_drop_take input size q length hq]
        unfold DecodeList
        simp only
        rw [hnode]
        split
        · have e1 := DecodeLoop_local v fuel ((input.take size).drop q) length 0
            (v.clip.OnNode st ⟨NodeType.List, length, input.drop q⟩).1 (Nat.zero_le _)
            (by rw [List.length_drop, List.length_take]; omega)
          have e2 := DecodeLoop_local v fuel (input.drop q) length 0
            (v.clip.OnNode st ⟨NodeType.List, length, input.drop q⟩).1 (Nat.zero_le _)
            (by rw [List.length_drop]; omega)
          rw [← e1, ← e2, take_drop_take input size q length hq]
        · rfl
      by_cases h1 : input[position] ≤ 0x7f
      · rw [if_pos h1, if_pos h1]
        exact hnext _ _ (by omega)
      rw [if_neg h1, if_neg h1]
      by_cases h2 : input[position] ≤ 0xb7
      · rw [if_pos h2, if_pos h2]
        by_cases hl : input[position] - 0x80 > size - (position + 1)
        · rw [if_pos hl, if_pos hl]
        · rw [if_neg hl, if_neg hl, hstring _ _ (by omega)]
          exact hnext _ _ (by omega)
      rw [if_neg h2, if_neg h2]
      by_cases h3 : input[position] ≤ 0xbf
      · rw [if_pos h3, if_pos h3, decodeInteger_local]
        obtain ⟨ok, length, position2, he, hp2, hmono⟩ :=
          decodeInteger_safe input size (position + 1) (input[position] - 0xb7) (by omega) hs
        rw [he]
        simp only
        by_cases hl : (!ok || decide (length > size - position2)) = true
        · rw [if_pos hl, if_pos hl]
        · rw [if_neg hl, if_neg hl]
          simp only [Bool.or_eq_true, Bool.not_eq_true', decide_eq_true_eq, not_or] at hl
          rw [hstring _ _ (by omega)]
          exact hnext _ _ (by omega)
      rw [if_neg h3, if_neg h3]
      by_cases h4 : input[position] ≤ 0xf7
      · rw [if_pos h4, if_pos h4]
        by_cases hl : input[position] - 0xc0 > size - (position + 1)
        · rw [if_pos hl, if_pos hl]
        · rw [if_neg hl, if_neg hl, hlist _ _ (by omega)]
          cases DecodeList (fun i n t => DecodeLoop v.clip fuel i n 0 t) v.clip
            (input.drop (position + 1)) (input[position] - 0xc0) st with
          | none => rfl
          | some r =>
            obtain ⟨ok, st2⟩ := r
            cases ok with
            | false => rfl
            | true => exact hnext _ _ (by omega)
      rw [if_neg h4, if_neg h4]
      by_cases h5 : input[position] ≤ 0xff
      · rw [if_pos h5, if_pos h5, decodeInteger_local]
        obtain ⟨ok, length, position2, he, hp2, hmono⟩ :=
          decodeInteger_safe input size (position + 1) (input[position] - 0xf7) (by omega) hs
        rw [he]
        simp only
        by_cases hl : (!ok || decide (length > size - position2)) = true
        · rw [if_pos hl, if_pos hl]
        · rw [if_neg hl, if_neg hl]
          simp only [Bool.or_eq_true, Bool.not_eq_true', decide_eq_true_eq, not_or] at hl
          rw [hlist _ _ (by omega)]
          cases DecodeList (fun i n t => DecodeLoop v.clip fuel i n 0 t) v.clip
            (input.drop position2) length st with
          | none => rfl
          | some r =>
            obtain ⟨ok2, st2⟩ := r
            cases ok2 with
            | false => rfl
            | true => exact hnext _ _ (by omega)
      · rw [if_neg h5, if_neg h5]
    · rw [if_neg hlt, if_neg hlt]

/-- One pass of the loop of `Decode` at a position inside the buffer: it either returns
`false`, or goes on at a later position that is still inside the buffer (at most `size`). -/
theorem DecodeLoop_advances {σ : Type} (v : Visitor σ) (fuel : Nat) (input : Bytes)
    (size position : Nat) (st : σ) (hlt : position < size) (hs : size ≤ input.length)
    (hf : size - position ≤ fuel) :
    (∃ st2, DecodeLoop v (fuel + 1) input size position st = some (false, st2)) ∨
    ∃ position2 st2, position < position2 ∧ position2 ≤ size ∧
      DecodeLoop v (fuel + 1) input size position st =
        DecodeLoop v fuel input size position2 st2 := by
  rw [DecodeLoop_succ, if_pos hlt, List.getElem?_eq_getElem (by omega)]
  simp only
  have hlist : ∀ (q length : Nat), position < q → q + length ≤ size →
      (∃ st2, (match DecodeList (fun i n t => DecodeLoop v fuel i n 0 t) v
          (input.drop q) length st with
        | none => none
        | some (false, st) => some (false, st)
        | some (true, st) => DecodeLoop v fuel input size (q + length) st) =
          some (false, st2)) ∨
      ∃ position2 st2, position < position2 ∧ position2 ≤ size ∧
        (match DecodeList (fun i n t => DecodeLoop v fuel i n 0 t) v
          (input.drop q) length st with
        | none => none
        | some (false, st) => some (false, st)
        | some (true, st) => DecodeLoop v fuel input size (q + length) st) =
          DecodeLoop v fuel input size position2 st2 := by
    intro q length hq1 hq
    unfold DecodeList
    simp only
    by_cases hrec : (v.OnNode st ⟨NodeType.List, length, input.drop q⟩).2 = true
    · rw [if_pos hrec]
      obtain ⟨ok, st3, he, _⟩ := DecodeLoop_safe v (fun _ => True) fuel (input.drop q) length 0
        (v.OnNode st ⟨NodeType.List, length, input.drop q⟩).1 (Nat.zero_le _)
        (by rw [List.length_drop]; omega) (by omega) (fun _ _ _ _ => trivial) trivial
      rw [he]
      cases ok with
      | false => exact Or.inl ⟨st3, rfl⟩
      | true => exact Or.inr ⟨q + length, st3, by omega, hq, rfl⟩
    · rw [if_neg hrec]
      exact Or.inr ⟨q + length, _, by omega, hq, rfl⟩
  by_cases h1 : input[position] ≤ 0x7f
  · rw [if_pos h1]
    exact Or.inr ⟨position + 1, _, by omega, by omega, rfl⟩
  rw [if_neg h1]
  by_cases h2 : input[position] ≤ 0xb7
  · rw [if_pos h2]
    by_cases hl : input[position] - 0x80 > size - (position + 1)
    · rw [if_pos hl]
      exact Or.inl ⟨st, rfl⟩
    · rw [if_neg hl]
      exact Or.inr ⟨_, _, by omega, by omega, rfl⟩
  rw [if_neg h2]
  by_cases h3 : input[position] ≤ 0xbf
  · rw [if_pos h3]
    obtain ⟨ok, length, position2, he, hp2, hmono⟩ :=
      decodeInteger_safe input size (position + 1) (input[position] - 0xb7) (by omega) hs
    rw [he]
    simp only
    by_cases hl : (!ok || decide (length > size - position2)) = true
    · rw [if_pos hl]
      exact Or.inl ⟨st, rfl⟩
    · rw [if_neg hl]
      simp only [Bool.or_eq_true, Bool.not_eq_true', decide_eq_true_eq, not_or] at hl
      exact Or.inr ⟨_, _, by omega, by omega, rfl⟩
  rw [if_neg h3]
  by_cases h4 : input[position] ≤ 0xf7
  · rw [if_pos h4]
    by_cases hl : input[position] - 0xc0 > size - (position + 1)
    · rw [if_pos hl]
      exact Or.inl ⟨st, rfl⟩
    · rw [if_neg hl]
      exact hlist _ _ (by omega) (by omega)
  rw [if_neg h4]
  by_cases h5 : input[position] ≤ 0xff
  · rw [if_pos h5]
    obtain ⟨ok, length, position2, he, hp2, hmono⟩ :=
      decodeInteger_safe input size (position + 1) (input[position] - 0xf7) (by omega) hs
    rw [he]
    simp only
    by_cases hl : (!ok || decide (length > size - position2)) = true
    · rw [if_pos hl]
      exact Or.inl ⟨st, rfl⟩
    · rw [if_neg hl]
      simp only [Bool.or_eq_true, Bool.not_eq_true', decide_eq_true_eq, not_or] at hl
      exact hlist _ _ (by omega) (by omega)
  · rw [if_neg h5]
    exact Or.inl ⟨st, rfl⟩

/-- C28 (memory safety of `Rlp::Decode`): for every visitor and every buffer `input` of
at least `size` bytes, `Decode` ends without a read outside the memory given (in particular
when the memory is exactly `size` bytes); every node it hands to the visitor describes bytes
inside the first `size` bytes of the buffer, so whatever `OnNode` keeps on such nodes holds
at the end; every pass of the loop at a position below `size` returns `false` or goes on at
a later position that is at most `size`; and, for a visitor that reads of a node only what
the node describes, the run is the same when the memory ends after `size` bytes, so no call
of `Decode`, nested ones included, reads at or beyond the size it was given.  Length fields
are taken modulo `2 ^ 32`, as the code computes them. -/
theorem C28_Decode_memory_safe {σ : Type} (visitor : Visitor σ) (input : Bytes) (size : Nat)
    (st : σ) (hsize : size ≤ input.length) :
    (∃ ok st2, Decode visitor input size st = some (ok, st2)) ∧
    (∀ I : σ → Prop, I st →
      (∀ st1 n, DecodedNode.inside input size n → I st1 → I (visitor.OnNode st1 n).1) →
      ∀ r, Decode visitor input size st = some r → I r.2) ∧
    (∀ fuel position st1, position < size → size - position ≤ fuel →
      (∃ st2, DecodeLoop visitor (fuel + 1) input size position st1 = some (false, st2)) ∨
      ∃ position2 st2, position < position2 ∧ position2 ≤ size ∧
        DecodeLoop visitor (fuel + 1) input size position st1 =
          DecodeLoop visitor fuel input size position2 st2) ∧
    Decode visitor.clip (input.take size) size st = Decode visitor.clip input size st := by
  refine ⟨?_, ?_, ?_, ?_⟩
  · obtain ⟨ok, st2, h, _⟩ := DecodeLoop_safe visitor (fun _ => True) (size + 1) input size 0 st
      (Nat.zero_le _) hsize (by omega) (fun _ _ _ _ => trivial) trivial
    exact ⟨ok, st2, h⟩
  · intro I hst hI r hr
    obtain ⟨ok, st2, h, h2⟩ := DecodeLoop_safe visitor I (size + 1) input size 0 st
      (Nat.zero_le _) hsize (by omega) hI hst
    have : Decode visitor input size st = some (ok, st2) := h
    rw [this] at hr
    cases hr
    exact h2
  · intro fuel position st1 hlt hf
    exact DecodeLoop_advances visitor fuel input size position st1 hlt hsize hf
  · exact DecodeLoop_local visitor (size + 1) input size 0 st (Nat.zero_le _) hsize

/-- C28 at the buffer `bf 01 00 00 00 00 00 00 01 41`, whose length field `2 ^ 56 + 1` wraps
to 1: the decoder accepts it and reports the one byte `41` as a string. -/
theorem C28_Decode_memory_safe_witness :
    Decode Recorder [0xbf, 1, 0, 0, 0, 0, 0, 0, 1, 0x41] 10 [] =
      some (true, [⟨NodeType.String, 1, [0x41]⟩]) ∧
    ∃ ok st2, Decode Recorder [0xbf, 1, 0, 0, 0, 0, 0, 0, 1, 0x41] 10 [] = some (ok, st2) :=
  ⟨by decide, (C28_Decode_memory_safe Recorder [0xbf, 1, 0, 0, 0, 0, 0, 0, 1, 0x41] 10 []
    (by decide)).1⟩

end Rlp

open Rlp

/-! ## The claims on the header of the external chain -/

theorem Header.root_length (h : Header) (hw : h.WellTyped) (tail : List Node)
    (ht : (encList tail).length ≤ 100) :
    (Node.enc (.List (h.pN ++ tail))).length + 128 < 2 ^ 32 := by
  obtain ⟨h1, h2, h3, h4, h5, h6, h7, h8, h9, h10, h11, h12, h13, h14, h15⟩ := hw
  have e1 := enc_String_length_le h.m_ParentHash (by omega)
  have e2 := enc_String_length_le h.m_UncleHash (by omega)
  have e3 := enc_String_length_le h.m_Coinbase (by omega)
  have e4 := enc_String_length_le h.m_Root (by omega)
  have e5 := enc_String_length_le h.m_TxHash (by omega)
  have e6 := enc_String_length_le h.m_ReceiptHash (by omega)
  have e7 := enc_String_length_le h.m_Bloom (by omega)
  have e8 := enc_Integer_length_le h.m_Difficulty h10
  have e9 := enc_Integer_length_le h.m_Number h11
  have e10 := enc_Integer_length_le h.m_GasLimit h12
  have e11 := enc_Integer_length_le h.m_GasUsed h13
  have e12 := enc_Integer_length_le h.m_Time h14
  have hx : (h.m_Extra.take h.m_nExtra).length ≤ 32 := by
    rw [List.length_take]; omega
  have e13 := enc_String_length_le (h.m_Extra.take h.m_nExtra) (by omega)
  have hl : (encList (h.pN ++ tail)).length ≤ 800 := by
    simp only [Header.pN, List.cons_append, List.nil_append, encList, List.length_append,
      List.append_eq]
    omega
  rw [enc_List _ (by omega), List.length_append]
  have := canonicalHeader_length_le 0xc0 (encList (h.pN ++ tail)).length (by omega)
  omega

/-- C15 (header hashing layout): for a header whose members have the sizes of their types
and whose `m_nExtra` is within `m_Extra`, `get_HashForPow` is the digest of the bytes that
`Node::Write` emits for the list of the 13 nodes in the order of the claim, `get_HashFinal`
that of the same 13 nodes followed by the mix hash and the nonce, and the last of the 13 is
the string of the first `m_nExtra` bytes of `m_Extra`. -/
theorem C15_header_hash_layout (Keccak : Bytes → Bytes) (h : Header) (hvMixHash : Bytes)
    (hw : h.WellTyped) (hx : h.m_nExtra ≤ 32) (hm : hvMixHash.length = 32) :
    h.get_HashForPow Keccak = some (Keccak (Node.emit (.List
      [.String h.m_ParentHash, .String h.m_UncleHash, .String h.m_Coinbase, .String h.m_Root,
       .String h.m_TxHash, .String h.m_ReceiptHash, .String h.m_Bloom,
       .Integer h.m_Difficulty, .Integer h.m_Number, .Integer h.m_GasLimit,
       .Integer h.m_GasUsed, .Integer h.m_Time, .String (h.m_Extra.take h.m_nExtra)]))) ∧
    h.get_HashFinal Keccak hvMixHash = some (Keccak (Node.emit (.List
      [.String h.m_ParentHash, .String h.m_UncleHash, .String h.m_Coinbase, .String h.m_Root,
       .String h.m_TxHash, .String h.m_ReceiptHash, .String h.m_Bloom,
       .Integer h.m_Difficulty, .Integer h.m_Number, .Integer h.m_GasLimit,
       .Integer h.m_GasUsed, .Integer h.m_Time, .String (h.m_Extra.take h.m_nExtra),
       .String hvMixHash, .Integer h.m_Nonce]))) ∧
    (h.m_Extra.take h.m_nExtra).length = h.m_nExtra := by
  have hn : h.m_Nonce < 2 ^ 64 := hw.2.2.2.2.2.2.2.2.2.2.2.2.2.2
  have hE : h.m_Extra.length = 32 := hw.2.2.2.2.2.2.2.1
  refine ⟨?_, ?_, ?_⟩
  · have hl := Header.root_length h hw [] (by simp [encList])
    rw [List.append_nil] at hl
    unfold Header.get_HashForPow Header.get_HashInternal
    rw [if_neg (by omega)]
    exact HashStream.Write_digest Keccak _ hl
  · have e1 := enc_String_length_le hvMixHash (by omega)
    have e2 := enc_Integer_length_le h.m_Nonce hn
    have hl := Header.root_length h hw [.String hvMixHash, .Integer h.m_Nonce]
      (by simp only [encList, List.length_append, List.length_nil]; omega)
    unfold Header.get_HashFinal Header.get_HashInternal
    rw [if_neg (by omega)]
    exact HashStream.Write_digest Keccak _ hl
  · rw [List.length_take]; omega


/-- C15 at the example header (5 bytes of extra data), with the identity in the place of the
digest: `get_HashForPow` reads the bytes that `Write` emits for the 13 nodes. -/
theorem C15_header_hash_layout_witness :
    Example.header.get_HashForPow (fun b => b) = some (Node.emit (.List
      [.String (List.replicate 32 1), .String (List.replicate 32 2),
       .String (List.replicate 20 3), .String (List.replicate 32 4),
       .String (List.replicate 32 5), .String (List.replicate 32 6),
       .String (List.replicate 256 0), .Integer 1024, .Integer 90000, .Integer 8000000,
       .Integer 21000, .Integer 1600000000, .String (List.replicate 5 7)])) :=
  (C15_header_hash_layout (fun b => b) Example.header (List.replicate 32 9)
    ⟨List.length_replicate _ _, List.length_replicate _ _, List.length_replicate _ _,
      List.length_replicate _ _, List.length_replicate _ _, List.length_replicate _ _,
      List.length_replicate _ _, List.length_replicate _ _, by decide, by decide, by decide,
      by decide, by decide, by decide, by decide⟩
    (by decide) (List.length_replicate _ _)).1

/-- C20 (epoch) fails on the code as stated: for the block number `30000 * 2 ^ 32`, which
fits 64 bits, the quotient is `2 ^ 32` and `get_Epoch` returns 0. -/
theorem C20_epoch_truncated :
    Example.lateHeader.WellTyped ∧ Example.lateHeader.m_Number / 30000 = 4294967296 ∧
      Example.lateHeader.get_Epoch = 0 := by
  exact ⟨⟨List.length_replicate _ _, List.length_replicate _ _, List.length_replicate _ _,
    List.length_replicate _ _, List.length_replicate _ _, List.length_replicate _ _,
    List.length_replicate _ _, List.length_replicate _ _, by decide, by decide, by decide,
    by decide, by decide, by decide, by decide⟩, by decide, by decide⟩

/-- C20 (epoch), amended: `get_Epoch` is the quotient of the block number by 30000 reduced
to 32 bits, and equals the quotient for every block number below `30000 * 2 ^ 32`. -/
theorem C20_get_Epoch (h : Header) :
    h.get_Epoch = (h.m_Number / 30000) % 2 ^ 32 ∧
      (h.m_Number < 30000 * 2 ^ 32 → h.get_Epoch = h.m_Number / 30000) := by
  refine ⟨rfl, fun hn => ?_⟩
  unfold Header.get_Epoch
  apply Nat.mod_eq_of_lt
  omega

/-- C20 at the block number 90000: the epoch is 3. -/
theorem C20_get_Epoch_witness : Example.header.get_Epoch = 3 :=
  (C20_get_Epoch Example.header).2 (by decide)

end Eth

namespace FlyClient

theorem find?_map_id (c : Nat) (f : Connection → Connection) (hf : ∀ x, (f x).id = x.id) :
    ∀ l : List Connection,
      (l.map (fun x => if x.id = c then f x else x)).find? (fun x => x.id == c) =
        (l.find? (fun x => x.id == c)).map f
  | [] => rfl
  | x :: l => by
    by_cases h : x.id = c
    · rw [List.map_cons, if_pos h, List.find?_cons_of_pos _ (by simp [hf, h]),
        List.find?_cons_of_pos _ (by simp [h])]
      rfl
    · rw [List.map_cons, if_neg h, List.find?_cons_of_neg _ (by simp [h]),
        List.find?_cons_of_neg _ (by simp [h])]
      exact find?_map_id c f hf l

theorem conn_modifyConn (s : NetworkStd) (c : Nat) (f : Connection → Connection)
    (hf : ∀ x, (f x).id = x.id) : (s.modifyConn c f).conn c = (s.conn c).map f :=
  find?_map_id c f hf s.m_Connections

theorem find?_map_ne (c d : Nat) (hcd : d ≠ c) (f : Connection → Connection)
    (hf : ∀ x, (f x).id = x.id) :
    ∀ l : List Connection,
      (l.map (fun x => if x.id = c then f x else x)).find? (fun x => x.id == d) =
        l.find? (fun x => x.id == d)
  | [] => rfl
  | x :: l => by
    by_cases h : x.id = c
    · have hd : ¬ x.id = d := by omega
      rw [List.map_cons, if_pos h, List.find?_cons_of_neg _ (by simp [hf, hd]),
        List.find?_cons_of_neg _ (by simp [hd])]
      exact find?_map_ne c d hcd f hf l
    · rw [List.map_cons, if_neg h]
      by_cases hd : x.id = d
      · rw [List.find?_cons_of_pos _ (by simp [hd]), List.find?_cons_of_pos _ (by simp [hd])]
      · rw [List.find?_cons_of_neg _ (by simp [hd]), List.find?_cons_of_neg _ (by simp [hd])]
        exact find?_map_ne c d hcd f hf l

theorem conn_modifyConn_ne (s : NetworkStd) (c d : Nat) (hcd : d ≠ c)
    (f : Connection → Connection) (hf : ∀ x, (f x).id = x.id) :
    (s.modifyConn c f).conn d = s.conn d :=
  find?_map_ne c d hcd f hf s.m_Connections

theorem modifyConn_modifyConn (s : NetworkStd) (c : Nat) (f g : Connection → Connection)
    (hf : ∀ x, (f x).id = x.id) :
    (s.modifyConn c f).modifyConn c g = s.modifyConn c (fun x => g (f x)) := by
  simp only [NetworkStd.modifyConn, List.map_map]
  congr 1
  apply List.map_congr_left
  intro x _
  by_cases h : x.id = c
  · simp [h, hf]
  · simp [h]

theorem modifyConn_id (s : NetworkStd) (c : Nat) (f : Connection → Connection)
    (hf : ∀ x, f x = x) : s.modifyConn c f = s := by
  simp only [NetworkStd.modifyConn, hf, ite_self, List.map_id']

theorem IsSupported_congr (s1 s2 : NetworkStd) (x1 x2 : Connection)
    (h1 : s1.m_History = s2.m_History) (h2 : x1.m_Flags = x2.m_Flags)
    (h3 : x1.m_LoginFlags = x2.m_LoginFlags) (h4 : x1.m_Tip = x2.m_Tip) (ty : RequestType) :
    IsSupported s1 x1 ty = IsSupported s2 x2 ty := by
  have : IsAtTip s1 x1 = IsAtTip s2 x2 := by
    simp [IsAtTip, NetworkStd.get_Tip, h1, h4]
  cases ty <;> simp [IsSupported, this, h2, h3]


theorem getElem?_length_append (A : List RequestPtr) (n : RequestPtr) (B : List RequestPtr) :
    (A ++ n :: B)[A.length]? = some n := by
  rw [List.getElem?_append_right (Nat.le_refl _)]
  simp

theorem eraseIdx_length_append (A : List RequestPtr) (n : RequestPtr) (B : List RequestPtr) :
    (A ++ n :: B).eraseIdx A.length = A ++ B := by
  rw [List.eraseIdx_append_of_length_le (Nat.le_refl _)]
  simp

theorem AssignRequestsLoop_spec (c : Nat) (hp : RequestPtr → Request)
    (sup : RequestType → Bool) :
    ∀ (B A : List RequestPtr) (s : NetworkStd) (x : Connection),
      s.m_lst = A ++ B → s.conn c = some x → s.heap = hp →
      (∀ ty, IsSupported s x ty = sup ty) →
      AssignRequestsLoop c B.length A.length s =
        ({ s with m_lst := A ++ B.filter (assignKeep hp sup),
                  trace := s.trace ++ B.filterMap (assignEvent c hp sup) }).modifyConn c
          (fun y => { y with m_lst := y.m_lst ++ B.filter (assignMove hp sup) })
  | [], A, s, x, hl, _, _, _ => by
    simp only [List.length_nil, AssignRequestsLoop, List.filter_nil, List.append_nil,
      List.filterMap_nil]
    rw [modifyConn_id _ _ _ (fun _ => rfl)]
    rw [List.append_nil] at hl
    rw [← hl]
  | n :: B, A, s, x, hl, hx, hh, hs => by
    have hget : s.m_lst[A.length]? = some n := by rw [hl]; exact getElem?_length_append A n B
    have herase : s.m_lst.eraseIdx A.length = A ++ B := by
      rw [hl]; exact eraseIdx_length_append A n B
    simp only [List.length_cons, AssignRequestsLoop]
    by_cases hd : (hp n).m_pTrg.isNone = true
    · -- cancelled: the node is deleted
      have hstep : AssignRequest s c A.length =
          ({ s with m_lst := A ++ B }.emit (.Delete n), false) := by
        simp only [AssignRequest, hget, hx, hh, hd, if_true, herase]
      rw [hstep]
      simp only [Bool.false_eq_true, if_false]
      have ih := AssignRequestsLoop_spec c hp sup B A
        ({ s with m_lst := A ++ B }.emit (.Delete n)) x rfl hx hh
        (fun ty => by rw [← hs ty]; exact IsSupported_congr _ _ _ _ rfl rfl rfl rfl ty)
      rw [ih]
      have hsome : (hp n).m_pTrg.isSome = false := by
        cases h : (hp n).m_pTrg <;> simp_all
      simp [assignKeep, assignMove, assignEvent, hd, hsome, NetworkStd.emit]
    · have hsome : (hp n).m_pTrg.isSome = true := by
        cases h : (hp n).m_pTrg <;> simp_all
      by_cases hsup : sup (hp n).get_Type = true
      · -- supported: sent and moved to the queue in flight
        have hstep : AssignRequest s c A.length =
            (({ s.emit (.SendRequest c n) with m_lst := A ++ B }).modifyConn c
              (fun y => { y with m_lst := y.m_lst ++ [n] }), false) := by
          simp only [AssignRequest, hget, hx, hh, hd, hs, hsup, herase, NetworkStd.emit]
          simp
        rw [hstep]
        simp only [Bool.false_eq_true, if_false]
        have hx1 : (({ s.emit (.SendRequest c n) with m_lst := A ++ B }).modifyConn c
              (fun y => { y with m_lst := y.m_lst ++ [n] })).conn c =
            some { x with m_lst := x.m_lst ++ [n] } := by
          rw [conn_modifyConn _ c (fun y => { y with m_lst := y.m_lst ++ [n] }) (fun _ => rfl)]
          show Option.map _ (s.conn c) = _
          rw [hx]; rfl
        have ih := AssignRequestsLoop_spec c hp sup B A _ _ rfl hx1 hh
          (fun ty => by rw [← hs ty]; exact IsSupported_congr _ _ _ _ rfl rfl rfl rfl ty)
        rw [ih]
        simp only [NetworkStd.modifyConn, NetworkStd.emit, List.map_map]
        simp [assignKeep, assignMove, assignEvent, hd, hsome, hsup]
        intro y _
        by_cases hy : y.id = c <;> simp [hy]
      · -- not supported: left in the global queue
        have hstep : AssignRequest s c A.length = (s, true) := by
          simp only [AssignRequest, hget, hx, hh, hd, hs, hsup]
          simp
        rw [hstep]
        simp only [if_true]
        have ih := AssignRequestsLoop_spec c hp sup B (A ++ [n]) s x (by simp [hl]) hx hh hs
        simp only [List.length_append, List.length_singleton] at ih
        rw [ih]
        simp [assignKeep, assignMove, assignEvent, hd, hsome, hsup]


theorem AssignRequestsLoop_none (c : Nat) : ∀ (k i : Nat) (s : NetworkStd),
    s.conn c = none → AssignRequestsLoop c k i s = s
  | 0, _, _, _ => rfl
  | k + 1, i, s, h => by
    have hstep : AssignRequest s c i = (s, true) := by
      unfold AssignRequest
      rw [h]
      cases s.m_lst[i]? <;> rfl
    simp only [AssignRequestsLoop, hstep, if_true]
    exact AssignRequestsLoop_none c k (i + 1) s h

theorem AssignRequests_none (s : NetworkStd) (c : Nat) (h : s.conn c = none) :
    AssignRequests s c = s := by
  unfold AssignRequests
  rw [AssignRequestsLoop_none c _ _ s h]
  simp only [h]

theorem AssignRequests_eq (s : NetworkStd) (c : Nat) (x : Connection) (hx : s.conn c = some x) :
    AssignRequests s c =
      ({ s with m_lst := s.m_lst.filter (assignKeep s.heap (IsSupported s x)),
                trace := s.trace ++ s.m_lst.filterMap (assignEvent c s.heap (IsSupported s x)) }
        ).modifyConn c (fun y =>
          { y with m_lst := y.m_lst ++ s.m_lst.filter (assignMove s.heap (IsSupported s x)),
                   m_pTimer := assignTimer s.m_Cfg
                     (x.m_lst ++ s.m_lst.filter (assignMove s.heap (IsSupported s x))) }) := by
  have hloop := AssignRequestsLoop_spec c s.heap (IsSupported s x) s.m_lst [] s x
    (by simp) hx rfl (fun _ => rfl)
  simp only [List.length_nil, List.nil_append] at hloop
  unfold AssignRequests
  rw [hloop]
  have hc := conn_modifyConn
    ({ s with m_lst := s.m_lst.filter (assignKeep s.heap (IsSupported s x)),
              trace := s.trace ++ s.m_lst.filterMap (assignEvent c s.heap (IsSupported s x)) })
    c (fun y => { y with m_lst := y.m_lst ++ s.m_lst.filter (assignMove s.heap (IsSupported s x)) })
    (fun _ => rfl)
  have hx2 : ∀ (l : List RequestPtr) (t : List Event),
      NetworkStd.conn ({ s with m_lst := l, trace := t }) c = some x := fun _ _ => hx
  rw [hx2] at hc
  simp only [hc, Option.map_some']
  by_cases ht : ((x.m_lst ++ s.m_lst.filter (assignMove s.heap (IsSupported s x))).isEmpty
      && s.m_Cfg.m_PollPeriod_ms != 0) = true
  · have ht' : assignTimer s.m_Cfg (x.m_lst ++ s.m_lst.filter (assignMove s.heap (IsSupported s x)))
        = some s.m_Cfg.m_CloseConnectionDelay_ms := by simp [assignTimer, ht]
    rw [ht']
    have : ∀ t : NetworkStd, t.m_Cfg = s.m_Cfg → (if ((x.m_lst ++ s.m_lst.filter (assignMove s.heap (IsSupported s x))).isEmpty
      && t.m_Cfg.m_PollPeriod_ms != 0) = true then SetTimer t c t.m_Cfg.m_CloseConnectionDelay_ms
        else KillTimer t c) = SetTimer t c s.m_Cfg.m_CloseConnectionDelay_ms := by
      intro t h; rw [h, if_pos ht]
    refine Eq.trans (this _ rfl) ?_
    unfold SetTimer
    rw [modifyConn_modifyConn]
    exact fun _ => rfl
  · have ht' : assignTimer s.m_Cfg (x.m_lst ++ s.m_lst.filter (assignMove s.heap (IsSupported s x)))
        = none := by simp [assignTimer, ht]
    rw [ht']
    have : ∀ t : NetworkStd, t.m_Cfg = s.m_Cfg → (if ((x.m_lst ++ s.m_lst.filter (assignMove s.heap (IsSupported s x))).isEmpty
      && t.m_Cfg.m_PollPeriod_ms != 0) = true then SetTimer t c t.m_Cfg.m_CloseConnectionDelay_ms
        else KillTimer t c) = KillTimer t c := by
      intro t h; rw [h, if_neg ht]
    refine Eq.trans (this _ rfl) ?_
    unfold KillTimer
    rw [modifyConn_modifyConn]
    exact fun _ => rfl

theorem inflight_of_conn {s : NetworkStd} {c : Nat} {x : Connection} (h : s.conn c = some x) :
    s.inflight c = x.m_lst := by
  simp [NetworkStd.inflight, h]

theorem AssignRequests_m_lst (s : NetworkStd) (c : Nat) (x : Connection) (hx : s.conn c = some x) :
    (AssignRequests s c).m_lst = s.m_lst.filter (assignKeep s.heap (IsSupported s x)) := by
  rw [AssignRequests_eq s c x hx]; rfl

theorem AssignRequests_trace (s : NetworkStd) (c : Nat) (x : Connection) (hx : s.conn c = some x) :
    (AssignRequests s c).trace =
      s.trace ++ s.m_lst.filterMap (assignEvent c s.heap (IsSupported s x)) := by
  rw [AssignRequests_eq s c x hx]; rfl

theorem AssignRequests_conn (s : NetworkStd) (c : Nat) (x : Connection) (hx : s.conn c = some x) :
    (AssignRequests s c).conn c = some
      { x with m_lst := x.m_lst ++ s.m_lst.filter (assignMove s.heap (IsSupported s x)),
               m_pTimer := assignTimer s.m_Cfg
                 (x.m_lst ++ s.m_lst.filter (assignMove s.heap (IsSupported s x))) } := by
  rw [AssignRequests_eq s c x hx, conn_modifyConn]
  · show Option.map _ (s.conn c) = _
    rw [hx]; rfl
  · exact fun _ => rfl

theorem AssignRequests_conn_ne (s : NetworkStd) (c d : Nat) (hd : d ≠ c) :
    (AssignRequests s c).conn d = s.conn d := by
  cases hx : s.conn c with
  | none => rw [AssignRequests_none s c hx]
  | some x =>
    rw [AssignRequests_eq s c x hx, conn_modifyConn_ne _ _ _ hd]
    · rfl
    · exact fun _ => rfl

theorem AssignRequests_heap (s : NetworkStd) (c : Nat) : (AssignRequests s c).heap = s.heap := by
  cases hx : s.conn c with
  | none => rw [AssignRequests_none s c hx]
  | some x => rw [AssignRequests_eq s c x hx]; rfl

theorem filterMap_sentOn_assignEvent (c : Nat) (hp : RequestPtr → Request)
    (sup : RequestType → Bool) : ∀ Q : List RequestPtr,
    (Q.filterMap (assignEvent c hp sup)).filterMap (Event.sentOn c) = Q.filter (assignMove hp sup)
  | [] => rfl
  | n :: Q => by
    have ih := filterMap_sentOn_assignEvent c hp sup Q
    cases h1 : (hp n).m_pTrg with
    | none => simp [List.filterMap_cons, List.filter_cons, assignEvent, assignMove, h1,
        Event.sentOn, ih]
    | some t =>
      cases h2 : sup (hp n).get_Type <;>
        simp [List.filterMap_cons, List.filter_cons, assignEvent, assignMove, h1, h2,
          Event.sentOn, ih]


theorem OnNewRequestsLoop_eq (s : NetworkStd) : ∀ l : List Connection,
    OnNewRequestsLoop s l =
      match l.find? (fun y => y.IsLive && y.IsSecureOut) with
      | some x => AssignRequests s x.id
      | none => s
  | [] => rfl
  | y :: l => by
    by_cases h : (y.IsLive && y.IsSecureOut) = true
    · have hf : List.find? (fun y => y.IsLive && y.IsSecureOut) (y :: l) = some y :=
        List.find?_cons_of_pos l h
      rw [hf]
      simp only [OnNewRequestsLoop, h, if_true]
    · have hf : List.find? (fun y => y.IsLive && y.IsSecureOut) (y :: l) =
          List.find? (fun y => y.IsLive && y.IsSecureOut) l :=
        List.find?_cons_of_neg l h
      rw [hf]
      simp only [OnNewRequestsLoop, h, if_false]
      exact OnNewRequestsLoop_eq s l

theorem OnNewRequests_eq (s : NetworkStd) :
    OnNewRequests s =
      match s.m_Connections.find? (fun y => y.IsLive && y.IsSecureOut) with
      | some x => AssignRequests s x.id
      | none => s :=
  OnNewRequestsLoop_eq s s.m_Connections

theorem Finish_trace (s : NetworkStd) (n : RequestPtr) :
    (Finish s n).trace =
      s.trace ++ (if (s.heap n).m_pTrg.isSome then [Event.OnComplete n] else []) ++
        [Event.Delete n] := by
  unfold Finish
  by_cases h : (s.heap n).m_pTrg.isSome = true <;> simp [h, NetworkStd.emit]

theorem OnFirstRequestDone_detached (s : NetworkStd) (c : Nat) (b : Bool) (x : Connection)
    (n : RequestPtr) (rest : List RequestPtr) (hx : s.conn c = some x) (hl : x.m_lst = n :: rest)
    (hd : (s.heap n).m_pTrg = none) :
    (OnFirstRequestDone s c b).trace = s.trace ++ [Event.Delete n] ∧
    (OnFirstRequestDone s c b).conn c = some
      { x with m_lst := rest,
               m_pTimer := if rest.isEmpty && s.m_Cfg.m_PollPeriod_ms != 0 then some 0
                 else x.m_pTimer } ∧
    (OnFirstRequestDone s c b).m_lst = s.m_lst ∧
    (OnFirstRequestDone s c b).heap = s.heap := by
  have hc1 : (s.modifyConn c (fun x => { x with m_lst := rest })).conn c =
      some { x with m_lst := rest } := by
    rw [conn_modifyConn]
    · rw [hx]; rfl
    · exact fun _ => rfl
  unfold OnFirstRequestDone
  simp only [hx, hl, hd, Option.isSome_none, Bool.false_eq_true, if_false]
  by_cases ht : (rest.isEmpty && s.m_Cfg.m_PollPeriod_ms != 0) = true
  · have ht' : (rest.isEmpty &&
        ((s.modifyConn c (fun x => { x with m_lst := rest })).emit (Event.Delete n)).m_Cfg.m_PollPeriod_ms
          != 0) = true := ht
    rw [if_pos ht', if_pos ht]
    refine ⟨rfl, ?_, rfl, rfl⟩
    unfold SetTimer
    rw [conn_modifyConn]
    · show Option.map _ ((s.modifyConn c (fun x => { x with m_lst := rest })).conn c) = _
      rw [hc1]; rfl
    · exact fun _ => rfl
  · have ht' : ¬ (rest.isEmpty &&
        ((s.modifyConn c (fun x => { x with m_lst := rest })).emit (Event.Delete n)).m_Cfg.m_PollPeriod_ms
          != 0) = true := ht
    rw [if_neg ht', if_neg ht]
    refine ⟨rfl, ?_, rfl, rfl⟩
    show (s.modifyConn c (fun x => { x with m_lst := rest })).conn c = _
    rw [hc1]

/-! ### Counting nodes -/

theorem modifyConn_ids (s : NetworkStd) (c : Nat) (f : Connection → Connection)
    (hf : ∀ x, (f x).id = x.id) :
    (s.modifyConn c f).m_Connections.map (fun y => y.id) = s.m_Connections.map (fun y => y.id) := by
  simp only [NetworkStd.modifyConn, List.map_map]
  apply List.map_congr_left
  intro y _
  by_cases h : y.id = c <;> simp [h, hf]

theorem map_modify_of_not_mem (c : Nat) (f : Connection → Connection) :
    ∀ l : List Connection, c ∉ l.map (fun y => y.id) →
      l.map (fun y => if y.id = c then f y else y) = l
  | [], _ => rfl
  | y :: l, h => by
    simp only [List.map_cons, List.mem_cons, not_or] at h
    have hy : ¬ y.id = c := fun e => h.1 e.symm
    rw [List.map_cons, if_neg hy, map_modify_of_not_mem c f l h.2]

theorem inflightCount_cons (y : Connection) (l : List Connection) (r : RequestPtr) :
    inflightCount (y :: l) r = y.m_lst.count r + inflightCount l r := by
  simp [inflightCount]

theorem inflightCount_modify (c : Nat) (f : Connection → Connection) (x : Connection)
    (r : RequestPtr) : ∀ l : List Connection, (l.map (fun y => y.id)).Nodup →
      l.find? (fun y => y.id == c) = some x →
      inflightCount (l.map (fun y => if y.id = c then f y else y)) r + x.m_lst.count r =
        inflightCount l r + (f x).m_lst.count r
  | [], _, h => by simp at h
  | y :: l, hnd, h => by
    simp only [List.map_cons, List.nodup_cons] at hnd
    by_cases hy : y.id = c
    · have hf : List.find? (fun y => y.id == c) (y :: l) = some y :=
        List.find?_cons_of_pos l (by simp [hy])
      rw [hf] at h
      cases h
      have hnot : c ∉ l.map (fun y => y.id) := by rw [← hy]; exact hnd.1
      rw [List.map_cons, if_pos hy, map_modify_of_not_mem c f l hnot, inflightCount_cons,
        inflightCount_cons]
      omega
    · have hf : List.find? (fun y => y.id == c) (y :: l) = List.find? (fun y => y.id == c) l :=
        List.find?_cons_of_neg l (by simp [hy])
      rw [hf] at h
      have ih := inflightCount_modify c f x r l hnd.2 h
      rw [List.map_cons, if_neg hy, inflightCount_cons, inflightCount_cons]
      omega

theorem conn_none_not_mem (s : NetworkStd) (c : Nat) (h : s.conn c = none) :
    c ∉ s.m_Connections.map (fun y => y.id) := by
  intro hm
  obtain ⟨y, hy, hyc⟩ := List.mem_map.mp hm
  have := List.find?_eq_none.mp h y hy
  simp [hyc] at this

theorem modifyConn_none (s : NetworkStd) (c : Nat) (f : Connection → Connection)
    (h : s.conn c = none) : s.modifyConn c f = s := by
  have := map_modify_of_not_mem c f s.m_Connections (conn_none_not_mem s c h)
  simp only [NetworkStd.modifyConn, this]

theorem occurrences_modifyConn (s : NetworkStd) (c : Nat) (f : Connection → Connection)
    (x : Connection) (r : RequestPtr) (hnd : IdsNodup s) (hx : s.conn c = some x) :
    (s.modifyConn c f).occurrences r + x.m_lst.count r =
      s.occurrences r + (f x).m_lst.count r := by
  have := inflightCount_modify c f x r s.m_Connections hnd hx
  simp only [NetworkStd.occurrences, NetworkStd.modifyConn]
  omega

theorem count_filter_keep_move (hp : RequestPtr → Request) (sup : RequestType → Bool)
    (r : RequestPtr) : ∀ Q : List RequestPtr,
    (Q.filter (assignKeep hp sup)).count r + (Q.filter (assignMove hp sup)).count r ≤ Q.count r
  | [] => by simp
  | n :: Q => by
    have ih := count_filter_keep_move hp sup r Q
    have hex : ¬ (assignKeep hp sup n = true ∧ assignMove hp sup n = true) := by
      simp only [assignKeep, assignMove, Bool.and_eq_true]
      rintro ⟨⟨_, h1⟩, ⟨_, h2⟩⟩
      simp [h2] at h1
    cases hk : assignKeep hp sup n <;> cases hm : assignMove hp sup n <;>
      simp_all [List.filter_cons, List.count_cons] <;> omega

/-! ### Operations that do not add nodes -/

theorem Shrinks.refl (s : NetworkStd) : Shrinks s s :=
  ⟨id, rfl, fun _ _ => Nat.le_refl _⟩

theorem Shrinks.trans {s t u : NetworkStd} (h1 : Shrinks s t) (h2 : Shrinks t u) : Shrinks s u :=
  ⟨fun h => h2.1 (h1.1 h), h2.2.1.trans h1.2.1,
    fun h r => Nat.le_trans (h2.2.2 (h1.1 h) r) (h1.2.2 h r)⟩

theorem Shrinks_modifyConn_same (s : NetworkStd) (c : Nat) (f : Connection → Connection)
    (hid : ∀ x, (f x).id = x.id) (hl : ∀ x, (f x).m_lst = x.m_lst) :
    Shrinks s (s.modifyConn c f) := by
  refine ⟨fun h => ?_, rfl, fun h r => ?_⟩
  · unfold IdsNodup; rw [modifyConn_ids s c f hid]; exact h
  · cases hx : s.conn c with
    | none => rw [modifyConn_none s c f hx]
    | some x =>
      have := occurrences_modifyConn s c f x r h hx
      rw [hl] at this
      omega

theorem Shrinks_emit (s : NetworkStd) (e : Event) : Shrinks s (s.emit e) :=
  ⟨id, rfl, fun _ _ => Nat.le_refl _⟩

theorem Shrinks_AssignRequests (s : NetworkStd) (c : Nat) : Shrinks s (AssignRequests s c) := by
  cases hx : s.conn c with
  | none => rw [AssignRequests_none s c hx]; exact Shrinks.refl s
  | some x =>
    rw [AssignRequests_eq s c x hx]
    refine ⟨fun h => ?_, rfl, fun h r => ?_⟩
    · unfold IdsNodup
      rw [modifyConn_ids]
      · exact h
      · exact fun _ => rfl
    · have h1 := occurrences_modifyConn
        ({ s with m_lst := s.m_lst.filter (assignKeep s.heap (IsSupported s x)),
                  trace := s.trace ++ s.m_lst.filterMap (assignEvent c s.heap (IsSupported s x)) })
        c (fun y =>
          { y with m_lst := y.m_lst ++ s.m_lst.filter (assignMove s.heap (IsSupported s x)),
                   m_pTimer := assignTimer s.m_Cfg
                     (x.m_lst ++ s.m_lst.filter (assignMove s.heap (IsSupported s x))) })
        x r h hx
      have h2 := count_filter_keep_move s.heap (IsSupported s x) r s.m_lst
      simp only [List.count_append] at h1
      simp only [NetworkStd.occurrences] at h1 ⊢
      omega

theorem Shrinks_OnNewRequests (s : NetworkStd) : Shrinks s (OnNewRequests s) := by
  rw [OnNewRequests_eq]
  cases s.m_Connections.find? (fun y => y.IsLive && y.IsSecureOut) with
  | none => exact Shrinks.refl s
  | some x => exact Shrinks_AssignRequests s x.id

theorem Shrinks_SetTimer (s : NetworkStd) (c t : Nat) : Shrinks s (SetTimer s c t) :=
  Shrinks_modifyConn_same s c _ (fun _ => rfl) (fun _ => rfl)

theorem Shrinks_KillTimer (s : NetworkStd) (c : Nat) : Shrinks s (KillTimer s c) :=
  Shrinks_modifyConn_same s c _ (fun _ => rfl) (fun _ => rfl)


theorem Shrinks_pop (s : NetworkStd) (c : Nat) (x : Connection) (n : RequestPtr)
    (rest : List RequestPtr) (hx : s.conn c = some x) (hl : x.m_lst = n :: rest) :
    Shrinks s (s.modifyConn c (fun y => { y with m_lst := rest })) := by
  refine ⟨fun h => ?_, rfl, fun h r => ?_⟩
  · unfold IdsNodup
    rw [modifyConn_ids]
    · exact h
    · exact fun _ => rfl
  · have := occurrences_modifyConn s c (fun y => { y with m_lst := rest }) x r h hx
    rw [hl, List.count_cons] at this
    simp only at this
    omega

theorem Shrinks_requeue (s : NetworkStd) (c : Nat) (x : Connection) (n : RequestPtr)
    (rest : List RequestPtr) (hx : s.conn c = some x) (hl : x.m_lst = n :: rest) :
    Shrinks s { s.modifyConn c (fun y => { y with m_lst := rest }) with
      m_lst := (s.modifyConn c (fun y => { y with m_lst := rest })).m_lst ++ [n] } := by
  refine ⟨fun h => ?_, rfl, fun h r => ?_⟩
  · have := (Shrinks_pop s c x n rest hx hl).1 h
    exact this
  · have := occurrences_modifyConn s c (fun y => { y with m_lst := rest }) x r h hx
    rw [hl, List.count_cons] at this
    simp only [NetworkStd.occurrences, NetworkStd.modifyConn, List.count_append,
      List.count_singleton] at this ⊢
    by_cases hr : n = r <;> simp [hr] at this ⊢ <;> omega

theorem Shrinks_Finish (s : NetworkStd) (n : RequestPtr) : Shrinks s (Finish s n) := by
  unfold Finish
  split
  · exact (Shrinks_emit _ _).trans (Shrinks_emit _ _)
  · exact Shrinks_emit _ _

theorem OnFirstRequestDone_none (s : NetworkStd) (c : Nat) (b : Bool) (hx : s.conn c = none) :
    OnFirstRequestDone s c b = s := by
  unfold OnFirstRequestDone
  simp only [hx]

theorem OnFirstRequestDone_nil (s : NetworkStd) (c : Nat) (b : Bool) (x : Connection)
    (hx : s.conn c = some x) (hl : x.m_lst = []) : OnFirstRequestDone s c b = s := by
  unfold OnFirstRequestDone
  simp only [hx, hl]

theorem OnFirstRequestDone_cons (s : NetworkStd) (c : Nat) (b : Bool) (x : Connection)
    (n : RequestPtr) (rest : List RequestPtr) (hx : s.conn c = some x) (hl : x.m_lst = n :: rest) :
    OnFirstRequestDone s c b =
      if (s.heap n).m_pTrg.isSome then
        if !b then
          OnNewRequests { s.modifyConn c (fun y => { y with m_lst := rest }) with
            m_lst := (s.modifyConn c (fun y => { y with m_lst := rest })).m_lst ++ [n] }
        else doneTimer c rest (Finish (s.modifyConn c (fun y => { y with m_lst := rest })) n)
      else doneTimer c rest ((s.modifyConn c (fun y => { y with m_lst := rest })).emit (.Delete n)) := by
  unfold OnFirstRequestDone
  simp only [hx, hl]
  rfl

theorem Shrinks_doneTimer (c : Nat) (rest : List RequestPtr) (s : NetworkStd) :
    Shrinks s (doneTimer c rest s) := by
  unfold doneTimer
  split
  · exact Shrinks_SetTimer _ _ _
  · exact Shrinks.refl s

theorem Shrinks_OnFirstRequestDone (s : NetworkStd) (c : Nat) (b : Bool) :
    Shrinks s (OnFirstRequestDone s c b) := by
  cases hx : s.conn c with
  | none => rw [OnFirstRequestDone_none s c b hx]; exact Shrinks.refl s
  | some x =>
    cases hl : x.m_lst with
    | nil => rw [OnFirstRequestDone_nil s c b x hx hl]; exact Shrinks.refl s
    | cons n rest =>
      rw [OnFirstRequestDone_cons s c b x n rest hx hl]
      have hpop := Shrinks_pop s c x n rest hx hl
      split
      · split
        · exact (Shrinks_requeue s c x n rest hx hl).trans (Shrinks_OnNewRequests _)
        · exact (hpop.trans (Shrinks_Finish _ _)).trans (Shrinks_doneTimer _ _ _)
      · exact (hpop.trans (Shrinks_emit _ _)).trans (Shrinks_doneTimer _ _ _)

theorem Shrinks_OnMsg (s : NetworkStd) (c : Nat) (ty : RequestType) (valid : Bool) :
    Shrinks s (outcome (OnMsg s c ty valid)) := by
  unfold OnMsg
  split
  · split
    · exact Shrinks.refl s
    · exact (Shrinks_emit s _).trans (Shrinks_OnFirstRequestDone _ _ _)
  · exact Shrinks.refl s

theorem Shrinks_OnMsgDataMissing (s : NetworkStd) (c : Nat) :
    Shrinks s (outcome (OnMsgDataMissing s c)) := by
  unfold OnMsgDataMissing
  split
  · simp only
    split
    · exact (Shrinks_emit s _).trans (Shrinks_OnFirstRequestDone _ _ _)
    · split
      · exact (Shrinks_emit s _).trans (Shrinks_OnFirstRequestDone _ _ _)
      · exact Shrinks.refl s
  · exact Shrinks.refl s

theorem ResetInternal_eq (s : NetworkStd) (c : Nat) (x : Connection) (hx : s.conn c = some x) :
    ResetInternal s c =
      ({ s with m_lst := s.m_lst ++ x.m_lst, trace := s.trace ++ resetEvents c x }).modifyConn c
        (fun y => { y with m_pSync := none, m_pTimer := none, m_lst := [] }) := by
  unfold ResetInternal
  simp only [hx, resetEvents]
  cases h1 : x.m_Flags.Owned <;> cases h2 : x.m_Flags.ReportedConnected <;>
    simp only [Bool.false_eq_true, if_false, if_true, KillTimer, NetworkStd.emit,
      NetworkStd.modifyConn, List.map_map, List.append_assoc, List.append_nil,
      List.singleton_append, List.cons_append, List.nil_append] <;>
    · congr 1
      apply List.map_congr_left
      intro y _
      by_cases hy : y.id = c <;> simp [hy]

theorem ResetInternal_none (s : NetworkStd) (c : Nat) (hx : s.conn c = none) :
    ResetInternal s c = s := by
  unfold ResetInternal
  simp only [hx]

theorem Shrinks_ResetInternal (s : NetworkStd) (c : Nat) : Shrinks s (ResetInternal s c) := by
  cases hx : s.conn c with
  | none => rw [ResetInternal_none s c hx]; exact Shrinks.refl s
  | some x =>
    rw [ResetInternal_eq s c x hx]
    refine ⟨fun h => ?_, rfl, fun h r => ?_⟩
    · unfold IdsNodup
      rw [modifyConn_ids]
      · exact h
      · exact fun _ => rfl
    · have h1 := occurrences_modifyConn
        ({ s with m_lst := s.m_lst ++ x.m_lst, trace := s.trace ++ resetEvents c x })
        c (fun y => { y with m_pSync := none, m_pTimer := none, m_lst := [] }) x r h hx
      simp only [NetworkStd.occurrences, List.count_append, List.count_nil] at h1 ⊢
      omega

theorem Shrinks_ResetVars (s : NetworkStd) (c : Nat) : Shrinks s (ResetVars s c) :=
  Shrinks_modifyConn_same s c _ (fun _ => rfl) (fun _ => rfl)

theorem Shrinks_ResetAll (s : NetworkStd) (c : Nat) : Shrinks s (ResetAll s c) := by
  have h1 : Shrinks s (s.modifyConn c (fun x => { x with IsLive := false, IsSecureOut := false })) :=
    Shrinks_modifyConn_same s c _ (fun _ => rfl) (fun _ => rfl)
  exact (h1.trans (Shrinks_ResetInternal _ c)).trans (Shrinks_ResetVars _ c)

theorem inflightCount_filter_le (p : Connection → Bool) (r : RequestPtr) :
    ∀ l : List Connection, inflightCount (l.filter p) r ≤ inflightCount l r
  | [] => Nat.le_refl _
  | y :: l => by
    have ih := inflightCount_filter_le p r l
    by_cases h : p y = true
    · rw [List.filter_cons_of_pos h, inflightCount_cons, inflightCount_cons]; omega
    · rw [List.filter_cons_of_neg h, inflightCount_cons]; omega

theorem Nodup_ids_filter (p : Connection → Bool) (l : List Connection)
    (h : (l.map (fun y => y.id)).Nodup) : ((l.filter p).map (fun y => y.id)).Nodup :=
  h.sublist ((List.filter_sublist l).map _)

theorem Shrinks_destroy (s : NetworkStd) (c : Nat) : Shrinks s (Connection.destroy s c) := by
  unfold Connection.destroy
  refine (Shrinks_ResetInternal s c).trans ⟨fun h => ?_, rfl, fun _ r => ?_⟩
  · exact Nodup_ids_filter _ _ h
  · have := inflightCount_filter_le (fun x => x.id != c) r (ResetInternal s c).m_Connections
    simp only [NetworkStd.occurrences]
    omega

theorem inflightCount_filter_add (c : Nat) (x : Connection) (r : RequestPtr) :
    ∀ l : List Connection, l.find? (fun y => y.id == c) = some x →
      inflightCount (l.filter (fun y => y.id != c)) r + x.m_lst.count r ≤ inflightCount l r
  | [], h => by simp at h
  | y :: l, h => by
    by_cases hy : y.id = c
    · have hf : List.find? (fun y => y.id == c) (y :: l) = some y :=
        List.find?_cons_of_pos l (by simp [hy])
      rw [hf] at h
      cases h
      have := inflightCount_filter_le (fun y => y.id != c) r l
      rw [List.filter_cons_of_neg (by simp [hy]), inflightCount_cons]
      omega
    · have hf : List.find? (fun y => y.id == c) (y :: l) = List.find? (fun y => y.id == c) l :=
        List.find?_cons_of_neg l (by simp [hy])
      rw [hf] at h
      have ih := inflightCount_filter_add c x r l h
      rw [List.filter_cons_of_pos (by simp [hy]), inflightCount_cons, inflightCount_cons]
      omega

theorem Shrinks_PrioritizeSelf (s : NetworkStd) (c : Nat) : Shrinks s (PrioritizeSelf s c) := by
  unfold PrioritizeSelf
  cases hx : s.conn c with
  | none => exact Shrinks.refl s
  | some x =>
    refine ⟨fun h => ?_, rfl, fun _ r => ?_⟩
    · have hid : x.id = c := by
        have := List.find?_some hx
        simpa using this
      show ((x :: s.m_Connections.filter (fun y => y.id != c)).map (fun y => y.id)).Nodup
      rw [List.map_cons, List.nodup_cons]
      refine ⟨?_, Nodup_ids_filter _ _ h⟩
      intro hm
      obtain ⟨y, hy, hyx⟩ := List.mem_map.mp hm
      have := (List.mem_filter.mp hy).2
      simp only [bne_iff_ne, ne_eq] at this
      exact this (hyx.trans hid)
    · have := inflightCount_filter_add c x r s.m_Connections hx
      simp only [NetworkStd.occurrences, inflightCount_cons]
      omega

theorem Shrinks_connect (s : NetworkStd) (x : Connection) (hl : x.m_lst = [])
    (hid : x.id ∉ s.m_Connections.map (fun y => y.id)) :
    Shrinks s { s with m_Connections := s.m_Connections ++ [x] } := by
  refine ⟨fun h => ?_, rfl, fun _ r => ?_⟩
  · show ((s.m_Connections ++ [x]).map (fun y => y.id)).Nodup
    rw [List.map_append, List.nodup_append]
    refine ⟨h, by simp, ?_⟩
    intro a ha hb
    simp only [List.map_cons, List.map_nil, List.mem_singleton] at hb
    exact hid (hb ▸ ha)
  · simp [NetworkStd.occurrences, inflightCount, hl]

theorem Shrinks_environment (s : NetworkStd) (conns : List Connection) (history : List Full)
    (h : conns.map (fun y => (y.id, y.m_lst)) = s.m_Connections.map (fun y => (y.id, y.m_lst))) :
    Shrinks s { s with m_Connections := conns, m_History := history } := by
  have hids : conns.map (fun y => y.id) = s.m_Connections.map (fun y => y.id) := by
    have := congrArg (List.map Prod.fst) h
    simpa [List.map_map, Function.comp_def] using this
  have hcnt : ∀ r, inflightCount conns r = inflightCount s.m_Connections r := by
    intro r
    have := congrArg (List.map (fun p : Nat × List RequestPtr => p.2.count r)) h
    simp only [List.map_map, Function.comp_def] at this
    simp only [inflightCount, this]
  refine ⟨fun hn => ?_, rfl, fun _ r => ?_⟩
  · unfold IdsNodup; rw [hids]; exact hn
  · simp only [NetworkStd.occurrences, hcnt]; exact Nat.le_refl _

theorem occurrences_eq_count (s : NetworkStd) (r : RequestPtr) :
    s.occurrences r = s.allQueued.count r := by
  simp [NetworkStd.occurrences, NetworkStd.allQueued, inflightCount, List.count_append,
    List.count_flatten, List.map_map, Function.comp_def]

theorem Unique_of_Shrinks {s t : NetworkStd} (h : Unique s) (hs : Shrinks s t) : Unique t := by
  obtain ⟨h1, h2, h3⟩ := h
  refine ⟨hs.1 h1, fun r => Nat.le_trans (hs.2.2 h1 r) (h2 r), fun r hr => ?_⟩
  rw [hs.2.1]
  exact h3 r (Nat.lt_of_lt_of_le hr (hs.2.2 h1 r))

theorem Unique_parked (s : NetworkStd) (r : RequestPtr) (h : Nat) (hu : Unique s)
    (hr : (s.heap r).m_pTrg = none) : Unique (parked s r h) := by
  obtain ⟨h1, h2, h3⟩ := hu
  have h0 : s.occurrences r = 0 := by
    rcases Nat.eq_zero_or_pos (s.occurrences r) with h0 | h0
    · exact h0
    · have := h3 r h0
      rw [hr] at this
      simp at this
  have hocc : ∀ q, (parked s r h).occurrences q = s.occurrences q + (if r = q then 1 else 0) := by
    intro q
    simp only [NetworkStd.occurrences, parked, List.count_append, List.count_singleton]
    by_cases hq : r = q <;> simp [hq]; omega
  refine ⟨h1, fun q => ?_, fun q hq => ?_⟩
  · rw [hocc]
    by_cases hq : r = q
    · subst hq; simp [h0]
    · simp [hq]; exact h2 q
  · rw [hocc] at hq
    by_cases hqr : r = q
    · subst hqr; simp [parked]
    · have hqr' : ¬ q = r := fun e => hqr e.symm
      simp only [hqr, if_false, Nat.add_zero] at hq
      simp only [parked, hqr', if_false]
      exact h3 q hq

theorem PostRequest_eq (s : NetworkStd) (r : RequestPtr) (h : Nat) :
    PostRequest s r h = OnNewRequests (parked s r h) := rfl

theorem Unique_of_Reachable : ∀ {s : NetworkStd}, Reachable false s → Unique s := by
  intro s hs
  induction hs with
  | init s h1 h2 _ =>
    refine ⟨by simp [IdsNodup, h1], fun r => by simp [NetworkStd.occurrences, inflightCount, h1, h2],
      fun r hr => ?_⟩
    simp [NetworkStd.occurrences, inflightCount, h1, h2] at hr
  | step s t _ hst ih =>
    cases hst with
    | PostRequest r h hr =>
      rw [PostRequest_eq]
      exact Unique_of_Shrinks (Unique_parked s r h ih hr) (Shrinks_OnNewRequests _)
    | AssignRequests c => exact Unique_of_Shrinks ih (Shrinks_AssignRequests s c)
    | OnMsg c ty valid => exact Unique_of_Shrinks ih (Shrinks_OnMsg s c ty valid)
    | OnMsgDataMissing c => exact Unique_of_Shrinks ih (Shrinks_OnMsgDataMissing s c)
    | ResetInternal c => exact Unique_of_Shrinks ih (Shrinks_ResetInternal s c)
    | ResetAll c => exact Unique_of_Shrinks ih (Shrinks_ResetAll s c)
    | destroy c => exact Unique_of_Shrinks ih (Shrinks_destroy s c)
    | PrioritizeSelf c => exact Unique_of_Shrinks ih (Shrinks_PrioritizeSelf s c)
    | connect x hl hid => exact Unique_of_Shrinks ih (Shrinks_connect s x hl hid)
    | environment conns history h => exact Unique_of_Shrinks ih (Shrinks_environment s conns history h)
    | release r hr =>
      obtain ⟨h1, h2, h3⟩ := ih
      refine ⟨h1, h2, fun q hq => ?_⟩
      have hq' : 0 < s.occurrences q := hq
      have hne : ¬ q = r := by
        intro e
        rw [e, hr] at hq'
        exact Nat.lt_irrefl 0 hq'
      simp only [cancelRequest, hne, if_false]
      exact h3 q hq'
    | cancel r hc => exact absurd hc (by decide)

/-! ### Traces -/

theorem session_append_one (c : Nat) (tr : List Event) (e : Event) :
    session c (tr ++ [e]) = if e = Event.ResetInternal c then [] else session c tr ++ [e] := by
  simp [session, List.foldl_append]

theorem session_append (c : Nat) (tr : List Event) : ∀ evs : List Event,
    (∀ e ∈ evs, e ≠ Event.ResetInternal c) → session c (tr ++ evs) = session c tr ++ evs := by
  intro evs
  induction evs using List.reverseRecOn with
  | nil => intro _; simp
  | append_singleton evs e ih =>
    intro h
    have he : e ≠ Event.ResetInternal c := h e (by simp)
    rw [← List.append_assoc, session_append_one, if_neg he,
      ih (fun e' he' => h e' (by simp [he'])), List.append_assoc]

theorem sent_append (c : Nat) (tr evs : List Event) (h : ∀ e ∈ evs, e ≠ Event.ResetInternal c) :
    sent c (tr ++ evs) = sent c tr ++ evs.filterMap (Event.sentOn c) := by
  simp [sent, session_append c tr evs h]

theorem answered_append (c : Nat) (tr evs : List Event)
    (h : ∀ e ∈ evs, e ≠ Event.ResetInternal c) :
    answered c (tr ++ evs) = answered c tr ++ evs.filterMap (Event.answeredOn c) := by
  simp [answered, session_append c tr evs h]

theorem neutral_filterMap (c : Nat) : ∀ evs : List Event, (∀ e ∈ evs, e.neutral = true) →
    (∀ e ∈ evs, e ≠ Event.ResetInternal c) ∧ evs.filterMap (Event.sentOn c) = [] ∧
      evs.filterMap (Event.answeredOn c) = []
  | [], _ => by simp
  | e :: evs, h => by
    have ih := neutral_filterMap c evs (fun e' he' => h e' (by simp [he']))
    have he := h e (by simp)
    cases e <;> simp [Event.neutral] at he <;>
      simp [Event.sentOn, Event.answeredOn, ih.2.1, ih.2.2] <;> exact ih.1

/-! ### Preservation of the order of replies -/

theorem InOrder_congr {s t : NetworkStd} (h : InOrder s) (ht : t.trace = s.trace)
    (hi : ∀ c, t.inflight c = s.inflight c) : InOrder t := by
  intro c; rw [ht, hi]; exact h c

theorem InOrder_neutral {s t : NetworkStd} (evs : List Event) (h : InOrder s)
    (ht : t.trace = s.trace ++ evs) (hn : ∀ e ∈ evs, e.neutral = true)
    (hi : ∀ c, t.inflight c = s.inflight c) : InOrder t := by
  intro c
  obtain ⟨h1, h2, h3⟩ := neutral_filterMap c evs hn
  rw [ht, hi, sent_append c _ _ h1, answered_append c _ _ h1, h2, h3, List.append_nil,
    List.append_nil]
  exact h c

theorem inflight_modifyConn_same (s : NetworkStd) (c : Nat) (f : Connection → Connection)
    (hid : ∀ x, (f x).id = x.id) (hl : ∀ x, (f x).m_lst = x.m_lst) (d : Nat) :
    (s.modifyConn c f).inflight d = s.inflight d := by
  unfold NetworkStd.inflight
  by_cases hd : d = c
  · subst hd
    rw [conn_modifyConn s d f hid]
    cases s.conn d <;> simp [hl]
  · rw [conn_modifyConn_ne s c d hd f hid]

theorem inflight_modifyConn (s : NetworkStd) (c : Nat) (f : Connection → Connection)
    (hid : ∀ x, (f x).id = x.id) (x : Connection) (hx : s.conn c = some x) :
    (s.modifyConn c f).inflight c = (f x).m_lst := by
  unfold NetworkStd.inflight
  rw [conn_modifyConn s c f hid, hx]
  rfl

theorem inflight_modifyConn_ne (s : NetworkStd) (c d : Nat) (hd : d ≠ c)
    (f : Connection → Connection) (hid : ∀ x, (f x).id = x.id) :
    (s.modifyConn c f).inflight d = s.inflight d := by
  unfold NetworkStd.inflight
  rw [conn_modifyConn_ne s c d hd f hid]

theorem assignEvent_cases (c : Nat) (hp : RequestPtr → Request) (sup : RequestType → Bool)
    (Q : List RequestPtr) (e : Event) (he : e ∈ Q.filterMap (assignEvent c hp sup)) :
    (∃ n, e = Event.Delete n) ∨ (∃ n, e = Event.SendRequest c n) := by
  obtain ⟨n, _, hn⟩ := List.mem_filterMap.mp he
  unfold assignEvent at hn
  split at hn
  · cases hn; exact Or.inl ⟨n, rfl⟩
  · split at hn
    · cases hn; exact Or.inr ⟨n, rfl⟩
    · cases hn

theorem assignEvent_not_reset (c d : Nat) (hp : RequestPtr → Request) (sup : RequestType → Bool)
    (Q : List RequestPtr) : ∀ e ∈ Q.filterMap (assignEvent c hp sup), e ≠ Event.ResetInternal d := by
  intro e he
  rcases assignEvent_cases c hp sup Q e he with ⟨n, rfl⟩ | ⟨n, rfl⟩ <;> simp

theorem assignEvent_answered (c d : Nat) (hp : RequestPtr → Request) (sup : RequestType → Bool)
    (Q : List RequestPtr) :
    (Q.filterMap (assignEvent c hp sup)).filterMap (Event.answeredOn d) = [] := by
  rw [List.filterMap_eq_nil_iff]
  intro e he
  rcases assignEvent_cases c hp sup Q e he with ⟨n, rfl⟩ | ⟨n, rfl⟩ <;> rfl

theorem assignEvent_sent_ne (c d : Nat) (hd : d ≠ c) (hp : RequestPtr → Request)
    (sup : RequestType → Bool) (Q : List RequestPtr) :
    (Q.filterMap (assignEvent c hp sup)).filterMap (Event.sentOn d) = [] := by
  rw [List.filterMap_eq_nil_iff]
  intro e he
  have hcd : ¬ c = d := fun e => hd e.symm
  rcases assignEvent_cases c hp sup Q e he with ⟨n, rfl⟩ | ⟨n, rfl⟩
  · rfl
  · simp [Event.sentOn, hcd]

theorem InOrder_AssignRequests (s : NetworkStd) (c : Nat) (h : InOrder s) :
    InOrder (AssignRequests s c) := by
  cases hx : s.conn c with
  | none => rw [AssignRequests_none s c hx]; exact h
  | some x =>
    intro d
    have hnr := assignEvent_not_reset c d s.heap (IsSupported s x) s.m_lst
    rw [AssignRequests_trace s c x hx, sent_append d _ _ hnr, answered_append d _ _ hnr,
      assignEvent_answered, List.append_nil]
    by_cases hd : d = c
    · subst hd
      rw [filterMap_sentOn_assignEvent, inflight_of_conn (AssignRequests_conn s d x hx), h d,
        inflight_of_conn hx, List.append_assoc]
    · rw [assignEvent_sent_ne c d hd, List.append_nil]
      simp only [NetworkStd.inflight, AssignRequests_conn_ne s c d hd]
      exact h d

theorem InOrder_OnNewRequests (s : NetworkStd) (h : InOrder s) : InOrder (OnNewRequests s) := by
  rw [OnNewRequests_eq]
  cases s.m_Connections.find? (fun y => y.IsLive && y.IsSecureOut) with
  | none => exact h
  | some x => exact InOrder_AssignRequests s x.id h

theorem InOrder_doneTimer (c : Nat) (rest : List RequestPtr) (s : NetworkStd) (h : InOrder s) :
    InOrder (doneTimer c rest s) := by
  unfold doneTimer
  split
  · exact InOrder_congr h rfl
      (inflight_modifyConn_same s c _ (fun _ => rfl) (fun _ => rfl))
  · exact h

theorem InOrder_Finish (s : NetworkStd) (n : RequestPtr) (h : InOrder s) :
    InOrder (Finish s n) := by
  refine InOrder_neutral
    ((if (s.heap n).m_pTrg.isSome then [Event.OnComplete n] else []) ++ [Event.Delete n]) h
    (by rw [Finish_trace, List.append_assoc]) ?_ (fun _ => ?_)
  · intro e he
    by_cases ha : (s.heap n).m_pTrg.isSome = true <;> simp [ha] at he
    · rcases he with rfl | rfl <;> rfl
    · subst he; rfl
  · unfold Finish
    split <;> rfl

theorem InOrder_answer (s : NetworkStd) (c : Nat) (b : Bool) (x : Connection) (n : RequestPtr)
    (rest : List RequestPtr) (e : Event) (h : InOrder s) (hx : s.conn c = some x)
    (hl : x.m_lst = n :: rest) (he : e.answers c n) :
    InOrder (OnFirstRequestDone (s.emit e) c b) := by
  have hx' : (s.emit e).conn c = some x := hx
  -- the state after the event and the removal of the first node
  have hpop : InOrder ((s.emit e).modifyConn c (fun y => { y with m_lst := rest })) := by
    intro d
    have hnr : ∀ e' ∈ [e], e' ≠ Event.ResetInternal d := by
      intro e' he'
      rw [List.mem_singleton] at he'
      subst he'
      rcases he with rfl | rfl <;> simp
    show sent d (s.trace ++ [e]) = answered d (s.trace ++ [e]) ++ _
    rw [sent_append d _ _ hnr, answered_append d _ _ hnr]
    have hs : [e].filterMap (Event.sentOn d) = [] := by
      rcases he with rfl | rfl <;> rfl
    rw [hs, List.append_nil]
    by_cases hd : d = c
    · subst hd
      have ha : [e].filterMap (Event.answeredOn d) = [n] := by
        rcases he with rfl | rfl <;> simp [Event.answeredOn]
      have hi1 := inflight_modifyConn (s.emit e) d (fun y => { y with m_lst := rest })
        (fun _ => rfl) x hx'
      rw [ha, hi1, h d, inflight_of_conn hx, hl]
      simp
    · have hdc : ¬ c = d := fun e => hd e.symm
      have ha : [e].filterMap (Event.answeredOn d) = [] := by
        rcases he with rfl | rfl <;> simp [Event.answeredOn, hdc]
      have hi1 := inflight_modifyConn_ne (s.emit e) c d hd (fun y => { y with m_lst := rest })
        (fun _ => rfl)
      rw [ha, List.append_nil, hi1]
      exact h d
  rw [OnFirstRequestDone_cons (s.emit e) c b x n rest hx' hl]
  split
  · split
    · exact InOrder_OnNewRequests _ (InOrder_congr hpop rfl (fun _ => rfl))
    · exact InOrder_doneTimer _ _ _ (InOrder_Finish _ _ hpop)
  · exact InOrder_doneTimer _ _ _
      (InOrder_neutral [Event.Delete n] hpop rfl (by simp [Event.neutral]) (fun _ => rfl))

theorem get_FirstRequest_some (s : NetworkStd) (c : Nat) (r : RequestPtr)
    (h : get_FirstRequest s c = some r) :
    ∃ x rest, s.conn c = some x ∧ x.m_lst = r :: rest := by
  unfold get_FirstRequest at h
  cases hx : s.conn c with
  | none => simp only [hx] at h; cases h
  | some x =>
    simp only [hx] at h
    cases hl : x.m_lst with
    | nil => rw [hl] at h; cases h
    | cons n rest =>
      rw [hl] at h
      simp only [List.head?_cons, Option.some.injEq] at h
      exact ⟨x, rest, rfl, by rw [hl, h]⟩

theorem get_FirstRequestStrict_some (s : NetworkStd) (c : Nat) (ty : RequestType) (r : RequestPtr)
    (h : get_FirstRequestStrict s c ty = some r) :
    get_FirstRequest s c = some r ∧ (s.heap r).get_Type = ty := by
  unfold get_FirstRequestStrict at h
  cases hf : get_FirstRequest s c with
  | none => simp only [hf] at h; cases h
  | some r' =>
    simp only [hf] at h
    by_cases hty : (s.heap r').get_Type ≠ ty
    · rw [if_pos hty] at h; cases h
    · rw [if_neg hty] at h
      cases h
      exact ⟨rfl, not_not.mp hty⟩

theorem InOrder_OnMsg (s : NetworkStd) (c : Nat) (ty : RequestType) (valid : Bool)
    (h : InOrder s) : InOrder (outcome (OnMsg s c ty valid)) := by
  unfold OnMsg
  split
  · rename_i r x hr hx
    split
    · exact h
    · obtain ⟨x', rest, hx', hl⟩ :=
        get_FirstRequest_some s c r (get_FirstRequestStrict_some s c ty r hr).1
      exact InOrder_answer s c _ x' r rest _ h hx' hl (Or.inl rfl)
  · exact h

theorem InOrder_OnMsgDataMissing (s : NetworkStd) (c : Nat) (h : InOrder s) :
    InOrder (outcome (OnMsgDataMissing s c)) := by
  unfold OnMsgDataMissing
  split
  · rename_i r x hr hx
    obtain ⟨x', rest, hx', hl⟩ := get_FirstRequest_some s c r hr
    simp only
    split
    · exact InOrder_answer s c _ x' r rest _ h hx' hl (Or.inr rfl)
    · split
      · exact InOrder_answer s c _ x' r rest _ h hx' hl (Or.inr rfl)
      · exact h
  · exact h


theorem resetEvents_tail_neutral (c : Nat) (x : Connection) :
    ∃ tail, resetEvents c x = [Event.ResetInternal c] ++ tail ∧ ∀ e ∈ tail, e.neutral = true := by
  refine ⟨(if x.m_Flags.Owned then [Event.OnOwnedNode x.m_NodeID false] else [])
    ++ (if x.m_Flags.ReportedConnected then [Event.OnNodeConnected false] else []), ?_, ?_⟩
  · simp [resetEvents]
  · intro e he
    cases h1 : x.m_Flags.Owned <;> cases h2 : x.m_Flags.ReportedConnected <;>
      simp [h1, h2] at he
    · subst he; rfl
    · subst he; rfl
    · rcases he with rfl | rfl <;> rfl

theorem InOrder_ResetInternal (s : NetworkStd) (c : Nat) (h : InOrder s) :
    InOrder (ResetInternal s c) := by
  cases hx : s.conn c with
  | none => rw [ResetInternal_none s c hx]; exact h
  | some x =>
    rw [ResetInternal_eq s c x hx]
    obtain ⟨tail, htail, hneutral⟩ := resetEvents_tail_neutral c x
    intro d
    obtain ⟨n1, n2, n3⟩ := neutral_filterMap d tail hneutral
    show sent d (s.trace ++ resetEvents c x) = answered d (s.trace ++ resetEvents c x) ++ _
    by_cases hd : d = c
    · subst hd
      have hi := inflight_modifyConn
        ({ s with m_lst := s.m_lst ++ x.m_lst, trace := s.trace ++ resetEvents d x }) d
        (fun y => { y with m_pSync := none, m_pTimer := none, m_lst := [] }) (fun _ => rfl) x hx
      rw [hi, htail, ← List.append_assoc, sent_append d _ _ n1, answered_append d _ _ n1, n2, n3,
        List.append_nil, List.append_nil]
      simp [sent, answered, session_append_one]
    · have hi := inflight_modifyConn_ne
        ({ s with m_lst := s.m_lst ++ x.m_lst, trace := s.trace ++ resetEvents c x }) c d hd
        (fun y => { y with m_pSync := none, m_pTimer := none, m_lst := [] }) (fun _ => rfl)
      rw [hi, htail, ← List.append_assoc, sent_append d _ _ n1, answered_append d _ _ n1, n2, n3,
        List.append_nil, List.append_nil]
      have hne : ∀ e ∈ [Event.ResetInternal c], e ≠ Event.ResetInternal d := by
        intro e he
        rw [List.mem_singleton] at he
        subst he
        intro hcd
        cases hcd
        exact hd rfl
      rw [sent_append d _ _ hne, answered_append d _ _ hne]
      simp only [List.filterMap_cons, List.filterMap_nil, Event.sentOn, Event.answeredOn,
        List.append_nil]
      exact h d

theorem InOrder_modifyConn_same (s : NetworkStd) (c : Nat) (f : Connection → Connection)
    (hid : ∀ x, (f x).id = x.id) (hl : ∀ x, (f x).m_lst = x.m_lst) (h : InOrder s) :
    InOrder (s.modifyConn c f) :=
  InOrder_congr h rfl (inflight_modifyConn_same s c f hid hl)

theorem InOrder_ResetAll (s : NetworkStd) (c : Nat) (h : InOrder s) : InOrder (ResetAll s c) := by
  have h1 : InOrder (s.modifyConn c (fun x => { x with IsLive := false, IsSecureOut := false })) :=
    InOrder_modifyConn_same s c _ (fun _ => rfl) (fun _ => rfl) h
  exact InOrder_modifyConn_same _ c _ (fun _ => rfl) (fun _ => rfl) (InOrder_ResetInternal _ c h1)

theorem find?_filter_ne (c d : Nat) (hd : d ≠ c) : ∀ l : List Connection,
    (l.filter (fun y => y.id != c)).find? (fun y => y.id == d) = l.find? (fun y => y.id == d)
  | [] => rfl
  | y :: l => by
    have ih := find?_filter_ne c d hd l
    by_cases hy : y.id = c
    · have hyd : ¬ y.id = d := by omega
      have hf : List.find? (fun y => y.id == d) (y :: l) = List.find? (fun y => y.id == d) l :=
        List.find?_cons_of_neg l (by simp [hyd])
      rw [List.filter_cons_of_neg (by simp [hy]), hf, ih]
    · rw [List.filter_cons_of_pos (by simp [hy])]
      by_cases hyd : y.id = d
      · have hf1 : List.find? (fun y => y.id == d) (y :: l) = some y :=
          List.find?_cons_of_pos l (by simp [hyd])
        have hf2 : List.find? (fun y => y.id == d) (y :: l.filter (fun y => y.id != c)) = some y :=
          List.find?_cons_of_pos _ (by simp [hyd])
        rw [hf1, hf2]
      · have hf1 : List.find? (fun y => y.id == d) (y :: l) = List.find? (fun y => y.id == d) l :=
          List.find?_cons_of_neg l (by simp [hyd])
        have hf2 : List.find? (fun y => y.id == d) (y :: l.filter (fun y => y.id != c)) =
            List.find? (fun y => y.id == d) (l.filter (fun y => y.id != c)) :=
          List.find?_cons_of_neg _ (by simp [hyd])
        rw [hf1, hf2, ih]

theorem find?_filter_self (c : Nat) (l : List Connection) :
    (l.filter (fun y => y.id != c)).find? (fun y => y.id == c) = none := by
  rw [List.find?_eq_none]
  intro y hy
  have := (List.mem_filter.mp hy).2
  simpa using this

theorem inflight_ResetInternal_self (s : NetworkStd) (c : Nat) :
    (ResetInternal s c).inflight c = [] := by
  cases hx : s.conn c with
  | none => rw [ResetInternal_none s c hx]; simp [NetworkStd.inflight, hx]
  | some x =>
    rw [ResetInternal_eq s c x hx]
    exact inflight_modifyConn
      ({ s with m_lst := s.m_lst ++ x.m_lst, trace := s.trace ++ resetEvents c x }) c
      (fun y => { y with m_pSync := none, m_pTimer := none, m_lst := [] }) (fun _ => rfl) x hx

theorem InOrder_destroy (s : NetworkStd) (c : Nat) (h : InOrder s) :
    InOrder (Connection.destroy s c) := by
  have ht := InOrder_ResetInternal s c h
  have hc := inflight_ResetInternal_self s c
  intro d
  show sent d (ResetInternal s c).trace = answered d (ResetInternal s c).trace ++ _
  by_cases hd : d = c
  · subst hd
    have : (Connection.destroy s d).inflight d = [] := by
      simp only [NetworkStd.inflight, NetworkStd.conn, Connection.destroy, find?_filter_self]
    rw [this, ht d, hc]
  · have : (Connection.destroy s c).inflight d = (ResetInternal s c).inflight d := by
      simp only [NetworkStd.inflight, NetworkStd.conn, Connection.destroy,
        find?_filter_ne c d hd]
    rw [this]
    exact ht d

theorem InOrder_PrioritizeSelf (s : NetworkStd) (c : Nat) (h : InOrder s) :
    InOrder (PrioritizeSelf s c) := by
  unfold PrioritizeSelf
  cases hx : s.conn c with
  | none => exact h
  | some x =>
    have hid : x.id = c := by
      have := List.find?_some hx
      simpa using this
    refine InOrder_congr h rfl (fun d => ?_)
    simp only [NetworkStd.inflight, NetworkStd.conn]
    by_cases hd : d = c
    · subst hd
      have hf : List.find? (fun y => y.id == d) (x :: s.m_Connections.filter (fun y => y.id != d))
          = some x := List.find?_cons_of_pos _ (by simp [hid])
      rw [hf]
      have hx2 : List.find? (fun y => y.id == d) s.m_Connections = some x := hx
      rw [hx2]
    · have hxd : ¬ x.id = d := by omega
      have hf : List.find? (fun y => y.id == d) (x :: s.m_Connections.filter (fun y => y.id != c))
          = List.find? (fun y => y.id == d) (s.m_Connections.filter (fun y => y.id != c)) :=
        List.find?_cons_of_neg _ (by simp [hxd])
      rw [hf, find?_filter_ne c d hd]

theorem InOrder_connect (s : NetworkStd) (x : Connection) (hl : x.m_lst = []) (h : InOrder s) :
    InOrder { s with m_Connections := s.m_Connections ++ [x] } := by
  refine InOrder_congr h rfl (fun d => ?_)
  simp only [NetworkStd.inflight, NetworkStd.conn, List.find?_append]
  cases hf : List.find? (fun y => y.id == d) s.m_Connections with
  | some y => rfl
  | none =>
    by_cases hxd : x.id = d
    · simp [hxd, hl]
    · simp [hxd]

theorem find?_pairs (d : Nat) : ∀ l : List Connection,
    (l.find? (fun y => y.id == d)).map (fun y => y.m_lst) =
      ((l.map (fun y => (y.id, y.m_lst))).find? (fun p => p.1 == d)).map (fun p => p.2)
  | [] => rfl
  | y :: l => by
    by_cases hy : y.id = d
    · simp [List.find?_cons, hy]
    · have hb : (y.id == d) = false := by simp [hy]
      simp only [List.map_cons, List.find?_cons, hb]
      exact find?_pairs d l

theorem InOrder_environment (s : NetworkStd) (conns : List Connection) (history : List Full)
    (hc : conns.map (fun y => (y.id, y.m_lst)) = s.m_Connections.map (fun y => (y.id, y.m_lst)))
    (h : InOrder s) : InOrder { s with m_Connections := conns, m_History := history } := by
  refine InOrder_congr h rfl (fun d => ?_)
  have h1 := find?_pairs d conns
  have h2 := find?_pairs d s.m_Connections
  rw [hc, ← h2] at h1
  simp only [NetworkStd.inflight, NetworkStd.conn]
  cases ha : List.find? (fun y => y.id == d) conns <;>
    cases hb : List.find? (fun y => y.id == d) s.m_Connections <;>
    simp [ha, hb] at h1 ⊢
  exact h1

theorem InOrder_of_Reachable (cancel : Bool) : ∀ {s : NetworkStd}, Reachable cancel s → InOrder s := by
  intro s hs
  induction hs with
  | init s h1 _ h3 =>
    intro c
    simp [h3, sent, answered, session, NetworkStd.inflight, NetworkStd.conn, h1]
  | step s t _ hst ih =>
    cases hst with
    | PostRequest r h hr =>
      rw [PostRequest_eq]
      exact InOrder_OnNewRequests _ (InOrder_congr ih rfl (fun _ => rfl))
    | AssignRequests c => exact InOrder_AssignRequests s c ih
    | OnMsg c ty valid => exact InOrder_OnMsg s c ty valid ih
    | OnMsgDataMissing c => exact InOrder_OnMsgDataMissing s c ih
    | ResetInternal c => exact InOrder_ResetInternal s c ih
    | ResetAll c => exact InOrder_ResetAll s c ih
    | destroy c => exact InOrder_destroy s c ih
    | PrioritizeSelf c => exact InOrder_PrioritizeSelf s c ih
    | connect x hl hid => exact InOrder_connect s x hl ih
    | environment conns history h => exact InOrder_environment s conns history h ih
    | release r hr => exact InOrder_congr ih rfl (fun _ => rfl)
    | cancel r hc => exact InOrder_congr ih rfl (fun _ => rfl)

theorem validated_sublist_answered (c : Nat) : ∀ l : List Event,
    (l.filterMap (Event.validatedOn c)).Sublist (l.filterMap (Event.answeredOn c))
  | [] => List.Sublist.slnil
  | e :: l => by
    have ih := validated_sublist_answered c l
    cases e with
    | OnRequestData c1 r =>
      by_cases h : c1 = c
      · simp only [List.filterMap_cons, Event.validatedOn, Event.answeredOn, h, if_true]
        exact ih.cons₂ r
      · simpa only [List.filterMap_cons, Event.validatedOn, Event.answeredOn, h, if_false] using ih
    | DataMissing c1 r =>
      by_cases h : c1 = c
      · simp only [List.filterMap_cons, Event.validatedOn, Event.answeredOn, h, if_true]
        exact ih.cons r
      · simpa only [List.filterMap_cons, Event.validatedOn, Event.answeredOn, h, if_false] using ih
    | _ => simpa only [List.filterMap_cons, Event.validatedOn, Event.answeredOn] using ih

theorem OnMsg_ok (s t : NetworkStd) (c : Nat) (ty : RequestType) (valid : Bool)
    (h : OnMsg s c ty valid = .ok t) :
    ∃ x r rest, s.conn c = some x ∧ x.m_lst = r :: rest ∧ (s.heap r).get_Type = ty ∧
      valid = true ∧
      t = OnFirstRequestDone (s.emit (.OnRequestData c r)) c (IsSupported s x ty) := by
  unfold OnMsg at h
  split at h
  · rename_i r x hr hx
    obtain ⟨hf, hty⟩ := get_FirstRequestStrict_some s c ty r hr
    obtain ⟨x', rest, hx', hl⟩ := get_FirstRequest_some s c r hf
    have hxx : x' = x := by rw [hx] at hx'; cases hx'; rfl
    subst hxx
    cases valid with
    | false => simp at h
    | true =>
      simp only [Bool.not_true, Bool.false_eq_true, if_false, Except.ok.injEq] at h
      exact ⟨x', r, rest, hx, hl, hty, rfl, h.symm⟩
  · cases h

theorem OnMsg_fault (s : NetworkStd) (c : Nat) (ty : RequestType) (valid : Bool)
    (h : s.inflight c = [] ∨ ∃ r rest, s.inflight c = r :: rest ∧ (s.heap r).get_Type ≠ ty) :
    OnMsg s c ty valid = .error s := by
  have hnone : get_FirstRequestStrict s c ty = none := by
    unfold get_FirstRequestStrict get_FirstRequest
    unfold NetworkStd.inflight at h
    cases hx : s.conn c with
    | none => rfl
    | some x =>
      simp only [hx] at h ⊢
      rcases h with h | ⟨r, rest, h, hty⟩
      · rw [h]; rfl
      · rw [h]; simp [hty]
  unfold OnMsg
  rw [hnone]

theorem OnFirstRequestDone_trace_prefix (s : NetworkStd) (c : Nat) (b : Bool) :
    (OnFirstRequestDone s c b).trace.take s.trace.length = s.trace := by
  have hA : ∀ (u : NetworkStd) (d : Nat), (AssignRequests u d).trace.take u.trace.length = u.trace := by
    intro u d
    cases hx : u.conn d with
    | none => rw [AssignRequests_none u d hx]; simp
    | some x => rw [AssignRequests_trace u d x hx, List.take_left']; rfl
  have hN : ∀ u : NetworkStd, (OnNewRequests u).trace.take u.trace.length = u.trace := by
    intro u
    rw [OnNewRequests_eq]
    cases u.m_Connections.find? (fun y => y.IsLive && y.IsSecureOut) with
    | none => simp
    | some x => exact hA u x.id
  have hD : ∀ (rest : List RequestPtr) (u : NetworkStd), (doneTimer c rest u).trace = u.trace := by
    intro rest u
    unfold doneTimer
    split <;> rfl
  cases hx : s.conn c with
  | none => rw [OnFirstRequestDone_none s c b hx]; simp
  | some x =>
    cases hl : x.m_lst with
    | nil => rw [OnFirstRequestDone_nil s c b x hx hl]; simp
    | cons n rest =>
      rw [OnFirstRequestDone_cons s c b x n rest hx hl]
      split
      · split
        · exact hN { s.modifyConn c (fun y => { y with m_lst := rest }) with
            m_lst := (s.modifyConn c (fun y => { y with m_lst := rest })).m_lst ++ [n] }
        · rw [hD, Finish_trace, List.append_assoc]
          exact List.take_left' rfl
      · rw [hD]
        exact List.take_left' rfl

theorem parked_conn (s : NetworkStd) (r : RequestPtr) (h : Nat) (c : Nat) :
    (parked s r h).conn c = s.conn c := rfl

theorem parked_supported (s : NetworkStd) (r : RequestPtr) (h : Nat) (x : Connection)
    (ty : RequestType) : IsSupported (parked s r h) x ty = IsSupported s x ty :=
  IsSupported_congr _ _ _ _ rfl rfl rfl rfl ty

/-! ## The claims on the request dispatcher -/

/-- C6: in every state reachable from the start through `PostRequest` (of a request whose
target was unset), `AssignRequests`, typed replies, `DataMissing`, resets and destruction of
connections (and changes of the other fields of the connections and of the history), the
nodes of the global queue and of all the queues in flight hold pairwise distinct requests:
every queued request is in exactly one queue, exactly once; and it has its handler
attached. -/
theorem C6_request_uniqueness (s : NetworkStd) (h : Reachable false s) :
    s.allQueued.Nodup ∧ (∀ r ∈ s.allQueued, (s.heap r).m_pTrg.isSome = true) := by
  obtain ⟨_, h2, h3⟩ := Unique_of_Reachable h
  constructor
  · rw [List.nodup_iff_count_le_one]
    intro r
    rw [← occurrences_eq_count]
    exact h2 r
  · intro r hr
    apply h3
    rw [occurrences_eq_count]
    exact List.count_pos_iff.mpr hr

/-- C6 at the state reached by connecting one connection and posting the requests 1 and 2:
both are in flight on that connection, once. -/
theorem C6_request_uniqueness_witness :
    Reachable false (PostRequest (PostRequest Example.one 1 100) 2 100) ∧
    (PostRequest (PostRequest Example.one 1 100) 2 100).allQueued = [1, 2] ∧
    (PostRequest (PostRequest Example.one 1 100) 2 100).allQueued.Nodup :=
  have hr : Reachable false (PostRequest (PostRequest Example.one 1 100) 2 100) :=
    Reachable.step _ _
      (Reachable.step _ _
        (Reachable.step _ _ (Reachable.init Example.start rfl rfl rfl)
          (Step.connect Example.start Example.atTip rfl (by decide)))
        (Step.PostRequest Example.one 1 100 (by decide)))
      (Step.PostRequest (PostRequest Example.one 1 100) 2 100 (by decide))
  ⟨hr, by decide, (C6_request_uniqueness _ hr).1⟩

/-- C7, as stated, fails: after the requests 1 (`EnumHdrs`) and 2 (`Utxo`) were sent on
connection 7, `DataMissing` closed the first without any validation and the typed reply for the
second was validated; the types validated are `[Utxo]`, the types sent begin with
`EnumHdrs`. -/
theorem C7_validated_not_prefix_of_sent :
    Reachable false Example.afterReplies ∧
    Example.afterReplies.types (sent 7 Example.afterReplies.trace) = [.EnumHdrs, .Utxo] ∧
    Example.afterReplies.types (validated 7 Example.afterReplies.trace) = [.Utxo] ∧
    Example.afterReplies.types (validated 7 Example.afterReplies.trace) ≠
      (Example.afterReplies.types (sent 7 Example.afterReplies.trace)).take
        (Example.afterReplies.types (validated 7 Example.afterReplies.trace)).length :=
  have hr : Reachable false Example.afterReplies :=
    Reachable.step _ _
      (Reachable.step _ _
        (Reachable.step _ _
          (Reachable.step _ _
            (Reachable.step _ _ (Reachable.init Example.start rfl rfl rfl)
              (Step.connect Example.start Example.atTip rfl (by decide)))
            (Step.PostRequest Example.one 1 100 (by decide)))
          (Step.PostRequest (PostRequest Example.one 1 100) 2 100 (by decide)))
        (Step.OnMsgDataMissing _ 7))
      (Step.OnMsg _ 7 .Utxo true)
  ⟨hr, by decide, by decide, by decide⟩

/-- C7, amended: a typed reply with tag `ty` is accepted only when the queue in flight of the
connection is not empty, the type of its first request is `ty` and the content passes
validation, and then that request is the one validated; when the queue is empty or the type
of its first request differs, `ThrowUnexpected` is raised in the unchanged state (nothing is
validated or completed).  Consequently, in every reachable state (also with cancellations)
and for every connection, the requests whose reply was accepted since the last reset of the
connection (typed replies validated, and requests closed by `DataMissing`) are the requests
sent on it since then, taken up to the same length; the validated ones are a subsequence. -/
theorem C7_reply_order (cancel : Bool) (s : NetworkStd) (h : Reachable cancel s) (c : Nat)
    (ty : RequestType) (valid : Bool) :
    (∀ t, OnMsg s c ty valid = .ok t →
      ∃ x r rest, s.conn c = some x ∧ x.m_lst = r :: rest ∧ (s.heap r).get_Type = ty ∧
        valid = true ∧ t.trace.take (s.trace.length + 1) = s.trace ++ [Event.OnRequestData c r]) ∧
    ((s.inflight c = [] ∨ ∃ r rest, s.inflight c = r :: rest ∧ (s.heap r).get_Type ≠ ty) →
      OnMsg s c ty valid = .error s) ∧
    answered c s.trace = (sent c s.trace).take (answered c s.trace).length ∧
    (validated c s.trace).Sublist (answered c s.trace) := by
  refine ⟨?_, OnMsg_fault s c ty valid, ?_, validated_sublist_answered c _⟩
  · intro t ht
    obtain ⟨x, r, rest, hx, hl, hty, hv, rfl⟩ := OnMsg_ok s t c ty valid ht
    refine ⟨x, r, rest, hx, hl, hty, hv, ?_⟩
    have := OnFirstRequestDone_trace_prefix (s.emit (.OnRequestData c r)) c (IsSupported s x ty)
    simpa [NetworkStd.emit] using this
  · rw [InOrder_of_Reachable cancel h c, List.take_left']
    rfl

/-- C7, amended, at the state after the requests 1 and 2 were sent on connection 7: a reply
of type `Utxo` meets the `EnumHdrs` request at the front and is a fault. -/
theorem C7_reply_order_witness :
    Reachable false (PostRequest (PostRequest Example.one 1 100) 2 100) ∧
    OnMsg (PostRequest (PostRequest Example.one 1 100) 2 100) 7 .Utxo true =
      .error (PostRequest (PostRequest Example.one 1 100) 2 100) :=
  have hr : Reachable false (PostRequest (PostRequest Example.one 1 100) 2 100) :=
    Reachable.step _ _
      (Reachable.step _ _
        (Reachable.step _ _ (Reachable.init Example.start rfl rfl rfl)
          (Step.connect Example.start Example.atTip rfl (by decide)))
        (Step.PostRequest Example.one 1 100 (by decide)))
      (Step.PostRequest (PostRequest Example.one 1 100) 2 100 (by decide))
  ⟨hr, (C7_reply_order false _ hr 7 .Utxo true).2.1 (Or.inr ⟨1, [2], by decide, by decide⟩)⟩

/-- C8: when `AssignRequests` runs on the connection `x` at address `c`, with global queue
`Q = s.m_lst` and queue in flight `F = x.m_lst`: (i) the global queue becomes the
subsequence of `Q` of the requests with an attached handler that `x` does not support, in
order; (ii) the queue in flight of `c` becomes `F` followed by the subsequence of `Q` of the
attached requests that `x` supports, in order, the trace is extended, and the requests sent
on `c` in the extension are exactly those, once each, in that order; (iii) a request of `Q`
whose handler is detached is deleted: it is not in the global queue, nor (unless it was
already in `F`) in the queue in flight; the queues of the other connections are unchanged. -/
theorem C8_AssignRequests_routing (s : NetworkStd) (c : Nat) (x : Connection)
    (hx : s.conn c = some x) :
    (AssignRequests s c).m_lst =
      s.m_lst.filter (fun n => (s.heap n).m_pTrg.isSome && !IsSupported s x (s.heap n).get_Type) ∧
    (AssignRequests s c).inflight c =
      x.m_lst ++
        s.m_lst.filter (fun n => (s.heap n).m_pTrg.isSome && IsSupported s x (s.heap n).get_Type) ∧
    (AssignRequests s c).trace.take s.trace.length = s.trace ∧
    ((AssignRequests s c).trace.drop s.trace.length).filterMap (Event.sentOn c) =
      s.m_lst.filter (fun n => (s.heap n).m_pTrg.isSome && IsSupported s x (s.heap n).get_Type) ∧
    (∀ n ∈ s.m_lst, (s.heap n).m_pTrg = none →
      n ∉ (AssignRequests s c).m_lst ∧
      (n ∉ x.m_lst → n ∉ (AssignRequests s c).inflight c) ∧
      Event.Delete n ∈ (AssignRequests s c).trace.drop s.trace.length) ∧
    (∀ d, d ≠ c → (AssignRequests s c).inflight d = s.inflight d) := by
  have hm := AssignRequests_m_lst s c x hx
  have ht := AssignRequests_trace s c x hx
  have hc := AssignRequests_conn s c x hx
  refine ⟨hm, ?_, ?_, ?_, ?_, ?_⟩
  · rw [inflight_of_conn hc]; rfl
  · rw [ht, List.take_left']; rfl
  · rw [ht, List.drop_left']
    · exact filterMap_sentOn_assignEvent c s.heap (IsSupported s x) s.m_lst
    · rfl
  · intro n hn hdet
    refine ⟨?_, ?_, ?_⟩
    · rw [hm]
      simp [assignKeep, hdet]
    · intro hnx
      rw [inflight_of_conn hc]
      simp [assignMove, hdet, hnx]
    · rw [ht, List.drop_left' rfl]
      simp only [List.mem_filterMap]
      exact ⟨n, hn, by simp [assignEvent, hdet]⟩
  · intro d hd
    simp only [NetworkStd.inflight, AssignRequests_conn_ne s c d hd]

/-- C8 at a state with global queue `[4, 3]` (4 cancelled, 3 attached and supported) and
`[5]` in flight: the global queue becomes empty and the queue in flight `[5, 3]`. -/
theorem C8_AssignRequests_routing_witness :
    Example.withCancelled.conn 7 = some { Example.atTip with m_lst := [5] } ∧
    (AssignRequests Example.withCancelled 7).m_lst = [] ∧
    (AssignRequests Example.withCancelled 7).inflight 7 = [5, 3] ∧
    (AssignRequests Example.withCancelled 7).trace = [.Delete 4, .SendRequest 7 3] :=
  ⟨by decide,
    (C8_AssignRequests_routing Example.withCancelled 7 { Example.atTip with m_lst := [5] }
      (by decide)).1.trans (by decide),
    by decide, by decide⟩

/-- C9: a request whose handler pointer is null when it is inspected yields no completion:
`AssignRequest` deletes a pending cancelled entry (the trace gets `Delete` only, no send,
and the connections are unchanged); `OnFirstRequestDone` deletes a cancelled first entry
in flight, whatever `bStillSupported` is, without callback and without putting it back into
the global queue; `RequestList::Finish` invokes `OnComplete` exactly when the handler is
attached; and after `AssignRequests` every request in the global queue has a handler. -/
theorem C9_cancelled_never_completes (s : NetworkStd) (c : Nat) (x : Connection)
    (hx : s.conn c = some x) :
    (∀ i n, s.m_lst[i]? = some n → (s.heap n).m_pTrg = none →
      (AssignRequest s c i).1.m_lst = s.m_lst.eraseIdx i ∧
      (AssignRequest s c i).1.trace = s.trace ++ [Event.Delete n] ∧
      (AssignRequest s c i).1.m_Connections = s.m_Connections) ∧
    (∀ b n rest, x.m_lst = n :: rest → (s.heap n).m_pTrg = none →
      (OnFirstRequestDone s c b).trace = s.trace ++ [Event.Delete n] ∧
      (OnFirstRequestDone s c b).inflight c = rest ∧
      (OnFirstRequestDone s c b).m_lst = s.m_lst) ∧
    (∀ n, (Finish s n).trace =
      s.trace ++ (if (s.heap n).m_pTrg.isSome then [Event.OnComplete n] else []) ++
        [Event.Delete n]) ∧
    (∀ r ∈ (AssignRequests s c).m_lst, ((AssignRequests s c).heap r).m_pTrg.isSome = true) := by
  refine ⟨?_, ?_, Finish_trace s, ?_⟩
  · intro i n hi hd
    have : AssignRequest s c i = ({ s with m_lst := s.m_lst.eraseIdx i }.emit (.Delete n), false) := by
      simp only [AssignRequest, hi, hx, hd, Option.isNone_none, if_true]
    rw [this]
    exact ⟨rfl, rfl, rfl⟩
  · intro b n rest hl hd
    obtain ⟨h1, h2, h3, _⟩ := OnFirstRequestDone_detached s c b x n rest hx hl hd
    exact ⟨h1, by rw [inflight_of_conn h2], h3⟩
  · intro r hr
    rw [AssignRequests_heap]
    rw [AssignRequests_m_lst s c x hx] at hr
    have := (List.mem_filter.mp hr).2
    simp only [assignKeep, Bool.and_eq_true] at this
    exact this.1

/-- C9 at a state with the cancelled request 4 pending and the cancelled request 5 in
flight. -/
theorem C9_cancelled_never_completes_witness :
    Example.withCancelled.conn 7 = some { Example.atTip with m_lst := [5] } ∧
    (AssignRequest Example.withCancelled 7 0).1.trace = [.Delete 4] ∧
    (OnFirstRequestDone Example.withCancelled 7 true).trace = [.Delete 5] ∧
    (OnFirstRequestDone Example.withCancelled 7 false).m_lst = [4, 3] :=
  ⟨by decide,
    ((C9_cancelled_never_completes Example.withCancelled 7 { Example.atTip with m_lst := [5] }
      (by decide)).1 0 4 (by decide) (by decide)).2.1,
    ((C9_cancelled_never_completes Example.withCancelled 7 { Example.atTip with m_lst := [5] }
      (by decide)).2.1 true 5 [] (by decide) (by decide)).1,
    ((C9_cancelled_never_completes Example.withCancelled 7 { Example.atTip with m_lst := [5] }
      (by decide)).2.1 false 5 [] (by decide) (by decide)).2.2⟩

/-- C10, as stated, fails: with a first live, secure connection (8) that is behind the tip
and a second live, secure connection (7) that supports the `Utxo` request 2,
`PostRequest` leaves the request in the global queue and sends nothing: `AssignRequests`
was not invoked on connection 7, which does take the request when it is invoked. -/
theorem C10_second_connection_not_notified :
    Example.two.m_Connections = [Example.behind, Example.atTip] ∧
    (Example.atTip.IsLive && Example.atTip.IsSecureOut) = true ∧
    IsSupported (PostRequest Example.two 2 100) Example.atTip
      ((PostRequest Example.two 2 100).heap 2).get_Type = true ∧
    (PostRequest Example.two 2 100).m_lst = [2] ∧
    (PostRequest Example.two 2 100).inflight 7 = [] ∧
    (PostRequest Example.two 2 100).inflight 8 = [] ∧
    (PostRequest Example.two 2 100).trace = [] ∧
    (AssignRequests (PostRequest Example.two 2 100) 7).inflight 7 = [2] := by
  decide

/-- C10, amended: `PostRequest(r, h)` attaches the handler, appends `r` to the tail of the
global queue and invokes `AssignRequests` on the first live, secure-out connection of the
connection list only (on none when there is none: `r` stays at the tail of the global
queue).  So on return `r` is in flight, on that connection, when that first connection
supports it, and is left in the global queue when it does not, whether or not another live,
secure connection supports `r`. -/
theorem C10_PostRequest_first_connection (s : NetworkStd) (r : RequestPtr) (h : Nat) :
    (s.m_Connections.find? (fun y => y.IsLive && y.IsSecureOut) = none →
      PostRequest s r h = parked s r h) ∧
    (∀ x, s.m_Connections.find? (fun y => y.IsLive && y.IsSecureOut) = some x →
      PostRequest s r h = AssignRequests (parked s r h) x.id ∧
      (s.conn x.id = some x →
        (IsSupported s x (s.heap r).get_Type = true →
          r ∈ (PostRequest s r h).inflight x.id ∧ r ∉ (PostRequest s r h).m_lst) ∧
        (IsSupported s x (s.heap r).get_Type = false →
          r ∈ (PostRequest s r h).m_lst ∧
          (r ∉ x.m_lst → r ∉ (PostRequest s r h).inflight x.id) ∧
          ∀ d, d ≠ x.id → (PostRequest s r h).inflight d = s.inflight d))) := by
  have hpost : PostRequest s r h = OnNewRequests (parked s r h) := rfl
  have hfind : (parked s r h).m_Connections = s.m_Connections := rfl
  have hty : ((parked s r h).heap r).get_Type = (s.heap r).get_Type := by simp [parked]
  have hatt : ((parked s r h).heap r).m_pTrg.isSome = true := by simp [parked]
  constructor
  · intro hnone
    rw [hpost, OnNewRequests_eq, hfind, hnone]
  · intro x hsome
    have heq : PostRequest s r h = AssignRequests (parked s r h) x.id := by
      rw [hpost, OnNewRequests_eq, hfind, hsome]
    refine ⟨heq, fun hx => ?_⟩
    have hx' : (parked s r h).conn x.id = some x := hx
    have hm := AssignRequests_m_lst (parked s r h) x.id x hx'
    have hc := AssignRequests_conn (parked s r h) x.id x hx'
    have hmem : r ∈ (parked s r h).m_lst := by simp [parked]
    constructor
    · intro hsup
      have hmove : assignMove (parked s r h).heap (IsSupported (parked s r h) x) r = true := by
        simp [assignMove, hatt, hty, parked_supported, hsup]
      have hkeep : assignKeep (parked s r h).heap (IsSupported (parked s r h) x) r = false := by
        simp [assignKeep, hty, parked_supported, hsup]
      rw [heq, inflight_of_conn hc, hm]
      constructor
      · exact List.mem_append_right _ (List.mem_filter.mpr ⟨hmem, hmove⟩)
      · intro hr
        have := (List.mem_filter.mp hr).2
        rw [hkeep] at this
        cases this
    · intro hsup
      have hmove : assignMove (parked s r h).heap (IsSupported (parked s r h) x) r = false := by
        simp [assignMove, hty, parked_supported, hsup]
      have hkeep : assignKeep (parked s r h).heap (IsSupported (parked s r h) x) r = true := by
        simp [assignKeep, hatt, hty, parked_supported, hsup]
      rw [heq, inflight_of_conn hc, hm]
      refine ⟨List.mem_filter.mpr ⟨hmem, hkeep⟩, ?_, ?_⟩
      · intro hnx hr
        rcases List.mem_append.mp hr with hr | hr
        · exact hnx hr
        · have := (List.mem_filter.mp hr).2
          rw [hmove] at this
          cases this
      · intro d hd
        simp only [NetworkStd.inflight, AssignRequests_conn_ne (parked s r h) x.id d hd]
        rfl

/-- C10, amended, at the state with one connection at the tip: the `Utxo` request 2 is in
flight on return. -/
theorem C10_PostRequest_first_connection_witness :
    Example.one.m_Connections.find? (fun y => y.IsLive && y.IsSecureOut) = some Example.atTip ∧
    Example.one.conn Example.atTip.id = some Example.atTip ∧
    IsSupported Example.one Example.atTip (Example.one.heap 2).get_Type = true ∧
    2 ∈ (PostRequest Example.one 2 100).inflight Example.atTip.id ∧
    2 ∉ (PostRequest Example.one 2 100).m_lst :=
  ⟨by decide, by decide, by decide,
    (((C10_PostRequest_first_connection Example.one 2 100).2 Example.atTip (by decide)).2
      (by decide)).1 (by decide)⟩

/-! ## Capabilities, teardown and login -/

theorem conn_modifyConn_some (s : NetworkStd) (c : Nat) (f : Connection → Connection)
    (x : Connection) (hf : ∀ y, (f y).id = y.id) (hx : s.conn c = some x) :
    (s.modifyConn c f).conn c = some (f x) := by
  rw [conn_modifyConn s c f hf, hx]; rfl

theorem ResetVars_conn_ne (s : NetworkStd) (c d : Nat) (hd : d ≠ c) :
    (ResetVars s c).conn d = s.conn d :=
  conn_modifyConn_ne s c d hd _ (fun _ => rfl)

theorem ResetInternal_conn_ne (s : NetworkStd) (c d : Nat) (hd : d ≠ c) :
    (ResetInternal s c).conn d = s.conn d := by
  cases hx : s.conn c with
  | none => rw [ResetInternal_none s c hx]
  | some x =>
    rw [ResetInternal_eq s c x hx, conn_modifyConn_ne _ c d hd]
    · rfl
    · exact fun _ => rfl

theorem ResetInternal_conn (s : NetworkStd) (c : Nat) (x : Connection) (hx : s.conn c = some x) :
    (ResetInternal s c).conn c =
      some { x with m_pSync := none, m_pTimer := none, m_lst := [] } := by
  rw [ResetInternal_eq s c x hx, conn_modifyConn]
  · show Option.map _ (s.conn c) = _
    rw [hx]; rfl
  · exact fun _ => rfl

theorem ResetInternal_m_lst (s : NetworkStd) (c : Nat) (x : Connection) (hx : s.conn c = some x) :
    (ResetInternal s c).m_lst = s.m_lst ++ x.m_lst := by
  rw [ResetInternal_eq s c x hx]; rfl

theorem foldl_emit {α : Type} (f : α → Event) : ∀ (l : List α) (s : NetworkStd),
    l.foldl (fun t it => t.emit (f it)) s = { s with trace := s.trace ++ l.map f }
  | [], s => by simp
  | a :: l, s => by
    rw [List.foldl_cons, foldl_emit f l]
    simp [NetworkStd.emit]

theorem AssignRequests_m_BbsSubscriptions (s : NetworkStd) (c : Nat) :
    (AssignRequests s c).m_BbsSubscriptions = s.m_BbsSubscriptions := by
  cases hx : s.conn c with
  | none => rw [AssignRequests_none s c hx]
  | some x => rw [AssignRequests_eq s c x hx]; rfl

/-- `AssignRequests` adds only `Delete` and `SendRequest` events to the trace. -/
theorem AssignRequests_trace_filter (p : Event → Bool) (hD : ∀ n, p (.Delete n) = false)
    (hS : ∀ d n, p (.SendRequest d n) = false) (s : NetworkStd) (c : Nat) :
    (AssignRequests s c).trace.filter p = s.trace.filter p := by
  cases hx : s.conn c with
  | none => rw [AssignRequests_none s c hx]
  | some x =>
    rw [AssignRequests_trace s c x hx, List.filter_append]
    have : (s.m_lst.filterMap (assignEvent c s.heap (IsSupported s x))).filter p = [] := by
      rw [List.filter_eq_nil_iff]
      intro e he
      rcases assignEvent_cases c _ _ _ e he with ⟨n, rfl⟩ | ⟨n, rfl⟩
      · simp [hD]
      · simp [hS]
    rw [this, List.append_nil]

theorem OnLogin_eq (s : NetworkStd) (c : Nat) (x : Connection) (m_Flags : LoginFlags)
    (hx : s.conn c = some x) :
    OnLogin s c m_Flags =
      { AssignRequests (s.modifyConn c (fun y => { y with m_LoginFlags := m_Flags })) c with
        trace := (AssignRequests (s.modifyConn c (fun y => { y with m_LoginFlags := m_Flags }))
            c).trace ++
          (if m_Flags.Bbs then
            s.m_BbsSubscriptions.map (fun it => Event.BbsSubscribe c it.1 it.2.2 true)
          else []) } := by
  have hx1 := conn_modifyConn_some s c (fun y => { y with m_LoginFlags := m_Flags }) x
    (by intro _; rfl) hx
  have h2 := AssignRequests_conn _ c _ hx1
  unfold OnLogin
  simp only [h2]
  cases hb : m_Flags.Bbs
  · simp
  · simp only [if_true]
    rw [foldl_emit, AssignRequests_m_BbsSubscriptions]
    rfl

/-! ## The claims on capabilities, teardown and login -/

/-- C18 (teardown preserves requests and their order): after `ResetInternal`, `ResetAll` or
the destructor on a connection `c` with the queue `L` in flight while the global queue is `Q`,
the global queue is `Q ++ L`, the connection (when it is still there) has an empty queue in
flight and no `SyncCtx`, and every other connection is unchanged. -/
theorem C18_teardown_preserves_requests (s : NetworkStd) (c : Nat) (x : Connection)
    (hx : s.conn c = some x) :
    ((ResetInternal s c).m_lst = s.m_lst ++ x.m_lst ∧
      (∃ y, (ResetInternal s c).conn c = some y ∧ y.m_lst = [] ∧ y.m_pSync = none) ∧
      (∀ d, d ≠ c → (ResetInternal s c).conn d = s.conn d)) ∧
    ((ResetAll s c).m_lst = s.m_lst ++ x.m_lst ∧
      (∃ y, (ResetAll s c).conn c = some y ∧ y.m_lst = [] ∧ y.m_pSync = none) ∧
      (∀ d, d ≠ c → (ResetAll s c).conn d = s.conn d)) ∧
    ((Connection.destroy s c).m_lst = s.m_lst ++ x.m_lst ∧
      (Connection.destroy s c).conn c = none ∧
      (∀ d, d ≠ c → (Connection.destroy s c).conn d = s.conn d)) := by
  refine ⟨⟨ResetInternal_m_lst s c x hx, ⟨_, ResetInternal_conn s c x hx, rfl, rfl⟩,
    fun d hd => ResetInternal_conn_ne s c d hd⟩, ⟨?_, ?_, ?_⟩, ⟨?_, ?_, ?_⟩⟩
  · -- ResetAll: the global queue
    have hx1 : (s.modifyConn c (fun x => { x with IsLive := false, IsSecureOut := false })).conn c
        = some { x with IsLive := false, IsSecureOut := false } := by
      rw [conn_modifyConn, hx]
      · rfl
      · exact fun _ => rfl
    show (ResetVars (ResetInternal _ c) c).m_lst = _
    show (ResetInternal _ c).m_lst = _
    rw [ResetInternal_m_lst _ c _ hx1]; rfl
  · have hx1 := conn_modifyConn_some s c
      (fun x => { x with IsLive := false, IsSecureOut := false }) x (by intro _; rfl) hx
    have h2 := ResetInternal_conn _ c _ hx1
    have h3 := conn_modifyConn_some _ c (fun x =>
      { x with m_Tip := ⟨0, 0, 0, 0⟩, m_LoginFlags := ⟨false, false⟩,
               m_Flags := ⟨false, false, false⟩, m_NodeID := 0 }) _ (by intro _; rfl) h2
    exact ⟨_, h3, rfl, rfl⟩
  · intro d hd
    show (ResetVars (ResetInternal _ c) c).conn d = _
    rw [ResetVars_conn_ne _ c d hd, ResetInternal_conn_ne _ c d hd,
      conn_modifyConn_ne s c d hd]
    exact fun _ => rfl
  · show (ResetInternal s c).m_lst = _
    exact ResetInternal_m_lst s c x hx
  · exact find?_filter_self c _
  · intro d hd
    show List.find? _ (List.filter _ (ResetInternal s c).m_Connections) = _
    rw [find?_filter_ne c d hd]
    exact ResetInternal_conn_ne s c d hd

/-- C18 at the state with `[4, 3]` in the global queue and `[5]` in flight on connection 7:
after `ResetInternal` the global queue is `[4, 3, 5]`. -/
theorem C18_teardown_preserves_requests_witness :
    (ResetInternal Example.withCancelled 7).m_lst = [4, 3, 5] :=
  (C18_teardown_preserves_requests Example.withCancelled 7 { Example.atTip with m_lst := [5] }
    (by decide)).1.1

/-- C19 (login handling) fails on the code as stated: with two entries in the subscription
table, a `Login` whose flags lack the `Bbs` bit makes the connection send no `BbsSubscribe`. -/
theorem C19_no_subscription_without_Bbs :
    Example.subscribed.conn 7 = some Example.atTip ∧
    Example.subscribed.m_BbsSubscriptions = [(3, 100, 17), (9, 101, 40)] ∧
    (OnLogin Example.subscribed 7 ⟨true, false⟩).subscribes = [] := by
  decide

/-- C19 (login handling), amended: `OnLogin` stores the flags of the message as the login
flags, then runs `AssignRequests`, then, when the flags have the `Bbs` bit, sends one
`BbsSubscribe` for every entry of the subscription table, in the order of the table, with the
channel and the timestamp of the entry and `m_On = true`; without the bit it sends none. -/
theorem C19_OnLogin (s : NetworkStd) (c : Nat) (x : Connection) (m_Flags : LoginFlags)
    (hx : s.conn c = some x) :
    OnLogin s c m_Flags =
      { AssignRequests (s.modifyConn c (fun y => { y with m_LoginFlags := m_Flags })) c with
        trace := (AssignRequests (s.modifyConn c (fun y => { y with m_LoginFlags := m_Flags }))
            c).trace ++
          (if m_Flags.Bbs then
            s.m_BbsSubscriptions.map (fun it => Event.BbsSubscribe c it.1 it.2.2 true)
          else []) } ∧
    (∃ y, (OnLogin s c m_Flags).conn c = some y ∧ y.m_LoginFlags = m_Flags) ∧
    (OnLogin s c m_Flags).subscribes = s.subscribes ++
      (if m_Flags.Bbs then
        s.m_BbsSubscriptions.map (fun it => Event.BbsSubscribe c it.1 it.2.2 true)
      else []) := by
  have heq := OnLogin_eq s c x m_Flags hx
  have hx1 := conn_modifyConn_some s c (fun y => { y with m_LoginFlags := m_Flags }) x
    (by intro _; rfl) hx
  have h2 := AssignRequests_conn _ c _ hx1
  refine ⟨heq, ?_, ?_⟩
  · rw [heq]
    exact ⟨_, h2, rfl⟩
  · rw [heq]
    unfold NetworkStd.subscribes
    show List.filter _ (_ ++ _) = _
    rw [List.filter_append, AssignRequests_trace_filter _ (fun _ => rfl) (fun _ _ => rfl)]
    show List.filter _ s.trace ++ _ = _
    congr 1
    cases m_Flags.Bbs
    · rfl
    · simp only [if_true]
      rw [List.filter_eq_self]
      intro e he
      obtain ⟨it, _, rfl⟩ := List.mem_map.mp he
      rfl

/-- C19 at the state with two subscriptions and a `Login` with the `Bbs` bit: two
`BbsSubscribe` are sent. -/
theorem C19_OnLogin_witness :
    (OnLogin Example.subscribed 7 ⟨false, true⟩).subscribes =
      [Event.BbsSubscribe 7 3 17 true, Event.BbsSubscribe 7 9 40 true] :=
  (C19_OnLogin Example.subscribed 7 Example.atTip ⟨false, true⟩ (by decide)).2.2


/-! ## Header packs -/

theorem reconstructed_height (E : Externals) (msg : HdrPack) :
    ∀ i, (reconstructed E msg i).m_Height = msg.m_Prefix.m_Height + i
  | 0 => rfl
  | i + 1 => by
    simp only [reconstructed]
    rw [reconstructed_height E msg i]
    omega

/-- The loop of `DecodeAndCheck` fills the vector with the reconstructed headers. -/
theorem DecodeAndCheck.build_spec (E : Externals) (msg : HdrPack)
    (hh : msg.m_Prefix.m_Height + msg.m_vElements.length ≤ 2 ^ 64) :
    ∀ (fuel i : Nat) (v : List Full), 1 ≤ i → msg.m_vElements.length ≤ fuel + i →
      v.length = msg.m_vElements.length →
      (∀ j, j < i → v.getD j ⟨0, 0, 0, 0⟩ = reconstructed E msg j) →
      (DecodeAndCheck.build E msg fuel i v).length = msg.m_vElements.length ∧
      ∀ j, j < msg.m_vElements.length →
        (DecodeAndCheck.build E msg fuel i v).getD j ⟨0, 0, 0, 0⟩ = reconstructed E msg j
  | 0, i, v, hi, hf, hl, hv => by
    simp only [DecodeAndCheck.build]
    exact ⟨hl, fun j hj => hv j (by omega)⟩
  | fuel + 1, i, v, hi, hf, hl, hv => by
    simp only [DecodeAndCheck.build]
    by_cases hik : i < msg.m_vElements.length
    · rw [if_pos hik]
      apply DecodeAndCheck.build_spec E msg hh fuel (i + 1) _ (by omega) (by omega)
      · rw [List.length_set]; exact hl
      · intro j hj
        by_cases hji : j = i
        · subst hji
          have hprev := hv (j - 1) (by omega)
          have hH := reconstructed_height E msg (j - 1)
          rw [List.getD_eq_getElem?_getD, List.getElem?_set_self (by omega)]
          simp only [Option.getD_some]
          rw [hprev]
          obtain ⟨j', rfl⟩ : ∃ j', j = j' + 1 := ⟨j - 1, by omega⟩
          simp only [Nat.add_sub_cancel] at hH ⊢
          simp only [reconstructed]
          have hmod : ((reconstructed E msg j').m_Height + 1) % 2 ^ 64 =
              (reconstructed E msg j').m_Height + 1 := by
            apply Nat.mod_eq_of_lt
            rw [hH]; omega
          have hidx : msg.m_vElements.length - (j' + 1) - 1 =
              msg.m_vElements.length - 1 - (j' + 1) := by omega
          rw [hmod, hidx]
        · rw [List.getD_eq_getElem?_getD, List.getElem?_set_ne (by omega),
            ← List.getD_eq_getElem?_getD]
          exact hv j (by omega)
    · rw [if_neg hik]
      exact ⟨hl, fun j hj => hv j (by omega)⟩

theorem TestRange.loop_spec (E : Externals) (m_pV : List Full) :
    ∀ (n i0 : Nat) (m_Valid : Bool),
      TestRange.loop E m_pV n i0 m_Valid = true ↔
        (m_Valid = true ∧ ∀ j, i0 ≤ j → j < i0 + n → E.IsValid (m_pV.getD j ⟨0, 0, 0, 0⟩) = true)
  | 0, i0, m_Valid => by
    simp only [TestRange.loop]
    constructor
    · intro h; exact ⟨h, fun j h1 h2 => by omega⟩
    · intro h; exact h.1
  | n + 1, i0, m_Valid => by
    simp only [TestRange.loop]
    rw [TestRange.loop_spec E m_pV n (i0 + 1)]
    constructor
    · rintro ⟨h1, h2⟩
      cases hv : E.IsValid (m_pV.getD i0 ⟨0, 0, 0, 0⟩)
      · rw [hv] at h1; simp at h1
      · rw [hv] at h1
        simp only [Bool.not_true, Bool.false_eq_true, if_false] at h1
        refine ⟨h1, fun j hj1 hj2 => ?_⟩
        by_cases hj : j = i0
        · subst hj; exact hv
        · exact h2 j (by omega) (by omega)
    · rintro ⟨h1, h2⟩
      have hv := h2 i0 (Nat.le_refl _) (by omega)
      refine ⟨by rw [hv]; simpa using h1, fun j hj1 hj2 => h2 j (by omega) (by omega)⟩

/-- The vector that `DecodeAndCheck` builds for a pack that is not empty. -/
theorem DecodeAndCheck.vector (E : Externals) (msg : HdrPack)
    (hh : msg.m_Prefix.m_Height + msg.m_vElements.length ≤ 2 ^ 64)
    (hne : msg.m_vElements ≠ []) :
    DecodeAndCheck.build E msg msg.m_vElements.length 1
        ((List.replicate msg.m_vElements.length (⟨0, 0, 0, 0⟩ : Full)).set 0
          ⟨msg.m_Prefix.m_Height, msg.m_Prefix.m_Prev, msg.m_Prefix.m_ChainWork,
            msg.m_vElements.getLastD 0⟩) =
      (List.range msg.m_vElements.length).map (reconstructed E msg) := by
  have hpos : 0 < msg.m_vElements.length := List.length_pos.mpr hne
  obtain ⟨h1, h2⟩ := DecodeAndCheck.build_spec E msg hh msg.m_vElements.length 1
    ((List.replicate msg.m_vElements.length (⟨0, 0, 0, 0⟩ : Full)).set 0
      ⟨msg.m_Prefix.m_Height, msg.m_Prefix.m_Prev, msg.m_Prefix.m_ChainWork,
        msg.m_vElements.getLastD 0⟩) (Nat.le_refl 1) (by omega)
    (by rw [List.length_set, List.length_replicate])
    (by
      intro j hj
      have : j = 0 := by omega
      subst this
      rw [List.getD_eq_getElem?_getD, List.getElem?_set_self (by rw [List.length_replicate]; exact hpos)]
      rfl)
  apply List.ext_getElem
  · rw [h1, List.length_map, List.length_range]
  · intro j hj1 hj2
    have := h2 j (by rw [← h1]; exact hj1)
    rw [List.getD_eq_getElem?_getD, List.getElem?_eq_getElem hj1] at this
    simp only [Option.getD_some] at this
    rw [this, List.getElem_map, List.getElem_range]

/-- C14 (pack verifier soundness): for a pack of `k` elements, with `k` below `2 ^ 32` and
heights that fit 64 bits, verified without an executor, `DecodeAndCheck` returns true if and
only if every header of the reconstructed sequence is valid; for `k = 0` it returns true; and
`m_vStates` holds the reconstructed sequence when the result is true (and `k` is not 0), and
is unchanged otherwise. -/
theorem C14_pack_verifier (E : Externals) (m_vStates : List Full) (msg : HdrPack)
    (hk : msg.m_vElements.length < 2 ^ 32)
    (hh : msg.m_Prefix.m_Height + msg.m_vElements.length ≤ 2 ^ 64) :
    ((DecodeAndCheck E none m_vStates msg).1 = true ↔
      ∀ i, i < msg.m_vElements.length → E.IsValid (reconstructed E msg i) = true) ∧
    (msg.m_vElements.length = 0 → (DecodeAndCheck E none m_vStates msg).1 = true) ∧
    ((DecodeAndCheck E none m_vStates msg).2 =
      if (DecodeAndCheck E none m_vStates msg).1 = true ∧ msg.m_vElements.length ≠ 0 then
        (List.range msg.m_vElements.length).map (reconstructed E msg)
      else m_vStates) := by
  by_cases hne : msg.m_vElements = []
  · have h0 : msg.m_vElements.length = 0 := by rw [hne]; rfl
    have hr : DecodeAndCheck E none m_vStates msg = (true, m_vStates) := by
      simp [DecodeAndCheck, hne]
    rw [hr]
    refine ⟨⟨fun _ i hi => by omega, fun _ => rfl⟩, fun _ => rfl, ?_⟩
    rw [if_neg (by omega)]
  · have hpos : 0 < msg.m_vElements.length := List.length_pos.mpr hne
    have hvec := DecodeAndCheck.vector E msg hh hne
    have hr : DecodeAndCheck E none m_vStates msg =
        (TestRange E ((List.range msg.m_vElements.length).map (reconstructed E msg)) 0
            (msg.m_vElements.length % 2 ^ 32) true,
          if TestRange E ((List.range msg.m_vElements.length).map (reconstructed E msg)) 0
              (msg.m_vElements.length % 2 ^ 32) true = true
          then (List.range msg.m_vElements.length).map (reconstructed E msg) else m_vStates) := by
      unfold DecodeAndCheck
      have he : msg.m_vElements.isEmpty = false := by
        cases hm : msg.m_vElements with
        | nil => exact absurd hm hne
        | cons _ _ => rfl
      simp only [he, Bool.false_eq_true, if_false, hvec, List.length_map, List.length_range]
    have ht : TestRange E ((List.range msg.m_vElements.length).map (reconstructed E msg)) 0
        (msg.m_vElements.length % 2 ^ 32) true = true ↔
        ∀ i, i < msg.m_vElements.length → E.IsValid (reconstructed E msg i) = true := by
      unfold TestRange
      rw [Nat.add_zero, Nat.mod_mod, Nat.mod_eq_of_lt hk, Nat.sub_zero, TestRange.loop_spec]
      constructor
      · rintro ⟨_, h⟩ i hi
        have := h i (Nat.zero_le _) (by omega)
        rw [List.getD_eq_getElem?_getD, List.getElem?_eq_getElem (by simpa using hi)] at this
        simpa using this
      · intro h
        refine ⟨rfl, fun j _ hj => ?_⟩
        rw [List.getD_eq_getElem?_getD, List.getElem?_eq_getElem (by simpa using hj)]
        simpa using h j (by omega)
    rw [hr]
    refine ⟨ht, fun h => by omega, ?_⟩
    simp only
    by_cases hv : TestRange E ((List.range msg.m_vElements.length).map (reconstructed E msg)) 0
        (msg.m_vElements.length % 2 ^ 32) true = true
    · rw [if_pos hv, if_pos ⟨hv, by omega⟩]
    · rw [if_neg hv, if_neg (fun h => hv h.1)]

/-- C14 at a pack of three elements over the prefix at height 10: the three headers are
valid, the result is true and `m_vStates` holds the reconstructed headers. -/
theorem C14_pack_verifier_witness :
    (DecodeAndCheck Example.externals none [] ⟨⟨10, 99, 500⟩, [3, 2, 1]⟩).1 = true ∧
    (DecodeAndCheck Example.externals none [] ⟨⟨10, 99, 500⟩, [3, 2, 1]⟩).2 =
      [⟨10, 99, 500, 1⟩, ⟨11, 10001, 502, 2⟩, ⟨12, 11002, 505, 3⟩] :=
  ⟨(C14_pack_verifier Example.externals [] ⟨⟨10, 99, 500⟩, [3, 2, 1]⟩ (by decide)
      (by decide)).1.mpr (by decide),
    (C14_pack_verifier Example.externals [] ⟨⟨10, 99, 500⟩, [3, 2, 1]⟩ (by decide)
      (by decide)).2.2.trans (by decide)⟩

/-! ## The sync state machine -/

theorem peer_modifyConn (s : NetworkStd) (c d : Nat) (f : Connection → Connection)
    (hid : ∀ y, (f y).id = y.id) (ht : ∀ y, (f y).m_Tip = y.m_Tip)
    (hf : ∀ y, (f y).m_Flags = y.m_Flags) : (s.modifyConn d f).peer c = s.peer c := by
  unfold NetworkStd.peer
  by_cases h : c = d
  · subst h
    rw [conn_modifyConn s c f hid]
    cases s.conn c <;> simp [ht, hf]
  · rw [conn_modifyConn_ne s d c h f hid]

theorem find?_map_all (c : Nat) (g : Connection → Connection) (hg : ∀ y, (g y).id = y.id) :
    ∀ l : List Connection,
      (l.map g).find? (fun y => y.id == c) = (l.find? (fun y => y.id == c)).map g
  | [] => rfl
  | y :: l => by
    by_cases h : y.id = c
    · rw [List.map_cons, List.find?_cons_of_pos _ (by simp [hg, h]),
        List.find?_cons_of_pos _ (by simp [h])]
      rfl
    · rw [List.map_cons, List.find?_cons_of_neg _ (by simp [hg, h]),
        List.find?_cons_of_neg _ (by simp [h])]
      exact find?_map_all c g hg l

theorem peer_PrioritizeSelf (s : NetworkStd) (c d : Nat) :
    (PrioritizeSelf s d).peer c = s.peer c := by
  unfold PrioritizeSelf
  cases hx : s.conn d with
  | none => rfl
  | some x =>
    have hxid : x.id = d := by
      have := List.find?_some hx
      simpa using this
    unfold NetworkStd.peer NetworkStd.conn
    simp only
    by_cases h : c = d
    · subst h
      rw [List.find?_cons_of_pos _ (by simp [hxid])]
      unfold NetworkStd.conn at hx
      rw [hx]
    · rw [List.find?_cons_of_neg _ (by simp [hxid]; omega), find?_filter_ne d c h]

theorem peer_AssignRequests (s : NetworkStd) (c d : Nat) :
    (AssignRequests s d).peer c = s.peer c := by
  cases hx : s.conn d with
  | none => rw [AssignRequests_none s d hx]
  | some x =>
    rw [AssignRequests_eq s d x hx]
    exact peer_modifyConn _ c d _ (fun _ => rfl) (fun _ => rfl) (fun _ => rfl)

theorem peer_KillTimer (s : NetworkStd) (c d : Nat) : (KillTimer s d).peer c = s.peer c :=
  peer_modifyConn _ c d _ (fun _ => rfl) (fun _ => rfl) (fun _ => rfl)

theorem peer_PostChainworkProof (E : Externals) (s : NetworkStd) (c d : Nat) (arr : List Full)
    (hLowHeight : Nat) : (PostChainworkProof E s d arr hLowHeight).peer c = s.peer c := by
  unfold PostChainworkProof
  cases hx : s.conn d with
  | none => rfl
  | some x =>
    simp only
    rw [peer_AssignRequests]
    show NetworkStd.peer (PrioritizeSelf _ d) c = _
    rw [peer_PrioritizeSelf]
    have hmap : ∀ (t : NetworkStd) (g : Connection → Connection),
        (∀ y, (g y).id = y.id) → (∀ y, (g y).m_Tip = y.m_Tip) → (∀ y, (g y).m_Flags = y.m_Flags) →
        NetworkStd.peer { t with m_Connections := t.m_Connections.map g } c = t.peer c := by
      intro t g h1 h2 h3
      unfold NetworkStd.peer NetworkStd.conn
      simp only
      rw [find?_map_all c g h1]
      cases List.find? (fun y => y.id == c) t.m_Connections <;> simp [h2, h3]
    split
    · split
      · show NetworkStd.peer { s with m_Connections := _ } c = _
        exact hmap s _ (fun _ => rfl) (fun _ => rfl) (fun _ => rfl)
      · rfl
    · split
      · show NetworkStd.peer { s with m_Connections := _ } c = _
        exact hmap s _ (fun _ => rfl) (fun _ => rfl) (fun _ => rfl)
      · rfl



theorem peer_RequestChainworkProof (E : Externals) (s : NetworkStd) (c d : Nat) :
    (RequestChainworkProof E s d).peer c = s.peer c := by
  unfold RequestChainworkProof
  cases hx : s.conn d with
  | none => rfl
  | some x =>
    simp only
    cases hp : x.m_pSync with
    | none => rfl
    | some p =>
      simp only
      split
      · rw [peer_PostChainworkProof]
        exact peer_modifyConn _ c d _ (fun _ => rfl) (fun _ => rfl) (fun _ => rfl)
      · exact peer_modifyConn _ c d _ (fun _ => rfl) (fun _ => rfl) (fun _ => rfl)

theorem peer_SearchBelow (E : Externals) (s : NetworkStd) (c d : Nat) (h nCount : Nat) :
    (SearchBelow E s d h nCount).peer c = s.peer c := by
  unfold SearchBelow
  cases hx : s.conn d with
  | none => rfl
  | some x =>
    simp only
    split
    · rw [peer_RequestChainworkProof]
      exact peer_modifyConn _ c d _ (fun _ => rfl) (fun _ => rfl) (fun _ => rfl)
    · exact peer_modifyConn _ c d _ (fun _ => rfl) (fun _ => rfl) (fun _ => rfl)

theorem peer_StartSync (E : Externals) (s : NetworkStd) (c d : Nat) :
    (StartSync E s d).peer c = s.peer c := by
  unfold StartSync
  cases hx : s.conn d with
  | none => rfl
  | some x =>
    simp only
    split
    · show NetworkStd.peer (AssignRequests _ d) c = _
      rw [peer_AssignRequests]
      show NetworkStd.peer (PrioritizeSelf _ d) c = _
      rw [peer_PrioritizeSelf]
      exact peer_KillTimer _ c d
    · rw [peer_SearchBelow]
      show NetworkStd.peer (NetworkStd.modifyConn (KillTimer _ d) d _) c = _
      refine Eq.trans (peer_modifyConn _ c d _ (by intro _; rfl) (by intro _; rfl)
        (by intro _; rfl)) ?_
      exact peer_KillTimer _ c d

theorem NotOwned_of_peer {s t : NetworkStd} {c : Nat} (h : t.peer c = s.peer c)
    (hs : NotOwned s c) : NotOwned t c := by
  intro y hy
  unfold NetworkStd.peer at h
  rw [hy] at h
  cases hx : s.conn c with
  | none => rw [hx] at h; simp at h
  | some x =>
    rw [hx] at h
    simp only [Option.map_some', Option.some.injEq, Prod.mk.injEq] at h
    rw [h.2]
    exact hs x hx

/-! ### Operations on the history -/

theorem historyOps_emit (s : NetworkStd) (e : Event) :
    (s.emit e).historyOps = s.historyOps ++ [e].filter Event.isHistoryOp := by
  show List.filter _ (s.trace ++ [e]) = _
  rw [List.filter_append]
  rfl

theorem historyOps_AssignRequests (s : NetworkStd) (c : Nat) :
    (AssignRequests s c).historyOps = s.historyOps :=
  AssignRequests_trace_filter _ (fun _ => rfl) (fun _ _ => rfl) s c

theorem trace_PrioritizeSelf (s : NetworkStd) (c : Nat) :
    (PrioritizeSelf s c).trace = s.trace := by
  unfold PrioritizeSelf
  cases s.conn c <;> rfl

theorem historyOps_RequestChainworkProof (E : Externals) (s : NetworkStd) (c : Nat)
    (hno : NotOwned s c) : (RequestChainworkProof E s c).historyOps = s.historyOps := by
  unfold RequestChainworkProof
  cases hx : s.conn c with
  | none => rfl
  | some x =>
    simp only
    cases hp : x.m_pSync with
    | none =>
      show NetworkStd.historyOps (s.emit _) = _
      rw [historyOps_emit]
      simp [Event.isHistoryOp]
    | some p =>
      simp only
      rw [hno x hx]
      simp only [Bool.false_eq_true, if_false]
      show NetworkStd.historyOps ((s.emit _).emit _) = _
      rw [historyOps_emit, historyOps_emit]
      simp [Event.isHistoryOp]

theorem historyOps_SearchBelow (E : Externals) (s : NetworkStd) (c : Nat) (h nCount : Nat)
    (hno : NotOwned s c) : (SearchBelow E s c h nCount).historyOps = s.historyOps := by
  unfold SearchBelow
  cases hx : s.conn c with
  | none => rfl
  | some x =>
    simp only
    split
    · rw [historyOps_RequestChainworkProof]
      · show NetworkStd.historyOps ((s.emit _).emit _) = _
        rw [historyOps_emit, historyOps_emit]
        simp [Event.isHistoryOp]
      · apply NotOwned_of_peer _ hno
        exact peer_modifyConn _ c c _ (fun _ => rfl) (fun _ => rfl) (fun _ => rfl)
    · show NetworkStd.historyOps (((s.emit _).emit _).emit _) = _
      rw [historyOps_emit, historyOps_emit, historyOps_emit]
      simp [Event.isHistoryOp]



theorem get_Tip_congr {s t : NetworkStd} (h : t.m_History = s.m_History) :
    t.get_Tip = s.get_Tip := by
  unfold NetworkStd.get_Tip
  rw [h]

/-- The fast path of `StartSync`. -/
theorem StartSync_fast (E : Externals) (s : NetworkStd) (c : Nat) (x : Connection)
    (hx : s.conn c = some x)
    (hnext : E.IsNext (s.sTip E) x.m_Tip = true) :
    StartSync E s c =
      (AssignRequests (PrioritizeSelf (AddStates (KillTimer
        (s.emit (.Assert c (ShouldSync s x))) c) [x.m_Tip]) c) c).emit .OnNewTip := by
  unfold StartSync
  simp only [hx]
  have : (KillTimer (s.emit (.Assert c (ShouldSync s x))) c).sTip E = s.sTip E := rfl
  rw [this, hnext]
  simp only [if_true]

/-- The search path of `StartSync`. -/
theorem StartSync_search (E : Externals) (s : NetworkStd) (c : Nat) (x : Connection)
    (hx : s.conn c = some x)
    (hnext : E.IsNext (s.sTip E) x.m_Tip = false) :
    StartSync E s c =
      SearchBelow E ((KillTimer (s.emit (.Assert c (ShouldSync s x))) c).modifyConn c
        (fun y =>
          { y with m_pSync := some ⟨x.m_Tip.m_Height, E.NewConfirmed, E.NewTipBeforeGap, []⟩ }))
        c x.m_Tip.m_Height 1 := by
  unfold StartSync
  simp only [hx]
  have : (KillTimer (s.emit (.Assert c (ShouldSync s x))) c).sTip E = s.sTip E := rfl
  rw [this, hnext]
  simp only [Bool.false_eq_true, if_false]

theorem historyOps_StartSync (E : Externals) (s : NetworkStd) (c : Nat) (x : Connection)
    (hx : s.conn c = some x) (hno : x.m_Flags.Owned = false) :
    (StartSync E s c).historyOps = s.historyOps ++
      (if E.IsNext (s.sTip E) x.m_Tip = true
        then [Event.AddStates [x.m_Tip]] else []) := by
  cases hnext : E.IsNext (s.sTip E) x.m_Tip
  · rw [StartSync_search E s c x hx hnext, historyOps_SearchBelow]
    · simp only [Bool.false_eq_true, if_false, List.append_nil]
      show NetworkStd.historyOps (s.emit _) = _
      rw [historyOps_emit]
      simp [Event.isHistoryOp]
    · have hno' : NotOwned s c := by
        intro y hy
        rw [hx] at hy
        cases hy
        exact hno
      apply NotOwned_of_peer _ hno'
      refine Eq.trans (peer_modifyConn _ c c _ (by intro _; rfl) (by intro _; rfl)
        (by intro _; rfl)) ?_
      exact peer_KillTimer _ c c
  · rw [StartSync_fast E s c x hx hnext]
    simp only [if_true]
    rw [historyOps_emit, historyOps_AssignRequests]
    show List.filter _ ((PrioritizeSelf _ c).trace) ++ _ = _
    rw [trace_PrioritizeSelf]
    show List.filter _ ((s.trace ++ [_]) ++ [_]) ++ _ = _
    simp [List.filter_append, NetworkStd.historyOps, Event.isHistoryOp]


theorem peer_some {s : NetworkStd} {c : Nat} {tip : Full} {fl : Flags}
    (h : s.peer c = some (tip, fl)) : ∃ y, s.conn c = some y ∧ y.m_Tip = tip ∧ y.m_Flags = fl := by
  unfold NetworkStd.peer at h
  cases hx : s.conn c with
  | none => rw [hx] at h; simp at h
  | some y =>
    rw [hx] at h
    simp only [Option.map_some', Option.some.injEq, Prod.mk.injEq] at h
    exact ⟨y, rfl, h.1, h.2⟩

/-- The connection after `OnMsg(NewTip)` stored the new tip. -/
theorem storeTip_conn (E : Externals) (s : NetworkStd) (c : Nat) (x : Connection)
    (h : Full) (hx : s.conn c = some x) :
    (storeTip E s c h).conn c = some { x with m_Tip := h, m_pSync := x.m_pSync.map (fun p =>
        if p.m_vConfirming.isEmpty && p.m_TipBeforeGap.m_Height == 0
            && !E.IsNext x.m_Tip h then
          { p with m_TipBeforeGap := x.m_Tip }
        else p) } := by
  unfold storeTip
  rw [conn_modifyConn, conn_modifyConn, hx]
  · rfl
  · exact fun _ => rfl
  · exact fun _ => rfl

theorem storeTip_peer (E : Externals) (s : NetworkStd) (c : Nat) (x : Connection)
    (h : Full) (hx : s.conn c = some x) : (storeTip E s c h).peer c = some (h, x.m_Flags) := by
  unfold NetworkStd.peer
  rw [storeTip_conn E s c x h hx]
  rfl

theorem syncEvents_emit (s : NetworkStd) (e : Event) :
    (s.emit e).syncEvents = s.syncEvents ++ [e].filter Event.isSync := by
  show List.filter _ (s.trace ++ [e]) = _
  rw [List.filter_append]
  rfl

theorem syncEvents_AssignRequests (s : NetworkStd) (c : Nat) :
    (AssignRequests s c).syncEvents = s.syncEvents :=
  AssignRequests_trace_filter _ (fun _ => rfl) (fun _ _ => rfl) s c

theorem ids_PrioritizeSelf (s : NetworkStd) (c : Nat) (x : Connection) (hx : s.conn c = some x) :
    (PrioritizeSelf s c).m_Connections.map (fun y => y.id) =
      c :: (s.m_Connections.map (fun y => y.id)).filter (fun d => d != c) := by
  have hxid : x.id = c := by
    have := List.find?_some hx
    simpa using this
  unfold PrioritizeSelf
  simp only [hx, List.map_cons, hxid, List.filter_map]
  rfl

theorem ids_AssignRequests (s : NetworkStd) (c : Nat) :
    (AssignRequests s c).m_Connections.map (fun y => y.id) =
      s.m_Connections.map (fun y => y.id) := by
  cases hx : s.conn c with
  | none => rw [AssignRequests_none s c hx]
  | some x =>
    rw [AssignRequests_eq s c x hx, modifyConn_ids]
    exact fun _ => rfl

theorem conn_PrioritizeSelf (s : NetworkStd) (c d : Nat) :
    (PrioritizeSelf s c).conn d = s.conn d := by
  unfold PrioritizeSelf
  cases hx : s.conn c with
  | none => rfl
  | some x =>
    have hxid : x.id = c := by
      have := List.find?_some hx
      simpa using this
    unfold NetworkStd.conn
    simp only
    by_cases h : d = c
    · subst h
      rw [List.find?_cons_of_pos _ (by simp [hxid])]
      unfold NetworkStd.conn at hx
      rw [hx]
    · rw [List.find?_cons_of_neg _ (by simp [hxid]; omega), find?_filter_ne c d h]

theorem AssignRequests_m_History (s : NetworkStd) (c : Nat) :
    (AssignRequests s c).m_History = s.m_History := by
  cases hx : s.conn c with
  | none => rw [AssignRequests_none s c hx]
  | some x => rw [AssignRequests_eq s c x hx]; rfl

theorem getLast?_append_singleton {α : Type} (l : List α) (a : α) :
    (l ++ [a]).getLast? = some a := by
  simp

theorem NotOwned_of_conn {s : NetworkStd} {c : Nat} {x : Connection} (hx : s.conn c = some x)
    (hno : x.m_Flags.Owned = false) : NotOwned s c := by
  intro y hy
  rw [hx] at hy
  cases hy
  exact hno

theorem NotOwned_modifyConn {s : NetworkStd} {c : Nat} (f : Connection → Connection)
    (hid : ∀ y, (f y).id = y.id) (ht : ∀ y, (f y).m_Tip = y.m_Tip)
    (hf : ∀ y, (f y).m_Flags = y.m_Flags) (hno : NotOwned s c) :
    NotOwned (s.modifyConn c f) c :=
  NotOwned_of_peer (peer_modifyConn s c c f hid ht hf) hno

/-- On a connection that is not owned, `OnMsg(NewTip)` changes the history on the fast path
of `StartSync` only. -/
theorem historyOps_OnMsgNewTip (E : Externals) (s : NetworkStd) (c : Nat) (x : Connection)
    (h : Full) (hx : s.conn c = some x) (hno : x.m_Flags.Owned = false) :
    (outcome (OnMsgNewTip E s c h)).historyOps = s.historyOps ∨
      (x.m_pSync = none ∧ E.IsNext (s.sTip E) h = true ∧
        (outcome (OnMsgNewTip E s c h)).historyOps = s.historyOps ++ [.AddStates [h]]) := by
  unfold OnMsgNewTip
  simp only [hx]
  split
  · exact Or.inl rfl
  split
  · exact Or.inl rfl
  split
  · exact Or.inl rfl
  split
  · exact Or.inl rfl
  cases hp : x.m_pSync with
  | some p => exact Or.inl rfl
  | none =>
    simp only
    split
    · have hc2 := storeTip_conn E s c x h hx
      have := historyOps_StartSync E (storeTip E s c h) c _ hc2 hno
      simp only [outcome]
      rw [this]
      have hsT : (storeTip E s c h).sTip E = s.sTip E := rfl
      have hH : (storeTip E s c h).historyOps = s.historyOps := rfl
      rw [hsT, hH]
      cases hn : E.IsNext (s.sTip E) h
      · left; simp
      · right; simp
    · split
      · left
        simp only [outcome]
        rw [historyOps_AssignRequests, historyOps_emit]
        simp [Event.isHistoryOp]
        rfl
      · left
        simp only [outcome]
        rw [historyOps_emit]
        simp [Event.isHistoryOp]
        rfl

/-- On a connection that is not owned, `OnMsg(ProofCommonState)` does not change the
history. -/
theorem historyOps_OnMsgProofCommonState (E : Externals) (s : NetworkStd) (c : Nat)
    (x : Connection) (msg : ProofCommonState) (hx : s.conn c = some x)
    (hno : x.m_Flags.Owned = false) :
    (outcome (OnMsgProofCommonState E s c msg)).historyOps = s.historyOps := by
  have hno0 := NotOwned_of_conn hx hno
  have hno1 : NotOwned (s.modifyConn c (fun y => { y with m_pSync := y.m_pSync.map (fun q =>
      { q with m_vConfirming := [] }) })) c :=
    NotOwned_modifyConn _ (fun _ => rfl) (fun _ => rfl) (fun _ => rfl) hno0
  unfold OnMsgProofCommonState
  simp only [hx]
  cases hp : x.m_pSync with
  | none => rfl
  | some p =>
    simp only
    split
    · rfl
    split
    · rfl
    split
    · split
      · rfl
      · exact historyOps_SearchBelow E _ c _ _ hno1
    · split
      · rfl
      split
      · exact historyOps_SearchBelow E _ c _ _ hno1
      split
      · split
        · rfl
        · exact historyOps_SearchBelow E _ c _ _ hno1
      · simp only [outcome]
        rw [historyOps_RequestChainworkProof]
        · rfl
        · exact NotOwned_modifyConn _ (fun _ => rfl) (fun _ => rfl) (fun _ => rfl) hno1

theorem OnMsgProofChainWork_fault (E : Externals) (s : NetworkStd) (c : Nat) (x : Connection)
    (m_Proof : ChainWorkProof) (hx : s.conn c = some x)
    (hbad : x.m_pSync = none ∨ (∃ p, x.m_pSync = some p ∧
      (p.m_vConfirming ≠ [] ∨ m_Proof.m_LowerBound ≠ p.m_Confirmed.m_ChainWork)) ∨
      m_Proof.IsValid = none ∨ (∃ t, m_Proof.IsValid = some t ∧ t ≠ x.m_Tip)) :
    OnMsgProofChainWork E s c m_Proof = .error s := by
  unfold OnMsgProofChainWork
  simp only [hx]
  cases hp : x.m_pSync with
  | none => rfl
  | some p =>
    simp only
    by_cases h1 : p.m_vConfirming = []
    · by_cases h2 : m_Proof.m_LowerBound = p.m_Confirmed.m_ChainWork
      · rw [if_neg (by simp [h1]), if_neg (by simp [h2])]
        cases hv : m_Proof.IsValid with
        | none => rfl
        | some t =>
          simp only
          by_cases h3 : t = x.m_Tip
          · exfalso
            rcases hbad with h | ⟨q, hq, h | h⟩ | h | ⟨t', ht', h⟩
            · rw [hp] at h; cases h
            · rw [hp] at hq; cases hq; exact h h1
            · rw [hp] at hq; cases hq; exact h h2
            · rw [hv] at h; cases h
            · rw [hv] at ht'; cases ht'; exact h h3
          · rw [if_pos h3]
      · rw [if_neg (by simp [h1]), if_pos h2]
    · rw [if_pos (by simpa using h1)]

/-! ## The claims on the sync state machine -/

/-- C11 (fast-forward): when a connection with no `SyncCtx` accepts `NewTip(h)`, the history
has a tip of lower chainwork and that tip is the predecessor of `h` (`IsNext`), then the
handler returns; of the history operations, sync messages and tip callbacks it issues
exactly `AddStates([h])` and then `OnNewTip` (no `DeleteFrom`, no `OnRolledBack`, no
`GetCommonState`); the history gets `h` appended; the connection is first in the connection
list and the others keep their order and are unchanged; the requests of the global queue are
assigned to the connection, which is at tip; and the connection has no `SyncCtx`. -/
theorem C11_fast_forward (E : Externals) (s : NetworkStd) (c : Nat) (x : Connection)
    (h sTip : Full) (hx : s.conn c = some x) (hsync : x.m_pSync = none)
    (hg : E.HeightGenesis ≤ h.m_Height) (hne : x.m_Tip ≠ h)
    (hcw : x.m_Tip.m_ChainWork < h.m_ChainWork) (hv : E.IsValid h = true)
    (htip : s.get_Tip = some sTip) (hlow : sTip.m_ChainWork < h.m_ChainWork)
    (hnext : E.IsNext sTip h = true) :
    ∃ t, OnMsgNewTip E s c h = .ok t ∧
      t.syncEvents = s.syncEvents ++ [.AddStates [h], .OnNewTip] ∧
      t.m_History = s.m_History ++ [h] ∧
      t.m_Connections.map (fun y => y.id) =
        c :: (s.m_Connections.map (fun y => y.id)).filter (fun d => d != c) ∧
      (∀ d, d ≠ c → t.conn d = s.conn d) ∧
      t.m_lst = s.m_lst.filter (assignKeep s.heap
        (IsSupported { s with m_History := s.m_History ++ [h] } { x with m_Tip := h })) ∧
      ∃ y, t.conn c = some y ∧ y.m_pSync = none ∧ y.m_Tip = h ∧ IsAtTip t y = true ∧
        y.m_lst = x.m_lst ++ s.m_lst.filter (assignMove s.heap
          (IsSupported { s with m_History := s.m_History ++ [h] } { x with m_Tip := h })) := by
  -- the state in which the new tip is stored
  -- the state in which the new tip is stored
  obtain ⟨s2, hs2, hc2, hrest⟩ : ∃ s2 : NetworkStd,
      s2 = storeTip E s c h ∧
      s2.conn c = some { x with m_Tip := h } ∧
      (s2.m_lst = s.m_lst ∧ s2.heap = s.heap ∧ s2.m_History = s.m_History ∧
        s2.trace = s.trace ∧ s2.m_Cfg = s.m_Cfg ∧
        s2.m_Connections.map (fun y => y.id) = s.m_Connections.map (fun y => y.id) ∧
        ∀ d, d ≠ c → s2.conn d = s.conn d) := by
    refine ⟨_, rfl, ?_, rfl, rfl, rfl, rfl, rfl, ?_, ?_⟩
    · rw [storeTip_conn E s c x h hx, hsync]
      rfl
    · unfold storeTip
      rw [modifyConn_ids, modifyConn_ids]
      · exact fun _ => rfl
      · exact fun _ => rfl
    · intro d hd
      unfold storeTip
      rw [conn_modifyConn_ne _ c d hd, conn_modifyConn_ne _ c d hd]
      · exact fun _ => rfl
      · exact fun _ => rfl
  obtain ⟨hl2, hh2, hH2, ht2, hcfg2, hid2, hne2⟩ := hrest
  have hshould : ∀ y : Connection, y.m_Tip = h → ShouldSync s2 y = true := by
    intro y hy
    unfold ShouldSync
    rw [get_Tip_congr hH2, htip, hy]
    simpa using hlow
  have hr : OnMsgNewTip E s c h = .ok (StartSync E s2 c) := by
    unfold OnMsgNewTip
    simp only [hx]
    rw [if_neg (Nat.not_lt.mpr hg), if_neg hne, if_neg (Nat.not_le.mpr hcw), hv]
    simp only [Bool.not_true, Bool.false_eq_true, if_false, hsync, ← hs2]
    rw [if_pos (hshould _ rfl)]
  have hsTip : s2.sTip E = sTip := by
    unfold NetworkStd.sTip
    rw [get_Tip_congr hH2, htip]
  have hfast := StartSync_fast E s2 c _ hc2 (by rw [hsTip]; exact hnext)
  rw [hfast] at hr
  simp only at hr
  -- the state before `AssignRequests`
  obtain ⟨u, hu, huc, hul, huh, huH, hut, huid, hune⟩ : ∃ u : NetworkStd,
      u = PrioritizeSelf (AddStates (KillTimer (s2.emit (.Assert c
        (ShouldSync s2 { x with m_Tip := h }))) c) [h]) c ∧
      u.conn c = some { x with m_Tip := h, m_pTimer := none } ∧
      u.m_lst = s.m_lst ∧ u.heap = s.heap ∧ u.m_History = s.m_History ++ [h] ∧
      u.trace = s.trace ++ [.Assert c (ShouldSync s2 { x with m_Tip := h }), .AddStates [h]] ∧
      u.m_Connections.map (fun y => y.id) =
        c :: (s.m_Connections.map (fun y => y.id)).filter (fun d => d != c) ∧
      ∀ d, d ≠ c → u.conn d = s.conn d := by
    have hk : (AddStates (KillTimer (s2.emit (.Assert c
        (ShouldSync s2 { x with m_Tip := h }))) c) [h]).conn c =
        some { x with m_Tip := h, m_pTimer := none } := by
      show (KillTimer (s2.emit _) c).conn c = _
      unfold KillTimer
      rw [conn_modifyConn]
      · show Option.map _ (s2.conn c) = _
        rw [hc2]; rfl
      · exact fun _ => rfl
    refine ⟨_, rfl, ?_, ?_, ?_, ?_, ?_, ?_, ?_⟩
    · rw [conn_PrioritizeSelf]; exact hk
    · unfold PrioritizeSelf; rw [hk]; exact hl2
    · unfold PrioritizeSelf; rw [hk]; exact hh2
    · unfold PrioritizeSelf; rw [hk]
      show s2.m_History ++ [h] = _
      rw [hH2]
    · rw [trace_PrioritizeSelf]
      show (s2.trace ++ [_]) ++ [_] = _
      rw [ht2, List.append_assoc]; rfl
    · rw [ids_PrioritizeSelf _ c _ hk]
      show c :: List.filter _ (List.map _ (KillTimer (s2.emit _) c).m_Connections) = _
      unfold KillTimer
      rw [modifyConn_ids]
      · show c :: List.filter _ (List.map _ s2.m_Connections) = _
        rw [hid2]
      · exact fun _ => rfl
    · intro d hd
      rw [conn_PrioritizeSelf]
      show (KillTimer (s2.emit _) c).conn d = _
      unfold KillTimer
      rw [conn_modifyConn_ne _ c d hd]
      · exact hne2 d hd
      · exact fun _ => rfl
  rw [← hu] at hr
  have hsup : ∀ ty, IsSupported u { x with m_Tip := h, m_pTimer := none } ty =
      IsSupported { s with m_History := s.m_History ++ [h] } { x with m_Tip := h } ty :=
    fun ty => IsSupported_congr _ _ _ _ huH rfl rfl rfl ty
  have hsupf : IsSupported u { x with m_Tip := h, m_pTimer := none } =
      IsSupported { s with m_History := s.m_History ++ [h] } { x with m_Tip := h } :=
    funext hsup
  refine ⟨_, hr, ?_, ?_, ?_, ?_, ?_, ?_⟩
  · rw [syncEvents_emit, syncEvents_AssignRequests]
    unfold NetworkStd.syncEvents
    rw [hut]
    simp [List.filter_append, Event.isSync]
  · show (AssignRequests u c).m_History = _
    rw [AssignRequests_m_History, huH]
  · show (AssignRequests u c).m_Connections.map _ = _
    rw [ids_AssignRequests, huid]
  · intro d hd
    show (AssignRequests u c).conn d = _
    rw [AssignRequests_conn_ne u c d hd, hune d hd]
  · show (AssignRequests u c).m_lst = _
    rw [AssignRequests_m_lst u c _ huc, hul, huh, hsupf]
  · have hy := AssignRequests_conn u c _ huc
    refine ⟨_, hy, hsync, rfl, ?_, ?_⟩
    · unfold IsAtTip NetworkStd.get_Tip
      show (match (AssignRequests u c).m_History.getLast? with
        | none => false
        | some sTip => sTip == h) = true
      rw [AssignRequests_m_History, huH, getLast?_append_singleton]
      simp
    · show x.m_lst ++ _ = _
      rw [hul, huh, hsupf]

/-- C11 at the state with the tip at height 5, the requests `[4, 3]` pending and `[5]` in
flight on connection 7, for the header at height 6 that follows the tip. -/
theorem C11_fast_forward_witness :
    ∃ t, OnMsgNewTip Example.externals Example.withCancelled 7 ⟨6, 5000, 60, 0⟩ = .ok t ∧
      t.syncEvents = [.AddStates [⟨6, 5000, 60, 0⟩], .OnNewTip] ∧
      t.m_History = [Example.tip, ⟨6, 5000, 60, 0⟩] := by
  obtain ⟨t, h1, h2, h3, _⟩ := C11_fast_forward Example.externals Example.withCancelled 7
    { Example.atTip with m_lst := [5] } ⟨6, 5000, 60, 0⟩ Example.tip (by decide) rfl
    (by decide) (by decide) (by decide) (by decide) (by decide) (by decide) (by decide)
  exact ⟨t, h1, h2, h3⟩

/-- C12 (NewTip acceptance): `OnMsg(NewTip h)` raises `ThrowUnexpected` exactly when the
height of `h` is at least genesis, `h` differs from the tip of the connection, and the
chainwork of `h` is not above that of the tip or `h` is not valid; a message below genesis or
equal to the tip returns with the state unchanged; a rejected message leaves the state
unchanged; and when the handler returns, either the message was dropped and the state is
unchanged, or the tip of the connection is `h`, of strictly higher chainwork than before. -/
theorem C12_NewTip_acceptance (E : Externals) (s : NetworkStd) (c : Nat) (x : Connection)
    (h : Full) (hx : s.conn c = some x) :
    ((∃ t, OnMsgNewTip E s c h = .error t) ↔
      (E.HeightGenesis ≤ h.m_Height ∧ h ≠ x.m_Tip ∧
        (h.m_ChainWork ≤ x.m_Tip.m_ChainWork ∨ E.IsValid h = false))) ∧
    ((h.m_Height < E.HeightGenesis ∨ h = x.m_Tip) → OnMsgNewTip E s c h = .ok s) ∧
    (∀ t, OnMsgNewTip E s c h = .error t → t = s) ∧
    (∀ t, OnMsgNewTip E s c h = .ok t →
      (t = s ∧ (h.m_Height < E.HeightGenesis ∨ h = x.m_Tip)) ∨
      (x.m_Tip.m_ChainWork < h.m_ChainWork ∧ ∃ y, t.conn c = some y ∧ y.m_Tip = h)) := by
  by_cases hg : h.m_Height < E.HeightGenesis
  · have hr : OnMsgNewTip E s c h = .ok s := by
      unfold OnMsgNewTip; simp only [hx, if_pos hg]
    rw [hr]
    refine ⟨⟨fun ⟨t, ht⟩ => (by cases ht), fun ⟨h1, _⟩ => (by omega)⟩, fun _ => rfl,
      fun t ht => (by cases ht), fun t ht => ?_⟩
    cases ht
    exact Or.inl ⟨rfl, Or.inl hg⟩
  by_cases he : x.m_Tip = h
  · have hr : OnMsgNewTip E s c h = .ok s := by
      unfold OnMsgNewTip; simp only [hx, if_neg hg, if_pos he]
    rw [hr]
    refine ⟨⟨fun ⟨t, ht⟩ => (by cases ht), fun ⟨_, h2, _⟩ => absurd he.symm h2⟩, fun _ => rfl,
      fun t ht => (by cases ht), fun t ht => ?_⟩
    cases ht
    exact Or.inl ⟨rfl, Or.inr he.symm⟩
  by_cases hcw : h.m_ChainWork ≤ x.m_Tip.m_ChainWork
  · have hr : OnMsgNewTip E s c h = .error s := by
      unfold OnMsgNewTip; simp only [hx, if_neg hg, if_neg he, if_pos hcw]
    rw [hr]
    refine ⟨⟨fun _ => ⟨by omega, fun h2 => he h2.symm, Or.inl hcw⟩, fun _ => ⟨s, rfl⟩⟩,
      fun h2 => ?_, fun t ht => ?_, fun t ht => (by cases ht)⟩
    · rcases h2 with h2 | h2
      · exact absurd h2 hg
      · exact absurd h2.symm he
    · cases ht; rfl
  cases hv : E.IsValid h
  · have hr : OnMsgNewTip E s c h = .error s := by
      unfold OnMsgNewTip; simp only [hx, if_neg hg, if_neg he, if_neg hcw, hv]
      rfl
    rw [hr]
    refine ⟨⟨fun _ => ⟨by omega, fun h2 => he h2.symm, Or.inr rfl⟩, fun _ => ⟨s, rfl⟩⟩,
      fun h2 => ?_, fun t ht => ?_, fun t ht => (by cases ht)⟩
    · rcases h2 with h2 | h2
      · exact absurd h2 hg
      · exact absurd h2.symm he
    · cases ht; rfl
  · -- accepted
    have hstored := storeTip_peer E s c x h hx
    have hacc : ∃ t, OnMsgNewTip E s c h = .ok t ∧ t.peer c = some (h, x.m_Flags) := by
      unfold OnMsgNewTip
      simp only [hx, if_neg hg, if_neg he, if_neg hcw, hv, Bool.not_true, Bool.false_eq_true,
        if_false]
      cases hp : x.m_pSync with
      | some p => exact ⟨_, rfl, hstored⟩
      | none =>
        simp only
        split
        · exact ⟨_, rfl, (peer_StartSync E _ c c).trans hstored⟩
        · split
          · refine ⟨_, rfl, (peer_AssignRequests _ c c).trans ?_⟩
            exact hstored
          · exact ⟨_, rfl, hstored⟩
    obtain ⟨t, ht, hpeer⟩ := hacc
    rw [ht]
    refine ⟨⟨fun ⟨t', ht'⟩ => (by cases ht'), fun ⟨_, _, h3⟩ => ?_⟩, fun h2 => ?_,
      fun t' ht' => (by cases ht'), fun t' ht' => ?_⟩
    · rcases h3 with h3 | h3
      · exact absurd h3 hcw
      · simp at h3
    · rcases h2 with h2 | h2
      · exact absurd h2 hg
      · exact absurd h2.symm he
    · cases ht'
      obtain ⟨y, hy, hyt, _⟩ := peer_some hpeer
      exact Or.inr ⟨by omega, y, hy, hyt⟩

/-- C12 at the state with one connection whose tip has chainwork 50, for a header of
chainwork 40: the message is rejected. -/
theorem C12_NewTip_acceptance_witness :
    ∃ t, OnMsgNewTip Example.externals Example.one 7 ⟨4, 0, 40, 0⟩ = .error t :=
  (C12_NewTip_acceptance Example.externals Example.one 7 Example.atTip ⟨4, 0, 40, 0⟩
    (by decide)).1.mpr ⟨by decide, by decide, Or.inl (by decide)⟩

/-- C13 (chainwork-proof validation): `OnMsg(ProofChainWork)` raises `ThrowUnexpected` with
the state unchanged (so no history operation and no callback) whenever the connection has no
`SyncCtx`, its confirming batch is not empty, the lower bound of the proof differs from the
chainwork of `m_Confirmed`, the proof is not valid, or the tip of the proof differs from the
tip of the connection; and on a connection that is not owned, `OnMsg(NewTip)` changes the
history by the `AddStates` of the fast path at most, `OnMsg(ProofCommonState)` does not change
it, and `OnMsg(ProofChainWork)` changes it only when all these checks passed. -/
theorem C13_chainwork_proof_validation (E : Externals) (s : NetworkStd) (c : Nat)
    (x : Connection) (m_Proof : ChainWorkProof) (hx : s.conn c = some x) :
    ((x.m_pSync = none ∨ (∃ p, x.m_pSync = some p ∧
        (p.m_vConfirming ≠ [] ∨ m_Proof.m_LowerBound ≠ p.m_Confirmed.m_ChainWork)) ∨
        m_Proof.IsValid = none ∨ (∃ t, m_Proof.IsValid = some t ∧ t ≠ x.m_Tip)) →
      OnMsgProofChainWork E s c m_Proof = .error s) ∧
    (x.m_Flags.Owned = false →
      (∀ h, (outcome (OnMsgNewTip E s c h)).historyOps = s.historyOps ∨
        (x.m_pSync = none ∧ E.IsNext (s.sTip E) h = true ∧
          (outcome (OnMsgNewTip E s c h)).historyOps = s.historyOps ++ [.AddStates [h]])) ∧
      (∀ msg, (outcome (OnMsgProofCommonState E s c msg)).historyOps = s.historyOps) ∧
      ((outcome (OnMsgProofChainWork E s c m_Proof)).historyOps ≠ s.historyOps →
        ∃ p, x.m_pSync = some p ∧ p.m_vConfirming = [] ∧
          m_Proof.m_LowerBound = p.m_Confirmed.m_ChainWork ∧
          m_Proof.IsValid = some x.m_Tip)) := by
  refine ⟨OnMsgProofChainWork_fault E s c x m_Proof hx, fun hno => ⟨fun h =>
    historyOps_OnMsgNewTip E s c x h hx hno, fun msg =>
    historyOps_OnMsgProofCommonState E s c x msg hx hno, fun hch => ?_⟩⟩
  by_contra hnot
  apply hch
  have hbad : x.m_pSync = none ∨ (∃ p, x.m_pSync = some p ∧
      (p.m_vConfirming ≠ [] ∨ m_Proof.m_LowerBound ≠ p.m_Confirmed.m_ChainWork)) ∨
      m_Proof.IsValid = none ∨ (∃ t, m_Proof.IsValid = some t ∧ t ≠ x.m_Tip) := by
    cases hp : x.m_pSync with
    | none => exact Or.inl rfl
    | some p =>
      by_cases h1 : p.m_vConfirming = []
      · by_cases h2 : m_Proof.m_LowerBound = p.m_Confirmed.m_ChainWork
        · cases hv : m_Proof.IsValid with
          | none => exact Or.inr (Or.inr (Or.inl rfl))
          | some t =>
            by_cases h3 : t = x.m_Tip
            · exact absurd ⟨p, hp, h1, h2, by rw [hv, h3]⟩ hnot
            · exact Or.inr (Or.inr (Or.inr ⟨t, rfl, h3⟩))
        · exact Or.inr (Or.inl ⟨p, rfl, Or.inr h2⟩)
      · exact Or.inr (Or.inl ⟨p, rfl, Or.inl h1⟩)
  rw [OnMsgProofChainWork_fault E s c x m_Proof hx hbad]
  rfl

/-- C13 at a syncing connection whose `m_Confirmed` has chainwork 50, for a proof with the
lower bound 49: the message is a fault. -/
theorem C13_chainwork_proof_validation_witness :
    OnMsgProofChainWork Example.externals Example.syncing 7 ⟨49, some ⟨9, 8000, 90, 0⟩, []⟩ =
      .error Example.syncing :=
  (C13_chainwork_proof_validation Example.externals Example.syncing 7
    { Example.atTip with m_Tip := ⟨9, 8000, 90, 0⟩,
                         m_pSync := some ⟨5, Example.tip, ⟨0, 0, 0, 0⟩, []⟩ }
    ⟨49, some ⟨9, 8000, 90, 0⟩, []⟩ (by decide)).1
    (Or.inr (Or.inl ⟨_, rfl, Or.inr (by decide)⟩))

theorem findState_none (h : Nat) : ∀ (l : List Full) (k : Nat),
    findState h l k = none ↔ ∀ f ∈ l, f.m_Height ≠ h
  | [], k => by simp [findState]
  | f :: rest, k => by
    unfold findState
    by_cases hf : f.m_Height = h
    · simp [hf]
    · simp [hf, findState_none h rest (k + 1)]

theorem findState_some (h : Nat) : ∀ (l : List Full) (k i : Nat),
    findState h l k = some i ↔
      ∃ j, i = k + j ∧ (l[j]?.map (fun f => f.m_Height)) = some h ∧
        ∀ j2, j2 < j → (l[j2]?.map (fun f => f.m_Height)) ≠ some h
  | [], k, i => by simp [findState]
  | f :: rest, k, i => by
    unfold findState
    by_cases hf : f.m_Height = h
    · rw [if_pos hf]
      constructor
      · intro hi
        cases hi
        exact ⟨0, rfl, by simp [hf], fun j2 hj => absurd hj (Nat.not_lt_zero _)⟩
      · rintro ⟨j, rfl, hj, hmin⟩
        cases j with
        | zero => rfl
        | succ j => exact absurd (by simp [hf]) (hmin 0 (Nat.succ_pos _))
    · rw [if_neg hf, findState_some h rest (k + 1) i]
      constructor
      · rintro ⟨j, rfl, hj, hmin⟩
        refine ⟨j + 1, by omega, by simpa using hj, ?_⟩
        intro j2 hj2
        cases j2 with
        | zero => simpa using hf
        | succ j2 => simpa using hmin j2 (by omega)
      · rintro ⟨j, rfl, hj, hmin⟩
        cases j with
        | zero => simp at hj; exact absurd hj hf
        | succ j =>
          refine ⟨j, by omega, by simpa using hj, ?_⟩
          intro j2 hj2
          simpa using hmin (j2 + 1) (by omega)

/-- C23 (tie-break): when a connection that holds a `SyncCtx` receives `ProofCommonState`
(with a non-empty batch waiting) or a `ProofChainWork` that matches its lower bound, verifies
and yields the tip of the peer, and `ShouldSync()` is false, then the handler returns without
a fault and all it does is to discard the `SyncCtx`: nothing is added to the trace (no message
sent, no `AddStates`/`DeleteFrom`, no `OnNewTip`/`OnRolledBack`) and the history is as
before. -/
theorem C23_tie_break (E : Externals) (s : NetworkStd) (c : Nat) (x : Connection) (p : SyncCtx)
    (hx : s.conn c = some x) (hp : x.m_pSync = some p) (hns : ShouldSync s x = false) :
    (∀ msg : ProofCommonState, p.m_vConfirming ≠ [] →
      OnMsgProofCommonState E s c msg =
        .ok (s.modifyConn c (fun y => { y with m_pSync := none }))) ∧
    (∀ m_Proof : ChainWorkProof, p.m_vConfirming = [] →
      m_Proof.m_LowerBound = p.m_Confirmed.m_ChainWork → m_Proof.IsValid = some x.m_Tip →
      OnMsgProofChainWork E s c m_Proof =
        .ok (s.modifyConn c (fun y => { y with m_pSync := none }))) ∧
    (s.modifyConn c (fun y => { y with m_pSync := none })).trace = s.trace ∧
    (s.modifyConn c (fun y => { y with m_pSync := none })).m_History = s.m_History ∧
    (s.modifyConn c (fun y => { y with m_pSync := none })).conn c =
      some { x with m_pSync := none } := by
  refine ⟨?_, ?_, rfl, rfl, conn_modifyConn_some s c _ x (fun _ => rfl) hx⟩
  · intro msg hne
    unfold OnMsgProofCommonState
    simp only [hx, hp]
    rw [if_neg (by simpa using hne)]
    have h2 : ShouldSync (s.modifyConn c (fun y => { y with m_pSync := y.m_pSync.map (fun q =>
      { q with m_vConfirming := [] }) })) x = false := hns
    rw [if_pos (by simp [h2])]
    exact congrArg Except.ok (modifyConn_modifyConn s c _ _ (fun _ => rfl))
  · intro m_Proof he hlb hv
    unfold OnMsgProofChainWork
    simp only [hx, hp, hv]
    rw [if_neg (by simp [he]), if_neg (by simp [hlb]), if_neg (by simp)]
    have h2 : ShouldSync (s.modifyConn c (fun y => { y with m_pSync := none })) x = false := hns
    rw [if_pos (by simp [h2])]

/-- C23 at a connection whose peer tip (chainwork 90) is the tip of the history already,
for a valid `ProofChainWork`: the `SyncCtx` is dropped and nothing else changes. -/
theorem C23_tie_break_witness :
    OnMsgProofChainWork Example.externals
        { Example.syncing with m_History := [Example.tip, ⟨9, 8000, 90, 0⟩] } 7
        ⟨50, some ⟨9, 8000, 90, 0⟩, []⟩ =
      .ok ({ Example.syncing with m_History := [Example.tip, ⟨9, 8000, 90, 0⟩] }.modifyConn 7
        (fun y => { y with m_pSync := none })) :=
  (C23_tie_break Example.externals
    { Example.syncing with m_History := [Example.tip, ⟨9, 8000, 90, 0⟩] } 7 _ _ rfl rfl rfl).2.1
    ⟨50, some ⟨9, 8000, 90, 0⟩, []⟩ rfl rfl rfl


/-- C24, as stated, fails: the batch waiting is the headers 7 and 6, the floor `m_LowHeight`
is 6, which is not below the lowest height of the batch, and the peer proves the header at
height 6 (entry 1) with the hash that the client has for it; the handler does not compare the
hashes (it would then ask for the chainwork proof) but searches again, below height 7. -/
theorem C24_narrowing_above_batch_minimum :
    (Example.stale.conn 7).map (fun y => y.m_pSync) =
      some (some ⟨6, ⟨0, 0, 0, 0⟩, ⟨0, 0, 0, 0⟩, [⟨7, 6000, 70, 0⟩, ⟨6, 5000, 60, 0⟩]⟩) ∧
    findState 6 [⟨7, 6000, 70, 0⟩, ⟨6, 5000, 60, 0⟩] 0 = some 1 ∧
    (∃ f ∈ ([⟨7, 6000, 70, 0⟩, ⟨6, 5000, 60, 0⟩] : List Full), f.m_Height ≤ 6) ∧
    Example.externals.get_Hash ⟨6, 5000, 60, 0⟩ = 6000 ∧
    (outcome (OnMsgProofCommonState Example.externals Example.stale 7 ⟨(6, 6000), 0⟩)).trace =
      [.Assert 7 true, .Assert 7 true, .GetCommonState 7 [(6, 6000)]] := by
  refine ⟨rfl, rfl, by decide, rfl, rfl⟩

/-- The path of `OnMsg(ProofCommonState)` after the reported height was found in the batch
and the proof accepted. -/
theorem OnMsgProofCommonState_matched (E : Externals) (s : NetworkStd) (c : Nat) (x : Connection) (p : SyncCtx)
    (msg : ProofCommonState) (i : Nat)
    (hx : s.conn c = some x) (hp : x.m_pSync = some p) (hne : p.m_vConfirming ≠ [])
    (hs : ShouldSync s x = true)
    (hi : findState msg.m_ID.1 p.m_vConfirming 0 = some i)
    (hv : E.IsValidProofState x.m_Tip msg.m_ID msg.m_Proof = true) :
    OnMsgProofCommonState E s c msg =
      if p.m_LowHeight < (p.m_vConfirming.headD ⟨0, 0, 0, 0⟩).m_Height ∧ i ≠ 0 then
        .ok (SearchBelow E (s.modifyConn c (fun y => { y with m_pSync := y.m_pSync.map (fun q =>
          { q with m_vConfirming := [] }) })) c ((p.m_LowHeight + 1) % 2 ^ 64) 1)
      else if E.get_Hash (p.m_vConfirming.getD i ⟨0, 0, 0, 0⟩) = msg.m_ID.2 then
        .ok (RequestChainworkProof E ((s.modifyConn c (fun y =>
          { y with m_pSync := y.m_pSync.map (fun q => { q with m_vConfirming := [] }) })).modifyConn
            c (fun y => { y with m_pSync := y.m_pSync.map (fun q =>
              { q with m_Confirmed := p.m_vConfirming.getD i ⟨0, 0, 0, 0⟩ }) })) c)
      else if i = p.m_vConfirming.length - 1 then
        .ok (SearchBelow E (s.modifyConn c (fun y => { y with m_pSync := y.m_pSync.map (fun q =>
          { q with m_vConfirming := [] }) })) c
          (p.m_vConfirming.getLastD ⟨0, 0, 0, 0⟩).m_Height
          ((p.m_vConfirming.length * 2) % 2 ^ 32))
      else .error (s.modifyConn c (fun y => { y with m_pSync := y.m_pSync.map (fun q =>
          { q with m_vConfirming := [] }) })) := by
  have h2 : ShouldSync (s.modifyConn c (fun y => { y with m_pSync := y.m_pSync.map (fun q =>
      { q with m_vConfirming := [] }) })) x = true := hs
  unfold OnMsgProofCommonState
  simp only [hx, hp, hi]
  rw [if_neg (by simpa using hne), if_neg (by simp [h2]), if_neg (by simp [hv])]
  by_cases hn : p.m_LowHeight < (p.m_vConfirming.headD ⟨0, 0, 0, 0⟩).m_Height ∧ i ≠ 0
  · rw [if_pos hn, if_pos (by simpa using hn)]
  · rw [if_neg hn, if_neg (by simpa using hn)]
    by_cases hh : E.get_Hash (p.m_vConfirming.getD i ⟨0, 0, 0, 0⟩) = msg.m_ID.2
    · rw [if_pos hh, if_neg (by simpa using hh)]
    · rw [if_neg hh, if_pos hh]
      by_cases hl : i = p.m_vConfirming.length - 1
      · rw [if_pos hl, if_neg (by simpa using hl)]
      · rw [if_neg hl, if_pos hl]

/-- C24 (narrowing condition), amended: on a `ProofCommonState` whose height is
that of entry `i` of the batch and whose proof is valid, the connection calls
`SearchBelow(m_LowHeight + 1, 1)` exactly when `m_LowHeight` is below the height of the
first entry of the batch (the highest, as the batch is in descending order) and `i` is not
0; otherwise it compares the hashes: equal hashes confirm entry `i` and request the
chainwork proof, different hashes at the last entry widen the search, and different hashes
elsewhere are a fault. -/
theorem C24_narrowing (E : Externals) (s : NetworkStd) (c : Nat) (x : Connection) (p : SyncCtx)
    (msg : ProofCommonState) (i : Nat)
    (hx : s.conn c = some x) (hp : x.m_pSync = some p) (hne : p.m_vConfirming ≠ [])
    (hs : ShouldSync s x = true)
    (hi : findState msg.m_ID.1 p.m_vConfirming 0 = some i)
    (hv : E.IsValidProofState x.m_Tip msg.m_ID msg.m_Proof = true)
    (h64 : (p.m_vConfirming.headD ⟨0, 0, 0, 0⟩).m_Height < 2 ^ 64) :
    OnMsgProofCommonState E s c msg =
      if p.m_LowHeight < (p.m_vConfirming.headD ⟨0, 0, 0, 0⟩).m_Height ∧ i ≠ 0 then
        .ok (SearchBelow E (s.modifyConn c (fun y => { y with m_pSync := y.m_pSync.map (fun q =>
          { q with m_vConfirming := [] }) })) c (p.m_LowHeight + 1) 1)
      else if E.get_Hash (p.m_vConfirming.getD i ⟨0, 0, 0, 0⟩) = msg.m_ID.2 then
        .ok (RequestChainworkProof E ((s.modifyConn c (fun y =>
          { y with m_pSync := y.m_pSync.map (fun q => { q with m_vConfirming := [] }) })).modifyConn
            c (fun y => { y with m_pSync := y.m_pSync.map (fun q =>
              { q with m_Confirmed := p.m_vConfirming.getD i ⟨0, 0, 0, 0⟩ }) })) c)
      else if i = p.m_vConfirming.length - 1 then
        .ok (SearchBelow E (s.modifyConn c (fun y => { y with m_pSync := y.m_pSync.map (fun q =>
          { q with m_vConfirming := [] }) })) c
          (p.m_vConfirming.getLastD ⟨0, 0, 0, 0⟩).m_Height
          ((p.m_vConfirming.length * 2) % 2 ^ 32))
      else .error (s.modifyConn c (fun y => { y with m_pSync := y.m_pSync.map (fun q =>
          { q with m_vConfirming := [] }) })) := by
  rw [OnMsgProofCommonState_matched E s c x p msg i hx hp hne hs hi hv]
  by_cases hn : p.m_LowHeight < (p.m_vConfirming.headD ⟨0, 0, 0, 0⟩).m_Height ∧ i ≠ 0
  · rw [if_pos hn, if_pos hn, Nat.mod_eq_of_lt (by omega)]
  · rw [if_neg hn, if_neg hn]

/-- C24, amended, at the state `stale` (batch 7 and 6, floor 6) for a proof of the header at
height 6: the search restarts below height 7. -/
theorem C24_narrowing_witness :
    OnMsgProofCommonState Example.externals Example.stale 7 ⟨(6, 6000), 0⟩ =
      .ok (SearchBelow Example.externals (Example.stale.modifyConn 7 (fun y =>
        { y with m_pSync := y.m_pSync.map (fun q => { q with m_vConfirming := [] }) })) 7 7 1) :=
  C24_narrowing Example.externals Example.stale 7 _ _ ⟨(6, 6000), 0⟩ 1 rfl rfl (by decide) rfl rfl
    rfl (by decide)

/-- The loop of `std::lower_bound` on an array sorted by height: it returns the partition
point of the heights below `h`. -/
theorem lower_boundLoop_spec (v : List Full) (h : Nat)
    (hsorted : ∀ (i j : Nat) (hi : i < v.length) (hj : j < v.length), i < j →
      v[i].m_Height ≤ v[j].m_Height) :
    ∀ (fuel first count : Nat), count ≤ fuel → first + count ≤ v.length →
      (∀ (i : Nat) (hi : i < v.length), i < first → v[i].m_Height < h) →
      (∀ (i : Nat) (hi : i < v.length), first + count ≤ i → h ≤ v[i].m_Height) →
      lower_boundLoop v h fuel first count ≤ v.length ∧
      (∀ (i : Nat) (hi : i < v.length), i < lower_boundLoop v h fuel first count →
        v[i].m_Height < h) ∧
      (∀ (i : Nat) (hi : i < v.length), lower_boundLoop v h fuel first count ≤ i →
        h ≤ v[i].m_Height)
  | 0, first, count, hf, hlen, hlo, hhi => by
    have : count = 0 := by omega
    subst this
    exact ⟨by simp [lower_boundLoop]; omega, fun i hi hlt => hlo i hi (by simpa [lower_boundLoop] using hlt),
      fun i hi hge => hhi i hi (by simpa [lower_boundLoop] using hge)⟩
  | fuel + 1, first, count, hf, hlen, hlo, hhi => by
    unfold lower_boundLoop
    by_cases hc : count = 0
    · rw [if_pos hc]
      subst hc
      exact ⟨by omega, fun i hi hlt => hlo i hi hlt, fun i hi hge => hhi i hi (by omega)⟩
    · rw [if_neg hc]
      have hit : first + count / 2 < v.length := by
        have : count / 2 < count := Nat.div_lt_self (by omega) (by decide)
        omega
      simp only [List.getElem?_eq_getElem hit]
      by_cases hlt : v[first + count / 2].m_Height < h
      · rw [if_pos hlt]
        have hdiv : count / 2 < count := Nat.div_lt_self (by omega) (by decide)
        apply lower_boundLoop_spec v h hsorted fuel (first + count / 2 + 1)
          (count - (count / 2 + 1)) (by omega) (by omega)
        · intro i hi hi2
          by_cases he : i = first + count / 2
          · subst he; exact hlt
          · exact Nat.lt_of_le_of_lt (hsorted i (first + count / 2) hi hit (by omega)) hlt
        · intro i hi hi2
          exact hhi i hi (by omega)
      · rw [if_neg hlt]
        have hdiv : count / 2 < count := Nat.div_lt_self (by omega) (by decide)
        apply lower_boundLoop_spec v h hsorted fuel first (count / 2) (by omega) (by omega) hlo
        intro i hi hi2
        by_cases he : i = first + count / 2
        · subst he; omega
        · exact Nat.le_trans (by omega) (hsorted (first + count / 2) i hit hi (by omega))

theorem lower_bound_spec (v : List Full) (h : Nat)
    (hsorted : ∀ (i j : Nat) (hi : i < v.length) (hj : j < v.length), i < j →
      v[i].m_Height ≤ v[j].m_Height) :
    lower_bound v h ≤ v.length ∧
    (∀ (i : Nat) (hi : i < v.length), i < lower_bound v h → v[i].m_Height < h) ∧
    (∀ (i : Nat) (hi : i < v.length), lower_bound v h ≤ i → h ≤ v[i].m_Height) :=
  lower_boundLoop_spec v h hsorted v.length 0 v.length (Nat.le_refl _) (by omega)
    (fun i _ hi => absurd hi (Nat.not_lt_zero _)) (fun i hi hge => by omega)

/-- C29 (`StateArray::Find` is exact membership): for an array of headers sorted by
strictly increasing height and every header `s`, `Find(s)` is true if and only if an element of
the array equals `s`. -/
theorem C29_Find_is_membership (m_vec : List Full) (s : Full)
    (hsorted : m_vec.Pairwise (fun a b => a.m_Height < b.m_Height)) :
    Find m_vec s = true ↔ s ∈ m_vec := by
  have hs := List.pairwise_iff_getElem.mp hsorted
  obtain ⟨hle, hlo, hhi⟩ := lower_bound_spec m_vec s.m_Height
    (fun i j hi hj hij => Nat.le_of_lt (hs i j hi hj hij))
  unfold Find
  constructor
  · intro hfind
    cases hr : m_vec[lower_bound m_vec s.m_Height]? with
    | none => rw [hr] at hfind; cases hfind
    | some f =>
      rw [hr] at hfind
      have hfs : f = s := by simpa using hfind
      subst hfs
      exact List.getElem?_mem hr
  · intro hmem
    obtain ⟨j, hj, hjs⟩ := List.getElem_of_mem hmem
    have hge : lower_bound m_vec s.m_Height ≤ j := by
      by_contra hcon
      have := hlo j hj (by omega)
      rw [hjs] at this
      exact Nat.lt_irrefl _ this
    have heq : lower_bound m_vec s.m_Height = j := by
      by_contra hne
      have hlt : lower_bound m_vec s.m_Height < j := by omega
      have h1 := hs _ j (by omega) hj hlt
      have h2 := hhi (lower_bound m_vec s.m_Height) (by omega) (Nat.le_refl _)
      rw [hjs] at h1
      omega
    rw [heq, List.getElem?_eq_getElem hj, hjs]
    simp

/-- C29 at the array `proof` (heights 7, 8, 9) for its header at height 8. -/
theorem C29_Find_is_membership_witness :
    Find Example.proof ⟨8, 7000, 81, 2⟩ = true ↔ (⟨8, 7000, 81, 2⟩ : Full) ∈ Example.proof :=
  C29_Find_is_membership Example.proof ⟨8, 7000, 81, 2⟩ (by decide)

theorem walk_PostChainworkProof (arr : List Full) (low : Nat) : ∀ (l : List Full) (init : Nat),
    walk (PostChainworkProof.OnState arr low) l init =
      ((l.takeWhile (fun f => decide (low < f.m_Height) && !Find arr f)).getLast?.map
        (fun f => f.m_Height)).getD init
  | [], init => rfl
  | f :: rest, init => by
    rw [walk]
    by_cases h1 : f.m_Height ≤ low
    · have hn : ¬ low < f.m_Height := by omega
      have hO : PostChainworkProof.OnState arr low init f = (init, false) := by
        simp [PostChainworkProof.OnState, h1]
      simp [hO, hn]
    · have h1b : low < f.m_Height := by omega
      cases h2 : Find arr f with
      | true =>
        have hO : PostChainworkProof.OnState arr low init f = (init, false) := by
          simp [PostChainworkProof.OnState, h1, h2]
        simp [hO, h2]
      | false =>
        have hO : PostChainworkProof.OnState arr low init f = (f.m_Height, true) := by
          simp [PostChainworkProof.OnState, h1, h2]
        simp only [hO, if_true]
        rw [walk_PostChainworkProof arr low rest f.m_Height]
        rw [List.takeWhile_cons_of_pos (by simp [h1b, h2])]
        cases ht : (rest.takeWhile (fun f => decide (low < f.m_Height) && !Find arr f)) with
        | nil => simp
        | cons g t =>
          have hl : (f :: g :: t).getLast? = (g :: t).getLast? := List.getLast?_cons_cons
          rw [hl, List.getLast?_eq_getLast _ (List.cons_ne_nil g t)]
          rfl

theorem map_conn_PrioritizeSelf {α : Type} (π : Connection → α) (s : NetworkStd) (c d : Nat) :
    ((PrioritizeSelf s c).conn d).map π = (s.conn d).map π := by
  rw [conn_PrioritizeSelf]

theorem map_conn_modifyConn {α : Type} (π : Connection → α) (s : NetworkStd) (c d : Nat)
    (f : Connection → Connection) (hid : ∀ y, (f y).id = y.id) (hπ : ∀ y, π (f y) = π y) :
    ((s.modifyConn c f).conn d).map π = (s.conn d).map π := by
  by_cases h : d = c
  · subst h
    rw [conn_modifyConn s d f hid]
    cases s.conn d <;> simp [hπ]
  · rw [conn_modifyConn_ne s c d h f hid]

theorem map_conn_AssignRequests {α : Type} (π : Connection → α)
    (hπ : ∀ (y : Connection) (l : List RequestPtr) (t : Option Nat),
      π { y with m_lst := l, m_pTimer := t } = π y)
    (s : NetworkStd) (c d : Nat) :
    ((AssignRequests s c).conn d).map π = (s.conn d).map π := by
  cases hx : s.conn c with
  | none => rw [AssignRequests_none s c hx]
  | some x =>
    rw [AssignRequests_eq s c x hx]
    exact map_conn_modifyConn π _ c d _ (fun _ => rfl) (fun y => hπ y _ _)

theorem map_conn_map_all {α : Type} (π : Connection → α) (s : NetworkStd) (d : Nat)
    (g : Connection → Connection) (hid : ∀ y, (g y).id = y.id) :
    (NetworkStd.conn { s with m_Connections := s.m_Connections.map g } d).map π =
      (s.conn d).map (fun y => π (g y)) := by
  unfold NetworkStd.conn
  simp only
  rw [find?_map_all d g hid]
  cases List.find? (fun y => y.id == d) s.m_Connections <;> rfl

/-- The end of `PostChainworkProof`, from `AddStates` on. -/
theorem PostChainworkProof_tail (s : NetworkStd) (c : Nat) (added : List Full) :
    (AssignRequests ((PrioritizeSelf (AddStates s added) c).emit .OnNewTip) c).syncEvents =
      s.syncEvents ++ [.AddStates added, .OnNewTip] ∧
    (AssignRequests ((PrioritizeSelf (AddStates s added) c).emit .OnNewTip) c).m_History =
      s.m_History ++ added ∧
    ∀ d, ((AssignRequests ((PrioritizeSelf (AddStates s added) c).emit .OnNewTip) c).conn d).map
      (fun y => y.m_pSync) = (s.conn d).map (fun y => y.m_pSync) := by
  refine ⟨?_, ?_, ?_⟩
  · rw [syncEvents_AssignRequests, syncEvents_emit]
    unfold NetworkStd.syncEvents
    rw [trace_PrioritizeSelf]
    simp [AddStates, NetworkStd.emit, Event.isSync, List.filter_append]
  · rw [AssignRequests_m_History]
    unfold PrioritizeSelf AddStates NetworkStd.emit
    cases hx : NetworkStd.conn _ c <;> rfl
  · intro d
    rw [map_conn_AssignRequests (fun y => y.m_pSync) (fun _ _ _ => rfl)]
    show Option.map _ ((PrioritizeSelf (AddStates s added) c).conn d) = _
    rw [conn_PrioritizeSelf]
    rfl



theorem PostChainworkProof_eq (E : Externals) (s : NetworkStd) (c : Nat) (x : Connection)
    (arr : List Full) (low e : Nat) (hx : s.conn c = some x)
    (he : e = ((PostChainworkProof.passed s.m_History arr low).getLast?.map
      (fun f => f.m_Height)).getD E.MaxHeight) :
    PostChainworkProof E s c arr low =
      AssignRequests ((PrioritizeSelf (AddStates
        (if e ≠ E.MaxHeight then
          NetworkStd.emit { DeleteFrom s e with
            m_Connections := s.m_Connections.map (fun (y : Connection) =>
              { y with m_pSync := y.m_pSync.map (fun (p : SyncCtx) =>
                { p with m_LowHeight := min p.m_LowHeight ((e + 2 ^ 64 - 1) % 2 ^ 64) }) }) }
            .OnRolledBack
        else s)
        (if arr.isEmpty then [x.m_Tip] else arr)) c).emit .OnNewTip) c := by
  unfold PostChainworkProof
  simp only [hx]
  have hw := walk_PostChainworkProof arr low (s.Enum none) E.MaxHeight
  have hen : s.Enum none = s.m_History.reverse := rfl
  rw [hen] at hw
  rw [hen, hw]
  unfold PostChainworkProof.passed at he
  rw [← he]
  by_cases harr : arr.isEmpty = true
  · simp only [harr, if_true]
    rfl
  · simp only [harr, if_false]
    rfl

theorem passed_sublist (h arr : List Full) (low : Nat) (f : Full)
    (hf : f ∈ PostChainworkProof.passed h arr low) :
    f ∈ h ∧ low < f.m_Height ∧ Find arr f = false := by
  unfold PostChainworkProof.passed at hf
  have h1 := List.mem_takeWhile_imp hf
  have h2 := (List.takeWhile_sublist _).subset hf
  simp only [Bool.and_eq_true, decide_eq_true_eq, Bool.not_eq_true'] at h1
  exact ⟨by simpa using h2, h1.1, h1.2⟩

/-- C22, as stated, fails: the history holds the headers 5 to 8 and the proof array the
headers 7 to 9 of the peer, with another header at height 8; the floor is 5.  The lowest
header of the history above the floor that the array does not hold is at height 6, but
`PostChainworkProof` deletes from height 8: its walk down from the tip stops at the header 7,
which the array holds. -/
theorem C22_erases_above_first_header_found :
    lowestMissing Example.forked.m_History Example.proof 5 = some 6 ∧
    (PostChainworkProof Example.externals Example.forked 7 Example.proof 5).syncEvents =
      [.DeleteFrom 8, .OnRolledBack, .AddStates Example.proof, .OnNewTip] := by
  refine ⟨by decide, rfl⟩

/-- C22 (rollback), amended: `PostChainworkProof` walks the history from the tip
downwards and stops at the first header that is at or below `m_LowHeight` or that the array
holds.  If it passed a header, with `f` the last (lowest) one passed, the history is deleted
from the height of `f`, every connection that holds a `SyncCtx` gets its `m_LowHeight`
lowered to the minimum of its value and that height minus 1, and `OnRolledBack` comes before
`OnNewTip`.  If it passed none, there is no `DeleteFrom`, no `m_LowHeight` changes and
there is no `OnRolledBack`; this is so when the array holds every header of the history above
`m_LowHeight`. -/
theorem C22_rollback (E : Externals) (s : NetworkStd) (c : Nat) (x : Connection)
    (arr : List Full) (low : Nat) (hx : s.conn c = some x)
    (hH : ∀ f ∈ s.m_History, f.m_Height < E.MaxHeight) (hM : E.MaxHeight < 2 ^ 64) :
    (∀ f, (PostChainworkProof.passed s.m_History arr low).getLast? = some f →
      (PostChainworkProof E s c arr low).syncEvents =
        s.syncEvents ++ [.DeleteFrom f.m_Height, .OnRolledBack,
          .AddStates (if arr.isEmpty then [x.m_Tip] else arr), .OnNewTip] ∧
      (PostChainworkProof E s c arr low).m_History =
        s.m_History.filter (fun g => g.m_Height < f.m_Height) ++
          (if arr.isEmpty then [x.m_Tip] else arr) ∧
      ∀ d, ((PostChainworkProof E s c arr low).conn d).map (fun y => y.m_pSync) =
        (s.conn d).map (fun y => y.m_pSync.map (fun (q : SyncCtx) =>
          { q with m_LowHeight := min q.m_LowHeight (f.m_Height - 1) }))) ∧
    (PostChainworkProof.passed s.m_History arr low = [] →
      (PostChainworkProof E s c arr low).syncEvents =
        s.syncEvents ++ [.AddStates (if arr.isEmpty then [x.m_Tip] else arr), .OnNewTip] ∧
      (PostChainworkProof E s c arr low).m_History =
        s.m_History ++ (if arr.isEmpty then [x.m_Tip] else arr) ∧
      ∀ d, ((PostChainworkProof E s c arr low).conn d).map (fun y => y.m_pSync) =
        (s.conn d).map (fun y => y.m_pSync)) ∧
    ((∀ f ∈ s.m_History, low < f.m_Height → Find arr f = true) →
      PostChainworkProof.passed s.m_History arr low = []) := by
  refine ⟨?_, ?_, ?_⟩
  · intro f hf
    have hmem := passed_sublist _ _ _ _ (List.mem_of_mem_getLast? hf)
    have hlt := hH f hmem.1
    have hpos : 0 < f.m_Height := by omega
    rw [PostChainworkProof_eq E s c x arr low f.m_Height hx (by rw [hf]; rfl)]
    rw [if_pos (by omega)]
    obtain ⟨h1, h2, h3⟩ := PostChainworkProof_tail
      (NetworkStd.emit { DeleteFrom s f.m_Height with
        m_Connections := s.m_Connections.map (fun (y : Connection) =>
          { y with m_pSync := y.m_pSync.map (fun (p : SyncCtx) =>
            { p with m_LowHeight := min p.m_LowHeight ((f.m_Height + 2 ^ 64 - 1) % 2 ^ 64) }) }) }
        .OnRolledBack) c (if arr.isEmpty then [x.m_Tip] else arr)
    have hwrap : (f.m_Height + 2 ^ 64 - 1) % 2 ^ 64 = f.m_Height - 1 := by
      have : f.m_Height + 2 ^ 64 - 1 = (f.m_Height - 1) + 2 ^ 64 := by omega
      rw [this, Nat.add_mod_right, Nat.mod_eq_of_lt (by omega)]
    refine ⟨?_, ?_, ?_⟩
    · rw [h1]
      simp [NetworkStd.syncEvents, NetworkStd.emit, DeleteFrom, Event.isSync, List.filter_append]
    · rw [h2]
      rfl
    · intro d
      rw [h3 d, ← hwrap]
      exact map_conn_map_all (fun y => y.m_pSync) (DeleteFrom s f.m_Height) d _ (fun _ => rfl)
  · intro hnil
    rw [PostChainworkProof_eq E s c x arr low E.MaxHeight hx (by rw [hnil]; rfl)]
    rw [if_neg (by simp)]
    exact PostChainworkProof_tail s c _
  · intro hall
    unfold PostChainworkProof.passed
    cases hl : s.m_History.reverse with
    | nil => rfl
    | cons g rest =>
      have hg : g ∈ s.m_History := by
        have : g ∈ s.m_History.reverse := by rw [hl]; exact List.mem_cons_self _ _
        simpa using this
      by_cases hlow : low < g.m_Height
      · rw [List.takeWhile_cons_of_neg (by simp [hall g hg hlow])]
      · rw [List.takeWhile_cons_of_neg (by simp [hlow])]

/-- C22, amended, at the state `forked` with the array `proof` and the floor 5: the history
is cut from height 8 and the array appended, and the floor of connection 8, which holds a
`SyncCtx`, is lowered from 9 to 7. -/
theorem C22_rollback_witness :
    (PostChainworkProof Example.externals Example.forked 7 Example.proof 5).m_History =
      [Example.tip, ⟨6, 5000, 60, 0⟩, ⟨7, 6000, 70, 0⟩] ++ Example.proof ∧
    ((PostChainworkProof Example.externals Example.forked 7 Example.proof 5).conn 8).map
      (fun y => y.m_pSync) = some (some ⟨7, ⟨0, 0, 0, 0⟩, ⟨0, 0, 0, 0⟩, []⟩) :=
  have h := (C22_rollback Example.externals Example.forked 7 _ Example.proof 5 rfl
    (by decide) (by decide)).1 ⟨8, 7000, 80, 1⟩ rfl
  ⟨h.2.1, h.2.2 8⟩

/-- With polling configured, `AssignRequests` on a connection that it leaves without a
request in flight arms the timer with the close delay; without polling it leaves no timer. -/
theorem AssignRequests_timer (s : NetworkStd) (c : Nat) (x : Connection)
    (hx : s.conn c = some x) :
    ((AssignRequests s c).conn c).map (fun y => y.m_pTimer) =
      some (if (x.m_lst ++ s.m_lst.filter (assignMove s.heap (IsSupported s x))).isEmpty
          && s.m_Cfg.m_PollPeriod_ms != 0 then some s.m_Cfg.m_CloseConnectionDelay_ms else none) := by
  rw [AssignRequests_conn s c x hx]
  rfl

/-- The timer fires on a live connection: with polling configured the connection is reset and
the timer armed with the maximum of the target block time and the poll period, in
milliseconds; without polling nothing happens. -/
theorem OnTimer_live (Target_s : Nat) (Connect : NetworkStd → Nat → NetworkStd) (s : NetworkStd)
    (c : Nat) (x : Connection) (hx : s.conn c = some x) (hlive : x.IsLive = true) :
    OnTimer Target_s Connect s c =
      if s.m_Cfg.m_PollPeriod_ms ≠ 0 then
        SetTimer (ResetAll s c) c (max ((Target_s * 1000) % 2 ^ 32) s.m_Cfg.m_PollPeriod_ms)
      else s := by
  unfold OnTimer
  simp only [hx, hlive, if_true]
  by_cases hp : s.m_Cfg.m_PollPeriod_ms = 0
  · simp [hp]
  · have hcfg : (ResetAll s c).m_Cfg = s.m_Cfg := by
      unfold ResetAll ResetVars ResetInternal NetworkStd.modifyConn
      simp only
      split
      · split <;> split <;> rfl
      · rfl
    simp [hp, hcfg]

/-- C27 (idle-poll timer) fails on the code, at the end of `OnFirstRequestDone`: with polling configured, when the valid reply
for the only request in flight on a connection arrives, the connection supports the request
and the handler is attached, the request is completed and the timer of the connection is
armed with 0, whatever the close delay `m_CloseConnectionDelay_ms` is. -/
theorem C27_last_reply_arms_timer_with_zero (s : NetworkStd) (c : Nat) (ty : RequestType)
    (x : Connection) (r : RequestPtr) (hx : s.conn c = some x) (hl : x.m_lst = [r])
    (hty : (s.heap r).get_Type = ty) (htrg : (s.heap r).m_pTrg.isSome = true)
    (hsup : IsSupported s x ty = true) (hpoll : s.m_Cfg.m_PollPeriod_ms ≠ 0) :
    ∃ t, OnMsg s c ty true = .ok t ∧
      (t.conn c).map (fun y => (y.m_lst, y.m_pTimer)) = some ([], some 0) := by
  have hfirst : get_FirstRequestStrict s c ty = some r := by
    unfold get_FirstRequestStrict get_FirstRequest
    simp only [hx, hl, List.head?_cons]
    rw [if_neg (by simpa using hty)]
  have hx2 : (s.emit (.OnRequestData c r)).conn c = some x := hx
  have hsame : IsSupported (s.emit (.OnRequestData c r)) x ty = IsSupported s x ty :=
    IsSupported_congr _ _ _ _ rfl rfl rfl rfl ty
  have heq : OnMsg s c ty true =
      .ok (OnFirstRequestDone (s.emit (.OnRequestData c r)) c true) := by
    unfold OnMsg
    simp only [hfirst, hx]
    rw [hsame, hsup]
    rfl
  rw [OnFirstRequestDone_cons _ c true x r [] hx2 hl] at heq
  have htrg2 : ((s.emit (.OnRequestData c r)).heap r).m_pTrg.isSome = true := htrg
  rw [if_pos htrg2, if_neg (by simp)] at heq
  refine ⟨_, heq, ?_⟩
  have h1 : ((s.emit (.OnRequestData c r)).modifyConn c
      (fun y => { y with m_lst := [] })).conn c = some { x with m_lst := [] } :=
    conn_modifyConn_some _ c _ x (fun _ => rfl) hx2
  have h2 : (Finish ((s.emit (.OnRequestData c r)).modifyConn c
      (fun y => { y with m_lst := [] })) r).conn c = some { x with m_lst := [] } := by
    rw [← h1]
    unfold Finish
    split <;> rfl
  have hcfg : (Finish ((s.emit (.OnRequestData c r)).modifyConn c
      (fun y => { y with m_lst := [] })) r).m_Cfg = s.m_Cfg := by
    unfold Finish
    split <;> rfl
  unfold doneTimer
  rw [hcfg, if_pos (by simpa using hpoll)]
  have h3 := conn_modifyConn_some _ c (fun y => { y with m_pTimer := some 0 }) _
    (fun _ => rfl) h2
  unfold SetTimer
  rw [h3]
  rfl

/-- C27 at the state `polling` (close delay 5000 ms): after the reply for the only request
in flight the timer is armed with 0. -/
theorem C27_last_reply_arms_timer_with_zero_witness :
    Example.polling.m_Cfg.m_CloseConnectionDelay_ms = 5000 ∧
    ∃ t, OnMsg Example.polling 7 .Kernel true = .ok t ∧
      (t.conn 7).map (fun y => (y.m_lst, y.m_pTimer)) = some ([], some 0) :=
  ⟨rfl, C27_last_reply_arms_timer_with_zero Example.polling 7 .Kernel _ 3 rfl rfl rfl rfl rfl
    (by decide)⟩

theorem failedAsserts_emit (s : NetworkStd) (e : Event) (h : e.isFailedAssert = false) :
    (s.emit e).failedAsserts = s.failedAsserts := by
  show List.filter _ (s.trace ++ [e]) = _
  rw [List.filter_append]
  simp [h, NetworkStd.failedAsserts]

theorem failedAsserts_AssignRequests (s : NetworkStd) (c : Nat) :
    (AssignRequests s c).failedAsserts = s.failedAsserts :=
  AssignRequests_trace_filter _ (fun _ => rfl) (fun _ _ => rfl) s c

theorem failedAsserts_PrioritizeSelf (s : NetworkStd) (c : Nat) :
    (PrioritizeSelf s c).failedAsserts = s.failedAsserts := by
  unfold NetworkStd.failedAsserts
  rw [trace_PrioritizeSelf]

theorem failedAsserts_PostChainworkProof (E : Externals) (s : NetworkStd) (c : Nat)
    (arr : List Full) (low : Nat) :
    (PostChainworkProof E s c arr low).failedAsserts = s.failedAsserts := by
  cases hx : s.conn c with
  | none =>
    unfold PostChainworkProof
    simp only [hx]
  | some x =>
    rw [PostChainworkProof_eq E s c x arr low _ hx rfl, failedAsserts_AssignRequests,
      failedAsserts_emit _ _ (by rfl), failedAsserts_PrioritizeSelf]
    show NetworkStd.failedAsserts (NetworkStd.emit _ _) = _
    rw [failedAsserts_emit _ _ (by rfl)]
    split
    · show NetworkStd.failedAsserts (NetworkStd.emit (NetworkStd.emit _ _) _) = _
      rw [failedAsserts_emit _ _ (by rfl), failedAsserts_emit _ _ (by rfl)]
      rfl
    · rfl

theorem ShouldSync_congr {s t : NetworkStd} {x y : Connection}
    (hh : t.m_History = s.m_History) (ht : y.m_Tip = x.m_Tip) :
    ShouldSync t y = ShouldSync s x := by
  unfold ShouldSync
  rw [get_Tip_congr hh, ht]

/-- `RequestChainworkProof`, entered with its assertion true, adds no failed assert. -/
theorem failedAsserts_RequestChainworkProof (E : Externals) (s : NetworkStd) (c : Nat)
    (x : Connection) (hx : s.conn c = some x) (hready : syncReady s x = true) :
    (RequestChainworkProof E s c).failedAsserts = s.failedAsserts := by
  unfold RequestChainworkProof
  simp only [hx, hready]
  cases hp : x.m_pSync with
  | none => exact failedAsserts_emit _ _ (by rfl)
  | some p =>
    simp only
    split
    · rw [failedAsserts_PostChainworkProof]
      exact failedAsserts_emit _ _ (by rfl)
    · show NetworkStd.failedAsserts (NetworkStd.emit (NetworkStd.emit _ _) _) = _
      rw [failedAsserts_emit _ _ (by rfl), failedAsserts_emit _ _ (by rfl)]

/-- `SearchBelow`, entered with its assertions true, adds no failed assert. -/
theorem failedAsserts_SearchBelow (E : Externals) (s : NetworkStd) (c : Nat) (x : Connection)
    (h nCount : Nat) (hx : s.conn c = some x) (hready : syncReady s x = true)
    (hn : nCount ≠ 0) :
    (SearchBelow E s c h nCount).failedAsserts = s.failedAsserts := by
  have hn2 : (nCount != 0) = true := by simpa using hn
  unfold SearchBelow
  simp only [hx, hready, hn2]
  have h0 : ((s.emit (.Assert c true)).emit (.Assert c true)).failedAsserts = s.failedAsserts := by
    rw [failedAsserts_emit _ _ (by rfl), failedAsserts_emit _ _ (by rfl)]
  split
  · have hx2 := conn_modifyConn_some ((s.emit (.Assert c true)).emit (.Assert c true)) c
      (fun y => { y with m_pSync := y.m_pSync.map (fun p =>
        { p with m_Confirmed := ⟨0, 0, 0, 0⟩ }) }) x (fun _ => rfl) hx
    rw [failedAsserts_RequestChainworkProof E _ c _ hx2]
    · exact h0
    · unfold syncReady at hready ⊢
      rw [Bool.and_eq_true] at hready ⊢
      refine ⟨hready.1, ?_⟩
      cases hp : x.m_pSync with
      | none => rw [hp] at hready; exact absurd hready.2 (by simp)
      | some p => rw [hp] at hready; simpa [hp] using hready.2
  · show NetworkStd.failedAsserts (NetworkStd.emit _ _) = _
    rw [failedAsserts_emit _ _ (by rfl)]
    exact h0

/-- `StartSync`, entered with its assertion true, adds no failed assert. -/
theorem failedAsserts_StartSync (E : Externals) (s : NetworkStd) (c : Nat) (x : Connection)
    (hx : s.conn c = some x) (hs : ShouldSync s x = true) :
    (StartSync E s c).failedAsserts = s.failedAsserts := by
  cases hnext : E.IsNext (s.sTip E) x.m_Tip
  · rw [StartSync_search E s c x hx hnext, hs]
    have hx1 : (KillTimer (s.emit (.Assert c true)) c).conn c =
        some { x with m_pTimer := none } :=
      conn_modifyConn_some (s.emit (.Assert c true)) c (fun y => { y with m_pTimer := none }) x
        (fun _ => rfl) hx
    have hx2 := conn_modifyConn_some (KillTimer (s.emit (.Assert c true)) c) c
      (fun y =>
        { y with m_pSync := some ⟨x.m_Tip.m_Height, E.NewConfirmed, E.NewTipBeforeGap, []⟩ })
      _ (fun _ => rfl) hx1
    rw [failedAsserts_SearchBelow E _ c _ _ 1 hx2 _ (by decide)]
    · exact failedAsserts_emit _ _ (by rfl)
    · unfold syncReady
      rw [Bool.and_eq_true]
      exact ⟨hs, rfl⟩
  · rw [StartSync_fast E s c x hx hnext, hs, failedAsserts_emit _ _ (by rfl),
      failedAsserts_AssignRequests, failedAsserts_PrioritizeSelf]
    show NetworkStd.failedAsserts (NetworkStd.emit _ _) = _
    rw [failedAsserts_emit _ _ (by rfl)]
    exact failedAsserts_emit _ _ (by rfl)

/-- C30 (the assertions of the sync state machine hold): `OnMsg(NewTip)`,
`OnMsg(ProofCommonState)` and `OnMsg(ProofChainWork)` and the functions they call evaluate no
assertion to false.  The assertions are those at the entry of `StartSync` (`ShouldSync()`),
of `SearchBelow` and of `RequestChainworkProof` (`ShouldSync()`, a `SyncCtx` exists and its
batch is empty) and `nCount` non-zero in `SearchBelow`; the batch waiting for a proof has
fewer than `2 ^ 31` headers, so that twice its size fits in `uint32_t`. -/
theorem C30_sync_assertions_hold (E : Externals) (s : NetworkStd) (c : Nat)
    (hn : ∀ x p, s.conn c = some x → x.m_pSync = some p → p.m_vConfirming.length < 2 ^ 31) :
    (∀ h, (outcome (OnMsgNewTip E s c h)).failedAsserts = s.failedAsserts) ∧
    (∀ msg, (outcome (OnMsgProofCommonState E s c msg)).failedAsserts = s.failedAsserts) ∧
    (∀ m_Proof, (outcome (OnMsgProofChainWork E s c m_Proof)).failedAsserts =
      s.failedAsserts) := by
  refine ⟨?_, ?_, ?_⟩
  · intro h
    unfold OnMsgNewTip
    cases hx : s.conn c with
    | none => rfl
    | some x =>
      simp only
      split
      · rfl
      split
      · rfl
      split
      · rfl
      split
      · rfl
      cases hp : x.m_pSync with
      | some p => rfl
      | none =>
        simp only
        split
        · rename_i hsync
          have hc2 := storeTip_conn E s c x h hx
          simp only [outcome]
          rw [failedAsserts_StartSync E _ c _ hc2]
          · rfl
          · rw [← hsync]
            exact ShouldSync_congr rfl rfl
        · split
          · simp only [outcome]
            rw [failedAsserts_AssignRequests]
            exact failedAsserts_emit _ _ (by rfl)
          · exact failedAsserts_emit _ _ (by rfl)
  · intro msg
    unfold OnMsgProofCommonState
    cases hx : s.conn c with
    | none => rfl
    | some x =>
      simp only
      cases hp : x.m_pSync with
      | none => rfl
      | some p =>
        simp only
        have hlen := hn x p hx hp
        have hx1 := conn_modifyConn_some s c (fun y => { y with m_pSync := y.m_pSync.map (fun q =>
          { q with m_vConfirming := [] }) }) x (fun _ => rfl) hx
        split
        · rfl
        rename_i hne
        split
        · rfl
        rename_i hsync
        have hready : syncReady
            (s.modifyConn c (fun y => { y with m_pSync := y.m_pSync.map (fun q =>
              { q with m_vConfirming := [] }) }))
            ((fun (y : Connection) => { y with m_pSync := y.m_pSync.map (fun q =>
              { q with m_vConfirming := [] }) }) x) = true := by
          unfold syncReady
          rw [Bool.and_eq_true]
          constructor
          · have : ShouldSync (s.modifyConn c (fun y => { y with m_pSync := y.m_pSync.map (fun q =>
                { q with m_vConfirming := [] }) })) x = true := by
              simpa using hsync
            rw [← this]
            exact ShouldSync_congr rfl rfl
          · simp [hp]
        split
        · split
          · rfl
          · exact failedAsserts_SearchBelow E _ c _ _ 1 hx1 hready (by decide)
        · split
          · rfl
          split
          · exact failedAsserts_SearchBelow E _ c _ _ 1 hx1 hready (by decide)
          split
          · split
            · rfl
            · refine failedAsserts_SearchBelow E _ c _ _ _ hx1 hready ?_
              have hpos : 0 < p.m_vConfirming.length := by
                cases hv : p.m_vConfirming with
                | nil => rw [hv] at hne; simp at hne
                | cons a l => simp
              rw [Nat.mod_eq_of_lt (by omega)]
              omega
          · simp only [outcome]
            refine Eq.trans (failedAsserts_RequestChainworkProof E _ c _
              (conn_modifyConn_some _ c _ _ (by intro _; rfl) hx1) ?_) rfl
            unfold syncReady at hready ⊢
            rw [Bool.and_eq_true] at hready ⊢
            refine ⟨hready.1, ?_⟩
            simp [hp]
  · intro m_Proof
    unfold OnMsgProofChainWork
    cases hx : s.conn c with
    | none => rfl
    | some x =>
      simp only
      cases hp : x.m_pSync with
      | none => rfl
      | some p =>
        simp only
        split
        · rfl
        split
        · rfl
        cases hv : m_Proof.IsValid with
        | none => rfl
        | some sTip =>
          simp only
          split
          · rfl
          split
          · rfl
          rename_i hsync
          have hx1 := conn_modifyConn_some s c (fun y => { y with m_pSync := none }) x
            (fun _ => rfl) hx
          split
          · simp only [outcome]
            rw [failedAsserts_StartSync E _ c _ hx1]
            · rfl
            · have : ShouldSync (s.modifyConn c (fun y => { y with m_pSync := none })) x
                  = true := by
                simpa using hsync
              rw [← this]
              exact ShouldSync_congr rfl rfl
          · simp only [outcome]
            rw [failedAsserts_PostChainworkProof]
            rfl

/-- C30 at the state `stale` for a `ProofCommonState` that restarts the search: the two
assertions of `SearchBelow` are evaluated, both to true. -/
theorem C30_sync_assertions_hold_witness :
    (outcome (OnMsgProofCommonState Example.externals Example.stale 7 ⟨(6, 6001), 0⟩)).trace =
      [.Assert 7 true, .Assert 7 true, .GetCommonState 7 [(6, 6000)]] ∧
    (outcome (OnMsgProofCommonState Example.externals Example.stale 7
      ⟨(6, 6001), 0⟩)).failedAsserts = [] :=
  ⟨rfl, (C30_sync_assertions_hold Example.externals Example.stale 7
    (fun x p hx hp => by
      cases hx
      cases hp
      decide)).2.1 ⟨(6, 6001), 0⟩⟩

theorem holder_modifyConn_ne (s : NetworkStd) (c d : Nat) (hd : d ≠ c)
    (f : Connection → Connection) (hid : ∀ y, (f y).id = y.id) :
    (s.modifyConn c f).holder d = s.holder d := by
  unfold NetworkStd.holder
  rw [conn_modifyConn_ne s c d hd f hid]

theorem holder_AssignRequests (s : NetworkStd) (c d : Nat) :
    (AssignRequests s c).holder d = s.holder d :=
  map_conn_AssignRequests (fun y => (y.m_pSync.isSome, y.m_Tip)) (fun _ _ _ => rfl) s c d

theorem holder_PrioritizeSelf (s : NetworkStd) (c d : Nat) :
    (PrioritizeSelf s c).holder d = s.holder d :=
  map_conn_PrioritizeSelf (fun y => (y.m_pSync.isSome, y.m_Tip)) s c d

theorem holder_PostChainworkProof (E : Externals) (s : NetworkStd) (c d : Nat)
    (arr : List Full) (low : Nat) :
    (PostChainworkProof E s c arr low).holder d = s.holder d := by
  cases hx : s.conn c with
  | none =>
    unfold PostChainworkProof
    simp only [hx]
  | some x =>
    obtain ⟨e, he⟩ : ∃ e, e = ((PostChainworkProof.passed s.m_History arr low).getLast?.map
      (fun f => f.m_Height)).getD E.MaxHeight := ⟨_, rfl⟩
    rw [PostChainworkProof_eq E s c x arr low e hx he, holder_AssignRequests]
    show NetworkStd.holder (PrioritizeSelf _ c) d = _
    rw [holder_PrioritizeSelf]
    split
    · refine Eq.trans (map_conn_map_all (fun y => (y.m_pSync.isSome, y.m_Tip)) s d
        (fun (y : Connection) => { y with m_pSync := y.m_pSync.map (fun (p : SyncCtx) =>
          { p with m_LowHeight := min p.m_LowHeight ((e + 2 ^ 64 - 1) % 2 ^ 64) }) })
        (fun _ => rfl)) ?_
      unfold NetworkStd.holder
      cases s.conn d with
      | none => rfl
      | some y => cases hy : y.m_pSync <;> simp [hy]
    · rfl

theorem holder_RequestChainworkProof_ne (E : Externals) (s : NetworkStd) (c d : Nat)
    (hd : d ≠ c) : (RequestChainworkProof E s c).holder d = s.holder d := by
  unfold RequestChainworkProof
  cases hx : s.conn c with
  | none => rfl
  | some x =>
    simp only
    cases hp : x.m_pSync with
    | none => rfl
    | some p =>
      simp only
      split
      · rw [holder_PostChainworkProof]
        exact holder_modifyConn_ne _ c d hd _ (fun _ => rfl)
      · exact holder_modifyConn_ne _ c d hd _ (fun _ => rfl)

theorem holder_SearchBelow_ne (E : Externals) (s : NetworkStd) (c d : Nat) (h nCount : Nat)
    (hd : d ≠ c) : (SearchBelow E s c h nCount).holder d = s.holder d := by
  unfold SearchBelow
  cases hx : s.conn c with
  | none => rfl
  | some x =>
    simp only
    split
    · rw [holder_RequestChainworkProof_ne E _ c d hd]
      exact holder_modifyConn_ne _ c d hd _ (fun _ => rfl)
    · exact holder_modifyConn_ne _ c d hd _ (fun _ => rfl)

theorem holder_StartSync_ne (E : Externals) (s : NetworkStd) (c d : Nat) (hd : d ≠ c) :
    (StartSync E s c).holder d = s.holder d := by
  cases hx : s.conn c with
  | none =>
    unfold StartSync
    simp only [hx]
  | some x =>
    cases hnext : E.IsNext (s.sTip E) x.m_Tip
    · rw [StartSync_search E s c x hx hnext, holder_SearchBelow_ne E _ c d _ _ hd,
        holder_modifyConn_ne _ c d hd _ (by intro _; rfl)]
      exact holder_modifyConn_ne _ c d hd _ (fun _ => rfl)
    · rw [StartSync_fast E s c x hx hnext]
      show NetworkStd.holder (AssignRequests _ c) d = _
      rw [holder_AssignRequests, holder_PrioritizeSelf]
      exact holder_modifyConn_ne _ c d hd _ (fun _ => rfl)

/-- What a function of the sync state machine leaves on connection `c`: the history as it
was, or no `SyncCtx`. -/
theorem SyncOK_of_settled {s t : NetworkStd} {c : Nat} {x : Connection}
    (hx : s.conn c = some x) (hs : ShouldSync s x = true) (hpeer : t.peer c = s.peer c)
    (hset : t.m_History = s.m_History ∨ t.holder c = some (false, x.m_Tip)) : SyncOK t c := by
  intro y hy hsome
  rcases hset with hh | hnone
  · rw [← hs]
    apply ShouldSync_congr hh
    unfold NetworkStd.peer at hpeer
    rw [hx, hy] at hpeer
    simp only [Option.map_some', Option.some.injEq, Prod.mk.injEq] at hpeer
    exact hpeer.1
  · unfold NetworkStd.holder at hnone
    rw [hy] at hnone
    simp only [Option.map_some', Option.some.injEq, Prod.mk.injEq] at hnone
    rw [hnone.1] at hsome
    cases hsome

theorem RequestChainworkProof_settled (E : Externals) (s : NetworkStd) (c : Nat)
    (x : Connection) (hx : s.conn c = some x) :
    (RequestChainworkProof E s c).m_History = s.m_History ∨
      (RequestChainworkProof E s c).holder c = some (false, x.m_Tip) := by
  unfold RequestChainworkProof
  simp only [hx]
  cases hp : x.m_pSync with
  | none => exact Or.inl rfl
  | some p =>
    simp only
    split
    · right
      rw [holder_PostChainworkProof]
      unfold NetworkStd.holder
      have hx1 := conn_modifyConn_some (s.emit (.Assert c (syncReady s x))) c
        (fun y => { y with m_pSync := none }) x (fun _ => rfl) hx
      rw [hx1]
      rfl
    · exact Or.inl rfl

theorem SearchBelow_settled (E : Externals) (s : NetworkStd) (c : Nat) (x : Connection)
    (h nCount : Nat) (hx : s.conn c = some x) :
    (SearchBelow E s c h nCount).m_History = s.m_History ∨
      (SearchBelow E s c h nCount).holder c = some (false, x.m_Tip) := by
  unfold SearchBelow
  simp only [hx]
  split
  · have hx1 := conn_modifyConn_some
      ((s.emit (.Assert c (syncReady s x))).emit (.Assert c (nCount != 0))) c
      (fun y => { y with m_pSync := y.m_pSync.map (fun p =>
        { p with m_Confirmed := ⟨0, 0, 0, 0⟩ }) }) x (fun _ => rfl) hx
    have key := RequestChainworkProof_settled E _ c _ hx1
    exact key
  · exact Or.inl rfl

theorem StartSync_settled (E : Externals) (s : NetworkStd) (c : Nat) (x : Connection)
    (hx : s.conn c = some x) (hnone : x.m_pSync = none) :
    (StartSync E s c).m_History = s.m_History ∨
      (StartSync E s c).holder c = some (false, x.m_Tip) := by
  cases hnext : E.IsNext (s.sTip E) x.m_Tip
  · rw [StartSync_search E s c x hx hnext]
    have hx1 : (KillTimer (s.emit (.Assert c (ShouldSync s x))) c).conn c =
        some { x with m_pTimer := none } :=
      conn_modifyConn_some (s.emit (.Assert c (ShouldSync s x))) c
        (fun y => { y with m_pTimer := none }) x (fun _ => rfl) hx
    have hx2 := conn_modifyConn_some (KillTimer (s.emit (.Assert c (ShouldSync s x))) c) c
      (fun y =>
        { y with m_pSync := some ⟨x.m_Tip.m_Height, E.NewConfirmed, E.NewTipBeforeGap, []⟩ })
      _ (fun _ => rfl) hx1
    have key := SearchBelow_settled E _ c _ x.m_Tip.m_Height 1 hx2
    exact key
  · right
    rw [StartSync_fast E s c x hx hnext]
    show NetworkStd.holder (AssignRequests _ c) c = _
    rw [holder_AssignRequests, holder_PrioritizeSelf]
    unfold NetworkStd.holder
    have hx1 : (AddStates (KillTimer (s.emit (.Assert c (ShouldSync s x))) c) [x.m_Tip]).conn c =
        some { x with m_pTimer := none } :=
      conn_modifyConn_some (s.emit (.Assert c (ShouldSync s x))) c
        (fun y => { y with m_pTimer := none }) x (fun _ => rfl) hx
    rw [hx1]
    simp [hnone]

theorem SyncOK_of_holder {s t : NetworkStd} {d : Nat} (hh : t.m_History = s.m_History)
    (hold : t.holder d = s.holder d) (h : SyncOK s d) : SyncOK t d := by
  intro y hy hsome
  unfold NetworkStd.holder at hold
  rw [hy] at hold
  cases hx : s.conn d with
  | none => rw [hx] at hold; cases hold
  | some x =>
    rw [hx] at hold
    simp only [Option.map_some', Option.some.injEq, Prod.mk.injEq] at hold
    rw [ShouldSync_congr hh hold.2]
    exact h x hx (by rw [← hold.1]; exact hsome)

theorem SyncOK_of_none {t : NetworkStd} {c : Nat}
    (h : ∀ y, t.conn c = some y → y.m_pSync = none) : SyncOK t c := by
  intro y hy hsome
  rw [h y hy] at hsome
  cases hsome

theorem holder_OnMsgNewTip_ne (E : Externals) (s : NetworkStd) (c d : Nat) (h : Full)
    (hd : d ≠ c) : (outcome (OnMsgNewTip E s c h)).holder d = s.holder d := by
  have hst : (storeTip E s c h).holder d = s.holder d := by
    unfold storeTip
    rw [holder_modifyConn_ne _ c d hd _ (by intro _; rfl)]
    exact holder_modifyConn_ne _ c d hd _ (fun _ => rfl)
  unfold OnMsgNewTip
  cases hx : s.conn c with
  | none => rfl
  | some x =>
    simp only
    split
    · rfl
    split
    · rfl
    split
    · rfl
    split
    · rfl
    cases hp : x.m_pSync with
    | some p => exact hst
    | none =>
      simp only
      split
      · simp only [outcome]
        rw [holder_StartSync_ne E _ c d hd]
        exact hst
      · split
        · simp only [outcome]
          rw [holder_AssignRequests]
          exact hst
        · exact hst

theorem holder_OnMsgProofCommonState_ne (E : Externals) (s : NetworkStd) (c d : Nat)
    (msg : ProofCommonState) (hd : d ≠ c) :
    (outcome (OnMsgProofCommonState E s c msg)).holder d = s.holder d := by
  have h1 : ∀ f : Connection → Connection, (∀ y, (f y).id = y.id) →
      (s.modifyConn c f).holder d = s.holder d :=
    fun f hf => holder_modifyConn_ne s c d hd f hf
  unfold OnMsgProofCommonState
  cases hx : s.conn c with
  | none => rfl
  | some x =>
    simp only
    cases hp : x.m_pSync with
    | none => rfl
    | some p =>
      simp only
      split
      · exact h1 _ (fun _ => rfl)
      split
      · simp only [outcome]
        rw [holder_modifyConn_ne _ c d hd _ (by intro _; rfl)]
        exact h1 _ (fun _ => rfl)
      split
      · split
        · exact h1 _ (fun _ => rfl)
        · simp only [outcome]
          rw [holder_SearchBelow_ne E _ c d _ _ hd]
          exact h1 _ (fun _ => rfl)
      · split
        · exact h1 _ (fun _ => rfl)
        split
        · simp only [outcome]
          rw [holder_SearchBelow_ne E _ c d _ _ hd]
          exact h1 _ (fun _ => rfl)
        split
        · split
          · exact h1 _ (fun _ => rfl)
          · simp only [outcome]
            rw [holder_SearchBelow_ne E _ c d _ _ hd]
            exact h1 _ (fun _ => rfl)
        · simp only [outcome]
          rw [holder_RequestChainworkProof_ne E _ c d hd,
            holder_modifyConn_ne _ c d hd _ (by intro _; rfl)]
          exact h1 _ (fun _ => rfl)

theorem holder_OnMsgProofChainWork_ne (E : Externals) (s : NetworkStd) (c d : Nat)
    (m_Proof : ChainWorkProof) (hd : d ≠ c) :
    (outcome (OnMsgProofChainWork E s c m_Proof)).holder d = s.holder d := by
  have h1 : ∀ f : Connection → Connection, (∀ y, (f y).id = y.id) →
      (s.modifyConn c f).holder d = s.holder d :=
    fun f hf => holder_modifyConn_ne s c d hd f hf
  unfold OnMsgProofChainWork
  cases hx : s.conn c with
  | none => rfl
  | some x =>
    simp only
    cases hp : x.m_pSync with
    | none => rfl
    | some p =>
      simp only
      split
      · rfl
      split
      · rfl
      cases hv : m_Proof.IsValid with
      | none => rfl
      | some sTip =>
        simp only
        split
        · rfl
        split
        · exact h1 _ (fun _ => rfl)
        split
        · simp only [outcome]
          rw [holder_StartSync_ne E _ c d hd]
          exact h1 _ (fun _ => rfl)
        · simp only [outcome]
          rw [holder_PostChainworkProof]
          exact h1 _ (fun _ => rfl)

theorem SyncOK_OnMsgNewTip (E : Externals) (s : NetworkStd) (c : Nat) (h : Full)
    (hok : SyncOK s c) : SyncOK (outcome (OnMsgNewTip E s c h)) c := by
  unfold OnMsgNewTip
  cases hx : s.conn c with
  | none => exact hok
  | some x =>
    simp only
    split
    · exact hok
    split
    · exact hok
    split
    · exact hok
    rename_i hcw
    split
    · exact hok
    have hc2 := storeTip_conn E s c x h hx
    cases hp : x.m_pSync with
    | some p =>
      intro y hy _
      have hy2 : (storeTip E s c h).conn c = some y := hy
      rw [hc2] at hy2
      cases hy2
      have hsx := hok x hx (by rw [hp]; rfl)
      have hlt : x.m_Tip.m_ChainWork < h.m_ChainWork := by omega
      show ShouldSync s _ = true
      unfold ShouldSync at hsx ⊢
      cases ht : s.get_Tip with
      | none => rfl
      | some tp =>
        rw [ht] at hsx
        simp only [decide_eq_true_eq] at hsx ⊢
        exact Nat.lt_trans hsx hlt
    | none =>
      simp only
      split
      · rename_i hsync
        simp only [outcome]
        refine SyncOK_of_settled hc2 ?_ (peer_StartSync E _ c c) ?_
        · rw [← hsync]
          exact ShouldSync_congr rfl rfl
        · exact StartSync_settled E _ c _ hc2 (by simp [hp])
      · apply SyncOK_of_none
        intro y hy
        have hm : ∀ t : NetworkStd, t.conn c = (storeTip E s c h).conn c →
            t.conn c = some y → y.m_pSync = none := by
          intro t ht hty
          rw [ht, hc2] at hty
          cases hty
          simp [hp]
        split at hy
        · simp only [outcome] at hy
          have hmap := map_conn_AssignRequests (fun y => y.m_pSync) (fun _ _ _ => rfl)
            ((storeTip E s c h).emit .OnTipUnchanged) c c
          rw [hy] at hmap
          have hc3 : ((storeTip E s c h).emit .OnTipUnchanged).conn c = _ := hc2
          rw [hc3] at hmap
          simpa [hp] using hmap
        · exact hm _ rfl hy

theorem SyncOK_RequestChainworkProof_modify (E : Externals) (s : NetworkStd) (c : Nat)
    (x : Connection) (f : Connection → Connection) (hid : ∀ y, (f y).id = y.id)
    (ht : ∀ y, (f y).m_Tip = y.m_Tip) (hx : s.conn c = some x)
    (hs : ShouldSync s x = true) :
    SyncOK (RequestChainworkProof E (s.modifyConn c f) c) c := by
  have hx2 := conn_modifyConn_some s c f x hid hx
  have hs2 : ShouldSync (s.modifyConn c f) (f x) = true := by
    rw [← hs]
    exact ShouldSync_congr rfl (ht x)
  exact SyncOK_of_settled hx2 hs2 (peer_RequestChainworkProof E _ c c)
    (RequestChainworkProof_settled E _ c _ hx2)

theorem SyncOK_OnMsgProofCommonState (E : Externals) (s : NetworkStd) (c : Nat)
    (msg : ProofCommonState) (hok : SyncOK s c) :
    SyncOK (outcome (OnMsgProofCommonState E s c msg)) c := by
  unfold OnMsgProofCommonState
  cases hx : s.conn c with
  | none => exact hok
  | some x =>
    simp only
    cases hp : x.m_pSync with
    | none => exact hok
    | some p =>
      simp only
      have hsx := hok x hx (by rw [hp]; rfl)
      have hx1 := conn_modifyConn_some s c (fun y => { y with m_pSync := y.m_pSync.map (fun q =>
        { q with m_vConfirming := [] }) }) x (fun _ => rfl) hx
      have hs1 : ShouldSync (s.modifyConn c (fun y => { y with m_pSync := y.m_pSync.map (fun q =>
          { q with m_vConfirming := [] }) }))
          ((fun (y : Connection) => { y with m_pSync := y.m_pSync.map (fun q =>
            { q with m_vConfirming := [] }) }) x) = true := by
        rw [← hsx]
        exact ShouldSync_congr rfl rfl
      have hok1 : SyncOK (s.modifyConn c (fun y => { y with m_pSync := y.m_pSync.map (fun q =>
          { q with m_vConfirming := [] }) })) c := by
        intro y hy _
        rw [hx1] at hy
        cases hy
        exact hs1
      split
      · exact hok1
      split
      · apply SyncOK_of_none
        intro y hy
        simp only [outcome] at hy
        rw [conn_modifyConn_some _ c (fun y => { y with m_pSync := none }) _
          (fun _ => rfl) hx1] at hy
        cases hy
        rfl
      split
      · split
        · exact hok1
        · exact SyncOK_of_settled hx1 hs1 (peer_SearchBelow E _ c c _ _)
            (SearchBelow_settled E _ c _ _ _ hx1)
      · split
        · exact hok1
        split
        · exact SyncOK_of_settled hx1 hs1 (peer_SearchBelow E _ c c _ _)
            (SearchBelow_settled E _ c _ _ _ hx1)
        split
        · split
          · exact hok1
          · exact SyncOK_of_settled hx1 hs1 (peer_SearchBelow E _ c c _ _)
              (SearchBelow_settled E _ c _ _ _ hx1)
        · simp only [outcome]
          exact SyncOK_RequestChainworkProof_modify E _ c _ _ (fun _ => rfl) (fun _ => rfl)
            hx1 hs1

theorem SyncOK_OnMsgProofChainWork (E : Externals) (s : NetworkStd) (c : Nat)
    (m_Proof : ChainWorkProof) (hok : SyncOK s c) :
    SyncOK (outcome (OnMsgProofChainWork E s c m_Proof)) c := by
  unfold OnMsgProofChainWork
  cases hx : s.conn c with
  | none => exact hok
  | some x =>
    simp only
    cases hp : x.m_pSync with
    | none => exact hok
    | some p =>
      simp only
      split
      · exact hok
      split
      · exact hok
      cases hv : m_Proof.IsValid with
      | none => exact hok
      | some sTip =>
        simp only
        split
        · exact hok
        have hx1 := conn_modifyConn_some s c (fun y => { y with m_pSync := none }) x
          (fun _ => rfl) hx
        split
        · apply SyncOK_of_none
          intro y hy
          simp only [outcome] at hy
          rw [hx1] at hy
          cases hy
          rfl
        rename_i hsync
        have hs1 : ShouldSync (s.modifyConn c (fun y => { y with m_pSync := none }))
            ((fun (y : Connection) => { y with m_pSync := none }) x) = true := by
          have : ShouldSync (s.modifyConn c (fun y => { y with m_pSync := none })) x
              = true := by
            simpa using hsync
          rw [← this]
          exact ShouldSync_congr rfl rfl
        split
        · simp only [outcome]
          exact SyncOK_of_settled hx1 hs1 (peer_StartSync E _ c c)
            (StartSync_settled E _ c _ hx1 rfl)
        · simp only [outcome]
          refine SyncOK_of_settled hx1 hs1 (peer_PostChainworkProof E _ c c _ _) (Or.inr ?_)
          rw [holder_PostChainworkProof]
          unfold NetworkStd.holder
          rw [hx1]
          rfl

theorem holder_ResetAll_ne (s : NetworkStd) (c d : Nat) (hd : d ≠ c) :
    (ResetAll s c).holder d = s.holder d := by
  unfold ResetAll NetworkStd.holder
  rw [ResetVars_conn_ne _ c d hd, ResetInternal_conn_ne _ c d hd,
    conn_modifyConn_ne s c d hd _ (by intro _; rfl)]

theorem SyncOK_ResetAll (s : NetworkStd) (c : Nat) : SyncOK (ResetAll s c) c := by
  apply SyncOK_of_none
  intro y hy
  have hy2 : (ResetVars (ResetInternal (s.modifyConn c
      (fun x => { x with IsLive := false, IsSecureOut := false })) c) c).conn c = some y := hy
  have hR : ∀ s1 : NetworkStd, (ResetVars s1 c).conn c = (s1.conn c).map (fun x =>
      { x with m_Tip := ⟨0, 0, 0, 0⟩, m_LoginFlags := ⟨false, false⟩,
               m_Flags := ⟨false, false, false⟩, m_NodeID := 0 }) :=
    fun s1 => conn_modifyConn s1 c _ (by intro _; rfl)
  rw [hR] at hy2
  cases hx : s.conn c with
  | none =>
    have h1 : (s.modifyConn c (fun x => { x with IsLive := false, IsSecureOut := false })).conn c
        = none := by
      rw [conn_modifyConn s c _ (by intro _; rfl), hx]
      rfl
    rw [ResetInternal_none _ c h1, h1] at hy2
    cases hy2
  | some x =>
    have h1 := conn_modifyConn_some s c
      (fun x => { x with IsLive := false, IsSecureOut := false }) x (fun _ => rfl) hx
    rw [ResetInternal_conn _ c _ h1] at hy2
    cases hy2
    rfl

/-- A step of the sync state machine of connection `c`, from a state in which every
connection that holds a `SyncCtx` satisfies `ShouldSync()`: connection `c` satisfies it
afterwards, and every connection does when the step left the history as it was. -/
theorem SoloStep_SyncInv (E : Externals) (c : Nat) (s t : NetworkStd) (hstep : SoloStep E c s t)
    (hinv : SyncInv s) :
    SyncOK t c ∧ (∀ d, d ≠ c → t.holder d = s.holder d) ∧
      (t.m_History = s.m_History → SyncInv t) := by
  have key : SyncOK t c ∧ (∀ d, d ≠ c → t.holder d = s.holder d) := by
    cases hstep with
    | newTip h =>
      exact ⟨SyncOK_OnMsgNewTip E s c h (hinv c), fun d hd => holder_OnMsgNewTip_ne E s c d h hd⟩
    | proofCommonState msg =>
      exact ⟨SyncOK_OnMsgProofCommonState E s c msg (hinv c),
        fun d hd => holder_OnMsgProofCommonState_ne E s c d msg hd⟩
    | proofChainWork m_Proof =>
      exact ⟨SyncOK_OnMsgProofChainWork E s c m_Proof (hinv c),
        fun d hd => holder_OnMsgProofChainWork_ne E s c d m_Proof hd⟩
    | reset => exact ⟨SyncOK_ResetAll s c, fun d hd => holder_ResetAll_ne s c d hd⟩
  refine ⟨key.1, key.2, ?_⟩
  intro hh d
  by_cases hd : d = c
  · subst hd
    exact key.1
  · exact SyncOK_of_holder hh (key.2 d hd) (hinv d)

theorem holds_none_of_holder {s t : NetworkStd} {d : Nat} (hold : t.holder d = s.holder d)
    (h : ∀ x, s.conn d = some x → x.m_pSync = none) :
    ∀ y, t.conn d = some y → y.m_pSync = none := by
  intro y hy
  unfold NetworkStd.holder at hold
  rw [hy] at hold
  cases hx : s.conn d with
  | none => rw [hx] at hold; cases hold
  | some x =>
    rw [hx] at hold
    simp only [Option.map_some', Option.some.injEq, Prod.mk.injEq] at hold
    have := h x hx
    rw [this] at hold
    cases hy2 : y.m_pSync with
    | none => rfl
    | some p => rw [hy2] at hold; exact absurd hold.1 (by simp)

/-- While the connection at address `c` alone runs the sync state machine, no other
connection holds a `SyncCtx` and `c` satisfies `ShouldSync()` whenever it holds one. -/
theorem SoloReachable_inv (E : Externals) (c : Nat) (s : NetworkStd)
    (h : SoloReachable E c s) :
    SyncOK s c ∧ ∀ d, d ≠ c → ∀ y, s.conn d = some y → y.m_pSync = none := by
  induction h with
  | init s h0 =>
    have hall : ∀ d y, s.conn d = some y → y.m_pSync = none := fun d y hy =>
      h0 y (List.mem_of_find?_eq_some hy)
    exact ⟨SyncOK_of_none (hall c), fun d _ => hall d⟩
  | step s t _ hstep ih =>
    have hinv : SyncInv s := by
      intro d
      by_cases hd : d = c
      · subst hd; exact ih.1
      · exact SyncOK_of_none (ih.2 d hd)
    obtain ⟨h1, h2, _⟩ := SoloStep_SyncInv E c s t hstep hinv
    exact ⟨h1, fun d hd => holds_none_of_holder (h2 d hd) (ih.2 d hd)⟩

/-- C21, as stated, fails: of two connections, connection 8 receives a tip at height 7 that
does not follow the local tip and starts a search, so it holds a `SyncCtx`; then connection 7
receives the header that follows the local tip, with more chainwork than the tip of
connection 8, and the history takes it.  Connection 8 still holds its `SyncCtx`, and
`ShouldSync()` is false for it. -/
theorem C21_stale_SyncCtx :
    ∃ y, (outcome (OnMsgNewTip Example.externals (outcome (OnMsgNewTip Example.externals
        Example.two 8 ⟨7, 6000, 55, 0⟩)) 7 ⟨6, 5000, 60, 0⟩)).conn 8 = some y ∧
      y.m_pSync.isSome = true ∧
      ShouldSync (outcome (OnMsgNewTip Example.externals (outcome (OnMsgNewTip Example.externals
        Example.two 8 ⟨7, 6000, 55, 0⟩)) 7 ⟨6, 5000, 60, 0⟩)) y = false :=
  ⟨_, rfl, rfl, rfl⟩

/-- C21 (invariant of the `SyncCtx`), amended.  From a state in which every
connection that holds a `SyncCtx` satisfies `ShouldSync()`, a step of the sync state machine
of a connection `c` (one of its handlers `OnMsg(NewTip)`, `OnMsg(ProofCommonState)`,
`OnMsg(ProofChainWork)`, or its reset) leaves `c` satisfying it, and leaves every connection
satisfying it when the step did not change the history.  So in every state reached while a
single connection runs the sync state machine, every connection that holds a `SyncCtx`
satisfies `ShouldSync()`. -/
theorem C21_SyncContext_invariant (E : Externals) (c : Nat) :
    (∀ s t, SoloStep E c s t → SyncInv s →
      SyncOK t c ∧ (t.m_History = s.m_History → SyncInv t)) ∧
    (∀ s, SoloReachable E c s → SyncInv s) := by
  constructor
  · intro s t hstep hinv
    obtain ⟨h1, _, h3⟩ := SoloStep_SyncInv E c s t hstep hinv
    exact ⟨h1, h3⟩
  · intro s hs d
    obtain ⟨h1, h2⟩ := SoloReachable_inv E c s hs
    by_cases hd : d = c
    · subst hd; exact h1
    · exact SyncOK_of_none (h2 d hd)

/-- C21, amended, at the state reached from `two` when connection 8 receives a tip that
starts a search: it holds a `SyncCtx` and satisfies `ShouldSync()`. -/
theorem C21_SyncContext_invariant_witness :
    SyncInv (outcome (OnMsgNewTip Example.externals Example.two 8 ⟨7, 6000, 55, 0⟩)) :=
  (C21_SyncContext_invariant Example.externals 8).2 _
    (.step _ _ (.init Example.two (by decide)) (.newTip Example.two ⟨7, 6000, 55, 0⟩))

/-- The walker of `SearchBelow` collects the first `nCount` headers it is given. -/
theorem walk_SearchBelow (nCount : Nat) : ∀ (l acc : List Full), acc.length < nCount →
    walk (SearchBelow.OnState nCount) l acc = acc ++ l.take (nCount - acc.length)
  | [], acc, _ => by simp [walk]
  | f :: rest, acc, h => by
    rw [walk]
    have hO : SearchBelow.OnState nCount acc f =
        (acc ++ [f], decide ((acc ++ [f]).length < nCount)) := rfl
    rw [hO]
    simp only
    obtain ⟨k, hk⟩ : ∃ k, nCount - acc.length = k + 1 := ⟨nCount - acc.length - 1, by omega⟩
    rw [hk, List.take_succ_cons]
    by_cases hlt : (acc ++ [f]).length < nCount
    · rw [if_pos (by simpa using hlt), walk_SearchBelow nCount rest (acc ++ [f]) hlt]
      have : nCount - (acc ++ [f]).length = k := by
        simp only [List.length_append, List.length_singleton]
        omega
      rw [this, List.append_assoc]
      rfl
    · rw [if_neg (by simpa using hlt)]
      have : k = 0 := by
        simp only [List.length_append, List.length_singleton] at hlt
        omega
      subst this
      simp

/-- `RequestChainworkProof` on a connection that did not prove to be owned: the assertion is
evaluated, `GetProofChainWork` is sent with the chainwork of the confirmed header as its lower
bound, `m_TipBeforeGap.m_Height` is zeroed and `m_LowHeight` becomes the confirmed height. -/
theorem RequestChainworkProof_notOwned (E : Externals) (s : NetworkStd) (c : Nat)
    (x : Connection) (p : SyncCtx) (hx : s.conn c = some x) (hp : x.m_pSync = some p)
    (hno : x.m_Flags.Owned = false) :
    (RequestChainworkProof E s c).trace = s.trace ++
      [.Assert c (syncReady s x), .GetProofChainWork c p.m_Confirmed.m_ChainWork] ∧
    ((RequestChainworkProof E s c).conn c).map (fun y => y.m_pSync) =
      some (some ⟨p.m_Confirmed.m_Height, p.m_Confirmed,
        { p.m_TipBeforeGap with m_Height := 0 }, p.m_vConfirming⟩) ∧
    (RequestChainworkProof E s c).m_History = s.m_History := by
  unfold RequestChainworkProof
  simp only [hx, hp, hno, Bool.false_eq_true, if_false]
  refine ⟨by simp [NetworkStd.emit, NetworkStd.modifyConn], ?_, rfl⟩
  have hx2 : ((s.emit (.Assert c (syncReady s x))).emit
      (.GetProofChainWork c p.m_Confirmed.m_ChainWork)).conn c = some x := hx
  rw [conn_modifyConn_some _ c _ x (by intro _; rfl) hx2]
  simp [hp]

/-- `RequestChainworkProof` on an owned connection: no message is sent, the `SyncCtx` is given
up and `PostChainworkProof` runs with an empty array and the confirmed height as the floor. -/
theorem RequestChainworkProof_owned (E : Externals) (s : NetworkStd) (c : Nat)
    (x : Connection) (p : SyncCtx) (hx : s.conn c = some x) (hp : x.m_pSync = some p)
    (ho : x.m_Flags.Owned = true) :
    ∃ b, b = syncReady s x ∧ RequestChainworkProof E s c =
      PostChainworkProof E ((s.emit (.Assert c b)).modifyConn c
        (fun y => { y with m_pSync := none })) c [] p.m_Confirmed.m_Height := by
  refine ⟨_, rfl, ?_⟩
  unfold RequestChainworkProof
  simp only [hx, hp, ho, if_true]

/-- `SearchBelow(h, nCount)` when the history has a header at or below `h`: the assertions
are evaluated, `GetCommonState` is sent for the `nCount` highest such headers (or all of
them, if there are fewer), highest first, and they become the batch waiting for a proof. -/
theorem SearchBelow_batch (E : Externals) (s : NetworkStd) (c : Nat) (x : Connection)
    (p : SyncCtx) (h nCount : Nat) (hx : s.conn c = some x) (hp : x.m_pSync = some p)
    (hn : nCount ≠ 0) (hb : (s.Enum (some h)).take nCount ≠ []) :
    (SearchBelow E s c h nCount).trace = s.trace ++
      [.Assert c (syncReady s x), .Assert c true,
        .GetCommonState c (((s.Enum (some h)).take nCount).map (get_ID E))] ∧
    ((SearchBelow E s c h nCount).conn c).map (fun y => y.m_pSync) =
      some (some { p with m_vConfirming := (s.Enum (some h)).take nCount }) ∧
    (SearchBelow E s c h nCount).m_History = s.m_History := by
  have hn2 : (nCount != 0) = true := by simpa using hn
  have hw : walk (SearchBelow.OnState nCount) (s.Enum (some h)) [] =
      (s.Enum (some h)).take nCount := by
    rw [walk_SearchBelow nCount _ [] (by simp; omega)]
    simp
  have hen : ((s.emit (.Assert c (syncReady s x))).emit (.Assert c true)).Enum (some h) =
      s.Enum (some h) := rfl
  unfold SearchBelow
  simp only [hx, hn2, hen, hw]
  rw [if_neg (by simpa using hb)]
  refine ⟨by simp [NetworkStd.emit, NetworkStd.modifyConn], ?_, rfl⟩
  have hx2 : (((s.emit (.Assert c (syncReady s x))).emit (.Assert c true)).emit
      (.GetCommonState c (((s.Enum (some h)).take nCount).map (get_ID E)))).conn c = some x := hx
  rw [conn_modifyConn_some _ c _ x (by intro _; rfl) hx2]
  simp [hp]

/-- `SearchBelow(h, nCount)` on a connection that did not prove to be owned, when the history
has no header at or below `h`: the confirmed header is zeroed and the chainwork proof is
requested with the lower bound 0. -/
theorem SearchBelow_none (E : Externals) (s : NetworkStd) (c : Nat) (x : Connection)
    (p : SyncCtx) (h nCount : Nat) (hx : s.conn c = some x) (hp : x.m_pSync = some p)
    (hready : syncReady s x = true) (hn : nCount ≠ 0) (hno : x.m_Flags.Owned = false)
    (hb : (s.Enum (some h)).take nCount = []) :
    (SearchBelow E s c h nCount).trace = s.trace ++
      [.Assert c true, .Assert c true, .Assert c true, .GetProofChainWork c 0] ∧
    ((SearchBelow E s c h nCount).conn c).map (fun y => y.m_pSync) =
      some (some ⟨0, ⟨0, 0, 0, 0⟩, { p.m_TipBeforeGap with m_Height := 0 }, p.m_vConfirming⟩) ∧
    (SearchBelow E s c h nCount).m_History = s.m_History := by
  have hn2 : (nCount != 0) = true := by simpa using hn
  have hw : walk (SearchBelow.OnState nCount) (s.Enum (some h)) [] =
      (s.Enum (some h)).take nCount := by
    rw [walk_SearchBelow nCount _ [] (by simp; omega)]
    simp
  have hen : ((s.emit (.Assert c (syncReady s x))).emit (.Assert c true)).Enum (some h) =
      s.Enum (some h) := rfl
  have hx2 := conn_modifyConn_some ((s.emit (.Assert c true)).emit (.Assert c true)) c
    (fun y => { y with m_pSync := y.m_pSync.map (fun q =>
      { q with m_Confirmed := ⟨0, 0, 0, 0⟩ }) }) x (fun _ => rfl) hx
  have hr2 : syncReady (((s.emit (.Assert c true)).emit (.Assert c true)).modifyConn c
      (fun y => { y with m_pSync := y.m_pSync.map (fun q =>
        { q with m_Confirmed := ⟨0, 0, 0, 0⟩ }) }))
      ((fun (y : Connection) => { y with m_pSync := y.m_pSync.map (fun q =>
        { q with m_Confirmed := ⟨0, 0, 0, 0⟩ }) }) x) = true := by
    unfold syncReady at hready ⊢
    rw [Bool.and_eq_true] at hready ⊢
    refine ⟨hready.1, ?_⟩
    rw [hp] at hready
    simpa [hp] using hready.2
  obtain ⟨h1, h2, h3⟩ := RequestChainworkProof_notOwned E _ c _
    { p with m_Confirmed := ⟨0, 0, 0, 0⟩ } hx2
    (by show Option.map _ x.m_pSync = _; rw [hp]; rfl) hno
  have hen2 : ((s.emit (.Assert c true)).emit (.Assert c true)).Enum (some h) =
      s.Enum (some h) := rfl
  unfold SearchBelow
  simp only [hx, hn2, hready, hen2, hw]
  rw [if_pos (by simp [hb])]
  refine ⟨?_, h2, h3⟩
  rw [h1, hr2]
  simp [NetworkStd.emit, NetworkStd.modifyConn]

/-- The operations on the history and the callbacks of `PostChainworkProof`. -/
theorem PostChainworkProof_syncEvents (E : Externals) (s : NetworkStd) (c : Nat)
    (x : Connection) (arr : List Full) (low e : Nat) (hx : s.conn c = some x)
    (he : e = ((PostChainworkProof.passed s.m_History arr low).getLast?.map
      (fun f => f.m_Height)).getD E.MaxHeight) :
    (PostChainworkProof E s c arr low).syncEvents = s.syncEvents ++
      (if e ≠ E.MaxHeight then [.DeleteFrom e, .OnRolledBack] else []) ++
      [.AddStates (if arr.isEmpty then [x.m_Tip] else arr), .OnNewTip] := by
  rw [PostChainworkProof_eq E s c x arr low e hx he]
  by_cases hne : e ≠ E.MaxHeight
  · rw [if_pos hne, if_pos hne]
    rw [(PostChainworkProof_tail _ c _).1]
    simp [NetworkStd.syncEvents, NetworkStd.emit, DeleteFrom, Event.isSync, List.filter_append]
  · rw [if_neg hne, if_neg hne]
    rw [(PostChainworkProof_tail _ c _).1]
    simp

/-- C25, as stated, fails: connection 7 proved to be owned and waits for the proof of a batch
that holds the tip of the history; the peer proves that header with the hash the client has
for it.  The header is confirmed, but no chainwork proof is requested: no `GetProofChainWork`
is sent, the `SyncCtx` is given up and the tip of the peer is added to the history at
once. -/
theorem C25_owned_requests_no_proof :
    (Example.trusted.conn 7).map (fun y => (y.m_Flags.Owned, y.m_pSync)) =
      some (true, some ⟨9, ⟨0, 0, 0, 0⟩, ⟨0, 0, 0, 0⟩, [Example.tip]⟩) ∧
    findState 5 [Example.tip] 0 = some 0 ∧
    Example.externals.get_Hash Example.tip = 5000 ∧
    (outcome (OnMsgProofCommonState Example.externals Example.trusted 7 ⟨(5, 5000), 0⟩)).trace =
      [.Assert 7 true, .AddStates [⟨9, 8000, 90, 0⟩], .OnNewTip] ∧
    ((outcome (OnMsgProofCommonState Example.externals Example.trusted 7
      ⟨(5, 5000), 0⟩)).conn 7).map (fun y => y.m_pSync) = some none := by
  refine ⟨rfl, rfl, rfl, rfl, rfl⟩

/-- C25 (match and disproof), amended: on a `ProofCommonState` handled by a connection
with a `SyncCtx`, a non-empty batch of `n` headers and `ShouldSync()` true.  If the height
is that of entry `i`, the proof is valid and narrowing is not triggered: with equal hashes on
a connection that is not owned, entry `i` is the confirmed header, `GetProofChainWork` is sent
with its chainwork as the lower bound, `m_LowHeight` is its height and the batch is empty;
with equal hashes on an owned connection no message is sent, the `SyncCtx` is given up and
`PostChainworkProof` adds the tip of the peer to the history (after deleting the headers above
the confirmed height); different hashes with `i` not the last entry are a fault; different
hashes at the last entry give `SearchBelow(batch_last.height, 2 * n)`.  If the height matches
no entry: a fault when the height of the peer's tip is above that of the last entry, else
`SearchBelow(tip.height, 1)`.  Here `SearchBelow(h, k)` sends `GetCommonState` for the `k`
highest headers of the history at or below `h` and makes them the batch; if there is none it
zeroes the confirmed header and, on a connection that is not owned, sends `GetProofChainWork`
with the lower bound 0. -/
theorem C25_match_or_disproof (E : Externals) (s : NetworkStd) (c : Nat) (x : Connection)
    (p : SyncCtx) (msg : ProofCommonState)
    (hx : s.conn c = some x) (hp : x.m_pSync = some p) (hne : p.m_vConfirming ≠ [])
    (hs : ShouldSync s x = true) (hn : p.m_vConfirming.length < 2 ^ 31) :
    (∀ i, findState msg.m_ID.1 p.m_vConfirming 0 = some i →
      E.IsValidProofState x.m_Tip msg.m_ID msg.m_Proof = true →
      ¬ (p.m_LowHeight < (p.m_vConfirming.headD ⟨0, 0, 0, 0⟩).m_Height ∧ i ≠ 0) →
      (E.get_Hash (p.m_vConfirming.getD i ⟨0, 0, 0, 0⟩) = msg.m_ID.2 →
        x.m_Flags.Owned = false →
        ∃ t, OnMsgProofCommonState E s c msg = .ok t ∧
          t.trace = s.trace ++ [.Assert c true,
            .GetProofChainWork c (p.m_vConfirming.getD i ⟨0, 0, 0, 0⟩).m_ChainWork] ∧
          (t.conn c).map (fun y => y.m_pSync) =
            some (some ⟨(p.m_vConfirming.getD i ⟨0, 0, 0, 0⟩).m_Height,
              p.m_vConfirming.getD i ⟨0, 0, 0, 0⟩, { p.m_TipBeforeGap with m_Height := 0 }, []⟩) ∧
          t.m_History = s.m_History) ∧
      (E.get_Hash (p.m_vConfirming.getD i ⟨0, 0, 0, 0⟩) = msg.m_ID.2 →
        x.m_Flags.Owned = true →
        ∃ t, OnMsgProofCommonState E s c msg = .ok t ∧
          t.syncEvents = s.syncEvents ++
            (if ((PostChainworkProof.passed s.m_History []
                  (p.m_vConfirming.getD i ⟨0, 0, 0, 0⟩).m_Height).getLast?.map
                  (fun f => f.m_Height)).getD E.MaxHeight ≠ E.MaxHeight then
              [.DeleteFrom (((PostChainworkProof.passed s.m_History []
                  (p.m_vConfirming.getD i ⟨0, 0, 0, 0⟩).m_Height).getLast?.map
                  (fun f => f.m_Height)).getD E.MaxHeight), .OnRolledBack]
            else []) ++ [.AddStates [x.m_Tip], .OnNewTip] ∧
          t.holder c = some (false, x.m_Tip)) ∧
      (E.get_Hash (p.m_vConfirming.getD i ⟨0, 0, 0, 0⟩) ≠ msg.m_ID.2 →
        i ≠ p.m_vConfirming.length - 1 →
        OnMsgProofCommonState E s c msg =
          .error (s.modifyConn c (fun y => { y with m_pSync := y.m_pSync.map (fun q =>
            { q with m_vConfirming := [] }) }))) ∧
      (E.get_Hash (p.m_vConfirming.getD i ⟨0, 0, 0, 0⟩) ≠ msg.m_ID.2 →
        i = p.m_vConfirming.length - 1 →
        ∃ t, OnMsgProofCommonState E s c msg = .ok t ∧
          ((s.Enum (some (p.m_vConfirming.getLastD ⟨0, 0, 0, 0⟩).m_Height)).take
              (2 * p.m_vConfirming.length) ≠ [] →
            t.trace = s.trace ++ [.Assert c true, .Assert c true,
              .GetCommonState c (((s.Enum (some (p.m_vConfirming.getLastD
                ⟨0, 0, 0, 0⟩).m_Height)).take (2 * p.m_vConfirming.length)).map (get_ID E))] ∧
            (t.conn c).map (fun y => y.m_pSync) =
              some (some ⟨p.m_LowHeight, p.m_Confirmed, p.m_TipBeforeGap,
                (s.Enum (some (p.m_vConfirming.getLastD ⟨0, 0, 0, 0⟩).m_Height)).take
                  (2 * p.m_vConfirming.length)⟩) ∧
            t.m_History = s.m_History) ∧
          ((s.Enum (some (p.m_vConfirming.getLastD ⟨0, 0, 0, 0⟩).m_Height)).take
              (2 * p.m_vConfirming.length) = [] → x.m_Flags.Owned = false →
            t.trace = s.trace ++
              [.Assert c true, .Assert c true, .Assert c true, .GetProofChainWork c 0] ∧
            (t.conn c).map (fun y => y.m_pSync) = some (some
              ⟨0, ⟨0, 0, 0, 0⟩, { p.m_TipBeforeGap with m_Height := 0 }, []⟩) ∧
            t.m_History = s.m_History))) ∧
    (findState msg.m_ID.1 p.m_vConfirming 0 = none →
      (x.m_Tip.m_Height > (p.m_vConfirming.getLastD ⟨0, 0, 0, 0⟩).m_Height →
        OnMsgProofCommonState E s c msg =
          .error (s.modifyConn c (fun y => { y with m_pSync := y.m_pSync.map (fun q =>
            { q with m_vConfirming := [] }) }))) ∧
      (¬ x.m_Tip.m_Height > (p.m_vConfirming.getLastD ⟨0, 0, 0, 0⟩).m_Height →
        ∃ t, OnMsgProofCommonState E s c msg = .ok t ∧
          ((s.Enum (some x.m_Tip.m_Height)).take 1 ≠ [] →
            t.trace = s.trace ++ [.Assert c true, .Assert c true,
              .GetCommonState c (((s.Enum (some x.m_Tip.m_Height)).take 1).map (get_ID E))] ∧
            (t.conn c).map (fun y => y.m_pSync) =
              some (some ⟨p.m_LowHeight, p.m_Confirmed, p.m_TipBeforeGap,
                (s.Enum (some x.m_Tip.m_Height)).take 1⟩) ∧
            t.m_History = s.m_History) ∧
          ((s.Enum (some x.m_Tip.m_Height)).take 1 = [] → x.m_Flags.Owned = false →
            t.trace = s.trace ++
              [.Assert c true, .Assert c true, .Assert c true, .GetProofChainWork c 0] ∧
            (t.conn c).map (fun y => y.m_pSync) = some (some
              ⟨0, ⟨0, 0, 0, 0⟩, { p.m_TipBeforeGap with m_Height := 0 }, []⟩) ∧
            t.m_History = s.m_History))) := by
  -- the state after the batch was moved out of the `SyncCtx`
  have hx1 := conn_modifyConn_some s c (fun y => { y with m_pSync := y.m_pSync.map (fun q =>
    { q with m_vConfirming := [] }) }) x (fun _ => rfl) hx
  have hp1 : ((fun (y : Connection) => { y with m_pSync := y.m_pSync.map (fun (q : SyncCtx) =>
      { q with m_vConfirming := [] }) }) x).m_pSync = some { p with m_vConfirming := [] } := by
    show Option.map _ x.m_pSync = _
    rw [hp]
    rfl
  have hs1 : ShouldSync (s.modifyConn c (fun y => { y with m_pSync := y.m_pSync.map (fun q =>
      { q with m_vConfirming := [] }) })) x = true := hs
  have hr1 : syncReady (s.modifyConn c (fun y => { y with m_pSync := y.m_pSync.map (fun q =>
      { q with m_vConfirming := [] }) }))
      ((fun (y : Connection) => { y with m_pSync := y.m_pSync.map (fun (q : SyncCtx) =>
        { q with m_vConfirming := [] }) }) x) = true := by
    unfold syncReady
    rw [Bool.and_eq_true]
    refine ⟨?_, by simp [hp]⟩
    rw [← hs]
    exact ShouldSync_congr rfl rfl
  have hpos : 0 < p.m_vConfirming.length := by
    cases hv : p.m_vConfirming with
    | nil => exact absurd hv hne
    | cons a l => simp
  -- what `SearchBelow` does from that state
  have hsearch : ∀ (h nCount : Nat), nCount ≠ 0 →
      ((s.Enum (some h)).take nCount ≠ [] →
        (SearchBelow E (s.modifyConn c (fun y => { y with m_pSync := y.m_pSync.map (fun q =>
          { q with m_vConfirming := [] }) })) c h nCount).trace = s.trace ++
            [.Assert c true, .Assert c true,
              .GetCommonState c (((s.Enum (some h)).take nCount).map (get_ID E))] ∧
        ((SearchBelow E (s.modifyConn c (fun y => { y with m_pSync := y.m_pSync.map (fun q =>
          { q with m_vConfirming := [] }) })) c h nCount).conn c).map (fun y => y.m_pSync) =
            some (some { p with m_vConfirming := (s.Enum (some h)).take nCount }) ∧
        (SearchBelow E (s.modifyConn c (fun y => { y with m_pSync := y.m_pSync.map (fun q =>
          { q with m_vConfirming := [] }) })) c h nCount).m_History = s.m_History) ∧
      ((s.Enum (some h)).take nCount = [] → x.m_Flags.Owned = false →
        (SearchBelow E (s.modifyConn c (fun y => { y with m_pSync := y.m_pSync.map (fun q =>
          { q with m_vConfirming := [] }) })) c h nCount).trace = s.trace ++
            [.Assert c true, .Assert c true, .Assert c true, .GetProofChainWork c 0] ∧
        ((SearchBelow E (s.modifyConn c (fun y => { y with m_pSync := y.m_pSync.map (fun q =>
          { q with m_vConfirming := [] }) })) c h nCount).conn c).map (fun y => y.m_pSync) =
            some (some ⟨0, ⟨0, 0, 0, 0⟩, { p.m_TipBeforeGap with m_Height := 0 }, []⟩) ∧
        (SearchBelow E (s.modifyConn c (fun y => { y with m_pSync := y.m_pSync.map (fun q =>
          { q with m_vConfirming := [] }) })) c h nCount).m_History = s.m_History) := by
    intro h nCount hn0
    refine ⟨?_, ?_⟩
    · intro hb
      obtain ⟨h1, h2, h3⟩ := SearchBelow_batch E _ c _ _ h nCount hx1 hp1 hn0 hb
      rw [hr1] at h1
      exact ⟨h1, h2, h3⟩
    · intro hb hno
      exact SearchBelow_none E _ c _ _ h nCount hx1 hp1 hr1 hn0 hno hb
  constructor
  · intro i hi hv hnn
    have key := OnMsgProofCommonState_matched E s c x p msg i hx hp hne hs hi hv
    rw [if_neg hnn] at key
    refine ⟨fun hh hno => ?_, fun hh ho => ?_, fun hh hl => ?_, fun hh hl => ?_⟩
    · rw [key, if_pos hh]
      have hx2 := conn_modifyConn_some _ c (fun y => { y with m_pSync := y.m_pSync.map (fun q =>
        { q with m_Confirmed := p.m_vConfirming.getD i ⟨0, 0, 0, 0⟩ }) }) _ (fun _ => rfl) hx1
      obtain ⟨h1, h2, h3⟩ := RequestChainworkProof_notOwned E _ c _
        { p with m_vConfirming := [], m_Confirmed := p.m_vConfirming.getD i ⟨0, 0, 0, 0⟩ } hx2
        (by show Option.map _ (Option.map _ x.m_pSync) = _; rw [hp]; rfl) hno
      refine ⟨_, rfl, ?_, h2, h3⟩
      rw [h1]
      have hr2 : syncReady
          ((s.modifyConn c (fun y => { y with m_pSync := y.m_pSync.map (fun q =>
            { q with m_vConfirming := [] }) })).modifyConn c (fun y =>
              { y with m_pSync := y.m_pSync.map (fun q =>
                { q with m_Confirmed := p.m_vConfirming.getD i ⟨0, 0, 0, 0⟩ }) }))
          ((fun (y : Connection) => { y with m_pSync := y.m_pSync.map (fun (q : SyncCtx) =>
            { q with m_Confirmed := p.m_vConfirming.getD i ⟨0, 0, 0, 0⟩ }) })
          ((fun (y : Connection) => { y with m_pSync := y.m_pSync.map (fun (q : SyncCtx) =>
            { q with m_vConfirming := [] }) }) x)) = true := by
        unfold syncReady at hr1 ⊢
        rw [Bool.and_eq_true] at hr1 ⊢
        refine ⟨hr1.1, by simp [hp]⟩
      rw [hr2]
      rfl
    · rw [key, if_pos hh]
      have hx2 := conn_modifyConn_some _ c (fun y => { y with m_pSync := y.m_pSync.map (fun q =>
        { q with m_Confirmed := p.m_vConfirming.getD i ⟨0, 0, 0, 0⟩ }) }) _ (fun _ => rfl) hx1
      obtain ⟨b, _, hown⟩ := RequestChainworkProof_owned E _ c _
        { p with m_vConfirming := [], m_Confirmed := p.m_vConfirming.getD i ⟨0, 0, 0, 0⟩ } hx2
        (by show Option.map _ (Option.map _ x.m_pSync) = _; rw [hp]; rfl) ho
      have hemit : ∀ (u : NetworkStd) (e : Event), (u.emit e).conn c = u.conn c :=
        fun _ _ => rfl
      have hx0 := conn_modifyConn_some _ c (fun y => { y with m_pSync := none }) _
        (fun _ => rfl) ((hemit _ (.Assert c b)).trans hx2)
      refine ⟨_, rfl, ?_, ?_⟩
      · rw [hown, PostChainworkProof_syncEvents E _ c _ [] _ _ hx0 rfl]
        simp only [List.isEmpty_nil, if_true]
        have h0 : ∀ (u : NetworkStd) (f : Connection → Connection),
            ((u.emit (.Assert c b)).modifyConn c f).syncEvents = u.syncEvents := by
          intro u f
          simp [NetworkStd.syncEvents, NetworkStd.emit, NetworkStd.modifyConn, Event.isSync,
            List.filter_append]
        rw [h0]
        rfl
      · rw [hown, holder_PostChainworkProof]
        unfold NetworkStd.holder
        rw [hx0]
        rfl
    · rw [key, if_neg hh, if_neg hl]
    · rw [key, if_neg hh, if_pos hl, Nat.mod_eq_of_lt (by omega), Nat.mul_comm]
      obtain ⟨ha, hb⟩ := hsearch (p.m_vConfirming.getLastD ⟨0, 0, 0, 0⟩).m_Height
        (2 * p.m_vConfirming.length) (by omega)
      exact ⟨_, rfl, ha, hb⟩
  · intro hnone
    have key : OnMsgProofCommonState E s c msg =
        if x.m_Tip.m_Height > (p.m_vConfirming.getLastD ⟨0, 0, 0, 0⟩).m_Height then
          .error (s.modifyConn c (fun y => { y with m_pSync := y.m_pSync.map (fun q =>
            { q with m_vConfirming := [] }) }))
        else
          .ok (SearchBelow E (s.modifyConn c (fun y => { y with m_pSync := y.m_pSync.map (fun q =>
            { q with m_vConfirming := [] }) })) c x.m_Tip.m_Height 1) := by
      unfold OnMsgProofCommonState
      simp only [hx, hp, hnone]
      rw [if_neg (by simpa using hne), if_neg (by simp [hs1])]
    refine ⟨fun hgt => ?_, fun hgt => ?_⟩
    · rw [key, if_pos hgt]
    · rw [key, if_neg hgt]
      obtain ⟨ha, hb⟩ := hsearch x.m_Tip.m_Height 1 (by decide)
      exact ⟨_, rfl, ha, hb⟩

/-- C25, amended, at the state `stale` (connection 7 is not owned) for a proof of the header
at height 7 (entry 0) with the hash the client has: the header is confirmed and
`GetProofChainWork` is sent with its chainwork, 70, as the lower bound. -/
theorem C25_match_or_disproof_witness :
    ∃ t, OnMsgProofCommonState Example.externals Example.stale 7 ⟨(7, 7000), 0⟩ = .ok t ∧
      t.trace = [.Assert 7 true, .GetProofChainWork 7 70] ∧
      (t.conn 7).map (fun y => y.m_pSync) =
        some (some ⟨7, ⟨7, 6000, 70, 0⟩, ⟨0, 0, 0, 0⟩, []⟩) ∧
      t.m_History = Example.stale.m_History :=
  ((C25_match_or_disproof Example.externals Example.stale 7 _ _ ⟨(7, 7000), 0⟩ rfl rfl
    (by decide) rfl (by decide)).1 0 rfl rfl (by decide)).1 rfl rfl

end FlyClient



